import Mathlib

/-!
gc-core: the two-level page-table address space manager (gcmmu.c)

A shallow embedding of `drivers/misc/gc-core/gcmmu.c` (with the page allocator
of `gcmain.c` and the ring of `gccmdbuf.c` it calls) and theorems about it.

Conventions of the embedding.

* The singly linked arena lists (`ctxt->vacant`, `ctxt->allocated`,
  `mmu->arena_recs`) are Lean lists of descriptors, head first; the `next`
  field is the list structure. A descriptor carries its address as `handle`,
  which is what the C code compares when it compares arena pointers.
* `u32` values are natural numbers; arithmetic that the C code performs on
  `u32` variables is written with `u32_add` and `u32_sub`, which wrap at 2^32.
* Constants and macros of `gcmmu.h`, `gcreg.h` and the kernel headers are not
  part of the sources; they are the fields of `Config`, a parameter of every
  definition.
* Answers of the kernel (memory allocation, page pinning) are parameters of
  the call that asks for them.
* A call either returns, dereferences a null pointer, or does not leave a
  loop: `Run`.
-/

namespace GcCore

/-! ## Types -/

/-- Error codes of `enum gcerror` that the sources use. `GCERR_SETGRP e g` is
the macro that tags the generic code `e` with the group `g`; its result is
never `GCERR_NONE`. -/
inductive gcerror where
  | GCERR_NONE
  | GCERR_OODM
  | GCERR_OOPM
  | GCERR_PMMAP
  | GCERR_USER_READ
  | GCERR_USER_WRITE
  | GCERR_CMD_ALLOC
  | GCERR_MMU_CTXT_BAD
  | GCERR_MMU_MTLB_ALLOC
  | GCERR_MMU_MTLB_SET
  | GCERR_MMU_STLB_ALLOC
  | GCERR_MMU_STLBIDX_ALLOC
  | GCERR_MMU_ARENA_ALLOC
  | GCERR_MMU_OOM
  | GCERR_MMU_DESC_ALLOC
  | GCERR_MMU_PHYS_ALLOC
  | GCERR_MMU_SAFE_ALLOC
  | GCERR_MMU_INIT
  | GCERR_MMU_ARG
  | GCERR_MMU_CLIENT
  | GCERR_MMU_BUFFER_BAD
  | GCERR_MMU_PAGE_BAD
  | GCERR_SETGRP (e : gcerror) (g : gcerror)
  deriving DecidableEq, Repr

/-- Outcome of a call: it returns a value, it dereferences a null pointer, or
it never leaves a loop. -/
inductive Run (α : Type) where
  | ret (a : α)
  | fault
  | diverge
  deriving Repr

/-- Constants of the headers that are not part of the sources. -/
structure Config where
  /-- The compile-time switch `MMU_ENABLE`. -/
  MMU_ENABLE : Bool
  PAGE_SIZE : Nat
  MMU_PAGE_SIZE : Nat
  MMU_MTLB_ENTRY_NUM : Nat
  MMU_STLB_ENTRY_NUM : Nat
  MMU_MTLB_SIZE : Nat
  MMU_STLB_SIZE : Nat
  MMU_SAFE_ZONE_SIZE : Nat
  MMU_MTLB_SHIFT : Nat
  MMU_STLB_SHIFT : Nat
  MMU_MTLB_MASK : Nat
  MMU_STLB_MASK : Nat
  MMU_OFFSET_MASK : Nat
  MMU_MTLB_ENTRY_VACANT : Nat
  MMU_STLB_ENTRY_VACANT : Nat
  MMU_MTLB_SLAVE_MASK : Nat
  MMU_MTLB_4K_PAGE : Nat
  MMU_MTLB_EXCEPTION : Nat
  MMU_MTLB_PRESENT : Nat
  MMU_STLB_ADDRESS_MASK : Nat
  MMU_STLB_PRESENT : Nat
  MMU_STLB_EXCEPTION : Nat
  MMU_STLB_WRITEABLE : Nat
  STLB_PREALLOC_COUNT : Nat
  /-- Size in bytes of `struct mmu2darenablock`. -/
  sizeof_mmu2darenablock : Nat
  /-- Size in bytes of `struct mmu2darena`. -/
  sizeof_mmu2darena : Nat
  /-- The value `ctxt->physical` that the SETFIELD expression of
  `mmu2d_create_context` builds from the master table's physical address. -/
  GCREG_MMU_CONFIGURATION : Nat → Nat
  /-- The load-state command word `LS(gcregMMUSafeAddressRegAddrs, 1)`. -/
  LS_gcregMMUSafeAddressRegAddrs : Nat
  /-- The load-state command word `LS(gcregMMUConfigurationRegAddrs, 1)`. -/
  LS_gcregMMUConfigurationRegAddrs : Nat
  /-- The load-state command word `LS(AQEventRegAddrs, 1)`. -/
  LS_AQEventRegAddrs : Nat
  /-- The event word written by `cmdbuf_flush`. -/
  AQ_EVENT_word : Nat
  /-- The end command written by `cmdbuf_flush`. -/
  AQ_COMMAND_END_word : Nat
  GCREG_MMU_CONTROL_Address : Nat
  GCREG_MMU_CONTROL_ENABLE : Nat
  GC_RESET_MEM_COUNTERS_Address : Nat
  AQ_INTR_ENBL_Address : Nat
  AQ_CMD_BUFFER_ADDR_Address : Nat
  AQ_CMD_BUFFER_CTRL_Address : Nat
  /-- The control word built from the prefetch count by `cmdbuf_flush`. -/
  AQ_CMD_BUFFER_CTRL_word : Nat → Nat

/-- The record `struct gcpage` of gcmain.h, in the variant `gc_alloc_pages`
uses. `pages` is the page descriptor (`none` for NULL), `logical` the kernel
address of the block (0 for NULL); `words` is the content of the block, by
word index from its start. -/
structure gcpage where
  order : Nat
  size : Nat
  pages : Option Nat
  physical : Nat
  logical : Nat
  words : Nat → Nat

/-- The record `struct mmu2darena`: a run of `count` units that starts at
slot `stlb` of master index `mtlb`. `handle` is the address of the descriptor;
`pages` is the array of pinned page descriptors (`none` for NULL). -/
structure mmu2darena where
  handle : Nat
  mtlb : Nat
  stlb : Nat
  count : Nat
  address : Nat
  pages : Option (List Nat)
  logical : Nat
  deriving DecidableEq, Repr

/-- The record `struct mmu2dstlb`: one slave table and its live-entry count. -/
structure mmu2dstlb where
  pages : gcpage
  count : Nat

/-- The shared MMU object `struct mmu2dprivate` returned by `get_mmu()`. -/
structure mmu2dprivate where
  refcount : Nat
  enabled : Bool
  safezone : gcpage
  /-- Base addresses of the descriptor blocks obtained so far. -/
  arena_blocks : List Nat
  /-- The free list of arena descriptors, head first. -/
  arena_recs : List mmu2darena

/-- The record `struct mmu2dcontext`. `mmu` tells whether `ctxt->mmu` points
to the MMU object (the only one there is) or is NULL; `slave` is the array of
slave-table pointers, `none` while the array itself is not allocated. -/
structure mmu2dcontext where
  mmu : Bool
  master : gcpage
  slave : Option (Nat → Option mmu2dstlb)
  slave_blocks : Nat
  slave_recs : List mmu2dstlb
  physical : Nat
  vacant : List mmu2darena
  allocated : List mmu2darena

/-- The request `struct mmu2dphysmem`: `pages` is the caller's array of
physical page addresses, `none` when the caller passes NULL. -/
structure mmu2dphysmem where
  base : Nat
  offset : Nat
  count : Nat
  pages : Option (List Nat)
  pagesize : Nat

/-- The ring `struct cmdbuf` of gccmdbuf.c. `logical` is the write cursor, an
address in the ring's page (0 for NULL). -/
structure cmdbuf where
  page : gcpage
  mapped : Bool
  mapped_physical : Nat
  logical : Nat
  physical : Nat
  available : Nat
  data_size : Nat

/-- The device as the driver sees it: the register writes made so far, latest
first, as (address, data). -/
structure device where
  writes : List (Nat × Nat)

/-- Answer of the kernel to the `alloc_pages` and `page_address` calls of
`gc_alloc_pages`: no pages, pages without a kernel address, or pages at the
kernel address `logical` (an address of 0 is the NULL that `page_address` may
return). -/
inductive alloc_pages where
  | failed
  | unmapped (page physical : Nat)
  | mapped (page physical logical : Nat)

/-! ## 32-bit arithmetic -/

/-- Addition of two `u32` values. -/
def u32_add (a b : Nat) : Nat := (a + b) % 4294967296

/-- Subtraction of two `u32` values. -/
def u32_sub (a b : Nat) : Nat := (a + (4294967296 - b % 4294967296)) % 4294967296

/-! ## Page allocator (gcmain.c) -/

/-- The kernel's `get_order`: the least order whose block of
`PAGE_SIZE << order` bytes holds `size` bytes. -/
def get_order_from (PAGE_SIZE size : Nat) : Nat → Nat → Nat
  | 0, order => order
  | fuel + 1, order =>
    if size ≤ PAGE_SIZE * 2 ^ order then order
    else get_order_from PAGE_SIZE size fuel (order + 1)

def get_order (PAGE_SIZE size : Nat) : Nat := get_order_from PAGE_SIZE size 32 0

/-- The function `gc_free_pages`. -/
def gc_free_pages (p : gcpage) : gcpage :=
  { p with logical := 0, pages := none, physical := 4294967295, order := 0, size := 0 }

/-- The function `gc_alloc_pages`; `r` is the kernel's answer. -/
def gc_alloc_pages (k : Config) (r : alloc_pages) (p : gcpage) (size : Nat) :
    gcerror × gcpage :=
  let order := get_order k.PAGE_SIZE size
  let p0 : gcpage :=
    { p with pages := none, logical := 0, physical := 4294967295,
             order := order, size := 2 ^ order * k.PAGE_SIZE }
  match r with
  | .failed => (.GCERR_OOPM, gc_free_pages p0)
  | .unmapped page physical =>
    (.GCERR_PMMAP, gc_free_pages { p0 with pages := some page, physical := physical })
  | .mapped page physical logical =>
    if logical = 0 then
      (.GCERR_PMMAP, gc_free_pages { p0 with pages := some page, physical := physical })
    else (.GCERR_NONE, { p0 with pages := some page, physical := physical, logical := logical })

/-! ## Command buffer (gccmdbuf.c), as far as the MMU code calls it -/

/-- Store `v` in the ring's page at address `addr`. -/
def cmdbuf_store (cb : cmdbuf) (addr v : Nat) : cmdbuf :=
  { cb with page := { cb.page with
      words := Function.update cb.page.words ((addr - cb.page.logical) / 4) v } }

/-- The function `cmdbuf_alloc`: the error code, the ring, and the two output
parameters (written on success only). -/
def cmdbuf_alloc (cb : cmdbuf) (size : Nat) : gcerror × cmdbuf × Option (Nat × Nat) :=
  if cb.logical = 0 ∨ size > cb.available then (.GCERR_CMD_ALLOC, cb, none)
  else
    let size := Nat.land (u32_add size 3) 4294967292
    (.GCERR_NONE,
     { cb with logical := cb.logical + 4 * (size >>> 2)
               physical := u32_add cb.physical size
               available := u32_sub cb.available size
               data_size := u32_add cb.data_size size },
     some (cb.logical, cb.physical))

/-- The trailer size `flushSize` of `cmdbuf_flush`, in bytes. -/
def cmdbuf_flushSize : Nat := 4 * 4

/-- The function `cmdbuf_flush` with a non-null pointer `logical`: trailer,
register writes, wait for the interrupt, reset of the ring. -/
def cmdbuf_flush (k : Config) (cb : cmdbuf) (dev : device) (logical : Nat) :
    Nat × cmdbuf × device :=
  let cb1 := cmdbuf_store cb logical k.LS_AQEventRegAddrs
  let cb2 := cmdbuf_store cb1 (logical + 4) k.AQ_EVENT_word
  let cb3 := cmdbuf_store cb2 (logical + 8) k.AQ_COMMAND_END_word
  let base := if cb3.mapped then cb3.mapped_physical else cb3.page.physical
  let count := (u32_add cb3.data_size 7) >>> 3
  let dev1 : device :=
    { writes := (k.AQ_CMD_BUFFER_CTRL_Address, k.AQ_CMD_BUFFER_CTRL_word count)
        :: (k.AQ_CMD_BUFFER_ADDR_Address, base)
        :: (k.AQ_INTR_ENBL_Address, 4294967295)
        :: (k.GC_RESET_MEM_COUNTERS_Address, 1) :: dev.writes }
  (cmdbuf_flushSize,
   { cb3 with logical := cb3.page.logical, physical := base,
              available := cb3.page.size, data_size := 0 },
   dev1)

/-! ## Arena records -/

def ARENA_PREALLOC_SIZE (k : Config) : Nat := k.MMU_PAGE_SIZE

def ARENA_PREALLOC_COUNT (k : Config) : Nat :=
  (ARENA_PREALLOC_SIZE k - k.sizeof_mmu2darenablock) / k.sizeof_mmu2darena

/-- The descriptor `temp[i]` of a block that `kmalloc` placed at `block`. Its
fields are not initialised by `mmu2d_get_arena`. -/
def arena_of_block (k : Config) (block i : Nat) : mmu2darena :=
  { handle := block + k.sizeof_mmu2darenablock + i * k.sizeof_mmu2darena,
    mtlb := 0, stlb := 0, count := 0, address := 0, pages := none, logical := 0 }

/-- The chaining loop of `mmu2d_get_arena`: descriptor `i`, then `i + 1`, ...
are pushed on the free list. -/
def chain_arenas (k : Config) (block : Nat) : Nat → Nat → List mmu2darena → List mmu2darena
  | 0, _, recs => recs
  | n + 1, i, recs => chain_arenas k block n (i + 1) (arena_of_block k block i :: recs)

/-- The function `mmu2d_get_arena`; `kmalloc` is the address of the new block
if the kernel grants one. Returns the error code, the MMU object and `*arena`. -/
def mmu2d_get_arena (k : Config) (kmalloc : Option Nat) (mmu : mmu2dprivate) :
    Run (gcerror × mmu2dprivate × Option mmu2darena) :=
  match mmu.arena_recs with
  | a :: rest => .ret (.GCERR_NONE, { mmu with arena_recs := rest }, some a)
  | [] =>
    match kmalloc with
    | none => .ret (.GCERR_SETGRP .GCERR_OODM .GCERR_MMU_ARENA_ALLOC, mmu, none)
    | some block =>
      match chain_arenas k block (ARENA_PREALLOC_COUNT k) 0 [] with
      | [] => .fault
      | a :: rest =>
        .ret (.GCERR_NONE,
              { mmu with arena_blocks := block :: mmu.arena_blocks, arena_recs := rest },
              some a)

/-- The function `mmu2d_free_arena`. -/
def mmu2d_free_arena (mmu : mmu2dprivate) (arena : mmu2darena) : mmu2dprivate :=
  { mmu with arena_recs := arena :: mmu.arena_recs }

/-- The loop of `mmu2d_siblings`: walks `count` slots from
(`mtlb_idx`, `stlb_idx`); `none` when the bound on the iterations is used up. -/
def siblings_walk (k : Config) : Nat → Nat → Nat → Nat → Option (Nat × Nat)
  | fuel, mtlb_idx, stlb_idx, count =>
    if count = 0 then some (mtlb_idx, stlb_idx)
    else
      match fuel with
      | 0 => none
      | fuel + 1 =>
        if u32_sub k.MMU_STLB_ENTRY_NUM stlb_idx > count then
          siblings_walk k fuel mtlb_idx (u32_add stlb_idx count) (u32_sub count count)
        else
          siblings_walk k fuel (u32_add mtlb_idx 1) 0
            (u32_sub count (u32_sub k.MMU_STLB_ENTRY_NUM stlb_idx))

/-- The function `mmu2d_siblings`. `arena2` is `none` when the caller passes a
null pointer: the walk over `arena1` comes first, then `arena2` is read. The
loop body runs at most `count + 1` times when `MMU_STLB_ENTRY_NUM` is not 0. -/
def mmu2d_siblings (k : Config) (arena1 : mmu2darena) (arena2 : Option mmu2darena) :
    Run Bool :=
  match siblings_walk k (arena1.count + 1) arena1.mtlb arena1.stlb arena1.count with
  | none => .diverge
  | some (mtlb_idx, stlb_idx) =>
    match arena2 with
    | none => .fault
    | some a2 => .ret (mtlb_idx == a2.mtlb && stlb_idx == a2.stlb)

/-! ## Slave tables -/

/-- Answers of the kernel to one call of `mmu2d_allocate_slave`: whether the
block of slave records is granted, and the pages of the table. -/
structure slave_env where
  kmalloc : Bool
  pages : alloc_pages

/-- A page record with every field zero. -/
def gcpage_zero : gcpage :=
  { order := 0, size := 0, pages := none, physical := 0, logical := 0, words := fun _ => 0 }

/-- A slave record of a freshly obtained block. -/
def stlb_of_block : mmu2dstlb := { pages := gcpage_zero, count := 0 }

/-- The function `mmu2d_allocate_slave`: error code, context and `*stlb`. -/
def mmu2d_allocate_slave (k : Config) (env : slave_env) (ctxt : mmu2dcontext) :
    Run (gcerror × mmu2dcontext × Option mmu2dstlb) :=
  if ctxt.slave_recs.isEmpty = true ∧ env.kmalloc = false then
    .ret (.GCERR_SETGRP .GCERR_OODM .GCERR_MMU_STLB_ALLOC, ctxt, none)
  else
    let ctxt1 : mmu2dcontext :=
      if ctxt.slave_recs.isEmpty then
        { ctxt with slave_blocks := ctxt.slave_blocks + 1,
                    slave_recs := List.replicate k.STLB_PREALLOC_COUNT stlb_of_block }
      else ctxt
    match ctxt1.slave_recs with
    | [] => .fault
    | r :: rest =>
      match gc_alloc_pages k env.pages r.pages k.MMU_STLB_SIZE with
      | (.GCERR_NONE, pg) =>
        let words : Nat → Nat := fun i =>
          if i < k.MMU_STLB_ENTRY_NUM then k.MMU_STLB_ENTRY_VACANT else pg.words i
        let temp : mmu2dstlb := { pages := { pg with words := words }, count := 0 }
        .ret (.GCERR_NONE, { ctxt1 with slave_recs := rest }, some temp)
      | (e, pg) =>
        .ret (.GCERR_SETGRP e .GCERR_MMU_STLB_ALLOC,
              { ctxt1 with slave_recs := { r with pages := pg } :: rest }, none)

/-- The function `mmu2d_free_slave`. -/
def mmu2d_free_slave (ctxt : mmu2dcontext) (slave : mmu2dstlb) : mmu2dcontext :=
  { ctxt with slave_recs := { slave with pages := gc_free_pages slave.pages } :: ctxt.slave_recs }

/-! ## Context creation -/

/-- Answers of the kernel during `mmu2d_create_context`. -/
structure create_env where
  master : alloc_pages
  slave_array : Bool
  arena_block : Option Nat
  safezone : alloc_pages

/-- The context after `memset(ctxt, 0, ...)`. -/
def mmu2dcontext_zero : mmu2dcontext :=
  { mmu := false, master := gcpage_zero, slave := none, slave_blocks := 0,
    slave_recs := [], physical := 0, vacant := [], allocated := [] }

/-- State that `mmu2d_create_context` reads and writes besides the context. -/
structure globals where
  mmu : mmu2dprivate
  cmdbuf : cmdbuf
  dev : device

/-- The label `fail` of `mmu2d_create_context`. -/
def create_fail (k : Config) (e : gcerror) (g : globals) (ctxt : mmu2dcontext) :
    Run (gcerror × globals × mmu2dcontext) :=
  if k.MMU_ENABLE then .ret (e, g, { ctxt with master := gc_free_pages ctxt.master })
  else .ret (e, g, ctxt)

/-- First part of `mmu2d_create_context` under `MMU_ENABLE`: master table and
slave array. -/
def create_tables (k : Config) (env : create_env) (ctxt : mmu2dcontext) :
    gcerror × mmu2dcontext :=
  match gc_alloc_pages k env.master ctxt.master k.MMU_MTLB_SIZE with
  | (.GCERR_NONE, pg) =>
    if env.slave_array = false then
      (.GCERR_SETGRP .GCERR_OODM .GCERR_MMU_STLBIDX_ALLOC, { ctxt with master := pg })
    else
      let words : Nat → Nat := fun i =>
        if i < k.MMU_MTLB_ENTRY_NUM then k.MMU_MTLB_ENTRY_VACANT else pg.words i
      let master : gcpage := { pg with words := words }
      (.GCERR_NONE,
       { ctxt with master := master, slave := some (fun _ => none),
                   physical := k.GCREG_MMU_CONFIGURATION master.physical })
  | (e, pg) => (.GCERR_SETGRP e .GCERR_MMU_MTLB_ALLOC, { ctxt with master := pg })

/-- Last part of `mmu2d_create_context` under `MMU_ENABLE`, entered when the
MMU is not enabled yet: safe zone, the two load-state commands, the enable
register. -/
def create_enable (k : Config) (env : create_env) (g : globals) (ctxt : mmu2dcontext) :
    gcerror × globals :=
  let r : gcerror × gcpage :=
    if g.mmu.safezone.size = 0 then
      gc_alloc_pages k env.safezone g.mmu.safezone k.MMU_SAFE_ZONE_SIZE
    else (.GCERR_NONE, g.mmu.safezone)
  match r with
  | (.GCERR_NONE, sz) =>
    let words : Nat → Nat := fun i =>
      if i < k.MMU_SAFE_ZONE_SIZE / 4 then 3735929054 else sz.words i
    let safezone : gcpage := { sz with words := words }
    let mmu1 : mmu2dprivate := { g.mmu with safezone := safezone }
    match cmdbuf_alloc g.cmdbuf (4 * 4 + cmdbuf_flushSize) with
    | (.GCERR_NONE, cb, some (buffer, _)) =>
      let cb1 := cmdbuf_store cb buffer k.LS_gcregMMUSafeAddressRegAddrs
      let cb2 := cmdbuf_store cb1 (buffer + 4) safezone.physical
      let cb3 := cmdbuf_store cb2 (buffer + 8) k.LS_gcregMMUConfigurationRegAddrs
      let cb4 := cmdbuf_store cb3 (buffer + 12) ctxt.physical
      let fl := cmdbuf_flush k cb4 g.dev (buffer + 16)
      (.GCERR_NONE,
       { mmu := { mmu1 with enabled := true }, cmdbuf := fl.2.1,
         dev := { writes := (k.GCREG_MMU_CONTROL_Address, k.GCREG_MMU_CONTROL_ENABLE)
                    :: fl.2.2.writes } })
    | (e, cb, _) => (.GCERR_SETGRP e .GCERR_MMU_INIT, { g with mmu := mmu1, cmdbuf := cb })
  | (e, sz) =>
    (.GCERR_SETGRP e .GCERR_MMU_SAFE_ALLOC, { g with mmu := { g.mmu with safezone := sz } })

/-- The part of `mmu2d_create_context` after `mmu2d_get_arena` returned the
descriptor `a` for the first vacant arena. -/
def create_finish (k : Config) (env : create_env) (g : globals) (ctxt : mmu2dcontext)
    (a : mmu2darena) : Run (gcerror × globals × mmu2dcontext) :=
  let first : mmu2darena :=
    { a with mtlb := 0, stlb := 0,
             count := (k.MMU_MTLB_ENTRY_NUM * k.MMU_STLB_ENTRY_NUM) % 4294967296 }
  let ctxt1 : mmu2dcontext := { ctxt with vacant := [first], allocated := [] }
  match (if k.MMU_ENABLE = true ∧ g.mmu.enabled = false then create_enable k env g ctxt1
         else (.GCERR_NONE, g)) with
  | (.GCERR_NONE, g2) =>
    .ret (.GCERR_NONE,
          { g2 with mmu := { g2.mmu with refcount := u32_add g2.mmu.refcount 1 } },
          { ctxt1 with mmu := true })
  | (e, g2) => create_fail k e g2 ctxt1

/-- The function `mmu2d_create_context` (the pointer `ctxt` is not null):
error code, the globals, and the context it filled in. -/
def mmu2d_create_context (k : Config) (env : create_env) (g : globals) :
    Run (gcerror × globals × mmu2dcontext) :=
  match (if k.MMU_ENABLE then create_tables k env mmu2dcontext_zero
         else (.GCERR_NONE, mmu2dcontext_zero)) with
  | (.GCERR_NONE, ctxt0) =>
    match mmu2d_get_arena k env.arena_block g.mmu with
    | .fault => .fault
    | .diverge => .diverge
    | .ret (.GCERR_NONE, mmu1, some a) => create_finish k env { g with mmu := mmu1 } ctxt0 a
    | .ret (.GCERR_NONE, _, none) => .fault
    | .ret (e, mmu1, _) => create_fail k e { g with mmu := mmu1 } ctxt0
  | (e, ctxt0) => create_fail k e g ctxt0

/-! ## Page pinning -/

/-- Answers of the kernel during `get_physical_pages`: the area `find_vma`
returns (its `vm_start`, `none` for NULL), whether the descriptor array is
granted, the return value of `get_user_pages` and the descriptors it stored,
the two page/address conversions, and the result of the page-table walk of
`virt2phys` (`none` when it reports `GCERR_MMU_PAGE_BAD`). -/
structure pin_env where
  find_vma : Option Nat
  kmalloc : Bool
  get_user_pages : Int
  pages : List Nat
  page_to_phys : Nat → Nat
  phys_to_page : Nat → Nat
  virt2phys : Nat → Option Nat

/-- The loop of `get_physical_pages` for a kernel allocated buffer: the
addresses stored in `parray` before the first failure, and whether one failed. -/
def kernel_pages (env : pin_env) (pagesize : Nat) : Nat → Nat → List Nat × Bool
  | 0, _ => ([], true)
  | n + 1, base =>
    match env.virt2phys base with
    | none => ([], false)
    | some physical =>
      let r := kernel_pages env pagesize n (u32_add base pagesize)
      (physical :: r.1, r.2)

/-- The loop of `get_physical_pages` for a user allocated buffer. -/
def user_pages (env : pin_env) : List Nat → List Nat × Bool
  | [] => ([], true)
  | pg :: rest =>
    if env.phys_to_page (env.page_to_phys pg) ≠ pg then ([env.page_to_phys pg], false)
    else
      let r := user_pages env rest
      (env.page_to_phys pg :: r.1, r.2)

/-- The function `get_physical_pages`: error code, the array `parray` as far
as it was filled, and the arena. -/
def get_physical_pages (env : pin_env) (mem : mmu2dphysmem) (arena : mmu2darena) :
    gcerror × List Nat × mmu2darena :=
  let arena1 : mmu2darena := { arena with pages := none, logical := mem.base }
  match env.find_vma with
  | none => (.GCERR_MMU_BUFFER_BAD, [], arena1)
  | some vm_start =>
    if mem.base < vm_start then (.GCERR_MMU_BUFFER_BAD, [], arena1)
    else if env.kmalloc = false then
      (.GCERR_SETGRP .GCERR_OODM .GCERR_MMU_DESC_ALLOC, [], arena1)
    else if env.get_user_pages < 0 then
      let r := kernel_pages env mem.pagesize mem.count mem.base
      (if r.2 then gcerror.GCERR_NONE else gcerror.GCERR_MMU_PAGE_BAD, r.1, arena1)
    else if env.get_user_pages = (mem.count : Int) then
      let r := user_pages env (env.pages.take mem.count)
      if r.2 then (.GCERR_NONE, r.1, { arena1 with pages := some env.pages })
      else (.GCERR_MMU_PAGE_BAD, r.1, arena1)
    else (.GCERR_MMU_BUFFER_BAD, [], arena1)

/-- The function `release_physical_pages`. -/
def release_physical_pages (arena : mmu2darena) : mmu2darena :=
  { arena with pages := none }

/-! ## List walks -/

/-- The loop `while (x != NULL) { if (stop x) break; prev = x; x = x->next; }`
that `mmu2d_map` and `mmu2d_unmap` run over an arena list: the arenas passed
over (the last of them is `prev`), and the rest of the list from `x` on (empty
when `x` ends as NULL). -/
def walk_until (stop : mmu2darena → Bool) : List mmu2darena → List mmu2darena × List mmu2darena
  | [] => ([], [])
  | x :: rest =>
    if stop x then ([], x :: rest)
    else (x :: (walk_until stop rest).1, (walk_until stop rest).2)

/-! ## mmu2d_map -/

/-- Answers of the kernel during `mmu2d_map`: whether the array of physical
addresses is granted, the page pinning, the slave table of loop iteration `i`,
and the block of arena descriptors. -/
structure map_env where
  kmalloc_parray : Bool
  pin : pin_env
  slave : Nat → slave_env
  arena_block : Option Nat

/-- What `mmu2d_map` leaves behind: its return value, the MMU object, the
context, the request (its `pagesize` is written) and `*mapped`. -/
structure map_result where
  gcerror : gcerror
  mmu : mmu2dprivate
  ctxt : mmu2dcontext
  mem : mmu2dphysmem
  mapped : Option mmu2darena

/-- The master entry that `mmu2d_map` writes for the slave table `stlb`. -/
def mtlb_entry (k : Config) (stlb : mmu2dstlb) : Nat :=
  (stlb.pages.physical &&& k.MMU_MTLB_SLAVE_MASK) ||| k.MMU_MTLB_4K_PAGE
    ||| k.MMU_MTLB_EXCEPTION ||| k.MMU_MTLB_PRESENT

/-- The slave entry that `mmu2d_map` writes for the physical address `p`. -/
def stlb_entry (k : Config) (p : Nat) : Nat :=
  (p &&& k.MMU_STLB_ADDRESS_MASK) ||| k.MMU_STLB_PRESENT
    ||| k.MMU_STLB_EXCEPTION ||| k.MMU_STLB_WRITEABLE

/-- Loop body of `mmu2d_map`, first `#if MMU_ENABLE` part: when
`mtlb_logical[i]` is vacant a slave table is allocated, entered in
`mtlb_logical[i]`, that is master entry `mtlb_start + i`, and stored in
`ctxt->slave[i]`. -/
def map_touch (k : Config) (env : slave_env) (mtlb_start i : Nat) (ctxt : mmu2dcontext) :
    Run (gcerror × mmu2dcontext) :=
  if ctxt.master.words (mtlb_start + i) = k.MMU_MTLB_ENTRY_VACANT then
    match mmu2d_allocate_slave k env ctxt with
    | .fault => .fault
    | .diverge => .diverge
    | .ret (e, ctxt1, stlb) =>
      if e ≠ .GCERR_NONE then .ret (e, ctxt1)
      else
        match stlb, ctxt1.slave with
        | some stlb, some slave =>
          .ret (.GCERR_NONE,
            { ctxt1 with
              master := { ctxt1.master with
                words := Function.update ctxt1.master.words (mtlb_start + i) (mtlb_entry k stlb) },
              slave := some (Function.update slave i (some stlb)) })
        | _, _ => .fault
  else .ret (.GCERR_NONE, ctxt)

/-- Loop body of `mmu2d_map`, second `#if MMU_ENABLE` part: `available`
entries of the table `ctxt->slave[i]` are written from slot `stlb_idx` on, and
its count grows by `available`. -/
def map_fill (k : Config) (i stlb_idx available : Nat) (parray : List Nat)
    (ctxt : mmu2dcontext) : Run mmu2dcontext :=
  match ctxt.slave with
  | none => .fault
  | some slave =>
    match slave i with
    | none => .fault
    | some stlb =>
      let words : Nat → Nat := fun idx =>
        if stlb_idx ≤ idx ∧ idx < stlb_idx + available then
          stlb_entry k (parray.getD (idx - stlb_idx) 0)
        else stlb.pages.words idx
      let stlb1 : mmu2dstlb :=
        { pages := { stlb.pages with words := words }, count := u32_add stlb.count available }
      .ret { ctxt with slave := some (Function.update slave i (some stlb1)) }

/-- The loop `for (i = 0; count > 0; i += 1)` of `mmu2d_map`. Returns the
error code, the context and the final `mtlb_idx` and `stlb_idx`. -/
def map_loop (k : Config) (senv : Nat → slave_env) (mtlb_start : Nat) :
    Nat → Nat → Nat → Nat → Nat → List Nat → mmu2dcontext →
      Run (gcerror × mmu2dcontext × Nat × Nat)
  | fuel, i, mtlb_idx, stlb_idx, count, parray, ctxt =>
    if count = 0 then .ret (.GCERR_NONE, ctxt, mtlb_idx, stlb_idx)
    else
      match fuel with
      | 0 => .diverge
      | fuel + 1 =>
        match (if k.MMU_ENABLE then map_touch k (senv i) mtlb_start i ctxt
               else .ret (.GCERR_NONE, ctxt)) with
        | .fault => .fault
        | .diverge => .diverge
        | .ret (e, ctxt1) =>
          if e ≠ .GCERR_NONE then .ret (e, ctxt1, mtlb_idx, stlb_idx)
          else if u32_sub k.MMU_STLB_ENTRY_NUM stlb_idx > count then
            match (if k.MMU_ENABLE then map_fill k i stlb_idx count parray ctxt1
                   else .ret ctxt1) with
            | .fault => .fault
            | .diverge => .diverge
            | .ret ctxt2 =>
              map_loop k senv mtlb_start fuel (i + 1) mtlb_idx (u32_add stlb_idx count)
                (u32_sub count count) (parray.drop count) ctxt2
          else
            match (if k.MMU_ENABLE then
                     map_fill k i stlb_idx (u32_sub k.MMU_STLB_ENTRY_NUM stlb_idx) parray ctxt1
                   else .ret ctxt1) with
            | .fault => .fault
            | .diverge => .diverge
            | .ret ctxt2 =>
              map_loop k senv mtlb_start fuel (i + 1) (u32_add mtlb_idx 1) 0
                (u32_sub count (u32_sub k.MMU_STLB_ENTRY_NUM stlb_idx))
                (parray.drop (u32_sub k.MMU_STLB_ENTRY_NUM stlb_idx)) ctxt2

/-- The value stored in `vacant->address`. -/
def map_address (k : Config) (vacant : mmu2darena) (mem : mmu2dphysmem)
    (parray : List Nat) : Nat :=
  if k.MMU_ENABLE then
    (((vacant.mtlb <<< k.MMU_MTLB_SHIFT) % 4294967296) &&& k.MMU_MTLB_MASK)
      ||| (((vacant.stlb <<< k.MMU_STLB_SHIFT) % 4294967296) &&& k.MMU_STLB_MASK)
      ||| (mem.offset &&& k.MMU_OFFSET_MASK)
  else u32_add mem.offset (parray.getD 0 0)

/-- The label `fail` of `mmu2d_map` when it is reached with an error after the
vacant arena was found: `vacant` is the found arena as it is then. -/
def map_fail (parray_alloc : Bool) (e : gcerror) (mmu : mmu2dprivate) (ctxt : mmu2dcontext)
    (mem : mmu2dphysmem) (pre : List mmu2darena) (vacant : mmu2darena)
    (post : List mmu2darena) : map_result :=
  { gcerror := e, mmu := mmu,
    ctxt := { ctxt with vacant :=
      pre ++ (if parray_alloc then release_physical_pages vacant else vacant) :: post },
    mem := mem, mapped := none }

/-- The parts "Allocate slave tables as necessary" and "Claim arena" of
`mmu2d_map`: the vacant list is `pre ++ vacant :: post`, `parray` is the page
array and `parray_alloc` tells whether `mmu2d_map` allocated it. -/
def map_claim (k : Config) (env : map_env) (mmu : mmu2dprivate) (ctxt : mmu2dcontext)
    (mem : mmu2dphysmem) (pre : List mmu2darena) (vacant : mmu2darena)
    (post : List mmu2darena) (parray : List Nat) (parray_alloc : Bool) : Run map_result :=
  match map_loop k env.slave vacant.mtlb (mem.count + 1) 0 vacant.mtlb vacant.stlb
      mem.count parray ctxt with
  | .fault => .fault
  | .diverge => .diverge
  | .ret (e, ctxt1, mtlb_idx, stlb_idx) =>
    if e ≠ .GCERR_NONE then .ret (map_fail parray_alloc e mmu ctxt1 mem pre vacant post)
    else
      let mem1 : mmu2dphysmem := { mem with pagesize := k.MMU_PAGE_SIZE }
      if vacant.count ≠ mem.count then
        match mmu2d_get_arena k env.arena_block mmu with
        | .fault => .fault
        | .diverge => .diverge
        | .ret (e, mmu1, split) =>
          if e ≠ .GCERR_NONE then
            .ret (map_fail parray_alloc e mmu1 ctxt1 mem1 pre vacant post)
          else
            match split with
            | none => .fault
            | some split =>
              let split1 : mmu2darena :=
                { split with mtlb := mtlb_idx, stlb := stlb_idx,
                             count := u32_sub vacant.count mem.count }
              let claimed : mmu2darena :=
                { vacant with count := mem.count,
                              address := map_address k vacant mem parray }
              .ret { gcerror := .GCERR_NONE, mmu := mmu1,
                     ctxt := { ctxt1 with vacant := pre ++ split1 :: post,
                                          allocated := claimed :: ctxt1.allocated },
                     mem := mem1, mapped := some claimed }
      else
        let claimed : mmu2darena := { vacant with address := map_address k vacant mem parray }
        .ret { gcerror := .GCERR_NONE, mmu := mmu,
               ctxt := { ctxt1 with vacant := pre ++ post,
                                    allocated := claimed :: ctxt1.allocated },
               mem := mem1, mapped := some claimed }

/-- The function `mmu2d_map` (the pointers `ctxt`, `mem` and `mapped` are not
null). -/
def mmu2d_map (k : Config) (env : map_env) (mmu : mmu2dprivate) (ctxt : mmu2dcontext)
    (mem : mmu2dphysmem) : Run map_result :=
  if ctxt.mmu = false then
    .ret { gcerror := .GCERR_MMU_CTXT_BAD, mmu := mmu, ctxt := ctxt, mem := mem, mapped := none }
  else if mem.count ≤ 0 ∨ (mem.pagesize ≠ 0 ∧ mem.pagesize ≠ k.MMU_PAGE_SIZE) then
    .ret { gcerror := .GCERR_MMU_ARG, mmu := mmu, ctxt := ctxt, mem := mem, mapped := none }
  else
    match walk_until (fun v => decide (v.count ≥ mem.count)) ctxt.vacant with
    | (_, []) =>
      .ret { gcerror := .GCERR_MMU_OOM, mmu := mmu, ctxt := ctxt, mem := mem, mapped := none }
    | (pre, vacant :: post) =>
      let vacant0 : mmu2darena := { vacant with pages := none }
      match mem.pages with
      | none =>
        if env.kmalloc_parray = false then
          .ret (map_fail false (.GCERR_SETGRP .GCERR_OODM .GCERR_MMU_PHYS_ALLOC)
                  mmu ctxt mem pre vacant0 post)
        else
          let r := get_physical_pages env.pin mem vacant0
          if r.1 ≠ .GCERR_NONE then .ret (map_fail true r.1 mmu ctxt mem pre r.2.2 post)
          else map_claim k env mmu ctxt mem pre r.2.2 post r.2.1 true
      | some pages => map_claim k env mmu ctxt mem pre vacant0 post pages false

/-! ## mmu2d_unmap -/

/-- Loop body of `mmu2d_unmap`, `#if MMU_ENABLE` part: `available` entries of
the table `ctxt->slave[mtlb_idx]` are cleared from slot `stlb_idx` on; the
table is freed when its count reaches zero. -/
def unmap_clear (k : Config) (mtlb_idx stlb_idx available : Nat) (ctxt : mmu2dcontext) :
    Run (gcerror × mmu2dcontext) :=
  if k.MMU_ENABLE = false then .ret (.GCERR_NONE, ctxt)
  else
    match ctxt.slave with
    | none => .fault
    | some slave =>
      match slave mtlb_idx with
      | none => .ret (.GCERR_MMU_ARG, ctxt)
      | some stlb =>
        if stlb.count < available then .ret (.GCERR_MMU_ARG, ctxt)
        else
          let words : Nat → Nat := fun idx =>
            if stlb_idx ≤ idx ∧ idx < stlb_idx + available then k.MMU_STLB_ENTRY_VACANT
            else stlb.pages.words idx
          let stlb1 : mmu2dstlb :=
            { pages := { stlb.pages with words := words }, count := u32_sub stlb.count available }
          if stlb1.count = 0 then
            let ctxt1 := mmu2d_free_slave ctxt stlb1
            .ret (.GCERR_NONE,
              { ctxt1 with
                slave := some (Function.update slave mtlb_idx none),
                master := { ctxt1.master with
                  words := Function.update ctxt1.master.words mtlb_idx k.MMU_MTLB_ENTRY_VACANT } })
          else
            .ret (.GCERR_NONE,
              { ctxt with slave := some (Function.update slave mtlb_idx (some stlb1)) })

/-- The loop `for (i = 0; count > 0; i += 1)` of `mmu2d_unmap`. -/
def unmap_loop (k : Config) : Nat → Nat → Nat → Nat → mmu2dcontext →
    Run (gcerror × mmu2dcontext)
  | fuel, mtlb_idx, stlb_idx, count, ctxt =>
    if count = 0 then .ret (.GCERR_NONE, ctxt)
    else
      match fuel with
      | 0 => .diverge
      | fuel + 1 =>
        if u32_sub k.MMU_STLB_ENTRY_NUM stlb_idx > count then
          match unmap_clear k mtlb_idx stlb_idx count ctxt with
          | .fault => .fault
          | .diverge => .diverge
          | .ret (e, ctxt1) =>
            if e ≠ .GCERR_NONE then .ret (e, ctxt1)
            else unmap_loop k fuel mtlb_idx (u32_add stlb_idx count) (u32_sub count count) ctxt1
        else
          match unmap_clear k mtlb_idx stlb_idx (u32_sub k.MMU_STLB_ENTRY_NUM stlb_idx) ctxt with
          | .fault => .fault
          | .diverge => .diverge
          | .ret (e, ctxt1) =>
            if e ≠ .GCERR_NONE then .ret (e, ctxt1)
            else
              unmap_loop k fuel (u32_add mtlb_idx 1) 0
                (u32_sub count (u32_sub k.MMU_STLB_ENTRY_NUM stlb_idx)) ctxt1

/-- The stop condition of the insertion search of `mmu2d_unmap`. -/
def insert_stop (allocated vacant : mmu2darena) : Bool :=
  decide (vacant.mtlb ≥ allocated.mtlb) && decide (vacant.stlb > allocated.stlb)

/-- The parts "Find point of insertion for the arena" and the merge of
`mmu2d_unmap`; `allocated` is the arena taken off the allocated list. -/
def unmap_insert (k : Config) (mmu : mmu2dprivate) (ctxt : mmu2dcontext)
    (allocated : mmu2darena) : Run (gcerror × mmu2dprivate × mmu2dcontext) :=
  match walk_until (insert_stop allocated) ctxt.vacant with
  | (pre, rest) =>
    match pre.getLast? with
    | none =>
      match rest with
      | [] => .ret (.GCERR_NONE, mmu, { ctxt with vacant := allocated :: ctxt.vacant })
      | vacant :: post =>
        match mmu2d_siblings k allocated (some vacant) with
        | .fault => .fault
        | .diverge => .diverge
        | .ret true =>
          .ret (.GCERR_NONE, mmu2d_free_arena mmu allocated,
            { ctxt with vacant :=
                { vacant with mtlb := allocated.mtlb, stlb := allocated.stlb,
                              count := u32_add vacant.count allocated.count } :: post })
        | .ret false =>
          .ret (.GCERR_NONE, mmu, { ctxt with vacant := allocated :: ctxt.vacant })
    | some prev =>
      match mmu2d_siblings k prev (some allocated) with
      | .fault => .fault
      | .diverge => .diverge
      | .ret true =>
        match mmu2d_siblings k allocated rest.head? with
        | .fault => .fault
        | .diverge => .diverge
        | .ret true =>
          match rest with
          | [] => .fault
          | vacant :: post =>
            .ret (.GCERR_NONE, mmu2d_free_arena (mmu2d_free_arena mmu allocated) vacant,
              { ctxt with vacant := pre.dropLast ++
                  { prev with
                      count := u32_add (u32_add prev.count allocated.count) vacant.count }
                    :: post })
        | .ret false =>
          .ret (.GCERR_NONE, mmu2d_free_arena mmu allocated,
            { ctxt with vacant := pre.dropLast ++
                { prev with count := u32_add prev.count allocated.count } :: rest })
      | .ret false =>
        match mmu2d_siblings k allocated rest.head? with
        | .fault => .fault
        | .diverge => .diverge
        | .ret true =>
          match rest with
          | [] => .fault
          | vacant :: post =>
            .ret (.GCERR_NONE, mmu2d_free_arena mmu allocated,
              { ctxt with vacant := pre ++
                  { vacant with mtlb := allocated.mtlb, stlb := allocated.stlb,
                                count := u32_add vacant.count allocated.count } :: post })
        | .ret false =>
          .ret (.GCERR_NONE, mmu, { ctxt with vacant := pre ++ allocated :: rest })

/-- The function `mmu2d_unmap` (the pointer `ctxt` is not null); `mapped` is
the arena pointer the caller passes. Returns the error code, the MMU object
and the context. -/
def mmu2d_unmap (k : Config) (mmu : mmu2dprivate) (ctxt : mmu2dcontext) (mapped : Nat) :
    Run (gcerror × mmu2dprivate × mmu2dcontext) :=
  if ctxt.mmu = false then .ret (.GCERR_MMU_CTXT_BAD, mmu, ctxt)
  else
    match walk_until (fun a => decide (a.handle = mapped)) ctxt.allocated with
    | (_, []) => .ret (.GCERR_MMU_ARG, mmu, ctxt)
    | (pre, allocated :: post) =>
      match unmap_loop k (allocated.count + 1) allocated.mtlb allocated.stlb
          allocated.count ctxt with
      | .fault => .fault
      | .diverge => .diverge
      | .ret (e, ctxt1) =>
        if e ≠ .GCERR_NONE then .ret (e, mmu, ctxt1)
        else
          unmap_insert k mmu { ctxt1 with allocated := pre ++ post }
            (release_physical_pages allocated)

/-! ## Notions used in the statements -/

/-- Linear start of an arena: `mtlb * MMU_STLB_ENTRY_NUM + stlb`. -/
def lin (k : Config) (a : mmu2darena) : Nat := a.mtlb * k.MMU_STLB_ENTRY_NUM + a.stlb

/-- Number of units of the address space: `MMU_MTLB_ENTRY_NUM * MMU_STLB_ENTRY_NUM`. -/
def total (k : Config) : Nat := k.MMU_MTLB_ENTRY_NUM * k.MMU_STLB_ENTRY_NUM

/-- The triple (mtlb, stlb, count) of an arena. -/
def triple (a : mmu2darena) : Nat × Nat × Nat := (a.mtlb, a.stlb, a.count)

/-- The arenas of `l`, taken in this order, lie end to end from unit `s` to
unit `e`: each one starts where the previous one ends. -/
def Chain (k : Config) : Nat → List mmu2darena → Nat → Prop
  | s, [], e => s = e
  | s, a :: l, e => lin k a = s ∧ a.stlb < k.MMU_STLB_ENTRY_NUM ∧ Chain k (s + a.count) l e

/-- The arenas of `l` ordered by linear start. -/
def by_start (k : Config) (l : List mmu2darena) : List mmu2darena :=
  l.insertionSort (fun a b => lin k a ≤ lin k b)

/-- The arenas of the vacant and the allocated list together tile the address
space: ordered by linear start they lie end to end from 0 to the total. -/
def Tiles (k : Config) (ctxt : mmu2dcontext) : Prop :=
  Chain k 0 (by_start k (ctxt.vacant ++ ctxt.allocated)) (total k)

/-- States that a sequence of `mmu2d_map` and `mmu2d_unmap` calls reaches from
a context that `mmu2d_create_context` produced; every call that returns is a
step, whatever its error code. -/
inductive Reachable (k : Config) : mmu2dprivate → mmu2dcontext → Prop
  | create (env : create_env) (g g1 : globals) (ctxt : mmu2dcontext) :
      mmu2d_create_context k env g = .ret (.GCERR_NONE, g1, ctxt) → Reachable k g1.mmu ctxt
  | map (env : map_env) (mmu : mmu2dprivate) (ctxt : mmu2dcontext) (mem : mmu2dphysmem)
      (r : map_result) :
      Reachable k mmu ctxt → mmu2d_map k env mmu ctxt mem = .ret r → Reachable k r.mmu r.ctxt
  | unmap (mmu : mmu2dprivate) (ctxt : mmu2dcontext) (mapped : Nat) (e : gcerror)
      (mmu1 : mmu2dprivate) (ctxt1 : mmu2dcontext) :
      Reachable k mmu ctxt → mmu2d_unmap k mmu ctxt mapped = .ret (e, mmu1, ctxt1) →
      Reachable k mmu1 ctxt1

/-- Number of arenas of `l` that contain unit `u`. -/
def cover_count (k : Config) (u : Nat) : List mmu2darena → Nat
  | [] => 0
  | a :: l => (if lin k a ≤ u ∧ u < lin k a + a.count then 1 else 0) + cover_count k u l

/-- An arena is well formed: its slot index is inside a slave table, it is not
empty, and it ends inside the address space. -/
def arena_ok (k : Config) (a : mmu2darena) : Prop :=
  a.stlb < k.MMU_STLB_ENTRY_NUM ∧ 0 < a.count ∧ lin k a + a.count ≤ total k

/-- Every arena of `l` is well formed and every unit of the address space lies
in exactly one of them. -/
def ExactCover (k : Config) (l : List mmu2darena) : Prop :=
  (∀ a ∈ l, arena_ok k a) ∧ ∀ u, u < total k → cover_count k u l = 1

/-- The constants describe an address space that `u32` counts can hold. -/
def Config.sane (k : Config) : Prop :=
  0 < k.MMU_STLB_ENTRY_NUM ∧ 0 < k.MMU_MTLB_ENTRY_NUM ∧ total k < 4294967296

/-- Two contexts with the same arena lists and the same `mmu` pointer. -/
def same_lists (c1 c2 : mmu2dcontext) : Prop :=
  c1.vacant = c2.vacant ∧ c1.allocated = c2.allocated ∧ c1.mmu = c2.mmu

/-- Two descriptors that differ at most in the fields `pages`, `logical` and
`address`. -/
def same_arena (a b : mmu2darena) : Prop :=
  a.handle = b.handle ∧ a.mtlb = b.mtlb ∧ a.stlb = b.stlb ∧ a.count = b.count

/-- What a returning `mmu2d_map` does to the lists: either it reports an error
and the lists keep their triples, or it claims the first vacant arena that is
large enough (`v`, after the arenas `pre` that are too small), splitting it
when it is larger than the request. -/
def map_outcome (k : Config) (env : map_env) (mmu : mmu2dprivate) (ctxt : mmu2dcontext)
    (mem : mmu2dphysmem) (r : map_result) : Prop :=
  (r.gcerror ≠ .GCERR_NONE ∧ r.mapped = none ∧
      r.ctxt.vacant.map triple = ctxt.vacant.map triple ∧
      r.ctxt.allocated = ctxt.allocated) ∨
  (r.gcerror = .GCERR_NONE ∧ ctxt.mmu = true ∧ 0 < mem.count ∧
    ∃ pre v post claimed parray,
      ctxt.vacant = pre ++ v :: post ∧ (∀ x ∈ pre, x.count < mem.count) ∧
      mem.count ≤ v.count ∧ r.mapped = some claimed ∧ claimed.handle = v.handle ∧
      claimed.mtlb = v.mtlb ∧ claimed.stlb = v.stlb ∧ claimed.count = mem.count ∧
      claimed.address = map_address k v mem parray ∧
      r.ctxt.allocated = claimed :: ctxt.allocated ∧
      ((v.count = mem.count ∧ r.ctxt.vacant = pre ++ post ∧ r.mmu = mmu) ∨
       (v.count ≠ mem.count ∧ ∃ split0 mi si,
          mmu2d_get_arena k env.arena_block mmu = .ret (.GCERR_NONE, r.mmu, some split0) ∧
          mi * k.MMU_STLB_ENTRY_NUM + si = lin k v + mem.count ∧
          si < k.MMU_STLB_ENTRY_NUM ∧
          r.ctxt.vacant =
            pre ++ { split0 with mtlb := mi, stlb := si, count := v.count - mem.count } :: post)))

instance lin_le_total (k : Config) : IsTotal mmu2darena (fun a b => lin k a ≤ lin k b) :=
  ⟨fun a b => Nat.le_total (lin k a) (lin k b)⟩

instance lin_le_trans (k : Config) : IsTrans mmu2darena (fun a b => lin k a ≤ lin k b) :=
  ⟨fun _ _ _ h1 h2 => Nat.le_trans h1 h2⟩

/-! ## A concrete configuration and kernel for worked examples -/

/-- A configuration for the worked examples: 1024 master entries, 1024 slots
per slave table, 4096-byte pages. -/
def demo_config (en : Bool) : Config :=
  { MMU_ENABLE := en, PAGE_SIZE := 4096, MMU_PAGE_SIZE := 4096,
    MMU_MTLB_ENTRY_NUM := 1024, MMU_STLB_ENTRY_NUM := 1024,
    MMU_MTLB_SIZE := 4096, MMU_STLB_SIZE := 4096,
    MMU_SAFE_ZONE_SIZE := 64, MMU_MTLB_SHIFT := 22, MMU_STLB_SHIFT := 12,
    MMU_MTLB_MASK := 4290772992, MMU_STLB_MASK := 4190208, MMU_OFFSET_MASK := 4095,
    MMU_MTLB_ENTRY_VACANT := 2, MMU_STLB_ENTRY_VACANT := 2,
    MMU_MTLB_SLAVE_MASK := 4294967232,
    MMU_MTLB_4K_PAGE := 0, MMU_MTLB_EXCEPTION := 2, MMU_MTLB_PRESENT := 1,
    MMU_STLB_ADDRESS_MASK := 4294963200, MMU_STLB_PRESENT := 1, MMU_STLB_EXCEPTION := 2,
    MMU_STLB_WRITEABLE := 4,
    STLB_PREALLOC_COUNT := 8, sizeof_mmu2darenablock := 4, sizeof_mmu2darena := 32,
    GCREG_MMU_CONFIGURATION := fun p => p,
    LS_gcregMMUSafeAddressRegAddrs := 1, LS_gcregMMUConfigurationRegAddrs := 2,
    LS_AQEventRegAddrs := 3, AQ_EVENT_word := 4, AQ_COMMAND_END_word := 5,
    GCREG_MMU_CONTROL_Address := 6, GCREG_MMU_CONTROL_ENABLE := 1,
    GC_RESET_MEM_COUNTERS_Address := 7, AQ_INTR_ENBL_Address := 8,
    AQ_CMD_BUFFER_ADDR_Address := 9, AQ_CMD_BUFFER_CTRL_Address := 10,
    AQ_CMD_BUFFER_CTRL_word := fun c => c }

/-- The globals before the first context: an idle MMU object with an empty
descriptor pool and an initialised, empty ring. -/
def demo_globals : globals :=
  { mmu := { refcount := 0, enabled := false, safezone := gcpage_zero,
             arena_blocks := [], arena_recs := [] },
    cmdbuf := { page := { gcpage_zero with size := 4096, physical := 2147483648,
                                           logical := 3221225472 },
                mapped := false, mapped_physical := 0, logical := 3221225472,
                physical := 2147483648, available := 4096, data_size := 0 },
    dev := { writes := [] } }

/-- A kernel that grants every request of `mmu2d_create_context`. -/
def demo_create_env : create_env :=
  { master := .mapped 1 4096 3238002688, slave_array := true, arena_block := some 20480,
    safezone := .mapped 2 8192 3254779904 }

/-- A kernel that grants every request of `mmu2d_map`; it is not asked to pin
pages when the caller passes the page array. The slave table of loop iteration
`i` is placed at physical address `base + 65536 * (i + 1)`. -/
def demo_map_env_at (base : Nat) : map_env :=
  { kmalloc_parray := true,
    pin := { find_vma := none, kmalloc := true, get_user_pages := 0, pages := [],
             page_to_phys := fun p => p, phys_to_page := fun p => p,
             virt2phys := fun _ => none },
    slave := fun i =>
      { kmalloc := true, pages := .mapped (10 + i) (base + 65536 * (i + 1)) 3271557120 },
    arena_block := some 36864 }

/-- The kernel of the first `mmu2d_map` of the worked examples. -/
def demo_map_env : map_env := demo_map_env_at 0

/-- The kernel of the second `mmu2d_map` of the worked examples. -/
def demo_map_env2 : map_env := demo_map_env_at 4194304

/-- A request for `n` pages whose physical addresses the caller passes. -/
def demo_mem (n : Nat) : mmu2dphysmem :=
  { base := 0, offset := 5, count := n, pages := some (List.replicate n 180146176),
    pagesize := 4096 }

/-- The call returns. -/
def Run.isRet {α : Type} : Run α → Bool
  | .ret _ => true
  | _ => false

/-- The value a call returns, `d` when it does not return. -/
def Run.getD {α : Type} (x : Run α) (d : α) : α :=
  match x with
  | .ret a => a
  | _ => d

/-- A result record used where a call does not return. -/
def map_result_zero : map_result :=
  { gcerror := .GCERR_MMU_CTXT_BAD, mmu := demo_globals.mmu, ctxt := mmu2dcontext_zero,
    mem := demo_mem 0, mapped := none }

/-- Worked example, step 1: `mmu2d_create_context` on the idle globals. -/
def demo_created (en : Bool) : gcerror × globals × mmu2dcontext :=
  (mmu2d_create_context (demo_config en) demo_create_env demo_globals).getD
    (.GCERR_NONE, demo_globals, mmu2dcontext_zero)

/-- Worked example, step 2: `mmu2d_map` of `n` pages on the new context. -/
def demo_mapped (en : Bool) (n : Nat) : map_result :=
  (mmu2d_map (demo_config en) demo_map_env (demo_created en).2.1.mmu (demo_created en).2.2
    (demo_mem n)).getD map_result_zero

/-- The call ends in a null pointer dereference. -/
def Run.isFault {α : Type} : Run α → Bool
  | .fault => true
  | _ => false

/-- A descriptor with every field zero. -/
def mmu2darena_zero : mmu2darena :=
  { handle := 0, mtlb := 0, stlb := 0, count := 0, address := 0, pages := none, logical := 0 }

/-- Worked example: the arena that step 2 returned in `*mapped`. -/
def demo_arena (en : Bool) (n : Nat) : mmu2darena :=
  (demo_mapped en n).mapped.getD mmu2darena_zero

/-- Worked example, step 3: a second `mmu2d_map`, of `n2` pages, after the
first one of `n1` pages. -/
def demo_mapped2 (en : Bool) (n1 n2 : Nat) : map_result :=
  (mmu2d_map (demo_config en) demo_map_env2 (demo_mapped en n1).mmu (demo_mapped en n1).ctxt
    (demo_mem n2)).getD map_result_zero

/-- Worked example: the arena that step 3 returned in `*mapped`. -/
def demo_arena2 (en : Bool) (n1 n2 : Nat) : mmu2darena :=
  (demo_mapped2 en n1 n2).mapped.getD mmu2darena_zero

/-- Worked example for first fit: an active context with empty tables whose
vacant list holds arenas of 10, 3 and 7 units, in this order. -/
def demo_ctxt_10_3_7 : mmu2dcontext :=
  { mmu := true,
    master := { gcpage_zero with words := fun _ => 2 },
    slave := some (fun _ => none), slave_blocks := 0, slave_recs := [], physical := 0,
    vacant := [{ mmu2darena_zero with handle := 101, stlb := 0, count := 10 },
               { mmu2darena_zero with handle := 102, stlb := 20, count := 3 },
               { mmu2darena_zero with handle := 103, stlb := 40, count := 7 }],
    allocated := [] }

/-- Worked example for first fit: `mmu2d_map` of 5 pages on that context. -/
def demo_first_fit : map_result :=
  (mmu2d_map (demo_config true) demo_map_env demo_globals.mmu demo_ctxt_10_3_7
    (demo_mem 5)).getD map_result_zero

/-- Worked example: a request for more pages than the address space has, with
a page size of 65536 bytes. -/
def demo_mem_64k : mmu2dphysmem :=
  { base := 0, offset := 0, count := 1048577, pages := none, pagesize := 65536 }

/-- The pointer `ctxt->slave[i]`, `none` when it is NULL or the array itself
is not allocated. -/
def slave_at (ctxt : mmu2dcontext) (i : Nat) : Option mmu2dstlb :=
  ctxt.slave.bind (fun slave => slave i)

/-- Modelled from the spec: the shift and mask macros of gcmmu.h, which is
not part of the sources. The spec builds the device-visible address as
`(master_idx << MTLB_SHIFT) | (slave_idx << STLB_SHIFT) | page_offset`; the
constants are taken to describe these three adjacent bit fields of a 32-bit
address: `s` offset bits, then `w` bits of slave index, then `b` bits of
master index, each mask covering its field and each table having one entry per
index value. -/
def Config.layout (k : Config) : Prop :=
  ∃ s w b, s + w + b ≤ 32 ∧ k.MMU_STLB_SHIFT = s ∧ k.MMU_MTLB_SHIFT = s + w ∧
    k.MMU_STLB_ENTRY_NUM = 2 ^ w ∧ k.MMU_MTLB_ENTRY_NUM = 2 ^ b ∧
    k.MMU_OFFSET_MASK = 2 ^ s - 1 ∧ k.MMU_STLB_MASK = (2 ^ w - 1) <<< s ∧
    k.MMU_MTLB_MASK = (2 ^ b - 1) <<< (s + w)

/-- Worked example: a kernel that grants the slave table of loop iteration 0
and has no pages left for the one of iteration 1. -/
def demo_map_env_short : map_env :=
  { demo_map_env2 with
    slave := fun i =>
      if i = 0 then demo_map_env2.slave 0 else { kmalloc := true, pages := .failed } }

/-- Worked example: after a first map of one page, a map of 1024 pages whose
second slave table cannot be allocated. -/
def demo_failed_map : map_result :=
  (mmu2d_map (demo_config true) demo_map_env_short (demo_mapped true 1).mmu
    (demo_mapped true 1).ctxt (demo_mem 1024)).getD map_result_zero

/-- Worked example: a kernel that grants everything but a new block of arena
descriptors. -/
def demo_map_env_noblock : map_env := { demo_map_env2 with arena_block := none }

/-- Worked example: after a first map of one page, a map of 2 pages when the
descriptor pool is empty and no new block is granted. -/
def demo_failed_split : map_result :=
  (mmu2d_map (demo_config true) demo_map_env_noblock
    { (demo_mapped true 1).mmu with arena_recs := [] }
    (demo_mapped true 1).ctxt (demo_mem 2)).getD map_result_zero

/-- Worked example, after step 2: `mmu2d_unmap` of the arena that the map of
`n` pages returned. -/
def demo_unmapped (en : Bool) (n : Nat) : gcerror × mmu2dprivate × mmu2dcontext :=
  (mmu2d_unmap (demo_config en) (demo_mapped en n).mmu (demo_mapped en n).ctxt
    (demo_arena en n).handle).getD (.GCERR_MMU_CTXT_BAD, demo_globals.mmu, mmu2dcontext_zero)

/-- Worked example: a request for one page with page size 0, the system
default. -/
def demo_mem_default : mmu2dphysmem :=
  { base := 0, offset := 0, count := 1, pages := some [180146176], pagesize := 0 }

/-- Worked example: a request for one page at another physical address. -/
def demo_mem_other : mmu2dphysmem :=
  { demo_mem 1 with pages := some [180150272] }

/-- Worked example: after a first map of 1025 pages, which spans the slave
tables of master index 0 and 1, a map of one page. -/
def demo_clobbered : map_result :=
  (mmu2d_map (demo_config true) demo_map_env2 (demo_mapped true 1025).mmu
    (demo_mapped true 1025).ctxt demo_mem_other).getD map_result_zero

/-! ## Command buffer (gccmdbuf.c), the remaining functions -/

/-- The function `cmdbuf_init`; `r` is the kernel's answer to the request for
the ring's page. -/
def cmdbuf_init (k : Config) (r : alloc_pages) (cb : cmdbuf) : gcerror × cmdbuf :=
  match gc_alloc_pages k r cb.page k.PAGE_SIZE with
  | (.GCERR_NONE, pg) =>
    let words : Nat → Nat := fun i => if i < pg.size / 4 then 0 else pg.words i
    (.GCERR_NONE,
     { cb with page := { pg with words := words }, mapped := false, logical := pg.logical,
               physical := pg.physical, available := k.PAGE_SIZE % 4294967296, data_size := 0 })
  | (e, pg) => (.GCERR_SETGRP e .GCERR_CMD_ALLOC, { cb with page := pg })

/-- The function `cmdbuf_alloc` with the pointers as the caller passes them:
`logical` and `physical` tell whether the output pointer is non-null. The two
outputs are stored before the cursors move; a store through a null pointer
ends the call. -/
def cmdbuf_alloc_at (cb : cmdbuf) (size : Nat) (logical physical : Bool) :
    Run (gcerror × cmdbuf × Option (Nat × Nat)) :=
  if cb.logical = 0 ∨ size > cb.available then .ret (.GCERR_CMD_ALLOC, cb, none)
  else if logical = false then .fault
  else if physical = false then .fault
  else .ret (cmdbuf_alloc cb size)

/-- The function `cmdbuf_flush`; `logical` is `none` when the caller passes
NULL, and then only the trailer size is returned. -/
def cmdbuf_flush_at (k : Config) (cb : cmdbuf) (dev : device) (logical : Option Nat) :
    Nat × cmdbuf × device :=
  match logical with
  | none => (cmdbuf_flushSize, cb, dev)
  | some l => cmdbuf_flush k cb dev l

/-- The function `cmdbuf_map`: the ring's page is mapped into the context as a
request of one page whose physical address the caller passes. Returns the error
code, the MMU object, the context and the ring. -/
def cmdbuf_map (k : Config) (env : map_env) (mmu : mmu2dprivate) (ctxt : mmu2dcontext)
    (cb : cmdbuf) : Run (gcerror × mmu2dprivate × mmu2dcontext × cmdbuf) :=
  let mem : mmu2dphysmem :=
    { base := cb.page.logical % 4294967296, offset := 0, count := 1,
      pages := some [cb.page.physical], pagesize := k.PAGE_SIZE }
  match mmu2d_map k env mmu ctxt mem with
  | .fault => .fault
  | .diverge => .diverge
  | .ret r =>
    if r.gcerror ≠ .GCERR_NONE then .ret (r.gcerror, r.mmu, r.ctxt, cb)
    else
      match r.mapped with
      | none => .fault
      | some mapped =>
        .ret (.GCERR_NONE, r.mmu, r.ctxt,
              { cb with mapped := true, mapped_physical := mapped.address,
                        physical := u32_add mapped.address cb.data_size })

/-- The value `align(size, 4) = (size + 3) & ~3` of `cmdbuf_alloc`. -/
def align4 (size : Nat) : Nat := Nat.land (u32_add size 3) 4294967292

/-- States of the ring after a successful `cmdbuf_init`: reached from it by
`cmdbuf_alloc`, `cmdbuf_flush`, `cmdbuf_map` and stores into the ring's page. -/
inductive Ring (k : Config) : cmdbuf → Prop
  | init (r : alloc_pages) (cb0 cb : cmdbuf) :
      cmdbuf_init k r cb0 = (.GCERR_NONE, cb) → Ring k cb
  | alloc (cb : cmdbuf) (size : Nat) : Ring k cb → Ring k (cmdbuf_alloc cb size).2.1
  | flush (cb : cmdbuf) (dev : device) (logical : Nat) :
      Ring k cb → Ring k (cmdbuf_flush k cb dev logical).2.1
  | map (env : map_env) (mmu mmu1 : mmu2dprivate) (ctxt ctxt1 : mmu2dcontext) (cb cb1 : cmdbuf)
      (e : gcerror) :
      Ring k cb → cmdbuf_map k env mmu ctxt cb = .ret (e, mmu1, ctxt1, cb1) → Ring k cb1
  | store (cb : cmdbuf) (addr v : Nat) : Ring k cb → Ring k (cmdbuf_store cb addr v)

/-- What `cmdbuf_init` establishes and the ring's operations keep: the page is
there, the cursor is `data_size` bytes into it, used and free bytes add up to
the page, and all sizes are multiples of 4. -/
def ring_ok (k : Config) (cb : cmdbuf) : Prop :=
  cb.page.logical ≠ 0 ∧ cb.logical = cb.page.logical + cb.data_size ∧
  cb.data_size + cb.available = cb.page.size ∧ cb.page.size = k.PAGE_SIZE ∧
  cb.available % 4 = 0

/-- The ring before `cmdbuf_init`: static storage, all zero. -/
def cmdbuf_zero : cmdbuf :=
  { page := gcpage_zero, mapped := false, mapped_physical := 0, logical := 0, physical := 0,
    available := 0, data_size := 0 }

/-- Worked example: the ring after `cmdbuf_init` with a page at physical
address 2147483648 and kernel address 3221225472. -/
def demo_ring : cmdbuf :=
  (cmdbuf_init (demo_config true) (.mapped 7 2147483648 3221225472) cmdbuf_zero).2

/-- A result of `cmdbuf_map` used where the call does not return. -/
def cmdbuf_map_zero : gcerror × mmu2dprivate × mmu2dcontext × cmdbuf :=
  (.GCERR_MMU_CTXT_BAD, demo_globals.mmu, mmu2dcontext_zero, cmdbuf_zero)

/-- Worked example: the first `cmdbuf_map` on the new context. -/
def demo_ring_mapped : gcerror × mmu2dprivate × mmu2dcontext × cmdbuf :=
  (cmdbuf_map (demo_config true) demo_map_env (demo_created true).2.1.mmu
    (demo_created true).2.2 demo_ring).getD cmdbuf_map_zero

/-- Worked example: a second `cmdbuf_map` on the same context. -/
def demo_ring_mapped_again : gcerror × mmu2dprivate × mmu2dcontext × cmdbuf :=
  (cmdbuf_map (demo_config true) demo_map_env2 demo_ring_mapped.2.1 demo_ring_mapped.2.2.1
    demo_ring_mapped.2.2.2).getD cmdbuf_map_zero

/-- Worked example: `mmu2d_create_context` when the kernel has no pages for the
master table. -/
def demo_create_failed : gcerror × globals × mmu2dcontext :=
  (mmu2d_create_context (demo_config true) { demo_create_env with master := .failed }
    demo_globals).getD (.GCERR_NONE, demo_globals, mmu2dcontext_zero)

/-! ## mmu2d_destroy_context -/

/-- The address of the first descriptor of a list, 0 (NULL) for the empty
list. -/
def head_of (l : List mmu2darena) : Nat :=
  match l with
  | [] => 0
  | a :: _ => a.handle

/-- The `next` fields of the descriptors, by descriptor address, as a list
lays them out: each descriptor of `l` points to its successor, the last one to
NULL; the other descriptors keep the field they have in `next`. -/
def links_of (l : List mmu2darena) (next : Nat → Nat) : Nat → Nat :=
  match l with
  | [] => next
  | a :: rest => links_of rest (Function.update next a.handle (head_of rest))

/-- The loop `while (head != NULL) { mmu2d_free_arena(ctxt->mmu, head);
head = head->next; }` of `mmu2d_destroy_context`, on the pointers: `head` is
`ctxt->allocated` or `ctxt->vacant`, `recs` is `mmu->arena_recs`.
`mmu2d_free_arena` stores `recs` in `head->next` and makes `head` the new
`recs`; after that the loop reads `head->next`. Returns the `next` fields and
`recs` at the end, `none` when the bound on the iterations is used up. -/
def destroy_walk : Nat → (Nat → Nat) → Nat → Nat → Option ((Nat → Nat) × Nat)
  | fuel, next, head, recs =>
    if head = 0 then some (next, recs)
    else
      match fuel with
      | 0 => none
      | fuel + 1 =>
        let next1 := Function.update next head recs
        destroy_walk fuel next1 (next1 head) head

/-- The descriptors reached from `head` over the `next` fields, at most `fuel`
of them; `descs` are the descriptors there are. -/
def chain_from (descs : List mmu2darena) (next : Nat → Nat) : Nat → Nat → List mmu2darena
  | 0, _ => []
  | fuel + 1, head =>
    if head = 0 then []
    else
      match descs.find? (fun a => a.handle == head) with
      | none => []
      | some a => a :: chain_from descs next fuel (next head)

/-- The function `mmu2d_destroy_context` (the pointer `ctxt` is not null).
The two loops that give the descriptors back run on the pointers
(`destroy_walk`), started from the `next` fields the three lists have; the free
list of the MMU object is read back from the pointers at the end. -/
def mmu2d_destroy_context (mmu : mmu2dprivate) (ctxt : mmu2dcontext) :
    Run (gcerror × mmu2dprivate × mmu2dcontext) :=
  if ctxt.mmu = false then .ret (.GCERR_MMU_CTXT_BAD, mmu, ctxt)
  else
    let descs := ctxt.allocated ++ ctxt.vacant ++ mmu.arena_recs
    let next0 := links_of ctxt.allocated (links_of ctxt.vacant
      (links_of mmu.arena_recs (fun _ => 0)))
    match destroy_walk (descs.length + 1) next0 (head_of ctxt.allocated)
        (head_of mmu.arena_recs) with
    | none => .diverge
    | some (next1, recs1) =>
      match destroy_walk (descs.length + 1) next1 (head_of ctxt.vacant) recs1 with
      | none => .diverge
      | some (next2, recs2) =>
        .ret (.GCERR_NONE,
          { mmu with arena_recs := chain_from descs next2 descs.length recs2,
                     refcount := u32_sub mmu.refcount 1 },
          { ctxt with slave := none, allocated := [], vacant := [],
                      master := gc_free_pages ctxt.master, mmu := false })

/-- Worked example: a context with two vacant arenas and nothing allocated,
next to an MMU object whose pool of free descriptors is empty. -/
def demo_ctxt_two_vacant : mmu2dcontext :=
  { demo_ctxt_10_3_7 with
    vacant := [{ mmu2darena_zero with handle := 101, stlb := 0, count := 10 },
               { mmu2darena_zero with handle := 102, stlb := 10, count := 1048566 }] }

/-- Worked example: an MMU object with one reference and an empty pool. -/
def demo_mmu_empty_pool : mmu2dprivate :=
  { demo_globals.mmu with refcount := 1, arena_recs := [] }

/-! ## Fixups (gcmmu.c) -/

/-- Constants of `linux/gccore.h`, `gcreg.h` and the kernel headers that the
fixup code and the boundary calls use; the headers are not part of the
sources. -/
structure Abi where
  /-- Number of entries of the array `fixup` of `struct gcfixup`. -/
  GC_FIXUP_MAX : Nat
  /-- Size in bytes of `struct gcmopipesel`. -/
  sizeof_gcmopipesel : Nat
  gcmopipesel_pipesel_ldst : Nat
  gcregpipeselect_2D : Nat
  /-- The load-state command word that `mmu2d_set_master` builds for
  `gcregMMUConfigurationRegAddrs`. -/
  LOAD_STATE_gcregMMUConfigurationRegAddrs : Nat
  /-- The load-state command word `LS(AQFlushRegAddrs, 1)`. -/
  LS_AQFlushRegAddrs : Nat
  AQ_FLUSH_PE2D_CACHE_ENABLE : Nat
  /-- The load-state command word `LS(AQSemaphoreRegAddrs, 1)`. -/
  LS_AQSemaphoreRegAddrs : Nat
  /-- The semaphore word with source FRONT_END and destination PIXEL_ENGINE. -/
  AQ_SEMAPHORE_word : Nat
  STALL_COMMAND_word : Nat
  /-- The LINK command word with the given prefetch count. -/
  AQ_COMMAND_LINK_word : Nat → Nat
  /-- The configuration word that asks for a flush of the MMU cache. -/
  GCREG_MMU_CONFIGURATION_FLUSH_word : Nat
  EFAULT : Nat
  /-- The numeric value of an error code of `enum gcerror`. -/
  gcerror_value : gcerror → Int

/-- A `struct gcfixup` of the caller, in user memory: whether its fixed part
and its table can be read, its field `count`, and the words of its table. The
field `next` is the list structure of the chain. -/
structure gcfixup where
  readable : Bool
  table_readable : Bool
  count : Nat
  fixup : Nat → Nat

/-- The function `flush_user_buffer`: the pages for which it calls
`gc_flush_pages`, as (page descriptor, physical address, kernel address). -/
def flush_user_buffer (k : Config) (page_to_phys : Nat → Nat) (arena : mmu2darena) :
    List (Nat × Nat × Nat) :=
  match arena.pages with
  | none => []
  | some pages =>
    if arena.logical = 0 then []
    else
      (List.range arena.count).filterMap (fun i =>
        if pages.getD i 0 = 0 then none
        else if page_to_phys (pages.getD i 0) = 0 then none
        else if (arena.logical + i * k.PAGE_SIZE) % 4294967296 = 0 then none
        else some (pages.getD i 0, page_to_phys (pages.getD i 0),
                   (arena.logical + i * k.PAGE_SIZE) % 4294967296))

/-- One call of `flush_user_buffer` during the fixups: the address of the
arena and the pages flushed. -/
structure flush_call where
  arena : Nat
  pages : List (Nat × Nat × Nat)
  deriving DecidableEq, Repr

/-- The loop "Apply fixups" of `mmu2d_fixup` over the entries of one table.
`heap` tells which arena descriptor lies at an address; the word `data[offset]`
is used as the address of one, and a word that is not such an address makes the
read of `arena->address` an access outside every descriptor (`fault`). `calls`
collects the calls of `flush_user_buffer`. -/
def fixup_apply (k : Config) (page_to_phys : Nat → Nat) (heap : Nat → Option mmu2darena) :
    List Nat → (Nat → Nat) → List flush_call → Run ((Nat → Nat) × List flush_call)
  | [], data, calls => .ret (data, calls)
  | offset :: table, data, calls =>
    match heap (data offset) with
    | none => .fault
    | some arena =>
      fixup_apply k page_to_phys heap table (Function.update data offset arena.address)
        (calls ++ [{ arena := arena.handle,
                     pages := flush_user_buffer k page_to_phys arena }])

/-- The entries of the table of a fixup, in order. -/
def gcfixup.table (f : gcfixup) : List Nat := (List.range f.count).map f.fixup

/-- The function `mmu2d_fixup`: `data` are the words of the copied command
stream, by word index; the chain of fixups is a list. A table with more entries
than the array of the static copy `_fixup` holds is copied past the end of it
(`fault`). Returns the error code, the words and the calls of
`flush_user_buffer`. -/
def mmu2d_fixup (a : Abi) (k : Config) (page_to_phys : Nat → Nat)
    (heap : Nat → Option mmu2darena) :
    List gcfixup → (Nat → Nat) → List flush_call →
      Run (gcerror × (Nat → Nat) × List flush_call)
  | [], data, calls => .ret (.GCERR_NONE, data, calls)
  | f :: chain, data, calls =>
    if f.readable = false then .ret (.GCERR_USER_READ, data, calls)
    else if f.table_readable = false then .ret (.GCERR_USER_READ, data, calls)
    else if f.count > a.GC_FIXUP_MAX then .fault
    else
      match fixup_apply k page_to_phys heap f.table data calls with
      | .fault => .fault
      | .diverge => .diverge
      | .ret (data1, calls1) => mmu2d_fixup a k page_to_phys heap chain data1 calls1

/-- All offsets of a chain of fixups, in the order they are applied. -/
def fixup_offsets (chain : List gcfixup) : List Nat := chain.flatMap gcfixup.table

/-- The call of `flush_user_buffer` that the fixup of the word at `offset`
makes when that word is the address of a descriptor. -/
def flush_of (k : Config) (page_to_phys : Nat → Nat) (heap : Nat → Option mmu2darena)
    (data : Nat → Nat) (offset : Nat) : Option flush_call :=
  (heap (data offset)).map (fun arena =>
    { arena := arena.handle, pages := flush_user_buffer k page_to_phys arena })

/-- Constants for the worked examples. -/
def demo_abi : Abi :=
  { GC_FIXUP_MAX := 1024, sizeof_gcmopipesel := 8, gcmopipesel_pipesel_ldst := 134299648,
    gcregpipeselect_2D := 1, LOAD_STATE_gcregMMUConfigurationRegAddrs := 2,
    LS_AQFlushRegAddrs := 11, AQ_FLUSH_PE2D_CACHE_ENABLE := 8, LS_AQSemaphoreRegAddrs := 12,
    AQ_SEMAPHORE_word := 1793, STALL_COMMAND_word := 1207959552,
    AQ_COMMAND_LINK_word := fun c => 1073741824 + c,
    GCREG_MMU_CONFIGURATION_FLUSH_word := 16, EFAULT := 14,
    gcerror_value := fun e => if e = .GCERR_NONE then 0 else 1 }

/-- Worked example: the descriptors that lie at the addresses 501 and 502, two
mapped arenas with the device addresses 4194304 and 8388608. -/
def demo_heap : Nat → Option mmu2darena := fun h =>
  if h = 501 then
    some { mmu2darena_zero with handle := 501, mtlb := 1, count := 2, address := 4194304,
                                pages := some [71, 72], logical := 1073741824 }
  else if h = 502 then
    some { mmu2darena_zero with handle := 502, mtlb := 2, count := 1, address := 8388608,
                                pages := some [73], logical := 1073750016 }
  else none

/-- Worked example: a command stream of 8 words; words 2 and 5 hold the handle
501, word 6 holds the handle 502. -/
def demo_stream : Nat → Nat := fun i =>
  if i = 2 then 501 else if i = 5 then 501 else if i = 6 then 502 else 1000 + i

/-- Worked example: a chain of two fixups with the tables [2, 6] and [5]. -/
def demo_fixups : List gcfixup :=
  [{ readable := true, table_readable := true, count := 2,
     fixup := fun i => if i = 0 then 2 else 6 },
   { readable := true, table_readable := true, count := 1, fixup := fun _ => 5 }]

/-- A result of `mmu2d_fixup` used where the call does not return. -/
def fixup_zero : gcerror × (Nat → Nat) × List flush_call :=
  (.GCERR_MMU_CTXT_BAD, fun _ => 0, [])

/-- Worked example: `mmu2d_fixup` on that stream and chain. -/
def demo_fixed : gcerror × (Nat → Nat) × List flush_call :=
  (mmu2d_fixup demo_abi (demo_config true) (fun p => 4096 * p) demo_heap demo_fixups
    demo_stream []).getD fixup_zero

/-! ## MMU commands in the ring (gcmmu.c) -/

/-- The function `mmu2d_set_master`: error code and ring. -/
def mmu2d_set_master (a : Abi) (k : Config) (ctxt : mmu2dcontext) (cb : cmdbuf) :
    gcerror × cmdbuf :=
  if ctxt.mmu = false then (.GCERR_MMU_CTXT_BAD, cb)
  else if k.MMU_ENABLE then
    match cmdbuf_alloc cb (2 * 4) with
    | (.GCERR_NONE, cb1, some (buffer, _)) =>
      (.GCERR_NONE,
       cmdbuf_store (cmdbuf_store cb1 buffer a.LOAD_STATE_gcregMMUConfigurationRegAddrs)
         (buffer + 4) ctxt.physical)
    | (e, cb1, _) => (.GCERR_SETGRP e .GCERR_MMU_MTLB_SET, cb1)
  else (.GCERR_NONE, cb)

/-- The value `mmu2d_flush` returns: the size in bytes of the flush sequence,
16 words under `MMU_ENABLE`, nothing without. -/
def mmu2d_flushSize (k : Config) : Nat := if k.MMU_ENABLE then 16 * 4 else 0

/-- The 16 words that `mmu2d_flush` writes for a reservation of `size` bytes
at the device address `address`. -/
def mmu2d_flush_words (a : Abi) (k : Config) (address size : Nat) : List Nat :=
  [a.LS_AQFlushRegAddrs, a.AQ_FLUSH_PE2D_CACHE_ENABLE, a.LS_AQSemaphoreRegAddrs,
   a.AQ_SEMAPHORE_word, a.STALL_COMMAND_word, a.AQ_SEMAPHORE_word,
   a.AQ_COMMAND_LINK_word 4, u32_add address (8 * 4),
   k.LS_gcregMMUConfigurationRegAddrs, a.GCREG_MMU_CONFIGURATION_FLUSH_word,
   a.LS_AQSemaphoreRegAddrs, a.AQ_SEMAPHORE_word, a.STALL_COMMAND_word, a.AQ_SEMAPHORE_word,
   a.AQ_COMMAND_LINK_word ((u32_add (u32_sub size (16 * 4)) 7) >>> 3),
   u32_add address (16 * 4)]

/-- Store the words `ws` in the ring's page from the address `addr` on. -/
def cmdbuf_store_words (cb : cmdbuf) (addr : Nat) : List Nat → cmdbuf
  | [] => cb
  | w :: ws => cmdbuf_store_words (cmdbuf_store cb addr w) (addr + 4) ws

/-- The function `mmu2d_flush` with a non-null pointer `logical` into the
ring. -/
def mmu2d_flush (a : Abi) (k : Config) (cb : cmdbuf) (logical address size : Nat) : cmdbuf :=
  if k.MMU_ENABLE then cmdbuf_store_words cb logical (mmu2d_flush_words a k address size)
  else cb

/-! ## The boundary calls (gcmain.c) -/

/-- The record `struct clientinfo`; the list head is the list structure of
`mmu_list`. -/
structure clientinfo where
  ctxt : mmu2dcontext
  pid : Nat
  task : Nat
  mmu_dirty : Bool

/-- The state of the driver: the globals of gcmmu.c and gccmdbuf.c, the list
`mmu_list` and `gcdevice.priv` (the process id of the client it points to). -/
structure driver where
  g : globals
  mmu_list : List clientinfo
  priv : Option Nat

/-- The calling process and the answers of the kernel during `find_client`. -/
structure client_env where
  tgid : Nat
  task : Nat
  kzalloc : Bool
  create : create_env
  map : map_env

/-- Whether `copy_from_user` of the argument and `copy_to_user` of the result
succeed. -/
structure copy_env where
  from_user : Bool
  to_user : Bool

/-- The function `find_client`: error code, driver state and `*client`, the
position of the client in `mmu_list`. -/
def find_client (k : Config) (env : client_env) (d : driver) :
    Run (gcerror × driver × Option Nat) :=
  match d.mmu_list.findIdx? (fun ci => ci.pid == env.tgid) with
  | some i => .ret (.GCERR_NONE, { d with priv := some env.tgid }, some i)
  | none =>
    if env.kzalloc = false then .ret (.GCERR_SETGRP .GCERR_OODM .GCERR_MMU_CLIENT, d, none)
    else
      match mmu2d_create_context k env.create d.g with
      | .fault => .fault
      | .diverge => .diverge
      | .ret (e, g1, ctxt) =>
        if e ≠ .GCERR_NONE then
          if ctxt.mmu then
            match mmu2d_destroy_context g1.mmu ctxt with
            | .fault => .fault
            | .diverge => .diverge
            | .ret (_, mmu2, _) => .ret (e, { d with g := { g1 with mmu := mmu2 } }, none)
          else .ret (e, { d with g := g1 }, none)
        else
          match cmdbuf_map k env.map g1.mmu ctxt g1.cmdbuf with
          | .fault => .fault
          | .diverge => .diverge
          | .ret (e2, mmu2, ctxt2, cb2) =>
            if e2 ≠ .GCERR_NONE then
              if ctxt2.mmu then
                match mmu2d_destroy_context mmu2 ctxt2 with
                | .fault => .fault
                | .diverge => .diverge
                | .ret (_, mmu3, _) =>
                  .ret (e2, { d with g := { g1 with mmu := mmu3, cmdbuf := cb2 } }, none)
              else .ret (e2, { d with g := { g1 with mmu := mmu2, cmdbuf := cb2 } }, none)
            else
              .ret (.GCERR_NONE,
                { g := { g1 with mmu := mmu2, cmdbuf := cb2 },
                  mmu_list := { ctxt := ctxt2, pid := env.tgid, task := env.task,
                                mmu_dirty := true } :: d.mmu_list,
                  priv := some env.tgid },
                some 0)

/-- The argument `struct gcmap` of `gc_map` and `gc_unmap`. -/
structure gcmap where
  gcerror : gcerror
  handle : Nat
  logical : Nat
  size : Nat
  deriving DecidableEq, Repr

/-- Store the context of the client at position `i`. -/
def set_ctxt (d : driver) (i : Nat) (mmu : mmu2dprivate) (ctxt : mmu2dcontext) : driver :=
  { d with g := { d.g with mmu := mmu },
           mmu_list := d.mmu_list.modify (fun ci => { ci with ctxt := ctxt }) i }

/-- Store the flag `mmu_dirty` of the client at position `i`. -/
def set_dirty (d : driver) (i : Nat) (dirty : Bool) : driver :=
  { d with mmu_list := d.mmu_list.modify (fun ci => { ci with mmu_dirty := dirty }) i }

/-- The label `exit` of `gc_map`: `s` is the local copy `_gcmap`, `client` the
client found, `mapped` the arena mapped by this call. Returns the return value
of the call, the driver state and what the caller receives (`none` when
`copy_to_user` fails). -/
def gc_map_exit (a : Abi) (k : Config) (cenv : copy_env) (d : driver) (client : Option Nat)
    (s : gcmap) (mapped : Option mmu2darena) : Run (Int × driver × Option gcmap) :=
  let ret : Int := if cenv.to_user then 0 else -(a.EFAULT : Int)
  let s1 : gcmap := if cenv.to_user then s else { s with gcerror := .GCERR_USER_WRITE }
  let out : Option gcmap := if cenv.to_user then some s else none
  if s1.gcerror ≠ .GCERR_NONE then
    match mapped with
    | none => .ret (ret, d, out)
    | some m =>
      match client.bind (fun i => (d.mmu_list.get? i).map (fun ci => (i, ci))) with
      | none => .fault
      | some (i, ci) =>
        match mmu2d_unmap k d.g.mmu ci.ctxt m.handle with
        | .fault => .fault
        | .diverge => .diverge
        | .ret (_, mmu1, ctxt1) => .ret (ret, set_ctxt d i mmu1 ctxt1, out)
  else .ret (ret, d, out)

/-- The function `gc_map`; `arg` is the caller's structure, `junk` the content
of the local copy before anything is stored in it. -/
def gc_map (a : Abi) (k : Config) (cenv : copy_env) (env : client_env) (d : driver)
    (arg junk : gcmap) : Run (Int × driver × Option gcmap) :=
  if cenv.from_user = false then
    gc_map_exit a k cenv d none { junk with gcerror := .GCERR_USER_READ } none
  else
    match find_client k env d with
    | .fault => .fault
    | .diverge => .diverge
    | .ret (e, d1, client) =>
      if e ≠ .GCERR_NONE then gc_map_exit a k cenv d1 client { arg with gcerror := e } none
      else
        match client.bind (fun i => (d1.mmu_list.get? i).map (fun ci => (i, ci))) with
        | none => .fault
        | some (i, ci) =>
          let offset := Nat.land (arg.logical % 4294967296) (k.PAGE_SIZE - 1)
          let mem : mmu2dphysmem :=
            { base := Nat.land (arg.logical % 4294967296) (4294967295 - (k.PAGE_SIZE - 1)),
              offset := offset,
              count := u32_add (u32_add arg.size offset) (k.PAGE_SIZE - 1) / k.PAGE_SIZE,
              pages := none, pagesize := k.PAGE_SIZE }
          match mmu2d_map k env.map d1.g.mmu ci.ctxt mem with
          | .fault => .fault
          | .diverge => .diverge
          | .ret r =>
            if r.gcerror ≠ .GCERR_NONE then
              gc_map_exit a k cenv (set_ctxt d1 i r.mmu r.ctxt) client
                { arg with gcerror := r.gcerror } none
            else
              match r.mapped with
              | none => .fault
              | some m =>
                gc_map_exit a k cenv (set_dirty (set_ctxt d1 i r.mmu r.ctxt) i true) client
                  { arg with gcerror := .GCERR_NONE, handle := m.handle } (some m)

/-- The label `exit` of `gc_unmap` and of `gc_commit`: the return value and
what the caller receives. -/
def copy_back {α : Type} (a : Abi) (cenv : copy_env) (s : α) : Int × Option α :=
  if cenv.to_user then (0, some s) else (-(a.EFAULT : Int), none)

/-- The function `gc_unmap`. -/
def gc_unmap (a : Abi) (k : Config) (cenv : copy_env) (env : client_env) (d : driver)
    (arg junk : gcmap) : Run (Int × driver × Option gcmap) :=
  if cenv.from_user = false then
    .ret ((copy_back a cenv { junk with gcerror := .GCERR_USER_READ }).1, d,
          (copy_back a cenv { junk with gcerror := .GCERR_USER_READ }).2)
  else
    match find_client k env d with
    | .fault => .fault
    | .diverge => .diverge
    | .ret (e, d1, client) =>
      if e ≠ .GCERR_NONE then
        .ret ((copy_back a cenv { arg with gcerror := e }).1, d1,
              (copy_back a cenv { arg with gcerror := e }).2)
      else
        match client.bind (fun i => (d1.mmu_list.get? i).map (fun ci => (i, ci))) with
        | none => .fault
        | some (i, ci) =>
          match mmu2d_unmap k d1.g.mmu ci.ctxt arg.handle with
          | .fault => .fault
          | .diverge => .diverge
          | .ret (e2, mmu1, ctxt1) =>
            if e2 ≠ .GCERR_NONE then
              .ret ((copy_back a cenv { arg with gcerror := e2 }).1, set_ctxt d1 i mmu1 ctxt1,
                    (copy_back a cenv { arg with gcerror := e2 }).2)
            else
              .ret ((copy_back a cenv
                      { arg with gcerror := .GCERR_NONE, handle := 4294967295 }).1,
                    set_dirty (set_ctxt d1 i mmu1 ctxt1) i true,
                    (copy_back a cenv
                      { arg with gcerror := .GCERR_NONE, handle := 4294967295 }).2)

/-- A `struct gcbuffer` of the caller, in user memory: whether the structure
and the command stream between `head` and `tail` can be read, the chain of
fixups, and the words of the stream. The field `next` is the list structure of
the chain of sub-buffers. -/
structure gcbuffer where
  readable : Bool
  fixuphead : List gcfixup
  head : Nat
  tail : Nat
  data_readable : Bool
  data : Nat → Nat

/-- The argument `struct gccommit` of `gc_commit`. -/
structure gccommit where
  gcerror : gcerror
  buffer : List gcbuffer

/-- What the loop of `gc_commit` does to the ring, in order: a successful
`cmdbuf_alloc` of `size` bytes, a call of `mmu2d_flush` with a pointer into the
ring, a call of `cmdbuf_flush` with a pointer into the ring. -/
inductive commit_event where
  | reserve (size : Nat)
  | mmu_flush (logical address size : Nat)
  | submit (logical : Nat)
  deriving DecidableEq, Repr

/-- The sizes of the reservations in a list of events. -/
def reserved : List commit_event → List Nat
  | [] => []
  | .reserve size :: ev => size :: reserved ev
  | _ :: ev => reserved ev

/-- The calls of `mmu2d_flush` in a list of events. -/
def flushes : List commit_event → List (Nat × Nat × Nat)
  | [] => []
  | .mmu_flush l p s :: ev => (l, p, s) :: flushes ev
  | _ :: ev => flushes ev

/-- The flag `mmu_dirty` of the client at position `i`. -/
def client_dirty (d : driver) (i : Nat) : Option Bool :=
  (d.mmu_list.get? i).map (fun ci => ci.mmu_dirty)

/-- The command stream of a sub-buffer copied into the ring at `addr`: the
words `data 0 ...` of `size` bytes. -/
def copy_stream (cb : cmdbuf) (addr size : Nat) (data : Nat → Nat) : cmdbuf :=
  (List.range ((size + 3) / 4)).foldl (fun c j => cmdbuf_store c (addr + 4 * j) (data j)) cb

/-- The request size of the reservation for a sub-buffer: MMU flush, stream
and trailer, in `unsigned int` arithmetic. -/
def commit_allocsize (mmuflushsize cmdflushsize : Nat) (b : gcbuffer) : Nat :=
  u32_add (u32_add mmuflushsize (u32_sub b.tail b.head)) cmdflushsize

/-- The loop "Go through all buffers one at a time" of `gc_commit` for the
client at position `i`. `heap` tells which arena descriptor lies at an address
(see `fixup_apply`). Returns the value of `_gccommit.gcerror`, the driver state
and the events. -/
def commit_buffers (a : Abi) (k : Config) (page_to_phys : Nat → Nat)
    (heap : Nat → Option mmu2darena) (i cmdflushsize : Nat) :
    List gcbuffer → driver → List commit_event → Run (gcerror × driver × List commit_event)
  | [], d, ev => .ret (.GCERR_NONE, d, ev)
  | b :: rest, d, ev =>
    if b.readable = false then .ret (.GCERR_USER_READ, d, ev)
    else
      match d.mmu_list.get? i with
      | none => .fault
      | some ci =>
        let buffersize := u32_sub b.tail b.head
        let mmuflushsize := if ci.mmu_dirty then mmu2d_flushSize k else 0
        let allocsize := commit_allocsize mmuflushsize cmdflushsize b
        match cmdbuf_alloc d.g.cmdbuf allocsize with
        | (.GCERR_NONE, cb1, some (logical, address)) =>
          let cb2 := if ci.mmu_dirty then mmu2d_flush a k cb1 logical address allocsize else cb1
          let logical1 := if ci.mmu_dirty then logical + mmuflushsize else logical
          let ev1 :=
            if ci.mmu_dirty then
              ev ++ [.reserve allocsize, .mmu_flush logical address allocsize]
            else ev ++ [.reserve allocsize]
          let d1 := set_dirty { d with g := { d.g with cmdbuf := cb2 } } i false
          if b.data_readable = false then .ret (.GCERR_USER_READ, d1, ev1)
          else
            let cb3 := copy_stream cb2 logical1 buffersize b.data
            let base := (logical1 - cb3.page.logical) / 4
            match mmu2d_fixup a k page_to_phys heap b.fixuphead
                (fun o => cb3.page.words (base + o)) [] with
            | .fault => .fault
            | .diverge => .diverge
            | .ret (e, data1, _) =>
              let cb4 : cmdbuf :=
                { cb3 with page := { cb3.page with
                    words := fun w => if base ≤ w then data1 (w - base) else cb3.page.words w } }
              if e ≠ .GCERR_NONE then
                .ret (e, { d1 with g := { d1.g with cmdbuf := cb4 } }, ev1)
              else
                let fl := cmdbuf_flush k cb4 d1.g.dev (logical1 + buffersize)
                commit_buffers a k page_to_phys heap i cmdflushsize rest
                  { d1 with g := { d1.g with cmdbuf := fl.2.1, dev := fl.2.2 } }
                  (ev1 ++ [.submit (logical1 + buffersize)])
        | (e, cb1, _) => .ret (e, { d with g := { d.g with cmdbuf := cb1 } }, ev)

/-- The function `gc_commit`; `arg` is the caller's structure, `junk` the
content of the local copy before anything is stored in it. The reservation for
the pipe selection passes NULL for the output `physical` of `cmdbuf_alloc`, and
its failure leaves through `return _gccommit.gcerror`. Returns the return value
of the call, the driver state, what the caller receives (`none` when nothing is
copied back) and the events of the loop over the sub-buffers. -/
def gc_commit (a : Abi) (k : Config) (page_to_phys : Nat → Nat)
    (heap : Nat → Option mmu2darena) (cenv : copy_env) (env : client_env) (d : driver)
    (arg junk : gccommit) : Run (Int × driver × Option gccommit × List commit_event) :=
  if cenv.from_user = false then
    .ret ((copy_back a cenv { junk with gcerror := .GCERR_USER_READ }).1, d,
          (copy_back a cenv { junk with gcerror := .GCERR_USER_READ }).2, [])
  else
    match find_client k env d with
    | .fault => .fault
    | .diverge => .diverge
    | .ret (e, d1, client) =>
      if e ≠ .GCERR_NONE then
        .ret ((copy_back a cenv { arg with gcerror := e }).1, d1,
              (copy_back a cenv { arg with gcerror := e }).2, [])
      else
        match cmdbuf_alloc_at d1.g.cmdbuf a.sizeof_gcmopipesel true false with
        | .fault => .fault
        | .diverge => .diverge
        | .ret (e1, cb1, out) =>
          if e1 ≠ .GCERR_NONE then
            .ret (a.gcerror_value e1, { d1 with g := { d1.g with cmdbuf := cb1 } }, none, [])
          else
            match out, client.bind (fun i => (d1.mmu_list.get? i).map (fun ci => (i, ci))) with
            | some (logical, _), some (i, ci) =>
              let cb2 := cmdbuf_store (cmdbuf_store cb1 logical a.gcmopipesel_pipesel_ldst)
                (logical + 4) a.gcregpipeselect_2D
              match mmu2d_set_master a k ci.ctxt cb2 with
              | (.GCERR_NONE, cb3) =>
                match commit_buffers a k page_to_phys heap i
                    (cmdbuf_flush_at k cb3 d1.g.dev none).1 arg.buffer
                    { d1 with g := { d1.g with cmdbuf := cb3 } } [] with
                | .fault => .fault
                | .diverge => .diverge
                | .ret (e3, d3, ev) =>
                  .ret ((copy_back a cenv { arg with gcerror := e3 }).1, d3,
                        (copy_back a cenv { arg with gcerror := e3 }).2, ev)
              | (e2, cb3) =>
                .ret ((copy_back a cenv { arg with gcerror := e2 }).1,
                      { d1 with g := { d1.g with cmdbuf := cb3 } },
                      (copy_back a cenv { arg with gcerror := e2 }).2, [])
            | _, _ => .fault

/-- Worked example: the calling process 7 and a kernel that grants every
request. -/
def demo_client_env : client_env :=
  { tgid := 7, task := 700, kzalloc := true, create := demo_create_env, map := demo_map_env }

/-- Worked example: the driver after `cmdbuf_init`, before the first client. -/
def demo_driver : driver :=
  { g := { demo_globals with cmdbuf := demo_ring }, mmu_list := [], priv := none }

/-- A result of `find_client` used where the call does not return. -/
def find_client_zero : gcerror × driver × Option Nat := (.GCERR_MMU_CTXT_BAD, demo_driver, none)

/-- Worked example: `find_client` for process 7 on that driver state, which
creates the client. -/
def demo_found : gcerror × driver × Option Nat :=
  (find_client (demo_config true) demo_client_env demo_driver).getD find_client_zero

/-- Worked example: the driver with the client of process 7 and the flag
`mmu_dirty` of that client cleared. -/
def demo_driver_clean : driver := set_dirty demo_found.2.1 0 false

/-- Worked example: a sub-buffer of 8 words (32 bytes) without fixups. -/
def demo_buffer : gcbuffer :=
  { readable := true, fixuphead := [], head := 65536, tail := 65568, data_readable := true,
    data := fun j => 1000 + j }

/-- Worked example: a commit of that one sub-buffer. -/
def demo_commit : gccommit := { gcerror := .GCERR_NONE, buffer := [demo_buffer] }

/-- Worked example: the driver when `cmdbuf_init` has not run (`gc_init` skips
it on other processors): an idle MMU object and a ring whose cursor is NULL. -/
def demo_driver_uninit : driver :=
  { g := { demo_globals with cmdbuf := cmdbuf_zero }, mmu_list := [], priv := none }

/-- Worked example: `find_client` for process 7 on that driver state in a build
without `MMU_ENABLE`, which creates the client without using the ring. -/
def demo_found_uninit : gcerror × driver × Option Nat :=
  (find_client (demo_config false) demo_client_env demo_driver_uninit).getD find_client_zero

/-- Worked example: both copies between the caller and the kernel succeed. -/
def demo_copy_env : copy_env := { from_user := true, to_user := true }

/-- Worked example: the loop of `gc_commit` over two such sub-buffers for the
client at position 0 of the driver state `d`. -/
def demo_loop (d : driver) : gcerror × driver × List commit_event :=
  (commit_buffers demo_abi (demo_config true) (fun p => 4096 * p) demo_heap 0 cmdbuf_flushSize
    [demo_buffer, demo_buffer] d []).getD (.GCERR_MMU_CTXT_BAD, d, [])

/-- Worked example: two arena descriptors, A at the kernel address 3222274048
with the device address 3222278144, and B at the kernel address 3222278144
with the device address 4194304: the device address of A is, as a number, the
address of the descriptor B. -/
def demo_heap_alias : Nat → Option mmu2darena := fun h =>
  if h = 3222274048 then
    some { mmu2darena_zero with handle := 3222274048, mtlb := 768, stlb := 257, count := 1,
                                address := 3222278144, pages := some [71],
                                logical := 1073741824 }
  else if h = 3222278144 then
    some { mmu2darena_zero with handle := 3222278144, mtlb := 1, count := 1, address := 4194304,
                                pages := some [73], logical := 1073750016 }
  else none

/-- Worked example: a command stream whose word 2 holds the handle of A. -/
def demo_stream_alias : Nat → Nat := fun i => if i = 2 then 3222274048 else 1000 + i

/-- Worked example: one fixup whose table names the offset 2 twice. -/
def demo_fixups_twice : List gcfixup :=
  [{ readable := true, table_readable := true, count := 2, fixup := fun _ => 2 }]

/-- Worked example: `mmu2d_fixup` on that stream and table. -/
def demo_fixed_twice : gcerror × (Nat → Nat) × List flush_call :=
  (mmu2d_fixup demo_abi (demo_config true) (fun p => 4096 * p) demo_heap_alias demo_fixups_twice
    demo_stream_alias []).getD fixup_zero

/-! ## Notions of the remaining statements -/

/-- The adjacency test in the words of the specification: walking `count`
units from the start of `a1` lands exactly on the start of `a2`, in linear
slot positions `mtlb * MMU_STLB_ENTRY_NUM + stlb`. -/
def siblings_spec (k : Config) (a1 a2 : mmu2darena) : Bool :=
  decide (a1.mtlb * k.MMU_STLB_ENTRY_NUM + a1.stlb + a1.count
    = a2.mtlb * k.MMU_STLB_ENTRY_NUM + a2.stlb)

/-- Worked example: an arena that ends on the boundary of slave table 0. -/
def demo_sib_a : mmu2darena := { mmu2darena_zero with stlb := 1000, count := 24 }

/-- Worked example: an arena at slot `s` of master index `m`. -/
def demo_sib_b (m s : Nat) : mmu2darena := { mmu2darena_zero with mtlb := m, stlb := s, count := 5 }

/-- The device-visible base of the ring as `cmdbuf_flush` computes it: the
mapped address if the ring is mapped, else the physical address of its page. -/
def ring_base (cb : cmdbuf) : Nat := if cb.mapped then cb.mapped_physical else cb.page.physical

/-- The register writes of one enabling of the MMU, latest first: the four
writes with which `cmdbuf_flush` submits the ring that holds the safe-address
and master-table commands (start address `base`, prefetch `count`), then the
write of the enable bit to the MMU control register. -/
def enable_writes (k : Config) (base count : Nat) : List (Nat × Nat) :=
  [(k.GCREG_MMU_CONTROL_Address, k.GCREG_MMU_CONTROL_ENABLE),
   (k.AQ_CMD_BUFFER_CTRL_Address, k.AQ_CMD_BUFFER_CTRL_word count),
   (k.AQ_CMD_BUFFER_ADDR_Address, base),
   (k.AQ_INTR_ENBL_Address, 4294967295),
   (k.GC_RESET_MEM_COUNTERS_Address, 1)]

/-- The globals that a sequence of `mmu2d_create_context` and
`mmu2d_destroy_context` calls reaches from a start in which the MMU is not
enabled and no register has been written; every call that returns is a step,
whatever its error code and whatever context it is given. -/
inductive Lifetime (k : Config) : globals → Prop
  | boot (g : globals) : g.mmu.enabled = false → g.dev.writes = [] → Lifetime k g
  | create (env : create_env) (g g1 : globals) (e : gcerror) (ctxt : mmu2dcontext) :
      Lifetime k g → mmu2d_create_context k env g = .ret (e, g1, ctxt) → Lifetime k g1
  | destroy (g : globals) (ctxt : mmu2dcontext) (e : gcerror) (mmu1 : mmu2dprivate)
      (ctxt1 : mmu2dcontext) :
      Lifetime k g → mmu2d_destroy_context g.mmu ctxt = .ret (e, mmu1, ctxt1) →
      Lifetime k { g with mmu := mmu1 }

/-- Worked example: a second `mmu2d_create_context` after the first one. -/
def demo_created_again : gcerror × globals × mmu2dcontext :=
  (mmu2d_create_context (demo_config true) demo_create_env (demo_created true).2.1).getD
    (.GCERR_MMU_CTXT_BAD, demo_globals, mmu2dcontext_zero)

/-- Worked example: one more `mmu2d_map` of `n` pages on the state `s`, with a
kernel that places new slave tables from the physical address `base` on. -/
def demo_map_on (s : map_result) (base n : Nat) : map_result :=
  (mmu2d_map (demo_config true) (demo_map_env_at base) s.mmu s.ctxt (demo_mem n)).getD
    map_result_zero

/-- Worked example: five successful maps on a new context, of 30, 970, 48, 10
and 5 pages, which become the arenas (0, 0, 30), (0, 30, 970), (0, 1000, 48),
(1, 24, 10) and (1, 34, 5). -/
def demo_five : map_result :=
  demo_map_on (demo_map_on (demo_map_on (demo_mapped2 true 30 970) 8388608 48) 12582912 10)
    16777216 5

/-- The arena of `s` with the start (`m`, `st`), if it is allocated. -/
def arena_at (ctxt : mmu2dcontext) (m st : Nat) : mmu2darena :=
  (ctxt.allocated.find? (fun a => a.mtlb == m && a.stlb == st)).getD mmu2darena_zero

/-- A result of `mmu2d_unmap` used where the call does not return. -/
def unmap_zero : gcerror × mmu2dprivate × mmu2dcontext :=
  (.GCERR_MMU_CTXT_BAD, demo_globals.mmu, mmu2dcontext_zero)

/-- Worked example: after the five maps, `mmu2d_unmap` of the arena
(1, 24, 10). -/
def demo_five_u1 : gcerror × mmu2dprivate × mmu2dcontext :=
  (mmu2d_unmap (demo_config true) demo_five.mmu demo_five.ctxt
    (arena_at demo_five.ctxt 1 24).handle).getD unmap_zero

/-- Worked example: then `mmu2d_unmap` of the arena (0, 30, 970). -/
def demo_five_u2 : gcerror × mmu2dprivate × mmu2dcontext :=
  (mmu2d_unmap (demo_config true) demo_five_u1.2.1 demo_five_u1.2.2
    (arena_at demo_five_u1.2.2 0 30).handle).getD unmap_zero

/-- The order of the claim on arenas: by master index, then by slot index. -/
def addr_lt (a b : mmu2darena) : Prop :=
  a.mtlb < b.mtlb ∨ (a.mtlb = b.mtlb ∧ a.stlb < b.stlb)

instance (a b : mmu2darena) : Decidable (addr_lt a b) := by
  unfold addr_lt
  exact inferInstance

/-- A list of arenas in strictly increasing address order by (mtlb, stlb). -/
def address_ordered (l : List mmu2darena) : Prop := l.Pairwise addr_lt

instance (l : List mmu2darena) : Decidable (address_ordered l) := by
  unfold address_ordered
  exact inferInstance

/-- Number of slots of slave table `t` among the `c` units from the linear
position `L` on. -/
def span (k : Config) (L c t : Nat) : Nat :=
  min (L + c) (t * k.MMU_STLB_ENTRY_NUM + k.MMU_STLB_ENTRY_NUM)
    - max L (t * k.MMU_STLB_ENTRY_NUM)

/-- Slot `j` of slave table `t` is one of the `c` units from the linear
position `L` on. -/
def covers (k : Config) (L c t j : Nat) : Prop :=
  j < k.MMU_STLB_ENTRY_NUM ∧ L ≤ t * k.MMU_STLB_ENTRY_NUM + j ∧
    t * k.MMU_STLB_ENTRY_NUM + j < L + c

instance (k : Config) (L c t j : Nat) : Decidable (covers k L c t j) := by
  unfold covers
  exact inferInstance

/-- The entries `w` of slave table `t` with the covered slots set to the vacant
sentinel. -/
def cleared (k : Config) (L c t : Nat) (w : Nat → Nat) : Nat → Nat :=
  fun j => if covers k L c t j then k.MMU_STLB_ENTRY_VACANT else w j

/-- The table effect of the claim for master index `t`, for an arena of `c`
units at linear position `L`: `slave`, `master` are the slave array and the
master entries before, `slave1`, `master1`, `recs1` the slave array, the master
entries and the list of free slave records after. A table that the arena does
not span and its master entry are unchanged. A spanned table had at least as
many live entries as the arena covers in it; if exactly as many, the table is
freed (its record, with the pages released, is on the free list), the slave
slot is null and the master entry is the vacant sentinel; if more, the master
entry is unchanged and the table has the covered entries set to the vacant
sentinel, the other entries unchanged, and the count reduced by the number of
covered slots. -/
def table_effect (k : Config) (L c : Nat) (slave slave1 : Nat → Option mmu2dstlb)
    (master master1 : Nat → Nat) (recs1 : List mmu2dstlb) (t : Nat) : Prop :=
  (span k L c t = 0 → slave1 t = slave t ∧ master1 t = master t) ∧
  (0 < span k L c t → ∃ st, slave t = some st ∧ span k L c t ≤ st.count ∧
    (st.count = span k L c t →
      slave1 t = none ∧ master1 t = k.MMU_MTLB_ENTRY_VACANT ∧
      { pages := gc_free_pages { st.pages with words := cleared k L c t st.pages.words },
        count := 0 } ∈ recs1) ∧
    (st.count ≠ span k L c t →
      master1 t = master t ∧
      slave1 t = some { pages := { st.pages with words := cleared k L c t st.pages.words },
                        count := st.count - span k L c t }))

/-- The entries `w` of a slave table with the `av` slots from `s` on set to the
vacant sentinel, as one pass of the loop of `mmu2d_unmap` leaves them. -/
def clear_range (k : Config) (s av : Nat) (w : Nat → Nat) : Nat → Nat :=
  fun idx => if s ≤ idx ∧ idx < s + av then k.MMU_STLB_ENTRY_VACANT else w idx

/-- Number of entries of a slave table that differ from the vacant sentinel. -/
def live_entries (k : Config) (st : mmu2dstlb) : Nat :=
  ((List.range k.MMU_STLB_ENTRY_NUM).filter
    (fun j => decide (st.pages.words j ≠ k.MMU_STLB_ENTRY_VACANT))).length

/-- Number of units of the allocated arenas that fall in master index `t`. -/
def allocated_units (k : Config) (ctxt : mmu2dcontext) (t : Nat) : Nat :=
  (ctxt.allocated.map (fun a => span k (lin k a) a.count t)).sum

/-- The bookkeeping of the claim at master index `t`: the slave slot is
non-null exactly when the master entry is not the vacant sentinel; the master
entry then is the entry of that slave table, and the table's count is the
number of its live entries and the number of allocated units in `t`. -/
def bookkeeping_at (k : Config) (ctxt : mmu2dcontext) (t : Nat) : Prop :=
  ((slave_at ctxt t).isSome = true ↔ ctxt.master.words t ≠ k.MMU_MTLB_ENTRY_VACANT) ∧
  ∀ st, slave_at ctxt t = some st →
    ctxt.master.words t = mtlb_entry k st ∧ st.count = live_entries k st ∧
    st.count = allocated_units k ctxt t

/-- The bookkeeping of the claim at every master index. -/
def bookkeeping_ok (k : Config) (ctxt : mmu2dcontext) : Prop :=
  ∀ t, t < k.MMU_MTLB_ENTRY_NUM → bookkeeping_at k ctxt t

/-- The state in which `mmu2d_unmap` enters its part "Find point of insertion
for the arena" (gcmmu.c:948-953 are done): the loop over the tables ended with
GCERR_NONE, the arena is taken off the allocated list and its page array is
released, and it is on no list; the context and the arena. `none` when the call
ends before that point. From here to the first call of `mmu2d_siblings` the
code stores nothing, so this is also the state that a call ending in the null
read of `mmu2d_siblings` leaves behind. -/
def unmap_unlinked (k : Config) (ctxt : mmu2dcontext) (mapped : Nat) :
    Option (mmu2dcontext × mmu2darena) :=
  if ctxt.mmu = false then none
  else
    match walk_until (fun a => decide (a.handle = mapped)) ctxt.allocated with
    | (_, []) => none
    | (pre, allocated :: post) =>
      match unmap_loop k (allocated.count + 1) allocated.mtlb allocated.stlb allocated.count
          ctxt with
      | .fault => none
      | .diverge => none
      | .ret (e, ctxt1) =>
        if e ≠ .GCERR_NONE then none
        else some ({ ctxt1 with allocated := pre ++ post }, release_physical_pages allocated)

/-- Worked example: the state in which the `mmu2d_unmap` of the arena of 1024
pages, mapped on the new context, enters its insertion step. -/
def demo_unlinked (en : Bool) : mmu2dcontext × mmu2darena :=
  (unmap_unlinked (demo_config en) (demo_mapped en 1024).ctxt
    (demo_arena en 1024).handle).getD (mmu2dcontext_zero, mmu2darena_zero)
/-! ## Arithmetic of the slot walk -/

theorem u32_add_eq (a b : Nat) (h : a + b < 4294967296) : u32_add a b = a + b := by
  unfold u32_add; omega

theorem u32_sub_eq (a b : Nat) (h : b ≤ a) (ha : a < 4294967296) : u32_sub a b = a - b := by
  unfold u32_sub; omega

theorem u32_sub_self (a : Nat) : u32_sub a a = 0 := by
  unfold u32_sub; omega

theorem div_mod_unique (N m s L : Nat) (hs : s < N) (h : L = m * N + s) :
    L / N = m ∧ L % N = s := by
  subst h
  have hN : 0 < N := by omega
  constructor
  · rw [Nat.add_comm, Nat.add_mul_div_right _ _ hN, Nat.div_eq_of_lt hs]; simp
  · rw [Nat.add_comm, Nat.add_mul_mod_self_right, Nat.mod_eq_of_lt hs]

/-- The walk of `mmu2d_siblings` from a slot inside a table advances the linear
position by `count`. -/
theorem siblings_walk_eq (k : Config) (fuel : Nat) :
    ∀ (m s c : Nat), c ≤ fuel → s < k.MMU_STLB_ENTRY_NUM →
      m * k.MMU_STLB_ENTRY_NUM + s + c < 4294967296 → k.MMU_STLB_ENTRY_NUM < 4294967296 →
      siblings_walk k fuel m s c =
        some ((m * k.MMU_STLB_ENTRY_NUM + s + c) / k.MMU_STLB_ENTRY_NUM,
              (m * k.MMU_STLB_ENTRY_NUM + s + c) % k.MMU_STLB_ENTRY_NUM) := by
  induction fuel with
  | zero =>
    intro m s c hc hs _ _
    have hc0 : c = 0 := by omega
    subst hc0
    have := div_mod_unique k.MMU_STLB_ENTRY_NUM m s _ hs rfl
    unfold siblings_walk
    simp [this.1, this.2]
  | succ fuel ih =>
    intro m s c hc hs hb hN
    unfold siblings_walk
    by_cases hc0 : c = 0
    · subst hc0
      have := div_mod_unique k.MMU_STLB_ENTRY_NUM m s _ hs rfl
      simp [this.1, this.2]
    · simp only [hc0, if_false]
      have hsub : u32_sub k.MMU_STLB_ENTRY_NUM s = k.MMU_STLB_ENTRY_NUM - s :=
        u32_sub_eq _ _ (by omega) hN
      rw [hsub]
      by_cases hav : k.MMU_STLB_ENTRY_NUM - s > c
      · simp only [hav, if_true]
        have h1 : u32_add s c = s + c := u32_add_eq _ _ (by omega)
        rw [h1, u32_sub_self]
        rw [ih m (s + c) 0 (by omega) (by omega) (by omega) hN]
        simp [Nat.add_assoc]
      · simp only [hav, if_false]
        have hmul : (m + 1) * k.MMU_STLB_ENTRY_NUM
            = m * k.MMU_STLB_ENTRY_NUM + k.MMU_STLB_ENTRY_NUM := Nat.succ_mul _ _
        have hm1 : m + 1 < 4294967296 := by
          by_contra hcon
          have : 4294967296 * 1 ≤ (m + 1) * k.MMU_STLB_ENTRY_NUM :=
            Nat.mul_le_mul (by omega) (by omega)
          omega
        have h1 : u32_add m 1 = m + 1 := u32_add_eq _ _ (by omega)
        have h2 : u32_sub c (k.MMU_STLB_ENTRY_NUM - s) = c - (k.MMU_STLB_ENTRY_NUM - s) :=
          u32_sub_eq _ _ (by omega) (by omega)
        rw [h1, h2, ih (m + 1) 0 _ (by omega) (by omega) (by rw [hmul]; omega) hN]
        have : (m + 1) * k.MMU_STLB_ENTRY_NUM + 0 + (c - (k.MMU_STLB_ENTRY_NUM - s))
            = m * k.MMU_STLB_ENTRY_NUM + s + c := by rw [hmul]; omega
        rw [this]

/-- On well formed arenas `mmu2d_siblings` returns and tests linear adjacency. -/
theorem siblings_eq (k : Config) (hk : k.sane) (a1 a2 : mmu2darena)
    (h1 : arena_ok k a1) (h2 : a2.stlb < k.MMU_STLB_ENTRY_NUM) :
    mmu2d_siblings k a1 (some a2) = .ret (decide (lin k a1 + a1.count = lin k a2)) := by
  obtain ⟨hN, hM, hT⟩ := hk
  obtain ⟨hs, hc, hr⟩ := h1
  have hNT : k.MMU_STLB_ENTRY_NUM ≤ total k := by
    unfold total; exact Nat.le_mul_of_pos_left _ hM
  unfold mmu2d_siblings
  unfold lin at hr ⊢
  rw [siblings_walk_eq k _ _ _ _ (by omega) hs (by omega) (by omega)]
  simp only
  congr 1
  by_cases heq : a1.mtlb * k.MMU_STLB_ENTRY_NUM + a1.stlb + a1.count
      = a2.mtlb * k.MMU_STLB_ENTRY_NUM + a2.stlb
  · have := div_mod_unique k.MMU_STLB_ENTRY_NUM a2.mtlb a2.stlb _ h2 heq
    rw [this.1, this.2]
    simp [heq]
  · simp only [heq, decide_False, Bool.and_eq_false_imp, beq_iff_eq]
    intro hd
    rw [beq_eq_false_iff_ne]
    intro hmod
    apply heq
    have := Nat.div_add_mod (a1.mtlb * k.MMU_STLB_ENTRY_NUM + a1.stlb + a1.count)
      k.MMU_STLB_ENTRY_NUM
    rw [hd, hmod, Nat.mul_comm] at this
    exact this.symm

/-! ## Lists are left alone by the table code -/

theorem same_lists_refl (c : mmu2dcontext) : same_lists c c := ⟨rfl, rfl, rfl⟩

theorem same_lists_trans {c1 c2 c3 : mmu2dcontext} (h1 : same_lists c1 c2)
    (h2 : same_lists c2 c3) : same_lists c1 c3 :=
  ⟨h1.1.trans h2.1, h1.2.1.trans h2.2.1, h1.2.2.trans h2.2.2⟩

theorem allocate_slave_lists (k : Config) (env : slave_env) (ctxt ctxt1 : mmu2dcontext)
    (e : gcerror) (st : Option mmu2dstlb)
    (h : mmu2d_allocate_slave k env ctxt = .ret (e, ctxt1, st)) : same_lists ctxt1 ctxt := by
  unfold mmu2d_allocate_slave at h
  split at h
  · cases h; exact same_lists_refl _
  · simp only at h
    split at h
    · cases h
    · split at h
      · cases h
        split <;> exact ⟨rfl, rfl, rfl⟩
      · cases h
        split <;> exact ⟨rfl, rfl, rfl⟩

theorem map_touch_lists (k : Config) (env : slave_env) (ms i : Nat) (ctxt ctxt1 : mmu2dcontext)
    (e : gcerror) (h : map_touch k env ms i ctxt = .ret (e, ctxt1)) : same_lists ctxt1 ctxt := by
  unfold map_touch at h
  split at h
  · split at h
    · cases h
    · cases h
    · rename_i e1 c1 st hal
      have hl := allocate_slave_lists k env ctxt c1 e1 st hal
      split at h
      · cases h; exact hl
      · split at h
        · cases h; exact hl
        · cases h
  · cases h; exact same_lists_refl _

theorem map_fill_lists (k : Config) (i s av : Nat) (parray : List Nat)
    (ctxt ctxt1 : mmu2dcontext) (h : map_fill k i s av parray ctxt = .ret ctxt1) :
    same_lists ctxt1 ctxt := by
  unfold map_fill at h
  split at h
  · cases h
  · split at h
    · cases h
    · cases h; exact ⟨rfl, rfl, rfl⟩


/-- The first `#if MMU_ENABLE` step of the loop body of `mmu2d_map`. -/
theorem map_touch_step_lists (k : Config) (env : slave_env) (ms i : Nat)
    (ctxt ctxt1 : mmu2dcontext) (e : gcerror)
    (h : (if k.MMU_ENABLE then map_touch k env ms i ctxt else .ret (.GCERR_NONE, ctxt))
          = Run.ret (e, ctxt1)) : same_lists ctxt1 ctxt := by
  split at h
  · exact map_touch_lists k env ms i ctxt ctxt1 e h
  · cases h; exact same_lists_refl _

theorem map_fill_step_lists (k : Config) (i s av : Nat) (parray : List Nat)
    (ctxt ctxt1 : mmu2dcontext)
    (h : (if k.MMU_ENABLE then map_fill k i s av parray ctxt else .ret ctxt) = Run.ret ctxt1) :
    same_lists ctxt1 ctxt := by
  split at h
  · exact map_fill_lists k i s av parray ctxt ctxt1 h
  · cases h; exact same_lists_refl _

/-- The loop of `mmu2d_map` leaves the arena lists alone and, when it ends
without error, ends `count` units after its start. -/
theorem map_loop_spec (k : Config) (senv : Nat → slave_env) (ms : Nat) (fuel : Nat) :
    ∀ (i m s c : Nat) (parray : List Nat) (ctxt ctxt1 : mmu2dcontext) (e : gcerror)
      (mi si : Nat),
      map_loop k senv ms fuel i m s c parray ctxt = .ret (e, ctxt1, mi, si) →
      c ≤ fuel → s < k.MMU_STLB_ENTRY_NUM →
      m * k.MMU_STLB_ENTRY_NUM + s + c < 4294967296 → k.MMU_STLB_ENTRY_NUM < 4294967296 →
      same_lists ctxt1 ctxt ∧
      (e = .GCERR_NONE →
        mi * k.MMU_STLB_ENTRY_NUM + si = m * k.MMU_STLB_ENTRY_NUM + s + c ∧
        si < k.MMU_STLB_ENTRY_NUM) := by
  induction fuel with
  | zero =>
    intro i m s c parray ctxt ctxt1 e mi si h hc hs _ _
    have hc0 : c = 0 := by omega
    subst hc0
    unfold map_loop at h
    simp only [if_true] at h
    cases h
    exact ⟨same_lists_refl _, fun _ => ⟨rfl, hs⟩⟩
  | succ fuel ih =>
    intro i m s c parray ctxt ctxt1 e mi si h hc hs hb hN
    unfold map_loop at h
    by_cases hc0 : c = 0
    · subst hc0
      simp only [if_true] at h
      cases h
      exact ⟨same_lists_refl _, fun _ => ⟨rfl, hs⟩⟩
    · simp only [hc0, if_false] at h
      have hsub : u32_sub k.MMU_STLB_ENTRY_NUM s = k.MMU_STLB_ENTRY_NUM - s :=
        u32_sub_eq _ _ (by omega) hN
      rw [hsub] at h
      split at h
      · cases h
      · cases h
      · rename_i e1 c1 ht
        have hl1 := map_touch_step_lists k _ ms i ctxt c1 e1 ht
        split at h
        · cases h
          exact ⟨hl1, fun he => absurd he (by assumption)⟩
        · split at h
          · rename_i hav
            split at h
            · cases h
            · cases h
            · rename_i c2 hf
              have hl2 := map_fill_step_lists k _ _ _ _ c1 c2 hf
              have h1 : u32_add s c = s + c := u32_add_eq _ _ (by omega)
              rw [h1, u32_sub_self] at h
              have := ih _ _ _ _ _ _ _ _ _ _ h (by omega) (by omega) (by omega) hN
              refine ⟨same_lists_trans this.1 (same_lists_trans hl2 hl1), fun he => ?_⟩
              have := this.2 he
              omega
          · rename_i hav
            split at h
            · cases h
            · cases h
            · rename_i c2 hf
              have hl2 := map_fill_step_lists k _ _ _ _ c1 c2 hf
              have hmul : (m + 1) * k.MMU_STLB_ENTRY_NUM
                  = m * k.MMU_STLB_ENTRY_NUM + k.MMU_STLB_ENTRY_NUM := Nat.succ_mul _ _
              have hm1 : m + 1 < 4294967296 := by
                by_contra hcon
                have : 4294967296 * 1 ≤ (m + 1) * k.MMU_STLB_ENTRY_NUM :=
                  Nat.mul_le_mul (by omega) (by omega)
                omega
              have h1 : u32_add m 1 = m + 1 := u32_add_eq _ _ (by omega)
              have h2 : u32_sub c (k.MMU_STLB_ENTRY_NUM - s) = c - (k.MMU_STLB_ENTRY_NUM - s) :=
                u32_sub_eq _ _ (by omega) (by omega)
              rw [h1, h2] at h
              have := ih _ _ _ _ _ _ _ _ _ _ h (by omega) (by omega) (by rw [hmul]; omega) hN
              refine ⟨same_lists_trans this.1 (same_lists_trans hl2 hl1), fun he => ?_⟩
              have := this.2 he
              rw [hmul] at this
              omega


theorem walk_until_append (p : mmu2darena → Bool) (l : List mmu2darena) :
    (walk_until p l).1 ++ (walk_until p l).2 = l := by
  induction l with
  | nil => simp [walk_until]
  | cons x rest ih =>
    unfold walk_until
    split
    · simp
    · simp [ih]

theorem walk_until_passed (p : mmu2darena → Bool) (l : List mmu2darena) :
    ∀ x ∈ (walk_until p l).1, p x = false := by
  induction l with
  | nil => simp [walk_until]
  | cons x rest ih =>
    unfold walk_until
    split
    · simp
    · rename_i hx
      intro y hy
      simp only [List.mem_cons] at hy
      rcases hy with rfl | hy
      · simpa using hx
      · exact ih y hy

theorem walk_until_stop (p : mmu2darena → Bool) (l : List mmu2darena) (v : mmu2darena)
    (post : List mmu2darena) (h : (walk_until p l).2 = v :: post) : p v = true := by
  induction l with
  | nil => simp [walk_until] at h
  | cons x rest ih =>
    unfold walk_until at h
    split at h
    · rename_i hx
      simp only [List.cons.injEq] at h
      rw [← h.1]; exact hx
    · exact ih h

theorem siblings_none (k : Config) (a1 : mmu2darena) (b : Bool) :
    mmu2d_siblings k a1 none ≠ .ret b := by
  unfold mmu2d_siblings
  split <;> simp

theorem cover_count_append (k : Config) (u : Nat) (l1 l2 : List mmu2darena) :
    cover_count k u (l1 ++ l2) = cover_count k u l1 + cover_count k u l2 := by
  induction l1 with
  | nil => simp [cover_count]
  | cons a l ih => simp [cover_count, ih]; omega

theorem unmap_clear_lists (k : Config) (m s av : Nat) (ctxt ctxt1 : mmu2dcontext) (e : gcerror)
    (h : unmap_clear k m s av ctxt = .ret (e, ctxt1)) : same_lists ctxt1 ctxt := by
  unfold unmap_clear at h
  split at h
  · cases h; exact same_lists_refl _
  · split at h
    · cases h
    · split at h
      · cases h; exact same_lists_refl _
      · split at h
        · cases h; exact same_lists_refl _
        · simp only at h
          split at h
          · cases h; exact ⟨rfl, rfl, rfl⟩
          · cases h; exact ⟨rfl, rfl, rfl⟩

theorem unmap_loop_lists (k : Config) (fuel : Nat) :
    ∀ (m s c : Nat) (ctxt ctxt1 : mmu2dcontext) (e : gcerror),
      unmap_loop k fuel m s c ctxt = .ret (e, ctxt1) → same_lists ctxt1 ctxt := by
  induction fuel with
  | zero =>
    intro m s c ctxt ctxt1 e h
    unfold unmap_loop at h
    split at h
    · cases h; exact same_lists_refl _
    · cases h
  | succ fuel ih =>
    intro m s c ctxt ctxt1 e h
    unfold unmap_loop at h
    split at h
    · cases h; exact same_lists_refl _
    · simp only at h
      split at h
      · split at h
        · cases h
        · cases h
        · rename_i e1 c1 hcl
          have hl := unmap_clear_lists k _ _ _ _ _ _ hcl
          split at h
          · cases h; exact hl
          · exact same_lists_trans (ih _ _ _ _ _ _ h) hl
      · split at h
        · cases h
        · cases h
        · rename_i e1 c1 hcl
          have hl := unmap_clear_lists k _ _ _ _ _ _ hcl
          split at h
          · cases h; exact hl
          · exact same_lists_trans (ih _ _ _ _ _ _ h) hl

/-! ## The exact cover is kept -/

theorem getLast_snoc (l : List mmu2darena) (a : mmu2darena) :
    (l ++ [a]).getLast? = some a := by simp

theorem dropLast_snoc (l : List mmu2darena) (a : mmu2darena) :
    (l ++ [a]).dropLast = l := by simp

theorem total_bound (k : Config) (hk : k.sane) : k.MMU_STLB_ENTRY_NUM ≤ total k := by
  unfold total; exact Nat.le_mul_of_pos_left _ hk.2.1

/-- The insertion and merge step of `mmu2d_unmap` keeps the exact cover: the
freed arena `a` and the vacant list cover, after the step, what they covered
before. -/
theorem unmap_insert_cover (k : Config) (hk : k.sane) (mmu mmu1 : mmu2dprivate)
    (ctxt ctxt1 : mmu2dcontext) (a : mmu2darena) (other : List mmu2darena) (e : gcerror)
    (hc : ExactCover k (a :: (ctxt.vacant ++ other)))
    (h : unmap_insert k mmu ctxt a = .ret (e, mmu1, ctxt1)) :
    e = .GCERR_NONE ∧ ctxt1.allocated = ctxt.allocated ∧ ctxt1.mmu = ctxt.mmu ∧
      ExactCover k (ctxt1.vacant ++ other) := by
  have hT := hk.2.2
  have hNT := total_bound k hk
  unfold unmap_insert at h
  have happ := walk_until_append (insert_stop a) ctxt.vacant
  generalize walk_until (insert_stop a) ctxt.vacant = w at h happ
  obtain ⟨pre, rest⟩ := w
  simp only at h happ
  obtain ⟨hok, hcnt⟩ := hc
  have hoka : arena_ok k a := hok a (by simp)
  rw [← happ] at hok hcnt
  rcases List.eq_nil_or_concat pre with hpre | ⟨pd, prev, hpre⟩
  · subst hpre
    simp only [List.getLast?_nil, List.nil_append] at h hok hcnt happ
    cases rest with
    | nil =>
      simp only at h
      cases h
      refine ⟨rfl, rfl, rfl, ?_⟩
      rw [← happ]
      exact ⟨by simpa using hok, by simpa using hcnt⟩
    | cons v post =>
      simp only at h
      have hokv : arena_ok k v := hok v (by simp)
      rw [siblings_eq k hk a v hoka hokv.1] at h
      by_cases hadj : lin k a + a.count = lin k v
      · simp only [hadj, decide_True] at h
        cases h
        refine ⟨rfl, rfl, rfl, ?_⟩
        simp only
        have hb : u32_add v.count a.count = v.count + a.count :=
          u32_add_eq _ _ (by unfold arena_ok at hoka hokv; omega)
        rw [hb]
        constructor
        · intro x hx
          by_cases hxm : x = { v with mtlb := a.mtlb, stlb := a.stlb, count := v.count + a.count }
          · subst hxm
            unfold arena_ok lin at *
            simp only
            omega
          · apply hok
            simp only [List.mem_append, List.mem_cons] at hx ⊢
            tauto
        · intro u hu
          have := hcnt u hu
          simp only [List.cons_append, cover_count, cover_count_append, lin] at this ⊢
          unfold arena_ok lin at hoka hokv
          unfold lin at hadj
          split_ifs at this ⊢ <;> omega
      · simp only [hadj, decide_False] at h
        cases h
        refine ⟨rfl, rfl, rfl, ?_⟩
        rw [← happ]
        exact ⟨by simpa using hok, by simpa using hcnt⟩
  · rw [List.concat_eq_append] at hpre
    subst hpre
    simp only [getLast_snoc, dropLast_snoc] at h
    have hokp : arena_ok k prev := hok prev (by simp)
    rw [siblings_eq k hk prev a hokp hoka.1] at h
    cases rest with
    | nil =>
      simp only [List.head?_nil] at h
      have hnone := siblings_none k a
      generalize mmu2d_siblings k a none = r at h hnone
      cases r with
      | ret b => exact absurd rfl (hnone b)
      | fault => by_cases hadj1 : lin k prev + prev.count = lin k a <;> simp [hadj1] at h
      | diverge => by_cases hadj1 : lin k prev + prev.count = lin k a <;> simp [hadj1] at h
    | cons v post =>
      have hokv : arena_ok k v := hok v (by simp)
      simp only [List.head?_cons] at h
      rw [siblings_eq k hk a v hoka hokv.1] at h
      by_cases hadj1 : lin k prev + prev.count = lin k a <;>
      by_cases hadj2 : lin k a + a.count = lin k v <;>
      simp only [hadj1, hadj2, decide_True, decide_False] at h <;>
      cases h <;> refine ⟨rfl, rfl, rfl, ?_⟩
      · simp only []
        have hb1 : u32_add prev.count a.count = prev.count + a.count :=
          u32_add_eq _ _ (by unfold arena_ok at hoka hokv hokp; omega)
        have hb2 : u32_add (prev.count + a.count) v.count = prev.count + a.count + v.count :=
          u32_add_eq _ _ (by unfold arena_ok at hoka hokv hokp; omega)
        rw [hb1, hb2]
        constructor
        · intro x hx
          by_cases hxm : x = { prev with count := prev.count + a.count + v.count }
          · subst hxm
            unfold arena_ok lin at *
            simp only
            omega
          · apply hok
            simp only [List.mem_append, List.mem_cons, List.mem_singleton] at hx ⊢
            tauto
        · intro u hu
          have := hcnt u hu
          simp only [List.cons_append, cover_count, cover_count_append, lin,
            List.append_assoc, List.nil_append] at this ⊢
          unfold arena_ok lin at hoka hokv hokp
          unfold lin at hadj1 hadj2
          split_ifs at this ⊢ <;> omega
      · simp only []
        have hb1 : u32_add prev.count a.count = prev.count + a.count :=
          u32_add_eq _ _ (by unfold arena_ok at hoka hokv hokp; omega)
        rw [hb1]
        constructor
        · intro x hx
          by_cases hxm : x = { prev with count := prev.count + a.count }
          · subst hxm
            unfold arena_ok lin at *
            simp only
            omega
          · apply hok
            simp only [List.mem_append, List.mem_cons, List.mem_singleton] at hx ⊢
            tauto
        · intro u hu
          have := hcnt u hu
          simp only [List.cons_append, cover_count, cover_count_append, lin,
            List.append_assoc, List.nil_append] at this ⊢
          unfold arena_ok lin at hoka hokv hokp
          unfold lin at hadj1
          split_ifs at this ⊢ <;> omega
      · simp only
        have hb : u32_add v.count a.count = v.count + a.count :=
          u32_add_eq _ _ (by unfold arena_ok at hoka hokv; omega)
        rw [hb]
        constructor
        · intro x hx
          by_cases hxm : x = { v with mtlb := a.mtlb, stlb := a.stlb, count := v.count + a.count }
          · subst hxm
            unfold arena_ok lin at *
            simp only
            omega
          · apply hok
            simp only [List.mem_append, List.mem_cons, List.mem_singleton] at hx ⊢
            tauto
        · intro u hu
          have := hcnt u hu
          simp only [List.cons_append, cover_count, cover_count_append, lin,
            List.append_assoc, List.nil_append] at this ⊢
          unfold arena_ok lin at hoka hokv
          unfold lin at hadj2
          split_ifs at this ⊢ <;> omega
      · simp only
        constructor
        · intro x hx
          apply hok
          simp only [List.mem_append, List.mem_cons, List.mem_singleton] at hx ⊢
          tauto
        · intro u hu
          have := hcnt u hu
          simp only [List.cons_append, cover_count, cover_count_append, lin,
            List.append_assoc, List.nil_append] at this ⊢
          omega


theorem get_physical_pages_arena (env : pin_env) (mem : mmu2dphysmem) (a : mmu2darena) :
    same_arena (get_physical_pages env mem a).2.2 a := by
  unfold get_physical_pages
  simp only
  split
  · exact ⟨rfl, rfl, rfl, rfl⟩
  · split
    · exact ⟨rfl, rfl, rfl, rfl⟩
    · split
      · exact ⟨rfl, rfl, rfl, rfl⟩
      · split
        · exact ⟨rfl, rfl, rfl, rfl⟩
        · split
          · split <;> exact ⟨rfl, rfl, rfl, rfl⟩
          · exact ⟨rfl, rfl, rfl, rfl⟩

theorem triple_of_same {a b : mmu2darena} (h : same_arena a b) : triple a = triple b := by
  unfold triple; rw [h.2.1, h.2.2.1, h.2.2.2]

theorem get_arena_some (k : Config) (km : Option Nat) (mmu mmu1 : mmu2dprivate)
    (a : Option mmu2darena)
    (h : mmu2d_get_arena k km mmu = .ret (.GCERR_NONE, mmu1, a)) : ∃ s, a = some s := by
  unfold mmu2d_get_arena at h
  split at h
  · cases h; exact ⟨_, rfl⟩
  · split at h
    · cases h
    · split at h
      · cases h
      · cases h; exact ⟨_, rfl⟩

/-- What the table and claim part of `mmu2d_map` does to the lists. -/
theorem map_claim_cases (k : Config) (env : map_env) (mmu : mmu2dprivate)
    (ctxt : mmu2dcontext) (mem : mmu2dphysmem) (pre : List mmu2darena) (v : mmu2darena)
    (post : List mmu2darena) (parray : List Nat) (pa : Bool) (r : map_result)
    (h : map_claim k env mmu ctxt mem pre v post parray pa = .ret r)
    (hv : v.stlb < k.MMU_STLB_ENTRY_NUM) (hb : lin k v + v.count < 4294967296)
    (hN : k.MMU_STLB_ENTRY_NUM < 4294967296) (hle : mem.count ≤ v.count) :
    r.ctxt.mmu = ctxt.mmu ∧
    ((r.gcerror ≠ .GCERR_NONE ∧ r.mapped = none ∧
        r.ctxt.vacant.map triple = (pre ++ v :: post).map triple ∧
        r.ctxt.allocated = ctxt.allocated) ∨
     (r.gcerror = .GCERR_NONE ∧
        r.mapped = some { v with count := mem.count, address := map_address k v mem parray } ∧
        r.ctxt.allocated
          = { v with count := mem.count, address := map_address k v mem parray }
              :: ctxt.allocated ∧
        ((v.count = mem.count ∧ r.ctxt.vacant = pre ++ post ∧ r.mmu = mmu) ∨
         (v.count ≠ mem.count ∧ ∃ split0 mi si,
            mmu2d_get_arena k env.arena_block mmu = .ret (.GCERR_NONE, r.mmu, some split0) ∧
            mi * k.MMU_STLB_ENTRY_NUM + si = lin k v + mem.count ∧
            si < k.MMU_STLB_ENTRY_NUM ∧
            r.ctxt.vacant = pre ++ { split0 with mtlb := mi, stlb := si,
                                                 count := v.count - mem.count } :: post)))) := by
  unfold map_claim at h
  split at h
  · cases h
  · cases h
  · rename_i e1 c1 mi si hloop
    have hspec := map_loop_spec k env.slave v.mtlb (mem.count + 1) 0 v.mtlb v.stlb mem.count
      parray ctxt c1 e1 mi si hloop (by omega) hv (by unfold lin at hb; omega) hN
    obtain ⟨⟨hl1, hl2, hl3⟩, hend⟩ := hspec
    split at h
    · cases h
      refine ⟨hl3, Or.inl ⟨by assumption, rfl, ?_, hl2⟩⟩
      unfold map_fail
      simp only [List.map_append, List.map_cons]
      split <;> rfl
    · rename_i he1
      have he1 : e1 = .GCERR_NONE := by simpa using he1
      have hend := hend he1
      simp only at h
      split at h
      · rename_i hne
        split at h
        · cases h
        · cases h
        · rename_i e2 mmu1 sp hga
          split at h
          · cases h
            refine ⟨hl3, Or.inl ⟨by assumption, rfl, ?_, hl2⟩⟩
            unfold map_fail
            simp only [List.map_append, List.map_cons]
            split <;> rfl
          · rename_i he2
            have he2 : e2 = .GCERR_NONE := by simpa using he2
            subst he2
            split at h
            · cases h
            · rename_i split0
              cases h
              refine ⟨hl3, Or.inr ⟨rfl, rfl, ?_, Or.inr ⟨by simpa using hne, split0, mi, si, hga, ?_, hend.2, ?_⟩⟩⟩
              · simp only [hl2]
              · unfold lin; exact hend.1
              · simp only
                rw [u32_sub_eq _ _ hle (by omega)]
      · rename_i heq
        have heq : v.count = mem.count := by simpa using heq
        cases h
        refine ⟨hl3, Or.inr ⟨rfl, ?_, ?_, Or.inl ⟨heq, rfl, rfl⟩⟩⟩
        · simp only [← heq]
        · simp only [hl2, ← heq]


theorem map_cases (k : Config) (env : map_env) (mmu : mmu2dprivate) (ctxt : mmu2dcontext)
    (mem : mmu2dphysmem) (r : map_result)
    (h : mmu2d_map k env mmu ctxt mem = .ret r)
    (hwf : ∀ v ∈ ctxt.vacant, v.stlb < k.MMU_STLB_ENTRY_NUM ∧ lin k v + v.count < 4294967296)
    (hN : k.MMU_STLB_ENTRY_NUM < 4294967296) :
    r.ctxt.mmu = ctxt.mmu ∧ map_outcome k env mmu ctxt mem r := by
  unfold mmu2d_map at h
  split at h
  · cases h; exact ⟨rfl, Or.inl ⟨by simp, rfl, rfl, rfl⟩⟩
  · rename_i hmmu
    split at h
    · cases h; exact ⟨rfl, Or.inl ⟨by simp, rfl, rfl, rfl⟩⟩
    · rename_i harg
      have happ := walk_until_append (fun v => decide (v.count ≥ mem.count)) ctxt.vacant
      have hpass := walk_until_passed (fun v => decide (v.count ≥ mem.count)) ctxt.vacant
      have hstop := walk_until_stop (fun v => decide (v.count ≥ mem.count)) ctxt.vacant
      generalize walk_until (fun v => decide (v.count ≥ mem.count)) ctxt.vacant = w
        at h happ hpass hstop
      obtain ⟨pre, rest⟩ := w
      simp only at happ hpass hstop
      have hpc : 0 < mem.count := by omega
      cases rest with
      | nil => simp only at h; cases h; exact ⟨rfl, Or.inl ⟨by simp, rfl, rfl, rfl⟩⟩
      | cons v post =>
        simp only at h
        have hge : mem.count ≤ v.count := by simpa using hstop v post rfl
        have hvw := hwf v (by rw [← happ]; simp)
        have hpre : ∀ x ∈ pre, x.count < mem.count := by
          intro x hx; simpa using hpass x hx
        have key : ∀ (v1 : mmu2darena) (parray : List Nat) (pa : Bool), same_arena v1 v →
            map_claim k env mmu ctxt mem pre v1 post parray pa = .ret r →
            r.ctxt.mmu = ctxt.mmu ∧ map_outcome k env mmu ctxt mem r := by
          intro v1 parray pa hsame hcl
          obtain ⟨hh, hm, hs, hcnt⟩ := hsame
          have hlin : lin k v1 = lin k v := by unfold lin; rw [hm, hs]
          have hc := map_claim_cases k env mmu ctxt mem pre v1 post parray pa r hcl
            (by rw [hs]; exact hvw.1) (by rw [hlin, hcnt]; exact hvw.2) hN (by rw [hcnt]; exact hge)
          refine ⟨hc.1, ?_⟩
          rcases hc.2 with ⟨he, hmp, hvac, hal⟩ | ⟨he, hmp, hal, hrest⟩
          · left
            refine ⟨he, hmp, ?_, hal⟩
            rw [hvac, ← happ]
            simp only [List.map_append, List.map_cons]
            rw [triple_of_same ⟨hh, hm, hs, hcnt⟩]
          · right
            refine ⟨he, by simpa using hmmu, hpc, pre, v, post, _, parray, happ.symm, hpre, hge,
              hmp, hh, hm, hs, rfl, ?_, hal, ?_⟩
            · simp only [map_address, hm, hs]
            · rw [hcnt, hlin] at hrest
              exact hrest
        cases hpg : mem.pages with
        | none =>
          simp only [hpg] at h
          split at h
          · cases h
            refine ⟨rfl, Or.inl ⟨by simp [map_fail], rfl, ?_, rfl⟩⟩
            simp only [map_fail, Bool.false_eq_true, if_false]
            rw [← happ]
            simp [triple]
          · split at h
            · cases h
              refine ⟨rfl, Or.inl ⟨by simpa [map_fail] using (by assumption), rfl, ?_, rfl⟩⟩
              simp only [map_fail, if_true]
              rw [← happ]
              have := get_physical_pages_arena env.pin mem { v with pages := none }
              simp only [List.map_append, List.map_cons]
              congr 2
              unfold release_physical_pages triple
              simp only [this.2.1, this.2.2.1, this.2.2.2]
            · refine key _ _ _ ?_ h
              have := get_physical_pages_arena env.pin mem { v with pages := none }
              exact this
        | some pages =>
          simp only [hpg] at h
          exact key { v with pages := none } _ _ ⟨rfl, rfl, rfl, rfl⟩ h


theorem cover_of_triples (k : Config) (l1 : List mmu2darena) :
    ∀ l2 : List mmu2darena, l1.map triple = l2.map triple →
      (∀ u, cover_count k u l1 = cover_count k u l2) ∧
      ((∀ a ∈ l1, arena_ok k a) → ∀ a ∈ l2, arena_ok k a) := by
  induction l1 with
  | nil =>
    intro l2 h
    cases l2 with
    | nil => exact ⟨fun _ => rfl, fun h => h⟩
    | cons b l2 => simp at h
  | cons a l1 ih =>
    intro l2 h
    cases l2 with
    | nil => simp at h
    | cons b l2 =>
      simp only [List.map_cons, List.cons.injEq] at h
      obtain ⟨hab, hl⟩ := h
      have ih := ih l2 hl
      unfold triple at hab
      simp only [Prod.mk.injEq] at hab
      obtain ⟨hm, hs, hc⟩ := hab
      constructor
      · intro u
        simp only [cover_count, lin, hm, hs, hc, ih.1 u]
      · intro hall x hx
        simp only [List.mem_cons] at hx
        rcases hx with rfl | hx
        · have := hall a (by simp)
          unfold arena_ok lin at *
          rw [← hm, ← hs, ← hc]; exact this
        · exact ih.2 (fun y hy => hall y (by simp [hy])) x hx

theorem ExactCover_of_triples (k : Config) (l1 l2 : List mmu2darena)
    (h : l1.map triple = l2.map triple) (hc : ExactCover k l1) : ExactCover k l2 := by
  have := cover_of_triples k l1 l2 h
  exact ⟨this.2 hc.1, fun u hu => by rw [← this.1 u]; exact hc.2 u hu⟩

theorem ExactCover_bounds (k : Config) (hk : k.sane) (l : List mmu2darena)
    (hc : ExactCover k l) :
    ∀ v ∈ l, v.stlb < k.MMU_STLB_ENTRY_NUM ∧ lin k v + v.count < 4294967296 := by
  intro v hv
  have := hc.1 v hv
  have hT := hk.2.2
  unfold arena_ok at this
  exact ⟨this.1, by omega⟩

/-- A returning `mmu2d_map` keeps the exact cover. -/
theorem map_cover (k : Config) (hk : k.sane) (env : map_env) (mmu : mmu2dprivate)
    (ctxt : mmu2dcontext) (mem : mmu2dphysmem) (r : map_result)
    (hc : ExactCover k (ctxt.vacant ++ ctxt.allocated))
    (h : mmu2d_map k env mmu ctxt mem = .ret r) :
    ExactCover k (r.ctxt.vacant ++ r.ctxt.allocated) := by
  have hNT := total_bound k hk
  have hT := hk.2.2
  have hwf := ExactCover_bounds k hk _ hc
  have hm := (map_cases k env mmu ctxt mem r h
    (fun v hv => hwf v (by simp [hv])) (by omega)).2
  rcases hm with ⟨_, _, hv, ha⟩ | ⟨_, _, hpc, pre, v, post, claimed, parray, hvac, _, hge, _, _,
      hcm, hcs, hcc, _, hal, hrest⟩
  · refine ExactCover_of_triples k _ _ ?_ hc
    simp only [List.map_append, hv, ha]
  · obtain ⟨hok, hcnt⟩ := hc
    rw [hvac] at hok hcnt
    have hokv : arena_ok k v := hok v (by simp)
    have hlc : lin k claimed = lin k v := by unfold lin; rw [hcm, hcs]
    have hokc : arena_ok k claimed := by
      unfold arena_ok at hokv ⊢
      rw [hlc, hcs, hcc]; omega
    rcases hrest with ⟨heq, hvac1, _⟩ | ⟨hne, split0, mi, si, _, hpos, hsi, hvac1⟩
    · rw [hvac1, hal]
      constructor
      · intro x hx
        by_cases hxc : x = claimed
        · rw [hxc]; exact hokc
        · apply hok
          simp only [List.mem_append, List.mem_cons] at hx ⊢
          tauto
      · intro u hu
        have := hcnt u hu
        simp only [List.cons_append, cover_count, cover_count_append, List.append_assoc,
          hlc, hcc] at this ⊢
        rw [← heq]
        omega
    · rw [hvac1, hal]
      have hls : lin k { split0 with mtlb := mi, stlb := si, count := v.count - mem.count }
          = lin k v + mem.count := by unfold lin; simpa using hpos
      constructor
      · intro x hx
        by_cases hxc : x = claimed
        · rw [hxc]; exact hokc
        · by_cases hxs : x = { split0 with mtlb := mi, stlb := si, count := v.count - mem.count }
          · rw [hxs]
            unfold arena_ok at hokv ⊢
            rw [hls]
            simp only
            omega
          · apply hok
            simp only [List.mem_append, List.mem_cons] at hx ⊢
            tauto
      · intro u hu
        have := hcnt u hu
        simp only [List.cons_append, cover_count, cover_count_append, List.append_assoc,
          hlc, hcc, hls] at this ⊢
        split_ifs at this ⊢ <;> omega

/-- A returning `mmu2d_unmap` keeps the exact cover. -/
theorem unmap_cover (k : Config) (hk : k.sane) (mmu mmu1 : mmu2dprivate)
    (ctxt ctxt1 : mmu2dcontext) (mapped : Nat) (e : gcerror)
    (hc : ExactCover k (ctxt.vacant ++ ctxt.allocated))
    (h : mmu2d_unmap k mmu ctxt mapped = .ret (e, mmu1, ctxt1)) :
    ExactCover k (ctxt1.vacant ++ ctxt1.allocated) ∧ ctxt1.mmu = ctxt.mmu := by
  unfold mmu2d_unmap at h
  split at h
  · cases h; exact ⟨hc, rfl⟩
  · have happ := walk_until_append (fun a => decide (a.handle = mapped)) ctxt.allocated
    generalize walk_until (fun a => decide (a.handle = mapped)) ctxt.allocated = w at h happ
    obtain ⟨pre, rest⟩ := w
    simp only at happ
    cases rest with
    | nil => simp only at h; cases h; exact ⟨hc, rfl⟩
    | cons a post =>
      simp only at h
      split at h
      · cases h
      · cases h
      · rename_i e1 c1 hloop
        obtain ⟨hl1, hl2, hl3⟩ := unmap_loop_lists k _ _ _ _ _ _ _ hloop
        split at h
        · cases h
          rw [hl1, hl2]; exact ⟨hc, hl3⟩
        · have hc2 : ExactCover k (release_physical_pages a ::
              (({ c1 with allocated := pre ++ post } : mmu2dcontext).vacant ++ (pre ++ post))) := by
            simp only [hl1]
            obtain ⟨hok, hcnt⟩ := hc
            rw [← happ] at hok hcnt
            constructor
            · intro x hx
              by_cases hxa : x = release_physical_pages a
              · rw [hxa]
                have := hok a (by simp)
                unfold arena_ok lin release_physical_pages at *
                exact this
              · apply hok
                simp only [List.mem_append, List.mem_cons] at hx ⊢
                tauto
            · intro u hu
              have := hcnt u hu
              simp only [List.cons_append, cover_count, cover_count_append, List.append_assoc,
                release_physical_pages, lin] at this ⊢
              omega
          have := unmap_insert_cover k hk mmu mmu1 _ ctxt1 _ (pre ++ post) e hc2 h
          obtain ⟨_, hal, hmm, hcov⟩ := this
          simp only at hal hmm
          rw [hal]
          exact ⟨hcov, hmm.trans hl3⟩


theorem create_fail_lists (k : Config) (e e1 : gcerror) (g g1 : globals)
    (ctxt ctxt1 : mmu2dcontext) (h : create_fail k e g ctxt = .ret (e1, g1, ctxt1)) :
    e1 = e := by
  unfold create_fail at h
  split at h <;> cases h <;> rfl

theorem create_tables_spec (k : Config) (env : create_env) (ctxt ctxt1 : mmu2dcontext)
    (h : create_tables k env ctxt = (.GCERR_NONE, ctxt1)) :
    ctxt1.slave = some (fun _ => none) ∧
    (∀ i, i < k.MMU_MTLB_ENTRY_NUM → ctxt1.master.words i = k.MMU_MTLB_ENTRY_VACANT) ∧
    ctxt1.vacant = ctxt.vacant ∧ ctxt1.allocated = ctxt.allocated ∧ ctxt1.mmu = ctxt.mmu := by
  unfold create_tables at h
  split at h
  · split at h
    · cases h
    · simp only [Prod.mk.injEq, true_and] at h
      subst h
      refine ⟨rfl, ?_, rfl, rfl, rfl⟩
      intro i hi
      simp [hi]
  · rename_i hne
    simp only [Prod.mk.injEq] at h
    cases h.1

/-- What a successful `mmu2d_create_context` produces: one vacant arena that
spans the address space, nothing allocated, and under `MMU_ENABLE` a master
table of vacant entries with no slave table. -/
theorem create_spec (k : Config) (env : create_env) (g g1 : globals) (ctxt : mmu2dcontext)
    (h : mmu2d_create_context k env g = .ret (.GCERR_NONE, g1, ctxt)) :
    (∃ a : mmu2darena, ctxt.vacant = [a] ∧ a.mtlb = 0 ∧ a.stlb = 0 ∧
        a.count = total k % 4294967296) ∧
    ctxt.allocated = [] ∧ ctxt.mmu = true ∧
    (k.MMU_ENABLE = true → ctxt.slave = some (fun _ => none) ∧
      ∀ i, i < k.MMU_MTLB_ENTRY_NUM → ctxt.master.words i = k.MMU_MTLB_ENTRY_VACANT) := by
  unfold mmu2d_create_context at h
  split at h
  · rename_i ctxt0 ht
    split at h
    · cases h
    · cases h
    · rename_i mmu1 a hga
      unfold create_finish at h
      simp only at h
      split at h
      · cases h
        refine ⟨⟨_, rfl, rfl, rfl, rfl⟩, rfl, rfl, ?_⟩
        intro hen
        simp only [hen, if_true] at ht
        have := create_tables_spec k env mmu2dcontext_zero ctxt0 ht
        exact ⟨this.1, this.2.1⟩
      · rename_i e2 g2 hne heq
        have := create_fail_lists _ _ _ _ _ _ _ h
        subst this
        exact (hne rfl).elim
    · cases h
    · rename_i e mmu1 ar hne1 hne2 hga
      have := create_fail_lists _ _ _ _ _ _ _ h
      subst this
      cases ar with
      | none => exact (hne2 rfl rfl).elim
      | some a => exact (hne1 a rfl rfl).elim
  · rename_i e ctxt0 hne heq
    have := create_fail_lists _ _ _ _ _ _ _ h
    subst this
    exact (hne rfl).elim

/-- In every reachable state the arenas of the two lists cover the address
space exactly, and the context is active. -/
theorem reachable_cover (k : Config) (hk : k.sane) (mmu : mmu2dprivate) (ctxt : mmu2dcontext)
    (h : Reachable k mmu ctxt) :
    ExactCover k (ctxt.vacant ++ ctxt.allocated) ∧ ctxt.mmu = true := by
  induction h with
  | create env g g1 ctxt hcr =>
    obtain ⟨⟨a, hv, hm, hs, hc⟩, hal, hmmu, _⟩ := create_spec k env g g1 ctxt hcr
    obtain ⟨hN, hM, hT⟩ := hk
    have hc : a.count = total k := by rw [hc]; omega
    have hpos : 0 < total k := Nat.mul_pos hM hN
    refine ⟨?_, hmmu⟩
    rw [hv, hal]
    constructor
    · intro x hx
      simp only [List.append_nil, List.mem_singleton] at hx
      subst hx
      unfold arena_ok lin
      rw [hm, hs, hc]
      omega
    · intro u hu
      simp only [List.append_nil, cover_count, lin, hm, hs, hc]
      simp [hu]
  | map env mmu ctxt mem r _ hmap ih =>
    refine ⟨map_cover k hk env mmu ctxt mem r ih.1 hmap, ?_⟩
    have hwf := ExactCover_bounds k hk _ ih.1
    have := (map_cases k env mmu ctxt mem r hmap (fun v hv => hwf v (by simp [hv]))
      (by have := total_bound k hk; have := hk.2.2; omega)).1
    rw [this]; exact ih.2
  | unmap mmu ctxt mapped e mmu1 ctxt1 _ hun ih =>
    have := unmap_cover k hk mmu mmu1 ctxt ctxt1 mapped e ih.1 hun
    exact ⟨this.1, this.2.trans ih.2⟩


theorem cover_count_perm (k : Config) (u : Nat) {l1 l2 : List mmu2darena}
    (h : l1.Perm l2) : cover_count k u l1 = cover_count k u l2 := by
  induction h with
  | nil => rfl
  | cons x _ ih => simp only [cover_count, ih]
  | swap x y l => simp only [cover_count]; omega
  | trans _ _ ih1 ih2 => exact ih1.trans ih2

theorem cover_count_zero (k : Config) (u : Nat) (l : List mmu2darena)
    (h : ∀ b ∈ l, u < lin k b) : cover_count k u l = 0 := by
  induction l with
  | nil => rfl
  | cons a l ih =>
    have ha := h a (by simp)
    have := ih (fun b hb => h b (by simp [hb]))
    simp only [cover_count, this]
    split_ifs <;> omega

theorem cover_count_pos (k : Config) (u : Nat) (l : List mmu2darena) (b : mmu2darena)
    (hb : b ∈ l) (hcov : lin k b ≤ u ∧ u < lin k b + b.count) : 1 ≤ cover_count k u l := by
  induction l with
  | nil => simp at hb
  | cons a l ih =>
    simp only [List.mem_cons] at hb
    simp only [cover_count]
    rcases hb with rfl | hb
    · simp [hcov]
    · have := ih hb
      omega

/-- Arenas sorted by linear start that cover the units from `s` to the total
exactly lie end to end from `s` to the total. -/
theorem chain_of_sorted_cover (k : Config) (L : List mmu2darena) :
    ∀ s, s ≤ total k →
      L.Sorted (fun a b => lin k a ≤ lin k b) →
      (∀ a ∈ L, a.stlb < k.MMU_STLB_ENTRY_NUM ∧ 0 < a.count ∧ s ≤ lin k a ∧
        lin k a + a.count ≤ total k) →
      (∀ u, s ≤ u → u < total k → cover_count k u L = 1) →
      Chain k s L (total k) := by
  induction L with
  | nil =>
    intro s hs _ _ hcov
    unfold Chain
    by_contra hne
    have := hcov s (le_refl _) (by omega)
    simp [cover_count] at this
  | cons a L ih =>
    intro s hs hsort hok hcov
    have hsa := List.rel_of_sorted_cons hsort
    have hokA := hok a (by simp)
    have hlin : lin k a = s := by
      by_contra hne
      have hlt : s < lin k a := by omega
      have h1 := hcov s (le_refl _) (by omega)
      have h0 : cover_count k s (a :: L) = 0 := by
        apply cover_count_zero
        intro b hb
        simp only [List.mem_cons] at hb
        rcases hb with rfl | hb
        · exact hlt
        · have := hsa b hb
          omega
      omega
    unfold Chain
    refine ⟨hlin, hokA.1, ?_⟩
    apply ih (s + a.count) (by omega) (List.Sorted.of_cons hsort)
    · intro b hb
      have hokB := hok b (by simp [hb])
      refine ⟨hokB.1, hokB.2.1, ?_, hokB.2.2.2⟩
      by_contra hcon
      have hge := hsa b hb
      have h1 := hcov (lin k b) (by omega) (by omega)
      have h2 := cover_count_pos k (lin k b) L b hb ⟨le_refl _, by omega⟩
      simp only [cover_count] at h1
      have : lin k a ≤ lin k b ∧ lin k b < lin k a + a.count := ⟨hge, by omega⟩
      simp only [this, and_self, if_true] at h1
      omega
    · intro u hu1 hu2
      have h1 := hcov u (by omega) hu2
      simp only [cover_count] at h1
      have : ¬ (lin k a ≤ u ∧ u < lin k a + a.count) := by omega
      simp only [this, if_false] at h1
      omega

/-- An exact cover, ordered by linear start, tiles the address space. -/
theorem chain_of_cover (k : Config) (l : List mmu2darena) (hc : ExactCover k l) :
    Chain k 0 (by_start k l) (total k) := by
  have hperm : (by_start k l).Perm l := List.perm_insertionSort _ l
  have hsort : (by_start k l).Sorted (fun a b => lin k a ≤ lin k b) :=
    List.sorted_insertionSort _ l
  apply chain_of_sorted_cover k _ 0 (Nat.zero_le _) hsort
  · intro a ha
    have := hc.1 a (hperm.mem_iff.mp ha)
    exact ⟨this.1, this.2.1, Nat.zero_le _, this.2.2⟩
  · intro u _ hu
    rw [cover_count_perm k u hperm]
    exact hc.2 u hu


theorem demo_sane (en : Bool) : (demo_config en).sane := by
  unfold Config.sane total demo_config
  exact ⟨by norm_num, by norm_num, by norm_num⟩


/-! ## The insertion search of mmu2d_unmap running off the end -/

theorem walk_until_all_false (p : mmu2darena → Bool) (l : List mmu2darena)
    (h : ∀ x ∈ l, p x = false) : walk_until p l = (l, []) := by
  induction l with
  | nil => rfl
  | cons x rest ih =>
    unfold walk_until
    have hx := h x (by simp)
    simp only [hx, Bool.false_eq_true, if_false]
    rw [ih (fun y hy => h y (by simp [hy]))]

theorem walk_until_head (p : mmu2darena → Bool) (x : mmu2darena) (rest : List mmu2darena)
    (h : p x = true) : walk_until p (x :: rest) = ([], x :: rest) := by
  unfold walk_until
  simp [h]

/-- With a null second argument `mmu2d_siblings` walks the first arena and
then reads through the null pointer. -/
theorem siblings_null_fault (k : Config) (hk : k.sane) (a : mmu2darena) (ha : arena_ok k a) :
    mmu2d_siblings k a none = .fault := by
  obtain ⟨hN, hM, hT⟩ := hk
  have hNT : k.MMU_STLB_ENTRY_NUM ≤ total k := by
    unfold total; exact Nat.le_mul_of_pos_left _ hM
  obtain ⟨hs, hc, hr⟩ := ha
  unfold lin at hr
  unfold mmu2d_siblings
  rw [siblings_walk_eq k _ _ _ _ (by omega) hs (by omega) (by omega)]

/-- The defect of the merge step: when the insertion search passes every
arena of a non-empty vacant list, `mmu2d_siblings` is called with the null
successor. -/
theorem unmap_insert_off_end (k : Config) (hk : k.sane) (mmu : mmu2dprivate)
    (ctxt : mmu2dcontext) (a : mmu2darena) (hne : ctxt.vacant ≠ [])
    (hpass : ∀ v ∈ ctxt.vacant, insert_stop a v = false)
    (hok : ∀ v ∈ ctxt.vacant, arena_ok k v) (ha : arena_ok k a) :
    unmap_insert k mmu ctxt a = .fault := by
  unfold unmap_insert
  rw [walk_until_all_false _ _ hpass]
  simp only
  obtain ⟨pd, prev, hpre⟩ := (List.eq_nil_or_concat ctxt.vacant).resolve_left hne
  rw [List.concat_eq_append] at hpre
  rw [hpre, getLast_snoc]
  simp only [List.head?_nil]
  have hokp : arena_ok k prev := hok prev (by rw [hpre]; simp)
  rw [siblings_eq k hk prev a hokp ha.1, siblings_null_fault k hk a ha]
  by_cases hadj : lin k prev + prev.count = lin k a <;> simp [hadj]

/-- Without `MMU_ENABLE` the loop of `mmu2d_unmap` only walks the slots. -/
theorem unmap_loop_disabled (k : Config) (hen : k.MMU_ENABLE = false) (fuel : Nat) :
    ∀ (m s c : Nat) (ctxt : mmu2dcontext), c ≤ fuel → s < k.MMU_STLB_ENTRY_NUM →
      m * k.MMU_STLB_ENTRY_NUM + s + c < 4294967296 → k.MMU_STLB_ENTRY_NUM < 4294967296 →
      unmap_loop k fuel m s c ctxt = .ret (.GCERR_NONE, ctxt) := by
  induction fuel with
  | zero =>
    intro m s c ctxt hc _ _ _
    have : c = 0 := by omega
    subst this
    unfold unmap_loop
    simp
  | succ fuel ih =>
    intro m s c ctxt hc hs hb hN
    unfold unmap_loop
    by_cases hc0 : c = 0
    · simp [hc0]
    · simp only [hc0, if_false]
      have hsub : u32_sub k.MMU_STLB_ENTRY_NUM s = k.MMU_STLB_ENTRY_NUM - s :=
        u32_sub_eq _ _ (by omega) hN
      rw [hsub]
      have hclear : ∀ av, unmap_clear k m s av ctxt = .ret (.GCERR_NONE, ctxt) := by
        intro av; unfold unmap_clear; simp [hen]
      by_cases hav : k.MMU_STLB_ENTRY_NUM - s > c
      · simp only [hav, if_true, hclear]
        have h1 : u32_add s c = s + c := u32_add_eq _ _ (by omega)
        rw [h1, u32_sub_self]
        simp only [ne_eq, not_true_eq_false, if_false]
        exact ih _ _ _ _ (by omega) (by omega) (by omega) hN
      · simp only [hav, if_false, hclear]
        have hmul : (m + 1) * k.MMU_STLB_ENTRY_NUM
            = m * k.MMU_STLB_ENTRY_NUM + k.MMU_STLB_ENTRY_NUM := Nat.succ_mul _ _
        have hm1 : m + 1 < 4294967296 := by
          by_contra hcon
          have : 4294967296 * 1 ≤ (m + 1) * k.MMU_STLB_ENTRY_NUM :=
            Nat.mul_le_mul (by omega) (by omega)
          omega
        have h1 : u32_add m 1 = m + 1 := u32_add_eq _ _ (by omega)
        have h2 : u32_sub c (k.MMU_STLB_ENTRY_NUM - s) = c - (k.MMU_STLB_ENTRY_NUM - s) :=
          u32_sub_eq _ _ (by omega) (by omega)
        rw [h1, h2]
        simp only [ne_eq, not_true_eq_false, if_false]
        exact ih _ _ _ _ (by omega) (by omega) (by rw [hmul]; omega) hN

/-- The defect seen from `mmu2d_unmap`: the arena `a` is on the allocated list,
the insertion search passes every arena of the non-empty vacant list. Then the
call never returns success, and without `MMU_ENABLE` it ends in the null
dereference. -/
theorem unmap_off_end (k : Config) (hk : k.sane) (mmu : mmu2dprivate) (ctxt : mmu2dcontext)
    (apre apost : List mmu2darena) (a : mmu2darena)
    (hmmu : ctxt.mmu = true) (hal : ctxt.allocated = apre ++ a :: apost)
    (hfirst : ∀ x ∈ apre, x.handle ≠ a.handle)
    (hne : ctxt.vacant ≠ [])
    (hpass : ∀ v ∈ ctxt.vacant, insert_stop a v = false)
    (hc : ExactCover k (ctxt.vacant ++ ctxt.allocated)) :
    (∀ mmu1 ctxt1, mmu2d_unmap k mmu ctxt a.handle ≠ .ret (.GCERR_NONE, mmu1, ctxt1)) ∧
    (k.MMU_ENABLE = false → mmu2d_unmap k mmu ctxt a.handle = .fault) := by
  have hoka : arena_ok k a := hc.1 a (by rw [hal]; simp)
  have hokv : ∀ v ∈ ctxt.vacant, arena_ok k v := fun v hv => hc.1 v (by simp [hv])
  have hwalk : walk_until (fun x => decide (x.handle = a.handle)) ctxt.allocated
      = (apre, a :: apost) := by
    rw [hal]
    clear hal hc
    induction apre with
    | nil => exact walk_until_head _ _ _ (by simp)
    | cons x rest ih =>
      unfold walk_until
      have hx := hfirst x (by simp)
      simp only [hx, decide_False, Bool.false_eq_true, if_false, List.cons_append]
      rw [ih (fun y hy => hfirst y (by simp [hy]))]
  have hins : ∀ c1 : mmu2dcontext, same_lists c1 ctxt →
      unmap_insert k mmu { c1 with allocated := apre ++ apost } (release_physical_pages a)
        = .fault := by
    intro c1 hl
    apply unmap_insert_off_end k hk
    · simpa [hl.1] using hne
    · intro v hv
      simp only [hl.1] at hv
      have := hpass v hv
      simpa [insert_stop, release_physical_pages] using this
    · intro v hv
      simp only [hl.1] at hv
      exact hokv v hv
    · unfold arena_ok lin release_physical_pages at *
      exact hoka
  constructor
  · intro mmu1 ctxt1 h
    unfold mmu2d_unmap at h
    simp only [hmmu, Bool.true_eq_false, if_false, hwalk] at h
    split at h
    · cases h
    · cases h
    · rename_i e1 c1 hloop
      split at h
      · rename_i hne1
        cases h
        exact hne1 rfl
      · rw [hins c1 (unmap_loop_lists k _ _ _ _ _ _ _ hloop)] at h
        cases h
  · intro hen
    unfold mmu2d_unmap
    simp only [hmmu, Bool.true_eq_false, if_false, hwalk]
    have hT := hk.2.2
    have hNT := total_bound k hk
    rw [unmap_loop_disabled k hen _ _ _ _ _ (by omega) hoka.1
      (by have := hoka.2.2; unfold lin at this; omega) (by omega)]
    simp only [ne_eq, not_true_eq_false, if_false]
    exact hins ctxt (same_lists_refl _)


theorem Run.eq_ret {α : Type} (x : Run α) (d : α) (h : x.isRet = true) :
    x = .ret (x.getD d) := by
  cases x <;> simp_all [Run.isRet, Run.getD]

theorem ret_eta {α β : Type} (x : Run (gcerror × α × β)) (p : gcerror × α × β)
    (h : x = .ret p) (h1 : p.1 = .GCERR_NONE) : x = .ret (.GCERR_NONE, p.2.1, p.2.2) := by
  obtain ⟨a, b, c⟩ := p
  simp only at h1
  subst h1
  exact h

theorem demo_created_ok (en : Bool) :
    mmu2d_create_context (demo_config en) demo_create_env demo_globals
      = .ret (.GCERR_NONE, (demo_created en).2.1, (demo_created en).2.2) :=
  ret_eta _ _
    (Run.eq_ret (mmu2d_create_context (demo_config en) demo_create_env demo_globals)
      (.GCERR_NONE, demo_globals, mmu2dcontext_zero) (by cases en <;> decide!))
    (by cases en <;> decide!)

theorem demo_mapped_ok (en : Bool) (n : Nat)
    (h : (mmu2d_map (demo_config en) demo_map_env (demo_created en).2.1.mmu
      (demo_created en).2.2 (demo_mem n)).isRet = true) :
    mmu2d_map (demo_config en) demo_map_env (demo_created en).2.1.mmu (demo_created en).2.2
      (demo_mem n) = .ret (demo_mapped en n) :=
  Run.eq_ret _ _ h

theorem demo_reachable_created (en : Bool) :
    Reachable (demo_config en) (demo_created en).2.1.mmu (demo_created en).2.2 :=
  Reachable.create demo_create_env demo_globals _ _ (demo_created_ok en)

theorem demo_mapped2_ok (en : Bool) (n1 n2 : Nat)
    (h : (mmu2d_map (demo_config en) demo_map_env2 (demo_mapped en n1).mmu
      (demo_mapped en n1).ctxt (demo_mem n2)).isRet = true) :
    mmu2d_map (demo_config en) demo_map_env2 (demo_mapped en n1).mmu (demo_mapped en n1).ctxt
      (demo_mem n2) = .ret (demo_mapped2 en n1 n2) :=
  Run.eq_ret _ _ h

/-! ## The loops leave: the bounds on their iterations are never used up -/

theorem allocate_slave_returns (k : Config) (env : slave_env) (ctxt : mmu2dcontext) :
    mmu2d_allocate_slave k env ctxt ≠ .diverge := by
  unfold mmu2d_allocate_slave
  split
  · simp
  · simp only
    split
    · simp
    · split <;> simp

theorem map_touch_returns (k : Config) (env : slave_env) (ms i : Nat) (ctxt : mmu2dcontext) :
    map_touch k env ms i ctxt ≠ .diverge := by
  intro h
  unfold map_touch at h
  split at h
  · split at h
    · cases h
    · rename_i hd
      exact allocate_slave_returns k env ctxt hd
    · split at h
      · cases h
      · split at h <;> cases h
  · cases h

theorem map_fill_returns (k : Config) (i s av : Nat) (parray : List Nat) (ctxt : mmu2dcontext) :
    map_fill k i s av parray ctxt ≠ .diverge := by
  intro h
  unfold map_fill at h
  split at h
  · cases h
  · split at h <;> cases h

/-- From a slot inside a table the loop of `mmu2d_map` leaves after at most
`c` iterations. -/
theorem map_loop_returns (k : Config) (senv : Nat → slave_env) (ms : Nat)
    (hN : k.MMU_STLB_ENTRY_NUM < 4294967296) (fuel : Nat) :
    ∀ (i m s c : Nat) (parray : List Nat) (ctxt : mmu2dcontext),
      c ≤ fuel → s < k.MMU_STLB_ENTRY_NUM → c < 4294967296 →
      map_loop k senv ms fuel i m s c parray ctxt ≠ .diverge := by
  induction fuel with
  | zero =>
    intro i m s c parray ctxt hc hs _ h
    have hc0 : c = 0 := by omega
    unfold map_loop at h
    simp only [hc0, if_true] at h
    cases h
  | succ fuel ih =>
    intro i m s c parray ctxt hc hs hc32 h
    unfold map_loop at h
    by_cases hc0 : c = 0
    · simp only [hc0, if_true] at h
      cases h
    · simp only [hc0, if_false] at h
      have hsub : u32_sub k.MMU_STLB_ENTRY_NUM s = k.MMU_STLB_ENTRY_NUM - s :=
        u32_sub_eq _ _ (by omega) hN
      rw [hsub] at h
      split at h
      · cases h
      · rename_i ht
        split at ht
        · exact map_touch_returns k _ ms i ctxt ht
        · cases ht
      · split at h
        · cases h
        · split at h
          · split at h
            · cases h
            · rename_i hf
              split at hf
              · exact map_fill_returns k _ _ _ _ _ hf
              · cases hf
            · have h1 : u32_add s c = s + c := u32_add_eq _ _ (by omega)
              rw [h1, u32_sub_self] at h
              exact ih _ _ _ _ _ _ (by omega) (by omega) (by omega) h
          · split at h
            · cases h
            · rename_i hf
              split at hf
              · exact map_fill_returns k _ _ _ _ _ hf
              · cases hf
            · have h2 : u32_sub c (k.MMU_STLB_ENTRY_NUM - s) = c - (k.MMU_STLB_ENTRY_NUM - s) :=
                u32_sub_eq _ _ (by omega) (by omega)
              rw [h2] at h
              exact ih _ _ _ _ _ _ (by omega) (by omega) (by omega) h

theorem unmap_clear_returns (k : Config) (m s av : Nat) (ctxt : mmu2dcontext) :
    unmap_clear k m s av ctxt ≠ .diverge := by
  intro h
  unfold unmap_clear at h
  simp only at h
  repeat' split at h
  all_goals cases h

/-- From a slot inside a table the loop of `mmu2d_unmap` leaves after at most
`c` iterations. -/
theorem unmap_loop_returns (k : Config) (hN : k.MMU_STLB_ENTRY_NUM < 4294967296) (fuel : Nat) :
    ∀ (m s c : Nat) (ctxt : mmu2dcontext),
      c ≤ fuel → s < k.MMU_STLB_ENTRY_NUM → c < 4294967296 →
      unmap_loop k fuel m s c ctxt ≠ .diverge := by
  induction fuel with
  | zero =>
    intro m s c ctxt hc hs _ h
    have hc0 : c = 0 := by omega
    unfold unmap_loop at h
    simp only [hc0, if_true] at h
    cases h
  | succ fuel ih =>
    intro m s c ctxt hc hs hc32 h
    unfold unmap_loop at h
    by_cases hc0 : c = 0
    · simp only [hc0, if_true] at h
      cases h
    · simp only [hc0, if_false] at h
      have hsub : u32_sub k.MMU_STLB_ENTRY_NUM s = k.MMU_STLB_ENTRY_NUM - s :=
        u32_sub_eq _ _ (by omega) hN
      rw [hsub] at h
      split at h
      · split at h
        · cases h
        · rename_i hd
          exact unmap_clear_returns k _ _ _ _ hd
        · split at h
          · cases h
          · have h1 : u32_add s c = s + c := u32_add_eq _ _ (by omega)
            rw [h1, u32_sub_self] at h
            exact ih _ _ _ _ (by omega) (by omega) (by omega) h
      · split at h
        · cases h
        · rename_i hd
          exact unmap_clear_returns k _ _ _ _ hd
        · split at h
          · cases h
          · have h2 : u32_sub c (k.MMU_STLB_ENTRY_NUM - s) = c - (k.MMU_STLB_ENTRY_NUM - s) :=
              u32_sub_eq _ _ (by omega) (by omega)
            rw [h2] at h
            exact ih _ _ _ _ (by omega) (by omega) (by omega) h

theorem siblings_returns (k : Config) (hk : k.sane) (a1 : mmu2darena) (h1 : arena_ok k a1)
    (a2 : Option mmu2darena) : mmu2d_siblings k a1 a2 ≠ .diverge := by
  obtain ⟨hN, hM, hT⟩ := hk
  have hNT : k.MMU_STLB_ENTRY_NUM ≤ total k := by
    unfold total; exact Nat.le_mul_of_pos_left _ hM
  obtain ⟨hs, hc, hr⟩ := h1
  unfold lin at hr
  unfold mmu2d_siblings
  rw [siblings_walk_eq k _ _ _ _ (by omega) hs (by omega) (by omega)]
  cases a2 <;> simp

theorem unmap_insert_returns (k : Config) (hk : k.sane) (mmu : mmu2dprivate)
    (ctxt : mmu2dcontext) (a : mmu2darena) (hok : ∀ v ∈ ctxt.vacant, arena_ok k v)
    (ha : arena_ok k a) : unmap_insert k mmu ctxt a ≠ .diverge := by
  intro h
  unfold unmap_insert at h
  have happ := walk_until_append (insert_stop a) ctxt.vacant
  generalize walk_until (insert_stop a) ctxt.vacant = w at h happ
  obtain ⟨pre, rest⟩ := w
  simp only at h happ
  have hprev : ∀ p, pre.getLast? = some p → arena_ok k p := by
    intro p hp
    apply hok
    rw [← happ]
    exact List.mem_append_left _ (List.mem_of_getLast?_eq_some hp)
  have hsa := siblings_returns k hk a ha
  split at h
  · repeat' split at h
    all_goals first
      | exact hsa _ ‹_›
      | cases h
  · rename_i prev hp
    have hsp := siblings_returns k hk prev (hprev prev hp)
    repeat' split at h
    all_goals first
      | exact hsa _ ‹_›
      | exact hsp _ ‹_›
      | cases h

theorem get_arena_returns (k : Config) (km : Option Nat) (mmu : mmu2dprivate) :
    mmu2d_get_arena k km mmu ≠ .diverge := by
  unfold mmu2d_get_arena
  repeat' split
  all_goals simp

theorem map_claim_returns (k : Config) (hN : k.MMU_STLB_ENTRY_NUM < 4294967296)
    (env : map_env) (mmu : mmu2dprivate) (ctxt : mmu2dcontext) (mem : mmu2dphysmem)
    (pre : List mmu2darena) (v : mmu2darena) (post : List mmu2darena) (parray : List Nat)
    (pa : Bool) (hs : v.stlb < k.MMU_STLB_ENTRY_NUM) (hc : mem.count < 4294967296) :
    map_claim k env mmu ctxt mem pre v post parray pa ≠ .diverge := by
  intro h
  unfold map_claim at h
  split at h
  · cases h
  · rename_i hd
    exact map_loop_returns k env.slave v.mtlb hN _ _ _ _ _ _ _ (by omega) hs hc hd
  · split at h
    · cases h
    · simp only at h
      split at h
      · split at h
        · cases h
        · rename_i hd
          exact get_arena_returns k _ _ hd
        · split at h
          · cases h
          · split at h <;> cases h
      · cases h

/-- In a state whose arenas are well formed `mmu2d_map` leaves its loop: the
call returns or ends in a null dereference. -/
theorem map_returns (k : Config) (hN : k.MMU_STLB_ENTRY_NUM < 4294967296)
    (env : map_env) (mmu : mmu2dprivate) (ctxt : mmu2dcontext) (mem : mmu2dphysmem)
    (hwf : ∀ v ∈ ctxt.vacant, v.stlb < k.MMU_STLB_ENTRY_NUM) (hc : mem.count < 4294967296) :
    mmu2d_map k env mmu ctxt mem ≠ .diverge := by
  intro h
  unfold mmu2d_map at h
  split at h
  · cases h
  · split at h
    · cases h
    · have happ := walk_until_append (fun v => decide (v.count ≥ mem.count)) ctxt.vacant
      generalize walk_until (fun v => decide (v.count ≥ mem.count)) ctxt.vacant = w at h happ
      obtain ⟨pre, rest⟩ := w
      simp only at happ
      cases rest with
      | nil => simp only at h; cases h
      | cons v post =>
        simp only at h
        have hvs := hwf v (by rw [← happ]; simp)
        split at h
        · split at h
          · cases h
          · split at h
            · cases h
            · refine map_claim_returns k hN env mmu ctxt mem pre _ post _ true ?_ hc h
              rw [(get_physical_pages_arena env.pin mem { v with pages := none }).2.2.1]
              exact hvs
        · exact map_claim_returns k hN env mmu ctxt mem pre { v with pages := none } post _ false
            hvs hc h

/-- In a state whose arenas are well formed `mmu2d_unmap` leaves its loops:
the call returns or ends in a null dereference. -/
theorem unmap_returns (k : Config) (hk : k.sane) (mmu : mmu2dprivate) (ctxt : mmu2dcontext)
    (mapped : Nat) (hc : ExactCover k (ctxt.vacant ++ ctxt.allocated)) :
    mmu2d_unmap k mmu ctxt mapped ≠ .diverge := by
  intro h
  have hT := hk.2.2
  have hNT := total_bound k hk
  unfold mmu2d_unmap at h
  split at h
  · cases h
  · have happ := walk_until_append (fun a => decide (a.handle = mapped)) ctxt.allocated
    generalize walk_until (fun a => decide (a.handle = mapped)) ctxt.allocated = w at h happ
    obtain ⟨pre, rest⟩ := w
    simp only at happ
    cases rest with
    | nil => simp only at h; cases h
    | cons a post =>
      simp only at h
      have hoka : arena_ok k a := hc.1 a (by rw [← happ]; simp)
      split at h
      · cases h
      · rename_i hd
        exact unmap_loop_returns k (by omega) _ _ _ _ _ (by omega) hoka.1
          (by have := hoka.2.2; omega) hd
      · rename_i e1 c1 hloop
        split at h
        · cases h
        · obtain ⟨hl1, _, _⟩ := unmap_loop_lists k _ _ _ _ _ _ _ hloop
          refine unmap_insert_returns k hk mmu _ (release_physical_pages a) ?_ ?_ h
          · intro v hv
            simp only at hv
            rw [hl1] at hv
            exact hc.1 v (by simp [hv])
          · exact hoka

/-- In every reachable state a call of `mmu2d_map` or `mmu2d_unmap` leaves its
loops: it returns, or it ends in a null dereference. -/
theorem reachable_calls_leave (k : Config) (hk : k.sane) (mmu : mmu2dprivate)
    (ctxt : mmu2dcontext) (h : Reachable k mmu ctxt) :
    (∀ env mem, mem.count < 4294967296 → mmu2d_map k env mmu ctxt mem ≠ .diverge) ∧
    (∀ mapped, mmu2d_unmap k mmu ctxt mapped ≠ .diverge) := by
  have hcov := (reachable_cover k hk mmu ctxt h).1
  have hT := hk.2.2
  have hNT := total_bound k hk
  refine ⟨fun env mem hc => map_returns k (by omega) env mmu ctxt mem ?_ hc,
    fun mapped => unmap_returns k hk mmu ctxt mapped hcov⟩
  intro v hv
  exact (hcov.1 v (by simp [hv])).1


/-! ## C1: the two lists tile the address space -/

/-- The invariant behind C1, for the calls that return: in every state that a
sequence of mmu2d_map and mmu2d_unmap calls reaches from a context produced by
mmu2d_create_context, each call returning (with any error code), the arenas of
the vacant and the allocated list together tile the address space: ordered by
linear start, the first one starts at 0, each one starts where the previous one
ends, and the last one ends at MMU_MTLB_ENTRY_NUM * MMU_STLB_ENTRY_NUM. The
constants are positive and the total fits in 32 bits. A call of mmu2d_unmap
that ends in the null read of the merge step returns nothing and is no step
here; the state it leaves is the subject of the last section. -/
theorem tiling_reachable (k : Config) (hk : k.sane) (mmu : mmu2dprivate) (ctxt : mmu2dcontext)
    (h : Reachable k mmu ctxt) : Tiles k ctxt :=
  chain_of_cover k _ (reachable_cover k hk mmu ctxt h).1

/-- The invariant at the worked example: the state after mmu2d_create_context
and one mmu2d_map of 3 pages. -/
theorem tiling_reachable_example :
    (demo_mapped true 3).ctxt.allocated.map triple = [(0, 0, 3)] ∧
      Tiles (demo_config true) (demo_mapped true 3).ctxt :=
  ⟨by decide!,
   tiling_reachable (demo_config true) (demo_sane true) _ _
    (Reachable.map demo_map_env _ _ (demo_mem 3) _ (demo_reachable_created true)
      (demo_mapped_ok true 3 (by decide!)))⟩

/-! ## C2: map followed by unmap -/

theorem singleton_split {α : Type} (a v : α) (pre post : List α)
    (h : [a] = pre ++ v :: post) : pre = [] ∧ v = a ∧ post = [] := by
  cases pre with
  | nil =>
    simp only [List.nil_append, List.cons.injEq] at h
    exact ⟨rfl, h.1.symm, h.2.symm⟩
  | cons x rest =>
    simp only [List.cons_append, List.cons.injEq] at h
    have := h.2
    cases rest <;> simp at this

/-- The first `mmu2d_map` on a new context, for fewer units than the address
space has: the arena (0, 0, n) is claimed and one vacant arena remains, which
starts at unit `n`. -/
theorem fresh_map (k : Config) (hk : k.sane) (cenv : create_env) (g g1 : globals)
    (ctxt : mmu2dcontext)
    (hcreate : mmu2d_create_context k cenv g = .ret (.GCERR_NONE, g1, ctxt))
    (menv : map_env) (mem : mmu2dphysmem) (r : map_result) (a : mmu2darena)
    (hn : mem.count < total k)
    (hmap : mmu2d_map k menv g1.mmu ctxt mem = .ret r) (ha : r.mapped = some a) :
    0 < mem.count ∧ r.ctxt.mmu = true ∧ a.mtlb = 0 ∧ a.stlb = 0 ∧ a.count = mem.count ∧
      r.ctxt.allocated = [a] ∧
      ∃ split, r.ctxt.vacant = [split] ∧ lin k split = mem.count ∧
        split.stlb < k.MMU_STLB_ENTRY_NUM ∧ split.count = total k - mem.count := by
  have hreach := Reachable.create cenv g g1 ctxt hcreate
  have hcov := reachable_cover k hk _ _ hreach
  obtain ⟨⟨a0, hv, hm0, hs0, hc0⟩, hal0, hmmu, _⟩ := create_spec k cenv g g1 ctxt hcreate
  have hT := hk.2.2
  have hNT := total_bound k hk
  have hwf := ExactCover_bounds k hk _ hcov.1
  have hcase := map_cases k menv g1.mmu ctxt mem r hmap
    (fun v hv => hwf v (by simp [hv])) (by omega)
  rcases hcase.2 with ⟨_, hnone, _, _⟩ | ⟨_, _, hpc, pre, v, post, claimed, parray, hvac, _,
      hge, hmp, _, hcm, hcs, hcc, _, hal, hrest⟩
  · rw [hnone] at ha; cases ha
  · rw [hmp] at ha
    cases ha
    rw [hv] at hvac
    obtain ⟨hpre, hva, hpost⟩ := singleton_split a0 v pre post hvac
    subst hpre hva hpost
    have hc0 : v.count = total k := by rw [hc0]; omega
    have hl0 : lin k v = 0 := by unfold lin; rw [hm0, hs0]; simp
    refine ⟨hpc, hcase.1.trans hmmu, hcm.trans hm0, hcs.trans hs0, hcc, ?_, ?_⟩
    · rw [hal, hal0]
    · rcases hrest with ⟨heq, _, _⟩ | ⟨_, split0, mi, si, _, hpos, hsi, hvac1⟩
      · omega
      · refine ⟨_, by simpa using hvac1, ?_, hsi, ?_⟩
        · unfold lin; simp only; rw [hpos, hl0]; simp
        · simp only; rw [hc0]

/-- C2 (violated). On a new context with at least two master entries, map a
request of exactly MMU_STLB_ENTRY_NUM pages and unmap the returned arena at
once: mmu2d_unmap never returns GCERR_NONE, so the lists are not restored. The
insertion search passes the remainder arena (1, 0) because its slot index 0 is
not greater than the slot index 0 of the freed arena, runs off the end of the
list, and the merge step calls mmu2d_siblings with the null successor; without
MMU_ENABLE that null dereference is where the call ends. -/
theorem C2_roundtrip_fails (k : Config) (hk : k.sane) (hM : 2 ≤ k.MMU_MTLB_ENTRY_NUM)
    (cenv : create_env) (g g1 : globals) (ctxt : mmu2dcontext)
    (hcreate : mmu2d_create_context k cenv g = .ret (.GCERR_NONE, g1, ctxt))
    (menv : map_env) (mem : mmu2dphysmem) (r : map_result) (a : mmu2darena)
    (hn : mem.count = k.MMU_STLB_ENTRY_NUM)
    (hmap : mmu2d_map k menv g1.mmu ctxt mem = .ret r) (ha : r.mapped = some a) :
    (∀ mmu1 ctxt1, mmu2d_unmap k r.mmu r.ctxt a.handle ≠ .ret (.GCERR_NONE, mmu1, ctxt1)) ∧
    (k.MMU_ENABLE = false → mmu2d_unmap k r.mmu r.ctxt a.handle = .fault) := by
  have hN := hk.1
  have hlt : mem.count < total k := by
    rw [hn]; unfold total
    calc k.MMU_STLB_ENTRY_NUM = 1 * k.MMU_STLB_ENTRY_NUM := (Nat.one_mul _).symm
      _ < k.MMU_MTLB_ENTRY_NUM * k.MMU_STLB_ENTRY_NUM :=
        Nat.mul_lt_mul_of_pos_right (by omega) hN
  obtain ⟨_, hmmu, _, hs, _, hal, split, hvac, hlin, hsi, _⟩ :=
    fresh_map k hk cenv g g1 ctxt hcreate menv mem r a hlt hmap ha
  have hreach := Reachable.map menv _ _ mem r (Reachable.create cenv g g1 ctxt hcreate) hmap
  have hcov := (reachable_cover k hk _ _ hreach).1
  have hpos : split.stlb = 0 := by
    have h1 := div_mod_unique k.MMU_STLB_ENTRY_NUM split.mtlb split.stlb (lin k split) hsi rfl
    have h2 := div_mod_unique k.MMU_STLB_ENTRY_NUM 1 0 (lin k split) hN (by rw [hlin, hn]; simp)
    omega
  apply unmap_off_end k hk r.mmu r.ctxt [] [] a hmmu (by rw [hal]; rfl) (by simp)
    (by rw [hvac]; simp) ?_ hcov
  intro v hv
  rw [hvac] at hv
  simp only [List.mem_singleton] at hv
  subst hv
  simp [insert_stop, hpos, hs]

/-- C2 at the worked example (MMU_ENABLE set, 1024 slots per slave table): the
unmap that follows the map of 1024 pages ends in the null dereference. -/
theorem C2_roundtrip_fails_witness :
    (mmu2d_unmap (demo_config true) (demo_mapped true 1024).mmu (demo_mapped true 1024).ctxt
        (demo_arena true 1024).handle).isFault = true ∧
    ((∀ mmu1 ctxt1,
        mmu2d_unmap (demo_config true) (demo_mapped true 1024).mmu (demo_mapped true 1024).ctxt
          (demo_arena true 1024).handle ≠ .ret (.GCERR_NONE, mmu1, ctxt1)) ∧
     ((demo_config true).MMU_ENABLE = false →
        mmu2d_unmap (demo_config true) (demo_mapped true 1024).mmu (demo_mapped true 1024).ctxt
          (demo_arena true 1024).handle = .fault)) :=
  ⟨by decide!,
   C2_roundtrip_fails (demo_config true) (demo_sane true) (by decide) demo_create_env
     demo_globals _ _ (demo_created_ok true) demo_map_env (demo_mem 1024) _ _ rfl
     (demo_mapped_ok true 1024 (by decide!)) (by decide!)⟩

/-! ## C3: unmapping two contiguous arenas -/

/-- A successful `mmu2d_map` on a context whose vacant list is the single
arena `v`, for fewer units than `v` has: the start of `v` is claimed and the
rest of `v` is the new vacant list. -/
theorem map_single (k : Config) (hk : k.sane) (menv : map_env) (mmu : mmu2dprivate)
    (ctxt : mmu2dcontext) (v : mmu2darena) (mem : mmu2dphysmem) (r : map_result)
    (a : mmu2darena) (hv : ctxt.vacant = [v])
    (hc : ExactCover k (ctxt.vacant ++ ctxt.allocated)) (hn : mem.count < v.count)
    (hmap : mmu2d_map k menv mmu ctxt mem = .ret r) (ha : r.mapped = some a) :
    0 < mem.count ∧ r.ctxt.mmu = ctxt.mmu ∧ a.mtlb = v.mtlb ∧ a.stlb = v.stlb ∧
      a.count = mem.count ∧ r.ctxt.allocated = a :: ctxt.allocated ∧
      ∃ split, r.ctxt.vacant = [split] ∧ lin k split = lin k v + mem.count ∧
        split.stlb < k.MMU_STLB_ENTRY_NUM ∧ split.count = v.count - mem.count := by
  have hT := hk.2.2
  have hNT := total_bound k hk
  have hwf := ExactCover_bounds k hk _ hc
  have hcase := map_cases k menv mmu ctxt mem r hmap
    (fun v hv => hwf v (by simp [hv])) (by omega)
  rcases hcase.2 with ⟨_, hnone, _, _⟩ | ⟨_, _, hpc, pre, w, post, claimed, parray, hvac, _,
      hge, hmp, _, hcm, hcs, hcc, _, hal, hrest⟩
  · rw [hnone] at ha; cases ha
  · rw [hmp] at ha
    cases ha
    rw [hv] at hvac
    obtain ⟨hpre, hva, hpost⟩ := singleton_split v w pre post hvac
    subst hpre hva hpost
    refine ⟨hpc, hcase.1, hcm, hcs, hcc, hal, ?_⟩
    rcases hrest with ⟨heq, _, _⟩ | ⟨_, split0, mi, si, _, hpos, hsi, hvac1⟩
    · omega
    · refine ⟨_, by simpa using hvac1, ?_, hsi, rfl⟩
      unfold lin at hpos ⊢
      simpa using hpos

/-- C3 (violated). On a new context (at least two master entries, at least
two slots per slave table) map one page, giving A = (0, 0, 1), then map
MMU_STLB_ENTRY_NUM - 1 pages, giving B = (0, 1, MMU_STLB_ENTRY_NUM - 1). A and
B are contiguous and both allocated, yet mmu2d_unmap of B never returns
GCERR_NONE: the insertion search passes the only vacant arena (1, 0), whose
slot index 0 is not greater than 1, and the merge step calls mmu2d_siblings
with the null successor. Without MMU_ENABLE the call ends in that null
dereference. So no vacant arena spanning A and B is produced. -/
theorem C3_merge_fails (k : Config) (hk : k.sane) (hM : 2 ≤ k.MMU_MTLB_ENTRY_NUM)
    (hN2 : 2 ≤ k.MMU_STLB_ENTRY_NUM)
    (cenv : create_env) (g g1 : globals) (ctxt : mmu2dcontext)
    (hcreate : mmu2d_create_context k cenv g = .ret (.GCERR_NONE, g1, ctxt))
    (env1 env2 : map_env) (mem1 mem2 : mmu2dphysmem) (r1 r2 : map_result) (a b : mmu2darena)
    (hn1 : mem1.count = 1) (hn2 : mem2.count = k.MMU_STLB_ENTRY_NUM - 1)
    (hmap1 : mmu2d_map k env1 g1.mmu ctxt mem1 = .ret r1) (ha : r1.mapped = some a)
    (hmap2 : mmu2d_map k env2 r1.mmu r1.ctxt mem2 = .ret r2) (hb : r2.mapped = some b) :
    r2.ctxt.allocated = [b, a] ∧ lin k a + a.count = lin k b ∧
    (∀ mmu1 ctxt1, mmu2d_unmap k r2.mmu r2.ctxt b.handle ≠ .ret (.GCERR_NONE, mmu1, ctxt1)) ∧
    (k.MMU_ENABLE = false → mmu2d_unmap k r2.mmu r2.ctxt b.handle = .fault) := by
  have hN := hk.1
  have hT2 : 2 * k.MMU_STLB_ENTRY_NUM ≤ total k := by
    unfold total; exact Nat.mul_le_mul_right _ hM
  obtain ⟨_, hmmu1, ham, has, hac, hal1, s1, hvac1, hlin1, hsi1, hcnt1⟩ :=
    fresh_map k hk cenv g g1 ctxt hcreate env1 mem1 r1 a (by omega) hmap1 ha
  have hreach1 := Reachable.map env1 _ _ mem1 r1 (Reachable.create cenv g g1 ctxt hcreate) hmap1
  have hcov1 := (reachable_cover k hk _ _ hreach1).1
  obtain ⟨_, hmmu2, hbm, hbs, hbc, hal2, s2, hvac2, hlin2, hsi2, _⟩ :=
    map_single k hk env2 r1.mmu r1.ctxt s1 mem2 r2 b hvac1 hcov1 (by omega) hmap2 hb
  have hreach2 := Reachable.map env2 _ _ mem2 r2 hreach1 hmap2
  have hcov2 := (reachable_cover k hk _ _ hreach2).1
  have hs1 : s1.mtlb = 0 ∧ s1.stlb = 1 := by
    have h1 := div_mod_unique k.MMU_STLB_ENTRY_NUM s1.mtlb s1.stlb (lin k s1) hsi1 rfl
    have h2 := div_mod_unique k.MMU_STLB_ENTRY_NUM 0 1 (lin k s1) (by omega)
      (by rw [hlin1, hn1]; simp)
    omega
  have hs2 : s2.stlb = 0 := by
    have h1 := div_mod_unique k.MMU_STLB_ENTRY_NUM s2.mtlb s2.stlb (lin k s2) hsi2 rfl
    have h2 := div_mod_unique k.MMU_STLB_ENTRY_NUM 1 0 (lin k s2) hN
      (by rw [hlin2, hlin1, hn1, hn2]; omega)
    omega
  have hla : lin k a = 0 := by unfold lin; rw [ham, has]; simp
  have hlb : lin k b = 1 := by unfold lin; rw [hbm, hbs, hs1.1, hs1.2]; simp
  refine ⟨by rw [hal2, hal1], by rw [hla, hlb, hac, hn1], ?_⟩
  apply unmap_off_end k hk r2.mmu r2.ctxt [] [a] b (hmmu2.trans hmmu1)
    (by rw [hal2, hal1]; rfl) (by simp) (by rw [hvac2]; simp) ?_ hcov2
  intro v hv
  rw [hvac2] at hv
  simp only [List.mem_singleton] at hv
  subst hv
  simp [insert_stop, hs2, hbs, hs1.2]

/-- C3 at the worked example (MMU_ENABLE set, 1024 slots per slave table):
after mapping 1 page and then 1023 pages, the unmap of B ends in the null
dereference, and so does the unmap of A when it is tried first. -/
theorem C3_merge_fails_witness :
    (mmu2d_unmap (demo_config true) (demo_mapped2 true 1 1023).mmu
        (demo_mapped2 true 1 1023).ctxt (demo_arena2 true 1 1023).handle).isFault = true ∧
    (mmu2d_unmap (demo_config true) (demo_mapped2 true 1 1023).mmu
        (demo_mapped2 true 1 1023).ctxt (demo_arena true 1).handle).isFault = true ∧
    (demo_mapped2 true 1 1023).ctxt.allocated = [demo_arena2 true 1 1023, demo_arena true 1] ∧
    lin (demo_config true) (demo_arena true 1) + (demo_arena true 1).count
      = lin (demo_config true) (demo_arena2 true 1 1023) ∧
    (∀ mmu1 ctxt1,
      mmu2d_unmap (demo_config true) (demo_mapped2 true 1 1023).mmu
        (demo_mapped2 true 1 1023).ctxt (demo_arena2 true 1 1023).handle
          ≠ .ret (.GCERR_NONE, mmu1, ctxt1)) ∧
    ((demo_config true).MMU_ENABLE = false →
      mmu2d_unmap (demo_config true) (demo_mapped2 true 1 1023).mmu
        (demo_mapped2 true 1 1023).ctxt (demo_arena2 true 1 1023).handle = .fault) :=
  ⟨by decide!, by decide!,
   C3_merge_fails (demo_config true) (demo_sane true) (by decide) (by decide) demo_create_env
     demo_globals _ _ (demo_created_ok true) demo_map_env demo_map_env2 (demo_mem 1)
     (demo_mem 1023) _ _ _ _ rfl rfl
     (demo_mapped_ok true 1 (by decide!)) (by decide!)
     (demo_mapped2_ok true 1 1023 (by decide!)) (by decide!)⟩

/-! ## C4: first fit with split -/

/-- C4. A successful mmu2d_map of n > 0 units on a vacant list of well formed
arenas selects the first arena in list order whose count is at least n (every
arena before it is smaller). If its count equals n the arena is removed from
the vacant list and nothing else changes there; otherwise the vacant list
keeps, at the same position, a remainder whose linear start is the chosen start
plus n and whose count is the chosen count minus n. The claimed arena has the
chosen start and count n and is the head of the allocated list. In particular
vacant counts [10, 3, 7] and n = 5 give vacant counts [5, 3, 7]. -/
theorem C4_first_fit (k : Config) (hN : k.MMU_STLB_ENTRY_NUM < 4294967296) (env : map_env)
    (mmu : mmu2dprivate) (ctxt : mmu2dcontext) (mem : mmu2dphysmem) (r : map_result)
    (hwf : ∀ v ∈ ctxt.vacant, v.stlb < k.MMU_STLB_ENTRY_NUM ∧ lin k v + v.count < 4294967296)
    (hmap : mmu2d_map k env mmu ctxt mem = .ret r) (hok : r.gcerror = .GCERR_NONE) :
    (0 < mem.count ∧
     ∃ pre v post claimed,
      ctxt.vacant = pre ++ v :: post ∧ (∀ x ∈ pre, x.count < mem.count) ∧
      mem.count ≤ v.count ∧
      r.mapped = some claimed ∧ claimed.handle = v.handle ∧ claimed.mtlb = v.mtlb ∧
      claimed.stlb = v.stlb ∧ claimed.count = mem.count ∧
      r.ctxt.allocated = claimed :: ctxt.allocated ∧
      (v.count = mem.count → r.ctxt.vacant = pre ++ post) ∧
      (v.count ≠ mem.count → ∃ rest, r.ctxt.vacant = pre ++ rest :: post ∧
        lin k rest = lin k v + mem.count ∧ rest.stlb < k.MMU_STLB_ENTRY_NUM ∧
        rest.count = v.count - mem.count)) ∧
    (ctxt.vacant.map (fun v => v.count) = [10, 3, 7] → mem.count = 5 →
      r.ctxt.vacant.map (fun v => v.count) = [5, 3, 7]) := by
  have hcase := (map_cases k env mmu ctxt mem r hmap hwf hN).2
  rcases hcase with ⟨hne, _⟩ | ⟨_, _, hpc, pre, v, post, claimed, parray, hvac, hpre,
      hge, hmp, hch, hcm, hcs, hcc, _, hal, hrest⟩
  · exact absurd hok hne
  · have hgen : (v.count = mem.count → r.ctxt.vacant = pre ++ post) ∧
        (v.count ≠ mem.count → ∃ rest, r.ctxt.vacant = pre ++ rest :: post ∧
          lin k rest = lin k v + mem.count ∧ rest.stlb < k.MMU_STLB_ENTRY_NUM ∧
          rest.count = v.count - mem.count) := by
      rcases hrest with ⟨heq, hv1, _⟩ | ⟨hne, split0, mi, si, _, hpos, hsi, hv1⟩
      · exact ⟨fun _ => hv1, fun h => absurd heq h⟩
      · refine ⟨fun h => absurd h hne, fun _ => ⟨_, hv1, ?_, hsi, rfl⟩⟩
        unfold lin at hpos ⊢
        simpa using hpos
    refine ⟨⟨hpc, pre, v, post, claimed, hvac, hpre, hge, hmp, hch, hcm, hcs, hcc, hal,
      hgen.1, hgen.2⟩, ?_⟩
    intro hcounts hn
    rw [hvac] at hcounts
    cases pre with
    | nil =>
      simp only [List.nil_append, List.map_cons, List.cons.injEq] at hcounts
      obtain ⟨rest, hv1, _, _, hrc⟩ := hgen.2 (by omega)
      rw [hv1]
      simp only [List.nil_append, List.map_cons, List.cons.injEq]
      exact ⟨by omega, hcounts.2⟩
    | cons p pre1 =>
      simp only [List.cons_append, List.map_cons, List.cons.injEq] at hcounts
      have := hpre p (by simp)
      omega

/-- C4 at the worked example: mmu2d_map of 5 pages on a vacant list with
counts [10, 3, 7] claims 5 units of the first arena and leaves counts
[5, 3, 7]. -/
theorem C4_first_fit_witness :
    demo_first_fit.gcerror = .GCERR_NONE ∧
    demo_first_fit.ctxt.vacant.map triple = [(0, 5, 5), (0, 20, 3), (0, 40, 7)] ∧
    demo_first_fit.ctxt.allocated.map triple = [(0, 0, 5)] ∧
    (demo_ctxt_10_3_7.vacant.map (fun v => v.count) = [10, 3, 7] → (demo_mem 5).count = 5 →
      demo_first_fit.ctxt.vacant.map (fun v => v.count) = [5, 3, 7]) :=
  ⟨by decide!, by decide!, by decide!,
   (C4_first_fit (demo_config true) (by decide) demo_map_env demo_globals.mmu
      demo_ctxt_10_3_7 (demo_mem 5) demo_first_fit
      (by decide!) (Run.eq_ret _ _ (by decide!)) (by decide!)).2⟩

/-! ## C5: out of space -/

/-- C5 as stated fails: on the new context of the worked example a request
whose count (1048577) exceeds the count of the only vacant arena, but whose
page size is 65536, is answered with GCERR_MMU_ARG by the argument check that
precedes the search, not with GCERR_MMU_OOM. And on a context that is not
active (here the zeroed context, whose vacant list is empty) a request for one
page is answered with GCERR_MMU_CTXT_BAD. -/
theorem C5_out_of_space_counterexample :
    ((∀ v ∈ (demo_created true).2.2.vacant, v.count < demo_mem_64k.count) ∧
     ∃ r, mmu2d_map (demo_config true) demo_map_env (demo_created true).2.1.mmu
         (demo_created true).2.2 demo_mem_64k = .ret r ∧
       r.gcerror = .GCERR_MMU_ARG ∧ r.gcerror ≠ .GCERR_MMU_OOM) ∧
    ((∀ v ∈ mmu2dcontext_zero.vacant, v.count < (demo_mem 1).count) ∧
     ∃ r, mmu2d_map (demo_config true) demo_map_env demo_globals.mmu mmu2dcontext_zero
         (demo_mem 1) = .ret r ∧
       r.gcerror = .GCERR_MMU_CTXT_BAD ∧ r.gcerror ≠ .GCERR_MMU_OOM) :=
  ⟨⟨by decide!,
    _, Run.eq_ret _ map_result_zero (by decide!), by decide!, by decide!⟩,
   ⟨by decide,
    _, Run.eq_ret _ map_result_zero (by decide!), by decide!, by decide!⟩⟩

/-- C5, amended. For every active context and every request that passes the
argument check (count > 0, page size 0 or MMU_PAGE_SIZE) and whose count
exceeds the count of every arena on the vacant list, mmu2d_map returns
GCERR_MMU_OOM, writes nothing through `mapped`, and leaves the MMU object, the
context (so both lists) and the request unchanged. -/
theorem C5_out_of_space (k : Config) (env : map_env) (mmu : mmu2dprivate)
    (ctxt : mmu2dcontext) (mem : mmu2dphysmem) (hactive : ctxt.mmu = true)
    (hcount : 0 < mem.count) (hsize : mem.pagesize = 0 ∨ mem.pagesize = k.MMU_PAGE_SIZE)
    (hbig : ∀ v ∈ ctxt.vacant, v.count < mem.count) :
    mmu2d_map k env mmu ctxt mem
      = .ret { gcerror := .GCERR_MMU_OOM, mmu := mmu, ctxt := ctxt, mem := mem,
               mapped := none } := by
  unfold mmu2d_map
  have h1 : ¬ (mem.count ≤ 0 ∨ mem.pagesize ≠ 0 ∧ mem.pagesize ≠ k.MMU_PAGE_SIZE) := by
    rcases hsize with h | h <;> simp [h] <;> omega
  rw [walk_until_all_false _ _ (fun v hv => by simpa using hbig v hv)]
  simp only [hactive, Bool.true_eq_false, if_false, h1]

/-- C5 (amended) at the worked example: a valid request for one page more than
the address space has, on the new context. -/
theorem C5_out_of_space_witness :
    mmu2d_map (demo_config true) demo_map_env (demo_created true).2.1.mmu
        (demo_created true).2.2 (demo_mem 1048577)
      = .ret { gcerror := .GCERR_MMU_OOM, mmu := (demo_created true).2.1.mmu,
               ctxt := (demo_created true).2.2, mem := demo_mem 1048577, mapped := none } :=
  C5_out_of_space (demo_config true) demo_map_env _ _ (demo_mem 1048577) (by decide!)
    (by decide) (Or.inr rfl) (by decide!)

/-! ## Which slave-table pointers the loop of mmu2d_map writes -/

theorem allocate_slave_tables (k : Config) (env : slave_env) (ctxt ctxt1 : mmu2dcontext)
    (e : gcerror) (st : Option mmu2dstlb)
    (h : mmu2d_allocate_slave k env ctxt = .ret (e, ctxt1, st)) :
    ctxt1.slave = ctxt.slave ∧ ctxt1.master = ctxt.master := by
  unfold mmu2d_allocate_slave at h
  split at h
  · cases h; exact ⟨rfl, rfl⟩
  · simp only at h
    split at h
    · cases h
    · split at h
      · cases h
        split <;> exact ⟨rfl, rfl⟩
      · cases h
        split <;> exact ⟨rfl, rfl⟩

/-- The first `#if MMU_ENABLE` part of the loop body writes no pointer but
`ctxt->slave[i]`, and nothing at all when the master entry is not vacant. -/
theorem map_touch_frame (k : Config) (env : slave_env) (ms i : Nat) (ctxt ctxt1 : mmu2dcontext)
    (e : gcerror) (h : map_touch k env ms i ctxt = .ret (e, ctxt1)) :
    (∀ j, j ≠ i → slave_at ctxt1 j = slave_at ctxt j) ∧
    (ctxt.master.words (ms + i) ≠ k.MMU_MTLB_ENTRY_VACANT → e = .GCERR_NONE ∧ ctxt1 = ctxt) := by
  unfold map_touch at h
  split at h
  · rename_i hvac
    refine ⟨?_, fun hne => absurd hvac hne⟩
    split at h
    · cases h
    · cases h
    · rename_i e1 c1 st hal
      have hl := allocate_slave_tables k env ctxt c1 e1 st hal
      split at h
      · cases h; intro j _; unfold slave_at; rw [hl.1]
      · split at h
        · rename_i stlb slave hsl
          cases h
          intro j hj
          unfold slave_at
          rw [← hl.1, hsl]
          simp [Function.update_noteq hj]
        · cases h
  · cases h; exact ⟨fun _ _ => rfl, fun _ => ⟨rfl, rfl⟩⟩

/-- The second `#if MMU_ENABLE` part of the loop body writes the table
`ctxt->slave[i]` and no other. -/
theorem map_fill_frame (k : Config) (i s av : Nat) (parray : List Nat)
    (ctxt ctxt1 : mmu2dcontext) (h : map_fill k i s av parray ctxt = .ret ctxt1) :
    (∀ j, j ≠ i → slave_at ctxt1 j = slave_at ctxt j) ∧
    ∃ t t1, slave_at ctxt i = some t ∧ slave_at ctxt1 i = some t1 ∧
      t1.count = u32_add t.count av ∧
      (∀ idx, s ≤ idx → idx < s + av →
        t1.pages.words idx = stlb_entry k (parray.getD (idx - s) 0)) := by
  unfold map_fill at h
  split at h
  · cases h
  · rename_i slave hsl
    split at h
    · cases h
    · rename_i stlb hst
      cases h
      refine ⟨?_, stlb,
        ({ pages := { stlb.pages with
             words := fun idx =>
               if s ≤ idx ∧ idx < s + av then stlb_entry k (parray.getD (idx - s) 0)
               else stlb.pages.words idx },
           count := u32_add stlb.count av } : mmu2dstlb), ?_, ?_, rfl, ?_⟩
      · intro j hj
        unfold slave_at
        rw [hsl]
        simp [Function.update_noteq hj]
      · unfold slave_at; rw [hsl]; simpa using hst
      · unfold slave_at; simp
      · intro idx h1 h2
        simp [h1, h2]

/-- The loop of `mmu2d_map`, at iteration `i` with `c` units to go from slot
`s`, writes the pointer `ctxt->slave[j]` and its table only for `i ≤ j` with
`j * MMU_STLB_ENTRY_NUM < i * MMU_STLB_ENTRY_NUM + s + c`. -/
theorem map_loop_frame (k : Config) (senv : Nat → slave_env) (ms : Nat)
    (hN : k.MMU_STLB_ENTRY_NUM < 4294967296) (fuel : Nat) :
    ∀ (i m s c : Nat) (parray : List Nat) (ctxt ctxt1 : mmu2dcontext) (e : gcerror)
      (mi si : Nat),
      map_loop k senv ms fuel i m s c parray ctxt = .ret (e, ctxt1, mi, si) →
      s < k.MMU_STLB_ENTRY_NUM → c < 4294967296 →
      ∀ j, (j < i ∨ c = 0 ∨ i * k.MMU_STLB_ENTRY_NUM + s + c ≤ j * k.MMU_STLB_ENTRY_NUM) →
        slave_at ctxt1 j = slave_at ctxt j := by
  induction fuel with
  | zero =>
    intro i m s c parray ctxt ctxt1 e mi si h hs hc j hj
    unfold map_loop at h
    by_cases hc0 : c = 0
    · simp only [hc0, if_true] at h
      cases h; rfl
    · simp only [hc0, if_false] at h
      cases h
  | succ fuel ih =>
    intro i m s c parray ctxt ctxt1 e mi si h hs hc j hj
    unfold map_loop at h
    by_cases hc0 : c = 0
    · simp only [hc0, if_true] at h
      cases h; rfl
    · simp only [hc0, if_false] at h
      have hji : j ≠ i := by
        rcases hj with hj | hj | hj
        · omega
        · exact absurd hj hc0
        · intro hji; subst hji; omega
      have hsub : u32_sub k.MMU_STLB_ENTRY_NUM s = k.MMU_STLB_ENTRY_NUM - s :=
        u32_sub_eq _ _ (by omega) hN
      rw [hsub] at h
      split at h
      · cases h
      · cases h
      · rename_i e1 c1 ht
        have hf1 : slave_at c1 j = slave_at ctxt j := by
          split at ht
          · exact (map_touch_frame k _ ms i ctxt c1 e1 ht).1 j hji
          · cases ht; rfl
        split at h
        · cases h; exact hf1
        · split at h
          · rename_i hav
            split at h
            · cases h
            · cases h
            · rename_i c2 hf
              have hf2 : slave_at c2 j = slave_at c1 j := by
                split at hf
                · exact (map_fill_frame k _ _ _ _ c1 c2 hf).1 j hji
                · cases hf; rfl
              have h1 : u32_add s c = s + c := u32_add_eq _ _ (by omega)
              rw [h1, u32_sub_self] at h
              have := ih _ _ _ _ _ _ _ _ _ _ h (by omega) (by omega) j (Or.inr (Or.inl rfl))
              rw [this, hf2, hf1]
          · rename_i hav
            split at h
            · cases h
            · cases h
            · rename_i c2 hf
              have hf2 : slave_at c2 j = slave_at c1 j := by
                split at hf
                · exact (map_fill_frame k _ _ _ _ c1 c2 hf).1 j hji
                · cases hf; rfl
              have h2 : u32_sub c (k.MMU_STLB_ENTRY_NUM - s) = c - (k.MMU_STLB_ENTRY_NUM - s) :=
                u32_sub_eq _ _ (by omega) (by omega)
              rw [h2] at h
              have hmul : (i + 1) * k.MMU_STLB_ENTRY_NUM
                  = i * k.MMU_STLB_ENTRY_NUM + k.MMU_STLB_ENTRY_NUM := Nat.succ_mul _ _
              have := ih _ _ _ _ _ _ _ _ _ _ h (by omega) (by omega) j
                (by
                  rcases hj with hj | hj | hj
                  · left; omega
                  · exact absurd hj hc0
                  · right; right; rw [hmul]; omega)
              rw [this, hf2, hf1]

/-- Under `MMU_ENABLE`, when the master entry of the first iteration is not
vacant, the loop of `mmu2d_map` adds the units of that iteration to the
live-entry count of the table `ctxt->slave[i]` and writes its slot `s`,
whatever happens in later iterations. -/
theorem map_loop_first (k : Config) (hen : k.MMU_ENABLE = true) (senv : Nat → slave_env)
    (ms : Nat) (hN : k.MMU_STLB_ENTRY_NUM < 4294967296) (fuel i m s c : Nat)
    (parray : List Nat) (ctxt ctxt1 : mmu2dcontext) (e : gcerror) (mi si : Nat) (t0 : mmu2dstlb)
    (h : map_loop k senv ms fuel i m s c parray ctxt = .ret (e, ctxt1, mi, si))
    (hc : 0 < c) (hc32 : c < 4294967296) (hs : s < k.MMU_STLB_ENTRY_NUM)
    (hm : ctxt.master.words (ms + i) ≠ k.MMU_MTLB_ENTRY_VACANT)
    (ht : slave_at ctxt i = some t0) :
    ∃ t1, slave_at ctxt1 i = some t1 ∧
      t1.count = u32_add t0.count (min c (k.MMU_STLB_ENTRY_NUM - s)) ∧
      t1.pages.words s = stlb_entry k (parray.getD 0 0) := by
  have hc0 : c ≠ 0 := by omega
  cases fuel with
  | zero =>
    unfold map_loop at h
    simp only [hc0, if_false] at h
    cases h
  | succ fuel =>
    unfold map_loop at h
    simp only [hc0, if_false, hen, if_true] at h
    have hsub : u32_sub k.MMU_STLB_ENTRY_NUM s = k.MMU_STLB_ENTRY_NUM - s :=
      u32_sub_eq _ _ (by omega) hN
    rw [hsub] at h
    split at h
    · cases h
    · cases h
    · rename_i e1 c1 htouch
      obtain ⟨he1, hc1⟩ := (map_touch_frame k _ ms i ctxt c1 e1 htouch).2 hm
      subst he1 hc1
      simp only [ne_eq, not_true_eq_false, if_false] at h
      split at h
      · rename_i hav
        split at h
        · cases h
        · cases h
        · rename_i c2 hf
          obtain ⟨_, t, t1, hta, ht1, hcnt, hw⟩ := map_fill_frame k _ _ _ _ _ c2 hf
          rw [ht] at hta
          cases hta
          have h1 : u32_add s c = s + c := u32_add_eq _ _ (by omega)
          rw [h1, u32_sub_self] at h
          have hfr := map_loop_frame k senv ms hN fuel _ _ _ _ _ _ _ _ _ _ h (by omega)
            (by omega) i (Or.inl (by omega))
          refine ⟨t1, by rw [hfr]; exact ht1, ?_, ?_⟩
          · rw [hcnt, Nat.min_eq_left (by omega)]
          · have := hw s (le_refl _) (by omega)
            simpa using this
      · rename_i hav
        split at h
        · cases h
        · cases h
        · rename_i c2 hf
          obtain ⟨_, t, t1, hta, ht1, hcnt, hw⟩ := map_fill_frame k _ _ _ _ _ c2 hf
          rw [ht] at hta
          cases hta
          have h2 : u32_sub c (k.MMU_STLB_ENTRY_NUM - s) = c - (k.MMU_STLB_ENTRY_NUM - s) :=
            u32_sub_eq _ _ (by omega) (by omega)
          rw [h2] at h
          have hfr := map_loop_frame k senv ms hN fuel _ _ _ _ _ _ _ _ _ _ h (by omega)
            (by omega) i (Or.inl (by omega))
          refine ⟨t1, by rw [hfr]; exact ht1, ?_, ?_⟩
          · rw [hcnt, Nat.min_eq_right (by omega)]
          · have := hw s (le_refl _) (by omega)
            simpa using this

theorem walk_until_split (p : mmu2darena → Bool) (pre : List mmu2darena) (v : mmu2darena)
    (post : List mmu2darena) (hpre : ∀ x ∈ pre, p x = false) (hv : p v = true) :
    walk_until p (pre ++ v :: post) = (pre, v :: post) := by
  induction pre with
  | nil => exact walk_until_head p v post hv
  | cons x rest ih =>
    simp only [List.cons_append]
    unfold walk_until
    have hx := hpre x (by simp)
    simp only [hx, Bool.false_eq_true, if_false]
    rw [ih (fun y hy => hpre y (by simp [hy]))]

/-- The tables that the parts "Allocate slave tables as necessary" and "Claim
arena" of `mmu2d_map` leave behind are the tables the loop left behind, on
every path, the failing ones included. -/
theorem map_claim_tables (k : Config) (env : map_env) (mmu : mmu2dprivate)
    (ctxt : mmu2dcontext) (mem : mmu2dphysmem) (pre : List mmu2darena) (v : mmu2darena)
    (post : List mmu2darena) (parray : List Nat) (pa : Bool) (r : map_result)
    (h : map_claim k env mmu ctxt mem pre v post parray pa = .ret r) :
    ∃ e ctxt1 mi si,
      map_loop k env.slave v.mtlb (mem.count + 1) 0 v.mtlb v.stlb mem.count parray ctxt
        = .ret (e, ctxt1, mi, si) ∧
      r.ctxt.slave = ctxt1.slave ∧ r.ctxt.master = ctxt1.master ∧
      (∀ b, r.mapped = some b →
        r.gcerror = .GCERR_NONE ∧ b.mtlb = v.mtlb ∧ b.stlb = v.stlb ∧ b.count = mem.count) := by
  unfold map_claim at h
  split at h
  · cases h
  · cases h
  · rename_i e1 c1 mi si hloop
    refine ⟨e1, c1, mi, si, hloop, ?_⟩
    split at h
    · cases h
      exact ⟨rfl, rfl, fun b hb => by simp [map_fail] at hb⟩
    · simp only at h
      split at h
      · split at h
        · cases h
        · cases h
        · split at h
          · cases h
            exact ⟨rfl, rfl, fun b hb => by simp [map_fail] at hb⟩
          · split at h
            · cases h
            · cases h
              refine ⟨rfl, rfl, fun b hb => ?_⟩
              simp only [Option.some.injEq] at hb
              subst hb
              exact ⟨rfl, rfl, rfl, rfl⟩
      · rename_i heq
        cases h
        refine ⟨rfl, rfl, fun b hb => ?_⟩
        simp only [Option.some.injEq] at hb
        subst hb
        exact ⟨rfl, rfl, rfl, by simpa using heq⟩

/-- A call of `mmu2d_map` that stores an arena in `*mapped` went through the
table and claim part. -/
theorem map_mapped_claim (k : Config) (env : map_env) (mmu : mmu2dprivate)
    (ctxt : mmu2dcontext) (mem : mmu2dphysmem) (r : map_result) (b : mmu2darena)
    (h : mmu2d_map k env mmu ctxt mem = .ret r) (hb : r.mapped = some b) :
    0 < mem.count ∧ ∃ pre v post parray pa,
      map_claim k env mmu ctxt mem pre v post parray pa = .ret r := by
  unfold mmu2d_map at h
  split at h
  · cases h; cases hb
  · split at h
    · cases h; cases hb
    · rename_i harg
      have hpc : 0 < mem.count := by
        by_contra hc
        exact harg (Or.inl (by omega))
      refine ⟨hpc, ?_⟩
      split at h
      · cases h; cases hb
      · simp only at h
        split at h
        · split at h
          · cases h; simp [map_fail] at hb
          · split at h
            · cases h; simp [map_fail] at hb
            · exact ⟨_, _, _, _, _, h⟩
        · exact ⟨_, _, _, _, _, h⟩

theorem option_eq_some_getD {α : Type} (o : Option α) (d : α) (h : o.isSome = true) :
    o = some (o.getD d) := by
  cases o <;> simp_all

/-! ## C6: translation after map -/

/-- C6 (violated). A successful mmu2d_map whose arena does not start at master
index 0 does not write the slave table that the context records for the master
index of the arena's last page, L = mtlb * MMU_STLB_ENTRY_NUM + stlb + n - 1:
`ctxt->slave[L div MMU_STLB_ENTRY_NUM]` is the same pointer, to a table with
the same content, as before the call. The loop stores and fills the tables
under the loop counter, `ctxt->slave[i]` with i from 0, while it enters them in
the master table under `mtlb + i`. So the entry for that page is in the
recorded table only if it was there before the call. -/
theorem C6_translation_fails (k : Config) (hN : k.MMU_STLB_ENTRY_NUM < 4294967296)
    (env : map_env) (mmu : mmu2dprivate) (ctxt : mmu2dcontext) (mem : mmu2dphysmem)
    (r : map_result) (b : mmu2darena) (hcount : mem.count < 4294967296)
    (hmap : mmu2d_map k env mmu ctxt mem = .ret r) (hb : r.mapped = some b)
    (hs : b.stlb < k.MMU_STLB_ENTRY_NUM) (hm : 1 ≤ b.mtlb) :
    r.gcerror = .GCERR_NONE ∧ b.count = mem.count ∧ 0 < b.count ∧
    slave_at r.ctxt ((lin k b + (b.count - 1)) / k.MMU_STLB_ENTRY_NUM)
      = slave_at ctxt ((lin k b + (b.count - 1)) / k.MMU_STLB_ENTRY_NUM) := by
  obtain ⟨hpc, pre, v, post, parray, pa, hcl⟩ := map_mapped_claim k env mmu ctxt mem r b hmap hb
  obtain ⟨e, ctxt1, mi, si, hloop, hsl, _, hmp⟩ :=
    map_claim_tables k env mmu ctxt mem pre v post parray pa r hcl
  obtain ⟨hok, hbm, hbs, hbc⟩ := hmp b hb
  refine ⟨hok, hbc, by omega, ?_⟩
  have hfr := map_loop_frame k env.slave v.mtlb hN _ _ _ _ _ _ _ _ _ _ _ hloop
    (by rw [← hbs]; exact hs) hcount
    ((lin k b + (b.count - 1)) / k.MMU_STLB_ENTRY_NUM) (by
      right; right
      have hdm := Nat.div_add_mod (lin k b + (b.count - 1)) k.MMU_STLB_ENTRY_NUM
      have hr := Nat.mod_lt (lin k b + (b.count - 1)) (show 0 < k.MMU_STLB_ENTRY_NUM by omega)
      have hmN : k.MMU_STLB_ENTRY_NUM ≤ b.mtlb * k.MMU_STLB_ENTRY_NUM :=
        Nat.le_mul_of_pos_left _ hm
      rw [Nat.mul_comm] at hdm
      unfold lin at hdm hr ⊢
      rw [← hbs, ← hbc]
      omega)
  unfold slave_at at hfr ⊢
  rw [hsl]
  exact hfr

/-- C6 at the worked examples (MMU_ENABLE set, 1024 slots per slave table).
First: on a new context map 1024 pages, then one page; the second call returns
the arena (1, 0, 1), master entry 1 is no longer vacant, but `ctxt->slave[1]`
is NULL as before: no slave table is recorded for master index 1, the new table
went to `ctxt->slave[0]`. Second: map 1025 pages, which records the tables of
master index 0 and 1, then one page with physical address 180150272; the call
returns the arena (1, 1, 1), so L = 1025, but slot 1 of the table recorded for
master index 1, the table master entry 1 refers to, still holds the vacant
value, and the entry was written to slot 1 of the table of master index 0,
over the entry of page 1 of the first mapping, whose live-entry count is now
1025. -/
theorem C6_translation_fails_witness :
    (mmu2d_map (demo_config true) demo_map_env2 (demo_mapped true 1024).mmu
      (demo_mapped true 1024).ctxt (demo_mem 1)).isRet = true ∧
    triple (demo_arena2 true 1024 1) = (1, 0, 1) ∧
    (demo_mapped2 true 1024 1).ctxt.master.words 1
      ≠ (demo_config true).MMU_MTLB_ENTRY_VACANT ∧
    (slave_at (demo_mapped2 true 1024 1).ctxt 1).isNone = true ∧
    (slave_at (demo_mapped2 true 1024 1).ctxt 0).map
        (fun t => (mtlb_entry (demo_config true) t, t.count, t.pages.words 0))
      = some ((demo_mapped2 true 1024 1).ctxt.master.words 1, 1,
              stlb_entry (demo_config true) 180146176) ∧
    (mmu2d_map (demo_config true) demo_map_env2 (demo_mapped true 1025).mmu
      (demo_mapped true 1025).ctxt demo_mem_other).isRet = true ∧
    demo_clobbered.gcerror = .GCERR_NONE ∧
    demo_clobbered.mapped.map triple = some (1, 1, 1) ∧
    (slave_at demo_clobbered.ctxt 1).map
        (fun t => (mtlb_entry (demo_config true) t, t.count, t.pages.words 1))
      = some (demo_clobbered.ctxt.master.words 1, 1,
              (demo_config true).MMU_STLB_ENTRY_VACANT) ∧
    stlb_entry (demo_config true) 180150272 ≠ (demo_config true).MMU_STLB_ENTRY_VACANT ∧
    (slave_at (demo_mapped true 1025).ctxt 0).map (fun t => (t.count, t.pages.words 1))
      = some (1024, stlb_entry (demo_config true) 180146176) ∧
    (slave_at demo_clobbered.ctxt 0).map (fun t => (t.count, t.pages.words 1))
      = some (1025, stlb_entry (demo_config true) 180150272) ∧
    ((demo_mapped2 true 1024 1).gcerror = .GCERR_NONE ∧
     (demo_arena2 true 1024 1).count = (demo_mem 1).count ∧
     0 < (demo_arena2 true 1024 1).count ∧
     slave_at (demo_mapped2 true 1024 1).ctxt
        ((lin (demo_config true) (demo_arena2 true 1024 1)
          + ((demo_arena2 true 1024 1).count - 1)) / (demo_config true).MMU_STLB_ENTRY_NUM)
      = slave_at (demo_mapped true 1024).ctxt
        ((lin (demo_config true) (demo_arena2 true 1024 1)
          + ((demo_arena2 true 1024 1).count - 1)) / (demo_config true).MMU_STLB_ENTRY_NUM)) :=
  ⟨by decide!, by decide!, by decide!, by decide!, by decide!, by decide!, by decide!,
   by decide!, by decide!, by decide!, by decide!, by decide!,
   C6_translation_fails (demo_config true) (by decide) demo_map_env2 _ _ (demo_mem 1) _ _
     (by decide) (demo_mapped2_ok true 1024 1 (by decide!)) (by decide!) (by decide!)
     (by decide!)⟩

/-! ## C7: the device-visible address -/

theorem and_shiftRight (a b s : Nat) : (a &&& b) >>> s = (a >>> s) &&& (b >>> s) := by
  apply Nat.eq_of_testBit_eq
  intro i
  simp [Nat.testBit_shiftRight, Nat.testBit_and]

theorem and_shiftLeft (a b s : Nat) : (a <<< s) &&& (b <<< s) = (a &&& b) <<< s := by
  apply Nat.eq_of_testBit_eq
  intro i
  simp only [Nat.testBit_shiftLeft, Nat.testBit_and]
  by_cases h : i ≥ s <;> simp [h]

/-- Three adjacent bit fields: encoding with shifts and masks, and decoding. -/
theorem field_layout (s w b mt st off : Nat) (hb : s + w + b ≤ 32) (hmt : mt < 2 ^ b)
    (hst : st < 2 ^ w) (hoff : off < 2 ^ s) :
    (((mt <<< (s + w)) % 4294967296) &&& ((2 ^ b - 1) <<< (s + w)))
        ||| (((st <<< s) % 4294967296) &&& ((2 ^ w - 1) <<< s)) ||| (off &&& (2 ^ s - 1))
      = 2 ^ (s + w) * mt + 2 ^ s * st + off ∧
    (mt <<< (s + w)) ||| (st <<< s) ||| off = 2 ^ (s + w) * mt + 2 ^ s * st + off ∧
    ((2 ^ (s + w) * mt + 2 ^ s * st + off) &&& ((2 ^ b - 1) <<< (s + w))) >>> (s + w) = mt ∧
    ((2 ^ (s + w) * mt + 2 ^ s * st + off) &&& ((2 ^ w - 1) <<< s)) >>> s = st ∧
    (2 ^ (s + w) * mt + 2 ^ s * st + off) &&& (2 ^ s - 1) = off := by
  have hps : 0 < 2 ^ s := Nat.pow_pos (by norm_num)
  have hpw : 0 < 2 ^ w := Nat.pow_pos (by norm_num)
  have hsw : 2 ^ (s + w) = 2 ^ s * 2 ^ w := Nat.pow_add 2 s w
  have h32 : 2 ^ (s + w) * 2 ^ b ≤ 4294967296 := by
    rw [← Nat.pow_add]
    calc 2 ^ (s + w + b) ≤ 2 ^ 32 := Nat.pow_le_pow_right (by norm_num) hb
      _ = 4294967296 := by norm_num
  have hlow : 2 ^ s * st + off < 2 ^ (s + w) := by
    rw [hsw]
    calc 2 ^ s * st + off < 2 ^ s * st + 2 ^ s := by omega
      _ = 2 ^ s * (st + 1) := by ring
      _ ≤ 2 ^ s * 2 ^ w := Nat.mul_le_mul_left _ hst
  have hst2 : 2 ^ s * st < 2 ^ (s + w) := by omega
  have hmtb : 2 ^ (s + w) * mt < 4294967296 := by
    calc 2 ^ (s + w) * mt < 2 ^ (s + w) * 2 ^ b :=
          Nat.mul_lt_mul_of_pos_left hmt (Nat.pow_pos (by norm_num))
      _ ≤ 4294967296 := h32
  have hsum : (mt <<< (s + w)) ||| (st <<< s) ||| off
      = 2 ^ (s + w) * mt + 2 ^ s * st + off := by
    rw [Nat.shiftLeft_eq, Nat.shiftLeft_eq, Nat.mul_comm mt, Nat.mul_comm st]
    rw [← Nat.mul_add_lt_is_or hst2 mt]
    have : 2 ^ (s + w) * mt + 2 ^ s * st = 2 ^ s * (2 ^ w * mt + st) := by rw [hsw]; ring
    rw [this, ← Nat.mul_add_lt_is_or hoff]
  have hdivm : (2 ^ (s + w) * mt + 2 ^ s * st + off) / 2 ^ (s + w) = mt := by
    rw [Nat.add_assoc, Nat.add_comm, Nat.add_mul_div_left _ _ (Nat.pow_pos (by norm_num)),
      Nat.div_eq_of_lt hlow]
    simp
  have hdivs : (2 ^ (s + w) * mt + 2 ^ s * st + off) / 2 ^ s = 2 ^ w * mt + st := by
    have : 2 ^ (s + w) * mt + 2 ^ s * st + off = off + 2 ^ s * (2 ^ w * mt + st) := by
      rw [hsw]; ring
    rw [this, Nat.add_mul_div_left _ _ hps, Nat.div_eq_of_lt hoff]
    simp
  refine ⟨?_, hsum, ?_, ?_, ?_⟩
  · rw [← hsum]
    have e1 : (mt <<< (s + w)) % 4294967296 = mt <<< (s + w) := by
      rw [Nat.shiftLeft_eq, Nat.mul_comm]; exact Nat.mod_eq_of_lt hmtb
    have e2 : (st <<< s) % 4294967296 = st <<< s := by
      rw [Nat.shiftLeft_eq, Nat.mul_comm]
      have : 2 ^ (s + w) ≤ 4294967296 :=
        le_trans (Nat.le_mul_of_pos_right _ (Nat.pow_pos (by norm_num))) h32
      exact Nat.mod_eq_of_lt (by omega)
    rw [e1, e2, and_shiftLeft, and_shiftLeft, Nat.and_pow_two_sub_one_eq_mod,
      Nat.and_pow_two_sub_one_eq_mod, Nat.and_pow_two_sub_one_eq_mod,
      Nat.mod_eq_of_lt hmt, Nat.mod_eq_of_lt hst, Nat.mod_eq_of_lt hoff]
  · rw [and_shiftRight, Nat.shiftLeft_shiftRight, Nat.and_pow_two_sub_one_eq_mod,
      Nat.shiftRight_eq_div_pow, hdivm, Nat.mod_eq_of_lt hmt]
  · rw [and_shiftRight, Nat.shiftLeft_shiftRight, Nat.and_pow_two_sub_one_eq_mod,
      Nat.shiftRight_eq_div_pow, hdivs, Nat.add_comm, Nat.add_mul_mod_self_left,
      Nat.mod_eq_of_lt hst]
  · rw [Nat.and_pow_two_sub_one_eq_mod]
    have : 2 ^ (s + w) * mt + 2 ^ s * st + off = off + 2 ^ s * (2 ^ w * mt + st) := by
      rw [hsw]; ring
    rw [this, Nat.add_mul_mod_self_left, Nat.mod_eq_of_lt hoff]

/-- C7. In the MMU-enabled configuration, with shift and mask constants that
describe three adjacent bit fields, every successful mmu2d_map in a reachable
state, for a request whose offset lies within the page, returns an arena whose
address is (mtlb << MMU_MTLB_SHIFT) | (stlb << MMU_STLB_SHIFT) | offset for the
arena's start (mtlb, stlb); the indices are in range, and decoding the address
with MMU_MTLB_MASK, MMU_STLB_MASK and MMU_OFFSET_MASK gives back mtlb, stlb and
offset. -/
theorem C7_address (k : Config) (hk : k.sane) (hl : k.layout) (hen : k.MMU_ENABLE = true)
    (mmu : mmu2dprivate) (ctxt : mmu2dcontext) (hreach : Reachable k mmu ctxt)
    (env : map_env) (mem : mmu2dphysmem) (r : map_result) (a : mmu2darena)
    (hmap : mmu2d_map k env mmu ctxt mem = .ret r) (ha : r.mapped = some a)
    (hoff : mem.offset ≤ k.MMU_OFFSET_MASK) :
    a.address
      = (a.mtlb <<< k.MMU_MTLB_SHIFT) ||| (a.stlb <<< k.MMU_STLB_SHIFT) ||| mem.offset ∧
    a.mtlb < k.MMU_MTLB_ENTRY_NUM ∧ a.stlb < k.MMU_STLB_ENTRY_NUM ∧
    (a.address &&& k.MMU_MTLB_MASK) >>> k.MMU_MTLB_SHIFT = a.mtlb ∧
    (a.address &&& k.MMU_STLB_MASK) >>> k.MMU_STLB_SHIFT = a.stlb ∧
    a.address &&& k.MMU_OFFSET_MASK = mem.offset := by
  have hcov := (reachable_cover k hk _ _ hreach).1
  have hT := hk.2.2
  have hNT := total_bound k hk
  have hwf := ExactCover_bounds k hk _ hcov
  have hcase := (map_cases k env mmu ctxt mem r hmap
    (fun v hv => hwf v (by simp [hv])) (by omega)).2
  rcases hcase with ⟨_, hnone, _, _⟩ | ⟨_, _, _, pre, v, post, claimed, parray, hvac, _,
      _, hmp, _, hcm, hcs, _, hca, _, _⟩
  · rw [hnone] at ha; cases ha
  · rw [hmp] at ha
    cases ha
    have hokv : arena_ok k v := hcov.1 v (by rw [hvac]; simp)
    have hmlt : v.mtlb < k.MMU_MTLB_ENTRY_NUM := by
      obtain ⟨_, hc, hr⟩ := hokv
      unfold lin total at hr
      have : v.mtlb * k.MMU_STLB_ENTRY_NUM
          < k.MMU_MTLB_ENTRY_NUM * k.MMU_STLB_ENTRY_NUM := by omega
      exact Nat.lt_of_mul_lt_mul_right this
    obtain ⟨s, w, b, hb, hSS, hMS, hNw, hMb, hOM, hSM, hMM⟩ := hl
    have hfl := field_layout s w b v.mtlb v.stlb mem.offset hb (by rw [← hMb]; exact hmlt)
      (by rw [← hNw]; exact hokv.1)
      (by rw [hOM] at hoff; have : 0 < 2 ^ s := Nat.pow_pos (by norm_num); omega)
    have haddr : a.address = 2 ^ (s + w) * v.mtlb + 2 ^ s * v.stlb + mem.offset := by
      rw [hca]
      unfold map_address
      simp only [hen, if_true, hSS, hMS, hOM, hSM, hMM]
      exact hfl.1
    rw [haddr, hcm, hcs, hSS, hMS, hOM, hSM, hMM]
    exact ⟨hfl.2.1.symm, hmlt, hokv.1, hfl.2.2.1, hfl.2.2.2.1, hfl.2.2.2.2⟩

theorem demo_layout (en : Bool) : (demo_config en).layout := by
  refine ⟨12, 10, 10, by decide, rfl, rfl, ?_, ?_, ?_, ?_, ?_⟩ <;>
    simp only [demo_config] <;> decide

/-- C7 at the worked example: the second map (1 page, offset 5, after a first
map of 1024 pages) returns the arena (1, 0) with address 1 << 22 | 0 << 12 | 5
= 4194309. -/
theorem C7_address_witness :
    (demo_arena2 true 1024 1).address = 4194309 ∧
    (demo_arena2 true 1024 1).address
      = ((demo_arena2 true 1024 1).mtlb <<< (demo_config true).MMU_MTLB_SHIFT)
        ||| ((demo_arena2 true 1024 1).stlb <<< (demo_config true).MMU_STLB_SHIFT)
        ||| (demo_mem 1).offset ∧
    (demo_arena2 true 1024 1).mtlb < (demo_config true).MMU_MTLB_ENTRY_NUM ∧
    (demo_arena2 true 1024 1).stlb < (demo_config true).MMU_STLB_ENTRY_NUM ∧
    ((demo_arena2 true 1024 1).address &&& (demo_config true).MMU_MTLB_MASK)
      >>> (demo_config true).MMU_MTLB_SHIFT = (demo_arena2 true 1024 1).mtlb ∧
    ((demo_arena2 true 1024 1).address &&& (demo_config true).MMU_STLB_MASK)
      >>> (demo_config true).MMU_STLB_SHIFT = (demo_arena2 true 1024 1).stlb ∧
    (demo_arena2 true 1024 1).address &&& (demo_config true).MMU_OFFSET_MASK
      = (demo_mem 1).offset :=
  ⟨by decide!,
   C7_address (demo_config true) (demo_sane true) (demo_layout true) rfl _ _
     (Reachable.map demo_map_env _ _ (demo_mem 1024) _ (demo_reachable_created true)
       (demo_mapped_ok true 1024 (by decide!)))
     demo_map_env2 (demo_mem 1) _ _ (demo_mapped2_ok true 1024 1 (by decide!)) (by decide!)
     (by decide)⟩

/-! ## C8: unmap of an arena that is not allocated -/

theorem unmap_insert_allocated (k : Config) (mmu mmu1 : mmu2dprivate)
    (ctxt ctxt1 : mmu2dcontext) (a : mmu2darena) (e : gcerror)
    (h : unmap_insert k mmu ctxt a = .ret (e, mmu1, ctxt1)) :
    ctxt1.allocated = ctxt.allocated ∧ ctxt1.mmu = ctxt.mmu := by
  unfold unmap_insert at h
  simp only at h
  repeat' split at h
  all_goals first
    | (cases h; exact ⟨rfl, rfl⟩)
    | cases h

/-- A successful `mmu2d_unmap` takes the first arena with the given handle off
the allocated list. -/
theorem unmap_success_allocated (k : Config) (mmu mmu1 : mmu2dprivate)
    (ctxt ctxt1 : mmu2dcontext) (mapped : Nat)
    (h : mmu2d_unmap k mmu ctxt mapped = .ret (.GCERR_NONE, mmu1, ctxt1)) :
    ctxt1.mmu = true ∧ ∃ pre a post, ctxt.allocated = pre ++ a :: post ∧
      a.handle = mapped ∧ ctxt1.allocated = pre ++ post := by
  unfold mmu2d_unmap at h
  split at h
  · cases h
  · rename_i hmmu
    have happ := walk_until_append (fun a => decide (a.handle = mapped)) ctxt.allocated
    have hstop := walk_until_stop (fun a => decide (a.handle = mapped)) ctxt.allocated
    generalize walk_until (fun a => decide (a.handle = mapped)) ctxt.allocated = w
      at h happ hstop
    obtain ⟨pre, rest⟩ := w
    simp only at happ hstop
    cases rest with
    | nil => simp only at h; cases h
    | cons a post =>
      simp only at h
      split at h
      · cases h
      · cases h
      · rename_i e1 c1 hloop
        obtain ⟨_, _, hl3⟩ := unmap_loop_lists k _ _ _ _ _ _ _ hloop
        split at h
        · rename_i hne
          cases h
          exact absurd rfl hne
        · have := unmap_insert_allocated k _ _ _ _ _ _ h
          simp only at this
          refine ⟨by rw [this.2, hl3]; simpa using hmmu, pre, a, post, happ.symm, ?_, this.1⟩
          simpa using hstop a post rfl

/-- C8 as stated fails: for a context that is not active (here the zeroed
context) and a handle that is not on its allocated list, mmu2d_unmap returns
GCERR_MMU_CTXT_BAD from the check of `ctxt->mmu`, not GCERR_MMU_ARG. -/
theorem C8_unmap_unlisted_counterexample :
    (∀ a ∈ mmu2dcontext_zero.allocated, a.handle ≠ 24516) ∧
    mmu2d_unmap (demo_config true) demo_globals.mmu mmu2dcontext_zero 24516
      = .ret (.GCERR_MMU_CTXT_BAD, demo_globals.mmu, mmu2dcontext_zero) ∧
    gcerror.GCERR_MMU_CTXT_BAD ≠ gcerror.GCERR_MMU_ARG :=
  ⟨by decide, rfl, by decide⟩

/-- C8, amended. For every active context and every arena handle that is not
on the context's allocated list, mmu2d_unmap returns GCERR_MMU_ARG and leaves
the MMU object and the whole context (vacant list, allocated list, page
tables) unchanged. This includes the double unmap: when the descriptors on the
allocated list are distinct and a first mmu2d_unmap of a handle succeeds, a
second mmu2d_unmap of the same handle returns GCERR_MMU_ARG and changes
nothing. -/
theorem C8_unmap_unlisted (k : Config) (mmu : mmu2dprivate) (ctxt : mmu2dcontext)
    (mapped : Nat) :
    (ctxt.mmu = true → (∀ a ∈ ctxt.allocated, a.handle ≠ mapped) →
      mmu2d_unmap k mmu ctxt mapped = .ret (.GCERR_MMU_ARG, mmu, ctxt)) ∧
    ((ctxt.allocated.map (fun a => a.handle)).Nodup →
      ∀ mmu1 ctxt1, mmu2d_unmap k mmu ctxt mapped = .ret (.GCERR_NONE, mmu1, ctxt1) →
        mmu2d_unmap k mmu1 ctxt1 mapped = .ret (.GCERR_MMU_ARG, mmu1, ctxt1)) := by
  have key : ∀ (m : mmu2dprivate) (c : mmu2dcontext), c.mmu = true →
      (∀ a ∈ c.allocated, a.handle ≠ mapped) →
      mmu2d_unmap k m c mapped = .ret (.GCERR_MMU_ARG, m, c) := by
    intro m c hact hnot
    unfold mmu2d_unmap
    rw [walk_until_all_false _ _ (fun a ha => by simpa using hnot a ha)]
    simp [hact]
  refine ⟨key mmu ctxt, ?_⟩
  intro hnd mmu1 ctxt1 h1
  obtain ⟨hact, pre, a, post, hal, hah, hal1⟩ := unmap_success_allocated k _ _ _ _ _ h1
  apply key mmu1 ctxt1 hact
  intro x hx hxh
  rw [hal1] at hx
  rw [hal] at hnd
  simp only [List.map_append, List.map_cons] at hnd
  have hnd2 := List.nodup_middle.mp hnd
  rw [← List.map_append] at hnd2
  have := (List.nodup_cons.mp hnd2).1
  apply this
  rw [hah, ← hxh]
  exact List.mem_map_of_mem _ hx

/-- C8 (amended) at the worked example: on the context with one arena mapped,
a handle that was never returned is refused; and after the arena of a 2-page
map is unmapped with success, unmapping it again is refused. -/
theorem C8_unmap_unlisted_witness :
    mmu2d_unmap (demo_config true) (demo_mapped true 2).mmu (demo_mapped true 2).ctxt 4
      = .ret (.GCERR_MMU_ARG, (demo_mapped true 2).mmu, (demo_mapped true 2).ctxt) ∧
    (demo_unmapped true 2).1 = .GCERR_NONE ∧
    mmu2d_unmap (demo_config true) (demo_unmapped true 2).2.1 (demo_unmapped true 2).2.2
        (demo_arena true 2).handle
      = .ret (.GCERR_MMU_ARG, (demo_unmapped true 2).2.1, (demo_unmapped true 2).2.2) :=
  ⟨(C8_unmap_unlisted (demo_config true) (demo_mapped true 2).mmu (demo_mapped true 2).ctxt
      4).1 (by decide!) (by decide!),
   by decide!,
   (C8_unmap_unlisted (demo_config true) (demo_mapped true 2).mmu (demo_mapped true 2).ctxt
      (demo_arena true 2).handle).2 (by decide!) _ _
      (ret_eta _ _ (Run.eq_ret _ (.GCERR_MMU_CTXT_BAD, demo_globals.mmu, mmu2dcontext_zero)
        (by decide!)) (by decide!))⟩

/-! ## C9: argument validation of map -/

/-- C9 as stated fails: a request for one page whose page size field is 0 does
not match MMU_PAGE_SIZE (4096 in the worked example), yet on the new context
mmu2d_map accepts it: it returns GCERR_NONE and claims the arena (0, 0, 1). The
check refuses a page size only when it is neither 0 nor MMU_PAGE_SIZE. -/
theorem C9_validation_counterexample :
    demo_mem_default.pagesize ≠ (demo_config true).MMU_PAGE_SIZE ∧
    (demo_created true).2.2.mmu = true ∧
    ∃ r, mmu2d_map (demo_config true) demo_map_env (demo_created true).2.1.mmu
        (demo_created true).2.2 demo_mem_default = .ret r ∧
      r.gcerror = .GCERR_NONE ∧ r.gcerror ≠ .GCERR_MMU_ARG ∧
      r.ctxt.allocated.map triple = [(0, 0, 1)] ∧
      (demo_created true).2.2.allocated = [] :=
  ⟨by decide, by decide!, _, Run.eq_ret _ map_result_zero (by decide!), by decide!, by decide!,
   by decide!, by decide!⟩

/-- C9, amended. For every active context, mmu2d_map returns GCERR_MMU_ARG,
writes nothing through `mapped` and changes nothing in the MMU object, the
context and the request, whenever the requested page count is zero or the
request's page size is neither 0 (the system default) nor MMU_PAGE_SIZE. -/
theorem C9_validation (k : Config) (env : map_env) (mmu : mmu2dprivate)
    (ctxt : mmu2dcontext) (mem : mmu2dphysmem) (hactive : ctxt.mmu = true)
    (hbad : mem.count = 0 ∨ (mem.pagesize ≠ 0 ∧ mem.pagesize ≠ k.MMU_PAGE_SIZE)) :
    mmu2d_map k env mmu ctxt mem
      = .ret { gcerror := .GCERR_MMU_ARG, mmu := mmu, ctxt := ctxt, mem := mem,
               mapped := none } := by
  unfold mmu2d_map
  have h1 : mem.count ≤ 0 ∨ mem.pagesize ≠ 0 ∧ mem.pagesize ≠ k.MMU_PAGE_SIZE := by
    rcases hbad with h | h
    · left; omega
    · right; exact h
  simp only [hactive, Bool.true_eq_false, if_false, h1, if_true]

/-- C9 (amended) at the worked example: a request for no pages and a request
with a page size of 65536 bytes, on the new context. -/
theorem C9_validation_witness :
    mmu2d_map (demo_config true) demo_map_env (demo_created true).2.1.mmu
        (demo_created true).2.2 (demo_mem 0)
      = .ret { gcerror := .GCERR_MMU_ARG, mmu := (demo_created true).2.1.mmu,
               ctxt := (demo_created true).2.2, mem := demo_mem 0, mapped := none } ∧
    mmu2d_map (demo_config true) demo_map_env (demo_created true).2.1.mmu
        (demo_created true).2.2 demo_mem_64k
      = .ret { gcerror := .GCERR_MMU_ARG, mmu := (demo_created true).2.1.mmu,
               ctxt := (demo_created true).2.2, mem := demo_mem_64k, mapped := none } :=
  ⟨C9_validation (demo_config true) demo_map_env _ _ (demo_mem 0) (by decide!) (Or.inl rfl),
   C9_validation (demo_config true) demo_map_env _ _ demo_mem_64k (by decide!)
     (Or.inr ⟨by decide, by decide⟩)⟩

/-! ## C10: a failing map and the page tables -/

/-- C10 (violated). MMU_ENABLE configuration, pages passed by the caller. When
the first fitting vacant arena `v` lies under a master entry that is in use,
the loop of mmu2d_map fills the slave table `ctxt->slave[0]` before the steps
that can still fail (the slave table of a later iteration, the descriptor for
the remainder of the split). A call that then returns an error stores nothing
in `mapped` and keeps the triples of both lists, but it leaves the table
written: its live-entry count has grown by the units of the first iteration and
slot `v.stlb` holds the entry of the first page. Nothing is rolled back. -/
theorem C10_failed_map_writes_tables (k : Config) (hen : k.MMU_ENABLE = true)
    (hN : k.MMU_STLB_ENTRY_NUM < 4294967296) (env : map_env) (mmu : mmu2dprivate)
    (ctxt : mmu2dcontext) (mem : mmu2dphysmem) (r : map_result) (parray : List Nat)
    (pre : List mmu2darena) (v : mmu2darena) (post : List mmu2darena) (t0 : mmu2dstlb)
    (hactive : ctxt.mmu = true) (hcount : 0 < mem.count) (hc32 : mem.count < 4294967296)
    (hsize : mem.pagesize = 0 ∨ mem.pagesize = k.MMU_PAGE_SIZE)
    (hpages : mem.pages = some parray)
    (hwf : ∀ x ∈ ctxt.vacant, x.stlb < k.MMU_STLB_ENTRY_NUM ∧ lin k x + x.count < 4294967296)
    (hvac : ctxt.vacant = pre ++ v :: post) (hpre : ∀ x ∈ pre, x.count < mem.count)
    (hfit : mem.count ≤ v.count)
    (hm : ctxt.master.words v.mtlb ≠ k.MMU_MTLB_ENTRY_VACANT)
    (ht : slave_at ctxt 0 = some t0)
    (hmap : mmu2d_map k env mmu ctxt mem = .ret r) (herr : r.gcerror ≠ .GCERR_NONE) :
    r.mapped = none ∧ r.ctxt.vacant.map triple = ctxt.vacant.map triple ∧
    r.ctxt.allocated = ctxt.allocated ∧
    ∃ t1, slave_at r.ctxt 0 = some t1 ∧
      t1.count = u32_add t0.count (min mem.count (k.MMU_STLB_ENTRY_NUM - v.stlb)) ∧
      t1.count ≠ t0.count ∧
      t1.pages.words v.stlb = stlb_entry k (parray.getD 0 0) := by
  have hvs : v.stlb < k.MMU_STLB_ENTRY_NUM := (hwf v (by rw [hvac]; simp)).1
  have hlists : r.mapped = none ∧ r.ctxt.vacant.map triple = ctxt.vacant.map triple ∧
      r.ctxt.allocated = ctxt.allocated := by
    rcases (map_cases k env mmu ctxt mem r hmap hwf hN).2 with ⟨_, h1, h2, h3⟩ | ⟨hok, _⟩
    · exact ⟨h1, h2, h3⟩
    · exact absurd hok herr
  refine ⟨hlists.1, hlists.2.1, hlists.2.2, ?_⟩
  have harg : ¬ (mem.count ≤ 0 ∨ mem.pagesize ≠ 0 ∧ mem.pagesize ≠ k.MMU_PAGE_SIZE) := by
    rcases hsize with h | h <;> simp [h] <;> omega
  unfold mmu2d_map at hmap
  rw [hvac, walk_until_split _ pre v post (fun x hx => by simpa using hpre x hx)
    (by simpa using hfit)] at hmap
  simp only [hactive, Bool.true_eq_false, if_false, harg, hpages] at hmap
  obtain ⟨e, ctxt1, mi, si, hloop, hsl, _, _⟩ :=
    map_claim_tables k env mmu ctxt mem pre _ post parray false r hmap
  obtain ⟨t1, ht1, hcnt, hw⟩ := map_loop_first k hen env.slave v.mtlb hN _ 0 v.mtlb v.stlb
    mem.count parray ctxt ctxt1 e mi si t0 hloop hcount hc32 hvs (by simpa using hm) ht
  refine ⟨t1, ?_, hcnt, ?_, hw⟩
  · unfold slave_at at ht1 ⊢
    rw [hsl]; exact ht1
  · rw [hcnt]
    unfold u32_add
    omega

/-- C10 at the worked examples (MMU_ENABLE set, 1024 slots per slave table).
After a first map of one page, a map of 1024 pages needs a second slave table;
the kernel has no pages for it and mmu2d_map returns the error
GCERR_SETGRP(GCERR_OOPM, GCERR_MMU_STLB_ALLOC) with nothing in `mapped`. The
two lists keep their triples, but the first slave table was already written:
its live-entry count went from 1 to 1024 and its slots 1 and 1023 went from
the vacant value to a present entry. In the same way, when the pool of
descriptors is empty and no block is granted for the remainder of the split,
a map of 2 pages fails with GCERR_SETGRP(GCERR_OODM, GCERR_MMU_ARENA_ALLOC) after
the count went from 1 to 3 and slots 1 and 2 were written. -/
theorem C10_failed_map_writes_tables_witness :
    (mmu2d_map (demo_config true) demo_map_env_short (demo_mapped true 1).mmu
      (demo_mapped true 1).ctxt (demo_mem 1024)).isRet = true ∧
    demo_failed_map.gcerror = .GCERR_SETGRP .GCERR_OOPM .GCERR_MMU_STLB_ALLOC ∧
    (slave_at (demo_mapped true 1).ctxt 0).map
        (fun t => (t.count, t.pages.words 1, t.pages.words 1023)) = some (1, 2, 2) ∧
    (slave_at demo_failed_map.ctxt 0).map
        (fun t => (t.count, t.pages.words 1, t.pages.words 1023))
      = some (1024, 180146183, 180146183) ∧
    (mmu2d_map (demo_config true) demo_map_env_noblock
      { (demo_mapped true 1).mmu with arena_recs := [] }
      (demo_mapped true 1).ctxt (demo_mem 2)).isRet = true ∧
    demo_failed_split.gcerror = .GCERR_SETGRP .GCERR_OODM .GCERR_MMU_ARENA_ALLOC ∧
    demo_failed_split.ctxt.vacant.map triple = (demo_mapped true 1).ctxt.vacant.map triple ∧
    (slave_at demo_failed_split.ctxt 0).map
        (fun t => (t.count, t.pages.words 1, t.pages.words 2))
      = some (3, 180146183, 180146183) ∧
    (demo_failed_map.mapped = none ∧
     demo_failed_map.ctxt.vacant.map triple = (demo_mapped true 1).ctxt.vacant.map triple ∧
     demo_failed_map.ctxt.allocated = (demo_mapped true 1).ctxt.allocated ∧
     ∃ t1, slave_at demo_failed_map.ctxt 0 = some t1 ∧
       t1.count = u32_add ((slave_at (demo_mapped true 1).ctxt 0).getD stlb_of_block).count
         (min (demo_mem 1024).count ((demo_config true).MMU_STLB_ENTRY_NUM
           - ((demo_mapped true 1).ctxt.vacant.headD mmu2darena_zero).stlb)) ∧
       t1.count ≠ ((slave_at (demo_mapped true 1).ctxt 0).getD stlb_of_block).count ∧
       t1.pages.words ((demo_mapped true 1).ctxt.vacant.headD mmu2darena_zero).stlb
         = stlb_entry (demo_config true) ((List.replicate 1024 180146176).getD 0 0)) :=
  ⟨by decide!, by decide!, by decide!, by decide!, by decide!, by decide!, by decide!,
   by decide!,
   C10_failed_map_writes_tables (demo_config true) rfl (by decide) demo_map_env_short
     (demo_mapped true 1).mmu (demo_mapped true 1).ctxt (demo_mem 1024) demo_failed_map
     (List.replicate 1024 180146176) []
     ((demo_mapped true 1).ctxt.vacant.headD mmu2darena_zero) []
     ((slave_at (demo_mapped true 1).ctxt 0).getD stlb_of_block)
     (by decide!) (by decide) (by decide) (Or.inr rfl) rfl (by decide!) (by decide!)
     (by decide) (by decide!) (by decide!)
     (option_eq_some_getD _ _ (by decide!))
     (Run.eq_ret _ _ (by decide!)) (by decide!)⟩

/-! ## The ring: what `cmdbuf_init` establishes and the operations keep -/

theorem and_mask_align (x : Nat) (hx : x < 4294967296) : x &&& 4294967292 = x / 4 * 4 := by
  have h1 : (x &&& 4294967292) >>> 2 = x / 4 := by
    rw [and_shiftRight]
    have : (4294967292 : Nat) >>> 2 = 2 ^ 30 - 1 := by decide
    rw [this, Nat.and_pow_two_sub_one_eq_mod, Nat.shiftRight_eq_div_pow]
    have : x / 2 ^ 2 < 2 ^ 30 := by
      rw [Nat.div_lt_iff_lt_mul (by norm_num)]
      norm_num
      omega
    rw [Nat.mod_eq_of_lt this]
    norm_num
  have h2 : (x &&& 4294967292) % 4 = 0 := by
    have := Nat.and_pow_two_sub_one_eq_mod (x &&& 4294967292) 2
    norm_num at this
    rw [← this, Nat.and_assoc]
    have : (4294967292 : Nat) &&& 3 = 0 := by decide
    rw [this]
    simp
  rw [Nat.shiftRight_eq_div_pow] at h1
  norm_num at h1
  omega

theorem align4_eq (size : Nat) (h : size + 3 < 4294967296) :
    align4 size = (size + 3) / 4 * 4 := by
  unfold align4
  rw [u32_add_eq _ _ h]
  exact and_mask_align _ h

theorem gc_alloc_pages_ok (k : Config) (r : alloc_pages) (p pg : gcpage) (size : Nat)
    (h : gc_alloc_pages k r p size = (.GCERR_NONE, pg)) :
    pg.logical ≠ 0 ∧ pg.size = 2 ^ get_order k.PAGE_SIZE size * k.PAGE_SIZE := by
  unfold gc_alloc_pages at h
  cases r with
  | failed => simp at h
  | unmapped page physical => simp at h
  | mapped page physical logical =>
    simp only at h
    split at h
    · simp at h
    · rename_i hl
      simp only [Prod.mk.injEq, true_and] at h
      subst h
      exact ⟨hl, rfl⟩

theorem get_order_page (P : Nat) : get_order P P = 0 := by
  unfold get_order get_order_from
  simp

/-- What a successful or failing `cmdbuf_alloc` does to a ring in order. -/
theorem cmdbuf_alloc_spec (k : Config) (hP32 : k.PAGE_SIZE < 4294967296) (cb : cmdbuf)
    (hok : ring_ok k cb) (size : Nat) :
    (cb.available < size → cmdbuf_alloc cb size = (.GCERR_CMD_ALLOC, cb, none)) ∧
    (size ≤ cb.available →
      align4 size = (size + 3) / 4 * 4 ∧ align4 size ≤ cb.available ∧
      cmdbuf_alloc cb size
        = (.GCERR_NONE,
           { cb with logical := cb.logical + align4 size
                     physical := (cb.physical + align4 size) % 4294967296
                     available := cb.available - align4 size
                     data_size := cb.data_size + align4 size },
           some (cb.logical, cb.physical))) := by
  obtain ⟨hpl, hlog, hsum, hps, h4⟩ := hok
  constructor
  · intro h
    unfold cmdbuf_alloc
    simp [h]
  · intro h
    have ha := align4_eq size (by omega)
    have hle : align4 size ≤ cb.available := by rw [ha]; omega
    refine ⟨ha, hle, ?_⟩
    have hl0 : cb.logical ≠ 0 := by rw [hlog]; omega
    unfold cmdbuf_alloc
    have hnot : ¬ (cb.logical = 0 ∨ size > cb.available) := by
      intro hc
      rcases hc with hc | hc
      · exact hl0 hc
      · omega
    simp only [hnot, if_false]
    have e1 : Nat.land (u32_add size 3) 4294967292 = align4 size := rfl
    rw [e1]
    have e2 : 4 * (align4 size >>> 2) = align4 size := by
      rw [Nat.shiftRight_eq_div_pow, ha]
      norm_num
      omega
    have e3 : u32_sub cb.available (align4 size) = cb.available - align4 size :=
      u32_sub_eq _ _ hle (by omega)
    have e4 : u32_add cb.data_size (align4 size) = cb.data_size + align4 size :=
      u32_add_eq _ _ (by omega)
    rw [e2, e3, e4]
    rfl

theorem cmdbuf_alloc_ring_ok (k : Config) (hP32 : k.PAGE_SIZE < 4294967296) (cb : cmdbuf)
    (hok : ring_ok k cb) (size : Nat) : ring_ok k (cmdbuf_alloc cb size).2.1 := by
  have hspec := cmdbuf_alloc_spec k hP32 cb hok size
  by_cases h : size ≤ cb.available
  · obtain ⟨ha, hle, heq⟩ := hspec.2 h
    rw [heq]
    obtain ⟨hpl, hlog, hsum, hps, h4⟩ := hok
    refine ⟨hpl, ?_, ?_, hps, ?_⟩
    · simp only; rw [hlog]; omega
    · simp only; omega
    · simp only; rw [ha]; omega
  · rw [hspec.1 (by omega)]
    exact hok

/-- Every state of the ring after a successful `cmdbuf_init` is in order. -/
theorem ring_inv (k : Config) (hP : k.PAGE_SIZE % 4 = 0) (hP32 : k.PAGE_SIZE < 4294967296)
    (cb : cmdbuf) (h : Ring k cb) : ring_ok k cb := by
  induction h with
  | init r cb0 cb hinit =>
    unfold cmdbuf_init at hinit
    split at hinit
    · rename_i pg hpg
      obtain ⟨hl, hs⟩ := gc_alloc_pages_ok k r _ pg _ hpg
      rw [get_order_page] at hs
      simp only [Prod.mk.injEq, true_and] at hinit
      subst hinit
      refine ⟨hl, rfl, ?_, ?_, ?_⟩
      · simp only; rw [hs]; omega
      · simp only; rw [hs]; omega
      · simp only; omega
    · rename_i hne
      simp only [Prod.mk.injEq] at hinit
      cases hinit.1
  | alloc cb size _ ih => exact cmdbuf_alloc_ring_ok k hP32 cb ih size
  | flush cb dev logical _ ih =>
    obtain ⟨hpl, hlog, hsum, hps, h4⟩ := ih
    unfold cmdbuf_flush cmdbuf_store
    refine ⟨hpl, rfl, ?_, hps, ?_⟩
    · simp only; omega
    · simp only; omega
  | map env mmu mmu1 ctxt ctxt1 cb cb1 e _ hmap ih =>
    unfold cmdbuf_map at hmap
    simp only at hmap
    split at hmap
    · cases hmap
    · cases hmap
    · split at hmap
      · cases hmap; exact ih
      · split at hmap
        · cases hmap
        · cases hmap
          exact ih
  | store cb addr v _ ih => exact ih

theorem demo_ring_ok :
    cmdbuf_init (demo_config true) (.mapped 7 2147483648 3221225472) cmdbuf_zero
      = (.GCERR_NONE, demo_ring) :=
  Prod.ext_iff.mpr ⟨by decide!, rfl⟩

theorem demo_ring_reachable : Ring (demo_config true) demo_ring :=
  Ring.init (.mapped 7 2147483648 3221225472) cmdbuf_zero demo_ring demo_ring_ok

/-! ## C11: a reservation larger than the remaining capacity -/

/-- C11. For every command-buffer state and every size greater than
`cmdbuf.available`, cmdbuf_alloc returns GCERR_CMD_ALLOC and changes nothing:
the ring (logical cursor, physical cursor, available, data_size and all other
fields) is as before and nothing is stored through the output pointers,
whether they are null or not. -/
theorem C11_alloc_full (cb : cmdbuf) (size : Nat) (logical physical : Bool)
    (h : size > cb.available) :
    cmdbuf_alloc_at cb size logical physical = .ret (.GCERR_CMD_ALLOC, cb, none) ∧
    cmdbuf_alloc cb size = (.GCERR_CMD_ALLOC, cb, none) := by
  unfold cmdbuf_alloc_at cmdbuf_alloc
  simp [h]

/-- C11 at the worked example: 4097 bytes from the new ring of 4096 bytes. -/
theorem C11_alloc_full_witness :
    demo_ring.available = 4096 ∧
    cmdbuf_alloc_at demo_ring 4097 true true = .ret (.GCERR_CMD_ALLOC, demo_ring, none) ∧
    cmdbuf_alloc demo_ring 4097 = (.GCERR_CMD_ALLOC, demo_ring, none) :=
  ⟨by decide!, C11_alloc_full demo_ring 4097 true true (by decide!)⟩

/-! ## C12: a reservation that fits -/

/-- C12. The page size is a multiple of 4 below 2^32. For every state of the
ring after a successful cmdbuf_init and every size <= `cmdbuf.available`,
cmdbuf_alloc returns GCERR_NONE and the logical and device cursors as they were
before the call; it advances the logical cursor and data_size by
align(size, 4) = (size + 3) & ~3, the device cursor by the same amount in
32-bit arithmetic, and decreases available by it; page, mapped flag and mapped
address stay. Reserving exactly the remaining capacity leaves available = 0. -/
theorem C12_alloc_fits (k : Config) (hP : k.PAGE_SIZE % 4 = 0)
    (hP32 : k.PAGE_SIZE < 4294967296) (cb : cmdbuf) (hring : Ring k cb) (size : Nat)
    (h : size ≤ cb.available) :
    align4 size = (size + 3) / 4 * 4 ∧ align4 size ≤ cb.available ∧
    cmdbuf_alloc_at cb size true true = .ret (cmdbuf_alloc cb size) ∧
    cmdbuf_alloc cb size
      = (.GCERR_NONE,
         { cb with logical := cb.logical + align4 size
                   physical := (cb.physical + align4 size) % 4294967296
                   available := cb.available - align4 size
                   data_size := cb.data_size + align4 size },
         some (cb.logical, cb.physical)) ∧
    (size = cb.available → (cmdbuf_alloc cb size).2.1.available = 0) := by
  have hok := ring_inv k hP hP32 cb hring
  obtain ⟨ha, hle, heq⟩ := (cmdbuf_alloc_spec k hP32 cb hok size).2 h
  refine ⟨ha, hle, ?_, heq, ?_⟩
  · unfold cmdbuf_alloc_at
    have hl0 : cb.logical ≠ 0 := by
      obtain ⟨hpl, hlog, _⟩ := hok
      rw [hlog]; omega
    have hnot : ¬ (cb.logical = 0 ∨ size > cb.available) := by
      intro hc
      rcases hc with hc | hc
      · exact hl0 hc
      · omega
    simp [hnot]
  · intro hs
    rw [heq]
    simp only
    obtain ⟨_, _, _, _, h4⟩ := hok
    rw [ha]
    omega

/-- C12 at the worked example: 10 bytes from the new ring take 12 bytes, and
the whole remaining capacity of 4096 bytes can be reserved at once. -/
theorem C12_alloc_fits_witness :
    align4 10 = 12 ∧
    (cmdbuf_alloc demo_ring 10).1 = .GCERR_NONE ∧
    (cmdbuf_alloc demo_ring 10).2.2 = some (3221225472, 2147483648) ∧
    (cmdbuf_alloc demo_ring 10).2.1.logical = 3221225484 ∧
    (cmdbuf_alloc demo_ring 10).2.1.physical = 2147483660 ∧
    (cmdbuf_alloc demo_ring 10).2.1.available = 4084 ∧
    (cmdbuf_alloc demo_ring 10).2.1.data_size = 12 ∧
    (demo_ring.available = 4096 ∧ (cmdbuf_alloc demo_ring 4096).2.1.available = 0) :=
  ⟨by decide!, by decide!, by decide!, by decide!, by decide!, by decide!, by decide!,
   by decide!,
   (C12_alloc_fits (demo_config true) (by decide) (by decide) demo_ring
     demo_ring_reachable 4096
     (by decide!)).2.2.2.2 (by decide!)⟩

/-! ## C13: the flush resets the ring -/

/-- C13 as stated fails: in the ring state before cmdbuf_init (static storage,
all zero) cmdbuf_flush with a non-null pointer leaves the logical cursor NULL
and available 0, and the following reservation of a page fails with
GCERR_CMD_ALLOC. -/
theorem C13_flush_resets_counterexample :
    (cmdbuf_flush_at (demo_config true) cmdbuf_zero demo_globals.dev (some 3221225472)).2.1.logical
      = 0 ∧
    (cmdbuf_alloc
      (cmdbuf_flush_at (demo_config true) cmdbuf_zero demo_globals.dev (some 3221225472)).2.1
      (demo_config true).PAGE_SIZE).1 = .GCERR_CMD_ALLOC ∧
    (cmdbuf_alloc
      (cmdbuf_flush_at (demo_config true) cmdbuf_zero demo_globals.dev (some 3221225472)).2.1
      cmdbuf_zero.page.size).1 = .GCERR_CMD_ALLOC :=
  ⟨by decide!, by decide!, by decide!⟩

/-- C13, amended. For every command-buffer state, cmdbuf_flush with a non-null
end pointer returns the trailer size of 16 bytes and resets the ring:
afterwards the logical cursor is the start of the page, the device cursor is
the mapped address if the ring is mapped and the physical address of the page
otherwise, available equals the page size and data_size is 0; cmdbuf_flush
with a null pointer changes nothing and returns the same 16. For every state of
the ring after a successful cmdbuf_init (page size a multiple of 4 below 2^32)
the reservation of a full page that follows the flush succeeds, returns the
reset cursors and leaves available = 0. -/
theorem C13_flush_resets (k : Config) (cb : cmdbuf) (dev : device) (logical : Nat) :
    (cmdbuf_flush_at k cb dev (some logical)).1 = 16 ∧
    (cmdbuf_flush_at k cb dev (some logical)).2.1.logical = cb.page.logical ∧
    (cmdbuf_flush_at k cb dev (some logical)).2.1.page.logical = cb.page.logical ∧
    (cmdbuf_flush_at k cb dev (some logical)).2.1.physical
      = (if cb.mapped then cb.mapped_physical else cb.page.physical) ∧
    (cmdbuf_flush_at k cb dev (some logical)).2.1.available = cb.page.size ∧
    (cmdbuf_flush_at k cb dev (some logical)).2.1.page.size = cb.page.size ∧
    (cmdbuf_flush_at k cb dev (some logical)).2.1.data_size = 0 ∧
    cmdbuf_flush_at k cb dev none = (16, cb, dev) ∧
    (k.PAGE_SIZE % 4 = 0 → k.PAGE_SIZE < 4294967296 → Ring k cb →
      (cmdbuf_alloc (cmdbuf_flush_at k cb dev (some logical)).2.1 cb.page.size).1 = .GCERR_NONE ∧
      (cmdbuf_alloc (cmdbuf_flush_at k cb dev (some logical)).2.1 cb.page.size).2.2
        = some (cb.page.logical,
                if cb.mapped then cb.mapped_physical else cb.page.physical) ∧
      (cmdbuf_alloc (cmdbuf_flush_at k cb dev (some logical)).2.1 cb.page.size).2.1.available
        = 0) := by
  refine ⟨rfl, rfl, rfl, ?_, rfl, rfl, rfl, rfl, ?_⟩
  · simp only [cmdbuf_flush_at, cmdbuf_flush, cmdbuf_store]
  · intro hP hP32 hring
    have hr2 : Ring k (cmdbuf_flush_at k cb dev (some logical)).2.1 :=
      Ring.flush cb dev logical hring
    have hok := ring_inv k hP hP32 _ hr2
    have hav : (cmdbuf_flush_at k cb dev (some logical)).2.1.available = cb.page.size := rfl
    obtain ⟨ha, hle, heq⟩ :=
      (cmdbuf_alloc_spec k hP32 _ hok cb.page.size).2 (by rw [hav])
    rw [heq]
    refine ⟨rfl, ?_, ?_⟩
    · simp only [cmdbuf_flush_at, cmdbuf_flush, cmdbuf_store]
    · simp only
      rw [hav, ha]
      have h4 := hok.2.2.2.2
      rw [hav] at h4
      omega

/-- C13 (amended) at the worked example: the new ring after a reservation of
100 bytes and a flush at the end of them. -/
theorem C13_flush_resets_witness :
    (cmdbuf_alloc demo_ring 100).2.1.available = 3996 ∧
    ((cmdbuf_alloc (cmdbuf_flush_at (demo_config true) (cmdbuf_alloc demo_ring 100).2.1
        demo_globals.dev (some 3221225572)).2.1 (cmdbuf_alloc demo_ring 100).2.1.page.size).1
        = .GCERR_NONE ∧
     (cmdbuf_alloc (cmdbuf_flush_at (demo_config true) (cmdbuf_alloc demo_ring 100).2.1
        demo_globals.dev (some 3221225572)).2.1 (cmdbuf_alloc demo_ring 100).2.1.page.size).2.2
        = some ((cmdbuf_alloc demo_ring 100).2.1.page.logical,
                if (cmdbuf_alloc demo_ring 100).2.1.mapped
                then (cmdbuf_alloc demo_ring 100).2.1.mapped_physical
                else (cmdbuf_alloc demo_ring 100).2.1.page.physical) ∧
     (cmdbuf_alloc (cmdbuf_flush_at (demo_config true) (cmdbuf_alloc demo_ring 100).2.1
        demo_globals.dev (some 3221225572)).2.1
        (cmdbuf_alloc demo_ring 100).2.1.page.size).2.1.available = 0) :=
  ⟨by decide!,
   (C13_flush_resets (demo_config true) (cmdbuf_alloc demo_ring 100).2.1 demo_globals.dev
     3221225572).2.2.2.2.2.2.2.2 (by decide) (by decide)
     (Ring.alloc demo_ring 100
       demo_ring_reachable)⟩

/-! ## The boundary calls -/

theorem reserved_append (ev ev2 : List commit_event) :
    reserved (ev ++ ev2) = reserved ev ++ reserved ev2 := by
  induction ev with
  | nil => rfl
  | cons x ev ih => cases x <;> simp [reserved, ih]

theorem flushes_append (ev ev2 : List commit_event) :
    flushes (ev ++ ev2) = flushes ev ++ flushes ev2 := by
  induction ev with
  | nil => rfl
  | cons x ev ih => cases x <;> simp [flushes, ih]

theorem client_dirty_set_dirty (d : driver) (i : Nat) (b : Bool) (ci : clientinfo)
    (h : d.mmu_list.get? i = some ci) : client_dirty (set_dirty d i b) i = some b := by
  simp [client_dirty, set_dirty, List.getElem?_modify, List.get?_eq_getElem?] at *
  simp [h]

theorem client_dirty_g (d : driver) (g : globals) (i : Nat) :
    client_dirty { d with g := g } i = client_dirty d i := rfl

/-- A successful `cmdbuf_alloc` stores its two outputs. -/
theorem cmdbuf_alloc_some (cb : cmdbuf) (size : Nat)
    (h : (cmdbuf_alloc cb size).1 = .GCERR_NONE) :
    ∃ l p, (cmdbuf_alloc cb size).2.2 = some (l, p) := by
  unfold cmdbuf_alloc at h ⊢
  split
  · rename_i hc
    simp [hc] at h
  · exact ⟨_, _, rfl⟩

/-- The loop of `gc_commit` for a client whose flag `mmu_dirty` is clear: every
reservation asks for the stream and the trailer only, `mmu2d_flush` is not
called with a pointer into the ring, and the flag stays clear. `n` is the number
of sub-buffers for which a reservation was made. -/
theorem commit_buffers_clean (a : Abi) (k : Config) (page_to_phys : Nat → Nat)
    (heap : Nat → Option mmu2darena) (i c : Nat) :
    ∀ (bufs : List gcbuffer) (d : driver) (ev : List commit_event)
      (r : gcerror × driver × List commit_event),
      client_dirty d i = some false →
      commit_buffers a k page_to_phys heap i c bufs d ev = .ret r →
      ∃ n, n ≤ bufs.length ∧
        reserved r.2.2 = reserved ev ++ (bufs.take n).map (commit_allocsize 0 c) ∧
        flushes r.2.2 = flushes ev ∧ client_dirty r.2.1 i = some false ∧
        (r.1 = .GCERR_NONE → n = bufs.length) := by
  intro bufs
  induction bufs with
  | nil =>
    intro d ev r hd h
    simp only [commit_buffers, Run.ret.injEq] at h
    subst h
    exact ⟨0, le_refl _, by simp, rfl, hd, fun _ => rfl⟩
  | cons b rest ih =>
    intro d ev r hd h
    rw [commit_buffers] at h
    split at h
    · simp only [Run.ret.injEq] at h
      subst h
      exact ⟨0, Nat.zero_le _, by simp, rfl, hd, fun h => by cases h⟩
    · cases hci : d.mmu_list.get? i with
      | none =>
        simp only [client_dirty, hci, Option.map_none'] at hd
        cases hd
      | some ci =>
        have hdirty : ci.mmu_dirty = false := by
          simp only [client_dirty, hci, Option.map_some', Option.some.injEq] at hd
          exact hd
        simp only [hci, hdirty, Bool.false_eq_true, if_false] at h
        have hd1 : ∀ g : globals,
            client_dirty (set_dirty { d with g := g } i false) i = some false :=
          fun g => client_dirty_set_dirty _ i false ci hci
        split at h
        · rename_i e cb1 logical address halloc
          split at h
          · simp only [Run.ret.injEq] at h
            subst h
            refine ⟨1, by simp, ?_, ?_, hd1 _, fun h => by cases h⟩
            · simp [reserved_append, reserved]
            · simp [flushes_append, flushes]
          · split at h
            · cases h
            · cases h
            · rename_i e2 data1 calls hfix
              split at h
              · simp only [Run.ret.injEq] at h
                subst h
                rename_i hne
                refine ⟨1, by simp, ?_, ?_, hd1 _, fun h => absurd h hne⟩
                · simp [reserved_append, reserved]
                · simp [flushes_append, flushes]
              · obtain ⟨n, hn, hres, hfl, hdr, hall⟩ := ih _ _ r (hd1 _) h
                refine ⟨n + 1, by simpa using hn, ?_, ?_, hdr, fun h => by simp [hall h]⟩
                · rw [hres]
                  simp [reserved_append, reserved]
                · rw [hfl]
                  simp [flushes_append, flushes]
        · simp only [Run.ret.injEq] at h
          subst h
          rename_i hne
          rename_i e cb1 o hno
          refine ⟨0, Nat.zero_le _, by simp, rfl, hd, fun h => ?_⟩
          exfalso
          obtain ⟨l, p, hlp⟩ := cmdbuf_alloc_some d.g.cmdbuf (commit_allocsize 0 c b)
            (by rw [hne]; exact h)
          rw [hne] at hlp
          exact hno l p h hlp

/-- The loop of `gc_commit` for a client whose flag `mmu_dirty` is set: either
no reservation is made at all (the first sub-buffer cannot be read or the ring
has no room), or the reservation for the first sub-buffer is larger by the
value of `mmu2d_flush(NULL, 0, 0)`, `mmu2d_flush` is called once, the flag is
clear afterwards and the remaining reservations are those of a clean client. -/
theorem commit_buffers_dirty (a : Abi) (k : Config) (page_to_phys : Nat → Nat)
    (heap : Nat → Option mmu2darena) (i c : Nat) (b : gcbuffer) (rest : List gcbuffer)
    (d : driver) (ev : List commit_event) (r : gcerror × driver × List commit_event)
    (hd : client_dirty d i = some true)
    (h : commit_buffers a k page_to_phys heap i c (b :: rest) d ev = .ret r) :
    (reserved r.2.2 = reserved ev ∧ flushes r.2.2 = flushes ev ∧ r.1 ≠ .GCERR_NONE ∧
      client_dirty r.2.1 i = some true) ∨
    (∃ n l p, n ≤ rest.length ∧
      reserved r.2.2 = reserved ev ++ commit_allocsize (mmu2d_flushSize k) c b ::
        (rest.take n).map (commit_allocsize 0 c) ∧
      flushes r.2.2 = flushes ev ++ [(l, p, commit_allocsize (mmu2d_flushSize k) c b)] ∧
      client_dirty r.2.1 i = some false ∧ (r.1 = .GCERR_NONE → n = rest.length)) := by
  rw [commit_buffers] at h
  split at h
  · simp only [Run.ret.injEq] at h
    subst h
    exact Or.inl ⟨rfl, rfl, by simp, hd⟩
  · cases hci : d.mmu_list.get? i with
    | none =>
      simp only [client_dirty, hci, Option.map_none'] at hd
      cases hd
    | some ci =>
      have hdirty : ci.mmu_dirty = true := by
        simp only [client_dirty, hci, Option.map_some', Option.some.injEq] at hd
        exact hd
      simp only [hci, hdirty, if_true] at h
      have hd1 : ∀ g : globals,
          client_dirty (set_dirty { d with g := g } i false) i = some false :=
        fun g => client_dirty_set_dirty _ i false ci hci
      split at h
      · rename_i e cb1 logical address halloc
        right
        split at h
        · simp only [Run.ret.injEq] at h
          subst h
          refine ⟨0, logical, address, Nat.zero_le _, ?_, ?_, hd1 _, fun h => by cases h⟩
          · simp [reserved_append, reserved]
          · simp [flushes_append, flushes]
        · split at h
          · cases h
          · cases h
          · rename_i e2 data1 calls hfix
            split at h
            · simp only [Run.ret.injEq] at h
              subst h
              rename_i hne
              refine ⟨0, logical, address, Nat.zero_le _, ?_, ?_, hd1 _, fun h => absurd h hne⟩
              · simp [reserved_append, reserved]
              · simp [flushes_append, flushes]
            · obtain ⟨n, hn, hres, hfl, hdr, hall⟩ :=
                commit_buffers_clean a k page_to_phys heap i c rest _ _ r (hd1 _) h
              refine ⟨n, logical, address, hn, ?_, ?_, hdr, hall⟩
              · rw [hres]
                simp [reserved_append, reserved]
              · rw [hfl]
                simp [flushes_append, flushes]
      · simp only [Run.ret.injEq] at h
        subst h
        rename_i e cb1 o hno hne
        left
        refine ⟨rfl, rfl, fun h => ?_, hd⟩
        obtain ⟨l, p, hlp⟩ := cmdbuf_alloc_some d.g.cmdbuf (commit_allocsize (mmu2d_flushSize k) c b)
          (by rw [hne]; exact h)
        rw [hne] at hlp
        exact hno l p h hlp

/-- Worked example: the loop for a clean client reserves 32 + 16 bytes for each
of the two sub-buffers and does not call `mmu2d_flush`; for a dirty client the
first reservation is 64 bytes larger, `mmu2d_flush` is called once and the flag
is clear afterwards. -/
theorem demo_loop_events :
    (reserved (demo_loop demo_driver_clean).2.2 = [48, 48] ∧
      flushes (demo_loop demo_driver_clean).2.2 = []) ∧
    (reserved (demo_loop demo_found.2.1).2.2 = [112, 48] ∧
      flushes (demo_loop demo_found.2.1).2.2 = [(3221225472, 0, 112)] ∧
      client_dirty demo_found.2.1 0 = some true ∧
      client_dirty (demo_loop demo_found.2.1).2.1 0 = some false) := by
  decide!

/-- The reservation for the pipe selection in `gc_commit`, which passes NULL for
the output `physical`: it fails, or it ends in the store through that pointer. -/
theorem cmdbuf_alloc_at_null (cb : cmdbuf) (size : Nat) :
    (cmdbuf_alloc_at cb size true false = .ret (.GCERR_CMD_ALLOC, cb, none) ∧
      (cb.logical = 0 ∨ size > cb.available)) ∨
    (cmdbuf_alloc_at cb size true false = .fault ∧
      ¬ (cb.logical = 0 ∨ size > cb.available)) := by
  unfold cmdbuf_alloc_at
  by_cases h : cb.logical = 0 ∨ size > cb.available
  · left
    exact ⟨by rw [if_pos h], h⟩
  · right
    refine ⟨?_, h⟩
    rw [if_neg h]
    simp

/-- Whenever `gc_commit` returns, its loop over the sub-buffers has not made a
reservation, called `mmu2d_flush` or submitted anything. -/
theorem gc_commit_no_events (a : Abi) (k : Config) (page_to_phys : Nat → Nat)
    (heap : Nat → Option mmu2darena) (cenv : copy_env) (env : client_env) (d : driver)
    (arg junk : gccommit) (r : Int × driver × Option gccommit × List commit_event)
    (h : gc_commit a k page_to_phys heap cenv env d arg junk = .ret r) : r.2.2.2 = [] := by
  unfold gc_commit at h
  split at h
  · simp only [Run.ret.injEq] at h
    subst h
    rfl
  · split at h
    · cases h
    · cases h
    · rename_i e d1 client hfind
      split at h
      · simp only [Run.ret.injEq] at h
        subst h
        rfl
      · rcases cmdbuf_alloc_at_null d1.g.cmdbuf a.sizeof_gcmopipesel with ⟨hq, _⟩ | ⟨hq, _⟩
        · rw [hq] at h
          simp only [ne_eq, reduceCtorEq, not_false_eq_true, if_true, Run.ret.injEq] at h
          subst h
          rfl
        · rw [hq] at h
          cases h

/-- The outcome of `gc_commit` when the caller's structure can be read and the
client is found or created: the store through NULL when the ring has room for
the pipe selection, the direct return of the error code when it has not. -/
theorem gc_commit_pipesel (a : Abi) (k : Config) (page_to_phys : Nat → Nat)
    (heap : Nat → Option mmu2darena) (cenv : copy_env) (env : client_env) (d : driver)
    (arg junk : gccommit) (d1 : driver) (client : Option Nat)
    (hread : cenv.from_user = true)
    (hfind : find_client k env d = .ret (.GCERR_NONE, d1, client)) :
    gc_commit a k page_to_phys heap cenv env d arg junk =
      if d1.g.cmdbuf.logical = 0 ∨ a.sizeof_gcmopipesel > d1.g.cmdbuf.available then
        .ret (a.gcerror_value .GCERR_CMD_ALLOC, d1, none, [])
      else .fault := by
  unfold gc_commit
  rw [if_neg (by simp [hread]), hfind]
  simp only [ne_eq, not_true_eq_false, if_false]
  rcases cmdbuf_alloc_at_null d1.g.cmdbuf a.sizeof_gcmopipesel with ⟨hq, hc⟩ | ⟨hq, hc⟩
  · rw [hq, if_pos hc]
    simp
  · rw [hq, if_neg hc]

/-- Claim C14 (defect of the code): `gc_commit` makes no reservation for a
sub-buffer at all. The reservation for the pipe selection that precedes the
loop passes NULL for the output `physical` of `cmdbuf_alloc`: when the caller's
structure can be read, the client is found or created and the ring has room
for the pipe selection, the call ends in the store through that null pointer,
whatever the flag `mmu_dirty` and the sub-buffers are; and whenever a call of
`gc_commit` returns, no reservation for a sub-buffer has been made. -/
theorem C14_commit_never_reserves (a : Abi) (k : Config) (page_to_phys : Nat → Nat)
    (heap : Nat → Option mmu2darena) (cenv : copy_env) (env : client_env) (d : driver)
    (arg junk : gccommit) (found : gcerror × driver × Option Nat)
    (hread : cenv.from_user = true)
    (hfind : find_client k env d = .ret found) (he : found.1 = .GCERR_NONE)
    (hring : found.2.1.g.cmdbuf.logical ≠ 0)
    (hroom : a.sizeof_gcmopipesel ≤ found.2.1.g.cmdbuf.available) :
    gc_commit a k page_to_phys heap cenv env d arg junk = .fault ∧
    ∀ (cenv0 : copy_env) (env0 : client_env) (d0 : driver) (arg0 junk0 : gccommit)
      (r : Int × driver × Option gccommit × List commit_event),
      gc_commit a k page_to_phys heap cenv0 env0 d0 arg0 junk0 = .ret r → r.2.2.2 = [] := by
  obtain ⟨e, d1, client⟩ := found
  simp only at he hring hroom
  subst he
  refine ⟨?_, fun cenv0 env0 d0 arg0 junk0 r h =>
    gc_commit_no_events a k page_to_phys heap cenv0 env0 d0 arg0 junk0 r h⟩
  rw [gc_commit_pipesel a k page_to_phys heap cenv env d arg junk d1 client hread hfind]
  rw [if_neg]
  intro h
  rcases h with h | h
  · exact hring h
  · exact absurd hroom (Nat.not_le.mpr h)

/-- Worked example for C14: the first commit of process 7 after `cmdbuf_init`,
with one sub-buffer of 32 bytes. -/
theorem C14_commit_never_reserves_witness :
    gc_commit demo_abi (demo_config true) (fun p => 4096 * p) demo_heap demo_copy_env
        demo_client_env demo_driver demo_commit demo_commit = .fault ∧
    ∀ (cenv0 : copy_env) (env0 : client_env) (d0 : driver) (arg0 junk0 : gccommit)
      (r : Int × driver × Option gccommit × List commit_event),
      gc_commit demo_abi (demo_config true) (fun p => 4096 * p) demo_heap cenv0 env0 d0 arg0
        junk0 = .ret r → r.2.2.2 = [] :=
  C14_commit_never_reserves demo_abi (demo_config true) (fun p => 4096 * p) demo_heap
    demo_copy_env demo_client_env demo_driver demo_commit demo_commit
    demo_found rfl
    (Run.eq_ret _ find_client_zero (by decide!)) (by decide!) (by decide!) (by decide!)

/-! ## C15 and C16: fixups -/

/-- The loop over one table, for distinct offsets whose words are addresses of
descriptors: it returns, every word at an offset of the table becomes the
`address` field of the descriptor it pointed to, the other words stay, and
`flush_user_buffer` is called once per entry, in order. -/
theorem fixup_apply_spec (k : Config) (p2p : Nat → Nat) (heap : Nat → Option mmu2darena) :
    ∀ (table : List Nat) (data : Nat → Nat) (calls : List flush_call), table.Nodup →
      (∀ o ∈ table, (heap (data o)).isSome = true) →
      ∃ data1, fixup_apply k p2p heap table data calls
          = .ret (data1, calls ++ table.filterMap (flush_of k p2p heap data)) ∧
        (∀ o ∈ table, ∀ ar, heap (data o) = some ar → data1 o = ar.address) ∧
        (∀ o, o ∉ table → data1 o = data o) := by
  intro table
  induction table with
  | nil =>
    intro data calls _ _
    exact ⟨data, by simp [fixup_apply], by simp, fun _ _ => rfl⟩
  | cons o t ih =>
    intro data calls hnd hall
    obtain ⟨hot, hndt⟩ := List.nodup_cons.mp hnd
    have ho := hall o (by simp)
    obtain ⟨ar, har⟩ := Option.isSome_iff_exists.mp ho
    have hsame : ∀ x ∈ t, Function.update data o ar.address x = data x := by
      intro x hx
      have : x ≠ o := fun hxo => hot (hxo ▸ hx)
      simp [Function.update_noteq this]
    obtain ⟨data1, hret, hval, hoth⟩ := ih (Function.update data o ar.address)
      (calls ++ [{ arena := ar.handle, pages := flush_user_buffer k p2p ar }]) hndt
      (fun x hx => by rw [hsame x hx]; exact hall x (by simp [hx]))
    refine ⟨data1, ?_, ?_, ?_⟩
    · unfold fixup_apply
      simp only [har]
      rw [hret]
      have hfm : t.filterMap (flush_of k p2p heap (Function.update data o ar.address))
          = t.filterMap (flush_of k p2p heap data) := by
        apply List.filterMap_congr
        intro x hx
        unfold flush_of
        rw [hsame x hx]
      have hfo : flush_of k p2p heap data o
          = some { arena := ar.handle, pages := flush_user_buffer k p2p ar } := by
        unfold flush_of
        rw [har]
        rfl
      rw [hfm, List.filterMap_cons, hfo]
      simp
    · intro x hx ar1 har1
      simp only [List.mem_cons] at hx
      rcases hx with rfl | hx
      · rw [hoth x hot]
        rw [har] at har1
        cases har1
        simp
      · exact hval x hx ar1 (by rw [hsame x hx]; exact har1)
    · intro x hx
      simp only [List.mem_cons, not_or] at hx
      rw [hoth x hx.2]
      simp [Function.update_noteq hx.1]

/-- The whole chain, for distinct offsets whose words are addresses of
descriptors and tables that can be read and fit the static copy:
`mmu2d_fixup` returns GCERR_NONE with the words fixed up and one call of
`flush_user_buffer` per offset. -/
theorem fixup_spec (a : Abi) (k : Config) (p2p : Nat → Nat) (heap : Nat → Option mmu2darena) :
    ∀ (chain : List gcfixup) (data : Nat → Nat) (calls : List flush_call),
      (fixup_offsets chain).Nodup →
      (∀ o ∈ fixup_offsets chain, (heap (data o)).isSome = true) →
      (∀ f ∈ chain, f.readable = true ∧ f.table_readable = true ∧ f.count ≤ a.GC_FIXUP_MAX) →
      ∃ data1, mmu2d_fixup a k p2p heap chain data calls
          = .ret (.GCERR_NONE, data1,
              calls ++ (fixup_offsets chain).filterMap (flush_of k p2p heap data)) ∧
        (∀ o ∈ fixup_offsets chain, ∀ ar, heap (data o) = some ar → data1 o = ar.address) ∧
        (∀ o, o ∉ fixup_offsets chain → data1 o = data o) := by
  intro chain
  induction chain with
  | nil =>
    intro data calls _ _ _
    exact ⟨data, by simp [mmu2d_fixup, fixup_offsets], by simp [fixup_offsets], fun _ _ => rfl⟩
  | cons f rest ih =>
    intro data calls hnd hall hrd
    have hoff : fixup_offsets (f :: rest) = f.table ++ fixup_offsets rest := by
      simp [fixup_offsets]
    rw [hoff] at hnd hall ⊢
    obtain ⟨hnd1, hnd2, hdis⟩ := List.nodup_append.mp hnd
    obtain ⟨data', hret', hval', hoth'⟩ := fixup_apply_spec k p2p heap f.table data calls hnd1
      (fun o ho => hall o (by simp [ho]))
    have hsame : ∀ x ∈ fixup_offsets rest, data' x = data x := by
      intro x hx
      exact hoth' x (fun hxt => hdis hxt hx)
    obtain ⟨data1, hret, hval, hoth⟩ := ih data'
      (calls ++ f.table.filterMap (flush_of k p2p heap data)) hnd2
      (fun x hx => by rw [hsame x hx]; exact hall x (by simp [hx]))
      (fun g hg => hrd g (by simp [hg]))
    obtain ⟨hr1, hr2, hr3⟩ := hrd f (by simp)
    refine ⟨data1, ?_, ?_, ?_⟩
    · unfold mmu2d_fixup
      simp only [hr1, hr2, Bool.true_eq_false, if_false, show ¬ f.count > a.GC_FIXUP_MAX by omega]
      rw [hret']
      simp only
      rw [hret]
      have hfm : (fixup_offsets rest).filterMap (flush_of k p2p heap data')
          = (fixup_offsets rest).filterMap (flush_of k p2p heap data) := by
        apply List.filterMap_congr
        intro x hx
        unfold flush_of
        rw [hsame x hx]
      rw [hfm, List.filterMap_append, List.append_assoc]
    · intro x hx ar har
      simp only [List.mem_append] at hx
      rcases hx with hx | hx
      · rw [hoth x (fun hxr => hdis hx hxr)]
        exact hval' x hx ar har
      · exact hval x hx ar (by rw [hsame x hx]; exact har)
    · intro x hx
      simp only [List.mem_append, not_or] at hx
      rw [hoth x hx.2, hoth' x hx.1]

/-- A chain for which `mmu2d_fixup` returns GCERR_NONE could be read and fits
the static copy. -/
theorem fixup_success_readable (a : Abi) (k : Config) (p2p : Nat → Nat)
    (heap : Nat → Option mmu2darena) :
    ∀ (chain : List gcfixup) (data data1 : Nat → Nat) (calls calls1 : List flush_call),
      mmu2d_fixup a k p2p heap chain data calls = .ret (.GCERR_NONE, data1, calls1) →
      ∀ f ∈ chain, f.readable = true ∧ f.table_readable = true ∧ f.count ≤ a.GC_FIXUP_MAX := by
  intro chain
  induction chain with
  | nil => intro _ _ _ _ _ f hf; simp at hf
  | cons g rest ih =>
    intro data data1 calls calls1 h f hf
    unfold mmu2d_fixup at h
    split at h
    · cases h
    · split at h
      · cases h
      · split at h
        · cases h
        · rename_i h1 h2 h3
          split at h
          · cases h
          · cases h
          · simp only [List.mem_cons] at hf
            rcases hf with rfl | hf
            · exact ⟨by simpa using h1, by simpa using h2, by omega⟩
            · exact ih _ _ _ _ h f hf

theorem filterMap_length_all {α β : Type} (f : α → Option β) (l : List α)
    (h : ∀ x ∈ l, (f x).isSome = true) : (l.filterMap f).length = l.length := by
  induction l with
  | nil => rfl
  | cons x rest ih =>
    obtain ⟨y, hy⟩ := Option.isSome_iff_exists.mp (h x (by simp))
    rw [List.filterMap_cons, hy]
    simp only [List.length_cons]
    rw [ih (fun z hz => h z (by simp [hz]))]

/-- C15 as stated fails when a table names an offset twice. In the worked
example the table is [2, 2] and word 2 of the stream holds the handle of the
arena A, whose device address 3222278144 is the address of the descriptor B.
mmu2d_fixup returns GCERR_NONE; the first entry stores the device address of A
in word 2, the second entry reads that word as a descriptor address again and
stores the device address of B, 4194304, which is not the address of the arena
the word referred to. -/
theorem C15_fixup_values_counterexample :
    fixup_offsets demo_fixups_twice = [2, 2] ∧
    (∀ o ∈ fixup_offsets demo_fixups_twice,
      (demo_heap_alias (demo_stream_alias o)).isSome = true) ∧
    (mmu2d_fixup demo_abi (demo_config true) (fun p => 4096 * p) demo_heap_alias
      demo_fixups_twice demo_stream_alias []).isRet = true ∧
    demo_fixed_twice.1 = .GCERR_NONE ∧
    (demo_heap_alias (demo_stream_alias 2)).map (fun ar => ar.address) = some 3222278144 ∧
    demo_fixed_twice.2.1 2 = 4194304 ∧
    ¬ (∀ o ∈ fixup_offsets demo_fixups_twice, ∀ ar,
        demo_heap_alias (demo_stream_alias o) = some ar → demo_fixed_twice.2.1 o = ar.address) :=
  ⟨by decide!, by decide!, by decide!, by decide!, by decide!, by decide!,
   fun h => absurd (h 2 (by decide!) _ rfl) (by decide!)⟩

/-- C15, amended. The offsets of the chain are pairwise distinct and each offset's
stream word is the address of an arena descriptor (the handle of a mapped
arena). Whenever mmu2d_fixup returns GCERR_NONE, the stream word at every
referenced offset is the device-visible address (the field `address`) of the
arena that word referred to, and every stream word that no fixup refers to is
unchanged. The call does return GCERR_NONE when every fixup of the chain can be
read and its table fits the array of `struct gcfixup`. -/
theorem C15_fixup_values (a : Abi) (k : Config) (p2p : Nat → Nat)
    (heap : Nat → Option mmu2darena) (chain : List gcfixup) (data : Nat → Nat)
    (calls : List flush_call) (hnd : (fixup_offsets chain).Nodup)
    (hall : ∀ o ∈ fixup_offsets chain, (heap (data o)).isSome = true) :
    (∀ data1 calls1,
      mmu2d_fixup a k p2p heap chain data calls = .ret (.GCERR_NONE, data1, calls1) →
      (∀ o ∈ fixup_offsets chain, ∀ ar, heap (data o) = some ar → data1 o = ar.address) ∧
      (∀ o, o ∉ fixup_offsets chain → data1 o = data o)) ∧
    ((∀ f ∈ chain, f.readable = true ∧ f.table_readable = true ∧ f.count ≤ a.GC_FIXUP_MAX) →
      ∃ data1 calls1,
        mmu2d_fixup a k p2p heap chain data calls = .ret (.GCERR_NONE, data1, calls1)) := by
  constructor
  · intro data1 calls1 h
    have hrd := fixup_success_readable a k p2p heap chain data data1 calls calls1 h
    obtain ⟨d1, hret, hval, hoth⟩ := fixup_spec a k p2p heap chain data calls hnd hall hrd
    rw [hret] at h
    simp only [Run.ret.injEq, Prod.mk.injEq, true_and] at h
    rw [← h.1]
    exact ⟨hval, hoth⟩
  · intro hrd
    obtain ⟨d1, hret, _, _⟩ := fixup_spec a k p2p heap chain data calls hnd hall hrd
    exact ⟨d1, _, hret⟩

/-- C15 at the worked example: the stream of 8 words with the handle 501 in
words 2 and 5 and the handle 502 in word 6, the tables [2, 6] and [5]. -/
theorem C15_fixup_values_witness :
    fixup_offsets demo_fixups = [2, 6, 5] ∧
    (List.range 8).map demo_stream = [1000, 1001, 501, 1003, 1004, 501, 502, 1007] ∧
    demo_fixed.1 = .GCERR_NONE ∧
    (List.range 8).map demo_fixed.2.1
      = [1000, 1001, 4194304, 1003, 1004, 4194304, 8388608, 1007] ∧
    ((∀ o ∈ fixup_offsets demo_fixups, ∀ ar, demo_heap (demo_stream o) = some ar →
        demo_fixed.2.1 o = ar.address) ∧
     (∀ o, o ∉ fixup_offsets demo_fixups → demo_fixed.2.1 o = demo_stream o)) :=
  ⟨by decide!, by decide!, by decide!, by decide!,
   (C15_fixup_values demo_abi (demo_config true) (fun p => 4096 * p) demo_heap demo_fixups
     demo_stream [] (by decide!) (by decide!)).1 demo_fixed.2.1 demo_fixed.2.2
     (Run.eq_ret _ fixup_zero (by decide!))⟩

/-- C16 as stated fails. In the worked example N = 3 offsets (2, 6, 5) refer to
M = 2 distinct arenas (501 twice, 502 once); mmu2d_fixup returns GCERR_NONE and
has called flush_user_buffer three times, twice for the arena 501. -/
theorem C16_fixup_flushes_counterexample :
    (mmu2d_fixup demo_abi (demo_config true) (fun p => 4096 * p) demo_heap demo_fixups
      demo_stream []).isRet = true ∧
    demo_fixed.1 = .GCERR_NONE ∧
    (fixup_offsets demo_fixups).map demo_stream = [501, 502, 501] ∧
    ((fixup_offsets demo_fixups).map demo_stream).dedup.length = 2 ∧
    demo_fixed.2.2.map (fun c => c.arena) = [501, 502, 501] ∧
    demo_fixed.2.2.length = 3 ∧
    (demo_fixed.2.2.filter (fun c => c.arena = 501)).length = 2 :=
  ⟨by decide!, by decide!, by decide!, by decide!, by decide!, by decide!, by decide!⟩

/-- C16, amended. The offsets of the chain are pairwise distinct and each
offset's stream word is the address of an arena descriptor. Whenever
mmu2d_fixup returns GCERR_NONE it has called flush_user_buffer exactly N times,
N the number of offsets: once for each offset, in the order of the offsets, on
the arena that offset's word referred to. So an arena is flushed as many times
as offsets refer to it, at least once, and exactly once only if a single offset
refers to it. -/
theorem C16_fixup_flushes (a : Abi) (k : Config) (p2p : Nat → Nat)
    (heap : Nat → Option mmu2darena) (chain : List gcfixup) (data : Nat → Nat)
    (hnd : (fixup_offsets chain).Nodup)
    (hall : ∀ o ∈ fixup_offsets chain, (heap (data o)).isSome = true)
    (data1 : Nat → Nat) (calls1 : List flush_call)
    (h : mmu2d_fixup a k p2p heap chain data [] = .ret (.GCERR_NONE, data1, calls1)) :
    calls1 = (fixup_offsets chain).filterMap (flush_of k p2p heap data) ∧
    calls1.length = (fixup_offsets chain).length ∧
    (∀ o ∈ fixup_offsets chain, ∀ ar, heap (data o) = some ar →
      { arena := ar.handle, pages := flush_user_buffer k p2p ar } ∈ calls1) ∧
    (∀ c : flush_call, (calls1.filter (fun x => x = c)).length
      = ((fixup_offsets chain).filter (fun o => flush_of k p2p heap data o = some c)).length) := by
  have hrd := fixup_success_readable a k p2p heap chain data data1 [] calls1 h
  obtain ⟨d1, hret, _, _⟩ := fixup_spec a k p2p heap chain data [] hnd hall hrd
  rw [hret] at h
  simp only [Run.ret.injEq, Prod.mk.injEq, true_and, List.nil_append] at h
  have hc := h.2.symm
  have hsome : ∀ o ∈ fixup_offsets chain, (flush_of k p2p heap data o).isSome = true := by
    intro o ho
    unfold flush_of
    simpa using hall o ho
  refine ⟨hc, ?_, ?_, ?_⟩
  · rw [hc]
    exact filterMap_length_all _ _ hsome
  · intro o ho ar har
    rw [hc, List.mem_filterMap]
    exact ⟨o, ho, by unfold flush_of; rw [har]; rfl⟩
  · intro c
    rw [hc]
    generalize fixup_offsets chain = l
    induction l with
    | nil => rfl
    | cons x rest ih =>
      rw [List.filterMap_cons]
      cases hx : flush_of k p2p heap data x with
      | none =>
        simp only
        rw [ih, List.filter_cons]
        simp [hx]
      | some y =>
        simp only
        rw [List.filter_cons, List.filter_cons]
        by_cases hyc : y = c
        · simp [hyc, hx, ih]
        · have : ¬ (some y = some c) := fun hh => hyc (Option.some.inj hh)
          simp [hyc, hx, ih]

/-- C16 (amended) at the worked example. -/
theorem C16_fixup_flushes_witness :
    demo_fixed.2.2 = (fixup_offsets demo_fixups).filterMap
      (flush_of (demo_config true) (fun p => 4096 * p) demo_heap demo_stream) ∧
    demo_fixed.2.2.length = (fixup_offsets demo_fixups).length ∧
    (∀ o ∈ fixup_offsets demo_fixups, ∀ ar, demo_heap (demo_stream o) = some ar →
      { arena := ar.handle,
        pages := flush_user_buffer (demo_config true) (fun p => 4096 * p) ar }
          ∈ demo_fixed.2.2) ∧
    (∀ c : flush_call, (demo_fixed.2.2.filter (fun x => x = c)).length
      = ((fixup_offsets demo_fixups).filter (fun o =>
          flush_of (demo_config true) (fun p => 4096 * p) demo_heap demo_stream o
            = some c)).length) :=
  C16_fixup_flushes demo_abi (demo_config true) (fun p => 4096 * p) demo_heap demo_fixups
    demo_stream (by decide!) (by decide!) demo_fixed.2.1 demo_fixed.2.2
    (Run.eq_ret _ fixup_zero (by decide!))

/-! ## C17: mmu2d_destroy_context -/

/-- When the list and the pool are both non-empty the loop of
`mmu2d_destroy_context` never reaches NULL: after `mmu2d_free_arena` the field
`head->next` holds the old head of the pool, so `head` and `recs` change places
in every iteration. -/
theorem destroy_walk_cycle (fuel : Nat) :
    ∀ (next : Nat → Nat) (head recs : Nat), head ≠ 0 → recs ≠ 0 →
      destroy_walk fuel next head recs = none := by
  induction fuel with
  | zero =>
    intro next head recs hh _
    unfold destroy_walk
    simp [hh]
  | succ fuel ih =>
    intro next head recs hh hr
    unfold destroy_walk
    simp only [hh, if_false, Function.update_same]
    exact ih _ recs head hr hh

/-- When the pool is empty the loop frees the first descriptor of the list and
ends: `head->next` is NULL after `mmu2d_free_arena`. -/
theorem destroy_walk_one (fuel : Nat) (next : Nat → Nat) (head : Nat) (hh : head ≠ 0) :
    destroy_walk (fuel + 1) next head 0 = some (Function.update next head 0, head) := by
  unfold destroy_walk
  simp only [hh, if_false, Function.update_same]
  unfold destroy_walk
  simp

theorem destroy_walk_null (fuel : Nat) (next : Nat → Nat) (recs : Nat) :
    destroy_walk fuel next 0 recs = some (next, recs) := by
  unfold destroy_walk
  simp

theorem head_of_ne (l : List mmu2darena) (hl : l ≠ []) (hnz : ∀ a ∈ l, a.handle ≠ 0) :
    head_of l ≠ 0 := by
  cases l with
  | nil => exact absurd rfl hl
  | cons a rest => exact hnz a (by simp)

/-- C17 (violated). For every active context whose vacant list is not empty,
with descriptors at non-null addresses: if the pool of free descriptors or the
allocated list is not empty, mmu2d_destroy_context does not return. The loops
read `->next` after mmu2d_free_arena has overwritten it with the head of the
pool, so they walk into the pool and from there back, for ever: with every
bound on the iterations the loop over the allocated list, or else the loop over
the vacant list, is not finished. If the pool and the allocated list are both
empty the call returns GCERR_NONE, but only the first vacant descriptor is on
the free list afterwards; the others are lost. -/
theorem C17_destroy_fails (mmu : mmu2dprivate) (ctxt : mmu2dcontext)
    (hact : ctxt.mmu = true)
    (hnz : ∀ a ∈ ctxt.allocated ++ ctxt.vacant ++ mmu.arena_recs, a.handle ≠ 0)
    (hv : ctxt.vacant ≠ []) :
    ((mmu.arena_recs ≠ [] ∨ ctxt.allocated ≠ []) →
      mmu2d_destroy_context mmu ctxt = .diverge ∧
      ((∀ fuel next, destroy_walk fuel next (head_of ctxt.allocated) (head_of mmu.arena_recs)
          = none) ∨
       (∃ next0 next1 recs1, destroy_walk 1 next0 (head_of ctxt.allocated)
          (head_of mmu.arena_recs) = some (next1, recs1) ∧
          ∀ fuel next, destroy_walk fuel next (head_of ctxt.vacant) recs1 = none))) ∧
    ((mmu.arena_recs = [] ∧ ctxt.allocated = []) →
      ∃ v rest mmu1 ctxt1, ctxt.vacant = v :: rest ∧
        mmu2d_destroy_context mmu ctxt = .ret (.GCERR_NONE, mmu1, ctxt1) ∧
        mmu1.arena_recs = [v] ∧ ctxt1.vacant = [] ∧ ctxt1.allocated = [] ∧
        ctxt1.mmu = false ∧ mmu1.refcount = u32_sub mmu.refcount 1) := by
  have hvh : head_of ctxt.vacant ≠ 0 :=
    head_of_ne _ hv (fun a ha => hnz a (by simp [ha]))
  constructor
  · intro hp
    by_cases hal : ctxt.allocated = []
    · have hpool : mmu.arena_recs ≠ [] := hp.resolve_right (fun h => h hal)
      have hph : head_of mmu.arena_recs ≠ 0 :=
        head_of_ne _ hpool (fun a ha => hnz a (by simp [ha]))
      have h1 : ∀ fuel next, destroy_walk fuel next (head_of ctxt.allocated)
          (head_of mmu.arena_recs) = some (next, head_of mmu.arena_recs) := by
        intro fuel next
        rw [hal]
        exact destroy_walk_null _ _ _
      refine ⟨?_, Or.inr ⟨fun _ => 0, _, _, h1 1 _, fun fuel next =>
        destroy_walk_cycle fuel next _ _ hvh hph⟩⟩
      unfold mmu2d_destroy_context
      simp only [hact, Bool.true_eq_false, if_false]
      rw [h1]
      simp only
      rw [destroy_walk_cycle _ _ _ _ hvh hph]
    · have hah : head_of ctxt.allocated ≠ 0 :=
        head_of_ne _ hal (fun a ha => hnz a (by simp [ha]))
      by_cases hpool : mmu.arena_recs = []
      · have hp0 : head_of mmu.arena_recs = 0 := by rw [hpool]; rfl
        have h1 : ∀ fuel next, destroy_walk (fuel + 1) next (head_of ctxt.allocated)
            (head_of mmu.arena_recs)
              = some (Function.update next (head_of ctxt.allocated) 0,
                      head_of ctxt.allocated) := by
          intro fuel next
          rw [hp0]
          exact destroy_walk_one fuel next _ hah
        refine ⟨?_, Or.inr ⟨fun _ => 0, _, _, h1 0 _, fun fuel next =>
          destroy_walk_cycle fuel next _ _ hvh hah⟩⟩
        unfold mmu2d_destroy_context
        simp only [hact, Bool.true_eq_false, if_false]
        rw [h1]
        simp only
        rw [destroy_walk_cycle _ _ _ _ hvh hah]
      · have hph : head_of mmu.arena_recs ≠ 0 :=
          head_of_ne _ hpool (fun a ha => hnz a (by simp [ha]))
        refine ⟨?_, Or.inl (fun fuel next => destroy_walk_cycle fuel next _ _ hah hph)⟩
        unfold mmu2d_destroy_context
        simp only [hact, Bool.true_eq_false, if_false]
        rw [destroy_walk_cycle _ _ _ _ hah hph]
  · rintro ⟨hpool, hal⟩
    obtain ⟨v, rest, hvr⟩ := List.exists_cons_of_ne_nil hv
    have hvz : v.handle ≠ 0 := hnz v (by simp [hvr])
    have hchain : chain_from (v :: rest) (Function.update
        (links_of (v :: rest) (fun _ => 0)) v.handle 0) (v :: rest).length v.handle = [v] := by
      simp only [List.length_cons]
      unfold chain_from
      simp only [hvz, if_false, List.find?_cons, beq_self_eq_true, Function.update_same]
      unfold chain_from
      cases rest.length <;> simp
    have hret : mmu2d_destroy_context mmu ctxt
        = .ret (.GCERR_NONE,
            { mmu with arena_recs := [v], refcount := u32_sub mmu.refcount 1 },
            { ctxt with slave := none, allocated := [], vacant := [],
                        master := gc_free_pages ctxt.master, mmu := false }) := by
      unfold mmu2d_destroy_context
      simp only [hact, Bool.true_eq_false, if_false, hal, hpool, hvr]
      rw [show head_of ([] : List mmu2darena) = 0 from rfl, destroy_walk_null]
      simp only
      rw [show head_of (v :: rest) = v.handle from rfl, destroy_walk_one _ _ _ hvz]
      simp only [List.nil_append, List.append_nil]
      rw [show links_of ([] : List mmu2darena) (links_of (v :: rest)
        (links_of ([] : List mmu2darena) fun _ => 0)) = links_of (v :: rest) (fun _ => 0)
        from rfl, hchain]
    exact ⟨v, rest, _, _, hvr, hret, rfl, rfl, rfl, rfl, rfl⟩

/-- C17 at the worked examples. The context just created by
mmu2d_create_context has one vacant arena, and the pool holds the other 126
descriptors of the block: mmu2d_destroy_context does not return. The context
with two vacant arenas (descriptors 101 and 102), nothing allocated and an
empty pool: the call returns GCERR_NONE and the free list holds descriptor 101
only. -/
theorem C17_destroy_fails_witness :
    (demo_created true).2.1.mmu.arena_recs.length = 126 ∧
    (demo_created true).2.2.vacant.length = 1 ∧
    (mmu2d_destroy_context (demo_created true).2.1.mmu (demo_created true).2.2 = .diverge ∧
      ((∀ fuel next, destroy_walk fuel next (head_of (demo_created true).2.2.allocated)
          (head_of (demo_created true).2.1.mmu.arena_recs) = none) ∨
       (∃ next0 next1 recs1, destroy_walk 1 next0 (head_of (demo_created true).2.2.allocated)
          (head_of (demo_created true).2.1.mmu.arena_recs) = some (next1, recs1) ∧
          ∀ fuel next, destroy_walk fuel next (head_of (demo_created true).2.2.vacant) recs1
            = none))) ∧
    demo_ctxt_two_vacant.vacant.map (fun a => a.handle) = [101, 102] ∧
    (((mmu2d_destroy_context demo_mmu_empty_pool demo_ctxt_two_vacant).getD
        (.GCERR_MMU_CTXT_BAD, demo_globals.mmu, mmu2dcontext_zero)).1,
     ((mmu2d_destroy_context demo_mmu_empty_pool demo_ctxt_two_vacant).getD
        (.GCERR_MMU_CTXT_BAD, demo_globals.mmu, mmu2dcontext_zero)).2.1.arena_recs.map
          (fun a => a.handle)) = (.GCERR_NONE, [101]) ∧
    (∃ v rest mmu1 ctxt1, demo_ctxt_two_vacant.vacant = v :: rest ∧
      mmu2d_destroy_context demo_mmu_empty_pool demo_ctxt_two_vacant
        = .ret (.GCERR_NONE, mmu1, ctxt1) ∧
      mmu1.arena_recs = [v] ∧ ctxt1.vacant = [] ∧ ctxt1.allocated = [] ∧
      ctxt1.mmu = false ∧ mmu1.refcount = u32_sub demo_mmu_empty_pool.refcount 1) :=
  ⟨by decide!, by decide!,
   (C17_destroy_fails (demo_created true).2.1.mmu (demo_created true).2.2 (by decide!)
     (by decide!) (by decide!)).1 (Or.inl (by decide!)),
   by decide!, by decide!,
   (C17_destroy_fails demo_mmu_empty_pool demo_ctxt_two_vacant (by decide!) (by decide!)
     (by decide!)).2 ⟨rfl, rfl⟩⟩

/-! ## C18: the new context -/

theorem get_arena_refcount (k : Config) (km : Option Nat) (mmu mmu1 : mmu2dprivate)
    (e : gcerror) (a : Option mmu2darena)
    (h : mmu2d_get_arena k km mmu = .ret (e, mmu1, a)) : mmu1.refcount = mmu.refcount := by
  unfold mmu2d_get_arena at h
  split at h
  · cases h; rfl
  · split at h
    · cases h; rfl
    · split at h
      · cases h
      · cases h; rfl

theorem create_enable_refcount (k : Config) (env : create_env) (g : globals)
    (ctxt : mmu2dcontext) :
    (create_enable k env g ctxt).2.mmu.refcount = g.mmu.refcount := by
  unfold create_enable
  simp only
  split
  · split <;> rfl
  · rfl

theorem create_fail_globals (k : Config) (e e1 : gcerror) (g g1 : globals)
    (ctxt ctxt1 : mmu2dcontext) (h : create_fail k e g ctxt = .ret (e1, g1, ctxt1)) :
    g1 = g := by
  unfold create_fail at h
  split at h <;> cases h <;> rfl

/-- What `mmu2d_create_context` does to the reference count of the MMU object:
one more (in 32-bit arithmetic) on success, unchanged on failure. -/
theorem create_refcount (k : Config) (env : create_env) (g g1 : globals) (e : gcerror)
    (ctxt : mmu2dcontext) (h : mmu2d_create_context k env g = .ret (e, g1, ctxt)) :
    (e = .GCERR_NONE → g1.mmu.refcount = u32_add g.mmu.refcount 1) ∧
    (e ≠ .GCERR_NONE → g1.mmu.refcount = g.mmu.refcount) := by
  unfold mmu2d_create_context at h
  split at h
  · rename_i ctxt0 ht
    split at h
    · cases h
    · cases h
    · rename_i mmu1 a hga
      have hrc := get_arena_refcount k _ _ _ _ _ hga
      unfold create_finish at h
      simp only at h
      split at h
      · rename_i g2 hen
        cases h
        refine ⟨fun _ => ?_, fun hne => absurd rfl hne⟩
        simp only
        split at hen
        · have := create_enable_refcount k env { g with mmu := mmu1 }
            { ctxt0 with
              vacant := [{ a with mtlb := 0, stlb := 0,
                                  count := (k.MMU_MTLB_ENTRY_NUM * k.MMU_STLB_ENTRY_NUM)
                                    % 4294967296 }],
              allocated := [] }
          rw [hen] at this
          simp only at this
          rw [this, hrc]
        · simp only [Prod.mk.injEq, true_and] at hen
          subst hen
          simp only
          rw [hrc]
      · rename_i e2 g2 hne hen
        have hgl := create_fail_globals _ _ _ _ _ _ _ h
        have he := create_fail_lists _ _ _ _ _ _ _ h
        subst hgl he
        refine ⟨fun he => absurd he (fun hc => hne (by rw [hc])), fun _ => ?_⟩
        split at hen
        · have := create_enable_refcount k env { g with mmu := mmu1 }
            { ctxt0 with
              vacant := [{ a with mtlb := 0, stlb := 0,
                                  count := (k.MMU_MTLB_ENTRY_NUM * k.MMU_STLB_ENTRY_NUM)
                                    % 4294967296 }],
              allocated := [] }
          rw [hen] at this
          simp only at this
          rw [this, hrc]
        · simp only [Prod.mk.injEq] at hen
          exact absurd hen.1.symm hne
    · cases h
    · rename_i e0 mmu1 ar hne1 hne2 hga
      have hrc := get_arena_refcount k _ _ _ _ _ hga
      have hgl := create_fail_globals _ _ _ _ _ _ _ h
      have he := create_fail_lists _ _ _ _ _ _ _ h
      subst hgl he
      refine ⟨fun he => ?_, fun _ => hrc⟩
      subst he
      cases ar with
      | none => exact (hne2 rfl rfl).elim
      | some a => exact (hne1 a rfl rfl).elim
  · rename_i e0 ctxt0 hne heq
    have hgl := create_fail_globals _ _ _ _ _ _ _ h
    have he := create_fail_lists _ _ _ _ _ _ _ h
    subst hgl he
    exact ⟨fun he => absurd he (fun hc => hne (by rw [hc])), fun _ => rfl⟩

/-- Without `MMU_ENABLE` the array of slave-table pointers of a new context is
NULL, as `memset` left it. -/
theorem create_slave_disabled (k : Config) (hen : k.MMU_ENABLE = false) (env : create_env)
    (g g1 : globals) (ctxt : mmu2dcontext)
    (h : mmu2d_create_context k env g = .ret (.GCERR_NONE, g1, ctxt)) : ctxt.slave = none := by
  unfold mmu2d_create_context at h
  simp only [hen, Bool.false_eq_true, if_false] at h
  split at h
  · cases h
  · cases h
  · unfold create_finish at h
    simp only at h
    split at h
    · cases h; rfl
    · rename_i hne _
      have := create_fail_lists _ _ _ _ _ _ _ h
      exact (hne this.symm).elim
  · cases h
  · rename_i hne1 hne2 _
    have := create_fail_lists _ _ _ _ _ _ _ h
    subst this
    rename_i ar _
    cases ar with
    | none => exact (hne2 rfl rfl).elim
    | some a => exact (hne1 a rfl rfl).elim

/-- C18. The constants are positive and MMU_MTLB_ENTRY_NUM * MMU_STLB_ENTRY_NUM
is below 2^32. For every successful mmu2d_create_context the new context has
an empty allocated list and a vacant list of exactly one arena with mtlb = 0,
stlb = 0 and count = MMU_MTLB_ENTRY_NUM * MMU_STLB_ENTRY_NUM; every slave-table
slot is null; under MMU_ENABLE every master-table entry is
MMU_MTLB_ENTRY_VACANT; the context refers to the MMU object, whose reference
count is one more than before (in 32-bit arithmetic). When create fails the
reference count is unchanged. -/
theorem C18_create (k : Config) (hk : k.sane) (env : create_env) (g g1 : globals)
    (e : gcerror) (ctxt : mmu2dcontext)
    (h : mmu2d_create_context k env g = .ret (e, g1, ctxt)) :
    (e = .GCERR_NONE →
      ctxt.allocated = [] ∧
      (∃ a : mmu2darena, ctxt.vacant = [a] ∧ a.mtlb = 0 ∧ a.stlb = 0 ∧
        a.count = k.MMU_MTLB_ENTRY_NUM * k.MMU_STLB_ENTRY_NUM) ∧
      (∀ i, slave_at ctxt i = none) ∧
      (k.MMU_ENABLE = true →
        ∀ i, i < k.MMU_MTLB_ENTRY_NUM → ctxt.master.words i = k.MMU_MTLB_ENTRY_VACANT) ∧
      ctxt.mmu = true ∧
      g1.mmu.refcount = (g.mmu.refcount + 1) % 4294967296 ∧
      (g.mmu.refcount + 1 < 4294967296 → g1.mmu.refcount = g.mmu.refcount + 1)) ∧
    (e ≠ .GCERR_NONE → g1.mmu.refcount = g.mmu.refcount) := by
  have hrc := create_refcount k env g g1 e ctxt h
  refine ⟨fun he => ?_, hrc.2⟩
  subst he
  obtain ⟨⟨a, hv, hm, hs, hc⟩, hal, hmmu, hen⟩ := create_spec k env g g1 ctxt h
  have hT := hk.2.2
  unfold total at hT hc
  refine ⟨hal, ⟨a, hv, hm, hs, by rw [hc]; omega⟩, ?_, fun he => (hen he).2, hmmu, hrc.1 rfl, ?_⟩
  · intro i
    unfold slave_at
    by_cases he : k.MMU_ENABLE = true
    · rw [(hen he).1]; rfl
    · rw [create_slave_disabled k (by simpa using he) env g g1 ctxt h]; rfl
  · intro hlt
    rw [hrc.1 rfl]
    exact u32_add_eq _ _ hlt

/-- C18 at the worked example: the context created on the idle MMU object
(1024 * 1024 units, reference count 0 before), and a create that fails because
the kernel has no pages for the master table. -/
theorem C18_create_witness :
    (demo_created true).2.2.vacant.map triple = [(0, 0, 1048576)] ∧
    (demo_globals.mmu.refcount, (demo_created true).2.1.mmu.refcount) = (0, 1) ∧
    ((demo_created true).2.2.allocated = [] ∧
      (∃ a : mmu2darena, (demo_created true).2.2.vacant = [a] ∧ a.mtlb = 0 ∧ a.stlb = 0 ∧
        a.count = (demo_config true).MMU_MTLB_ENTRY_NUM * (demo_config true).MMU_STLB_ENTRY_NUM) ∧
      (∀ i, slave_at (demo_created true).2.2 i = none) ∧
      ((demo_config true).MMU_ENABLE = true →
        ∀ i, i < (demo_config true).MMU_MTLB_ENTRY_NUM →
          (demo_created true).2.2.master.words i = (demo_config true).MMU_MTLB_ENTRY_VACANT) ∧
      (demo_created true).2.2.mmu = true ∧
      (demo_created true).2.1.mmu.refcount = (demo_globals.mmu.refcount + 1) % 4294967296 ∧
      (demo_globals.mmu.refcount + 1 < 4294967296 →
        (demo_created true).2.1.mmu.refcount = demo_globals.mmu.refcount + 1)) ∧
    demo_create_failed.1 = .GCERR_SETGRP .GCERR_OOPM .GCERR_MMU_MTLB_ALLOC ∧
    demo_create_failed.2.1.mmu.refcount = demo_globals.mmu.refcount :=
  ⟨by decide!, by decide!,
   (C18_create (demo_config true) (demo_sane true) demo_create_env demo_globals _ _ _
     (demo_created_ok true)).1 rfl,
   by decide!,
   (C18_create (demo_config true) (demo_sane true) { demo_create_env with master := .failed }
     demo_globals demo_create_failed.2.1 demo_create_failed.1 demo_create_failed.2.2
     (Run.eq_ret _ (.GCERR_NONE, demo_globals, mmu2dcontext_zero) (by decide!))).2
     (by decide!)⟩

/-- The label `exit` of `gc_map`: the return value is 0 and the caller receives
the structure when `copy_to_user` succeeds, and is `-EFAULT` with nothing
received when it fails. -/
theorem gc_map_exit_spec (a : Abi) (k : Config) (cenv : copy_env) (d : driver)
    (client : Option Nat) (s : gcmap) (mapped : Option mmu2darena)
    (r : Int × driver × Option gcmap)
    (h : gc_map_exit a k cenv d client s mapped = .ret r) :
    (cenv.to_user = true → r.1 = 0 ∧ r.2.2 = some s) ∧
    (cenv.to_user = false → r.1 = -(a.EFAULT : Int) ∧ r.2.2 = none) := by
  unfold gc_map_exit at h
  cases ht : cenv.to_user <;>
    simp only [ht, Bool.false_eq_true, ↓reduceIte] at h ⊢ <;> (repeat' (split at h)) <;>
    first
    | (simp only [Run.ret.injEq] at h
       subst h
       simp)
    | cases h

/-- Every return of `gc_map` goes through the label `exit`. -/
theorem gc_map_spec (a : Abi) (k : Config) (cenv : copy_env) (env : client_env) (d : driver)
    (arg junk : gcmap) (r : Int × driver × Option gcmap)
    (h : gc_map a k cenv env d arg junk = .ret r) :
    (cenv.to_user = true → r.1 = 0 ∧ ∃ s, r.2.2 = some s) ∧
    (cenv.to_user = false → r.1 = -(a.EFAULT : Int) ∧ r.2.2 = none) := by
  have key : ∀ (d2 : driver) (client : Option Nat) (s : gcmap) (mapped : Option mmu2darena),
      gc_map_exit a k cenv d2 client s mapped = .ret r →
      (cenv.to_user = true → r.1 = 0 ∧ ∃ s, r.2.2 = some s) ∧
      (cenv.to_user = false → r.1 = -(a.EFAULT : Int) ∧ r.2.2 = none) := by
    intro d2 client s mapped hx
    have := gc_map_exit_spec a k cenv d2 client s mapped r hx
    exact ⟨fun ht => ⟨(this.1 ht).1, s, (this.1 ht).2⟩, this.2⟩
  unfold gc_map at h
  split at h
  · exact key _ _ _ _ h
  · split at h
    · cases h
    · cases h
    · split at h
      · exact key _ _ _ _ h
      · split at h
        · cases h
        · simp only at h
          split at h
          · cases h
          · cases h
          · split at h
            · exact key _ _ _ _ h
            · split at h
              · cases h
              · exact key _ _ _ _ h

/-- The label `exit` of `gc_unmap` and `gc_commit`. -/
theorem copy_back_spec {α : Type} (a : Abi) (cenv : copy_env) (s : α) :
    (cenv.to_user = true → (copy_back a cenv s).1 = 0 ∧ (copy_back a cenv s).2 = some s) ∧
    (cenv.to_user = false →
      (copy_back a cenv s).1 = -(a.EFAULT : Int) ∧ (copy_back a cenv s).2 = none) := by
  unfold copy_back
  constructor
  · intro ht
    simp [ht]
  · intro ht
    simp [ht]

/-- Every return of `gc_unmap` goes through the label `exit`. -/
theorem gc_unmap_spec (a : Abi) (k : Config) (cenv : copy_env) (env : client_env) (d : driver)
    (arg junk : gcmap) (r : Int × driver × Option gcmap)
    (h : gc_unmap a k cenv env d arg junk = .ret r) :
    (cenv.to_user = true → r.1 = 0 ∧ ∃ s, r.2.2 = some s) ∧
    (cenv.to_user = false → r.1 = -(a.EFAULT : Int) ∧ r.2.2 = none) := by
  have key : ∀ (d2 : driver) (s : gcmap),
      r = ((copy_back a cenv s).1, d2, (copy_back a cenv s).2) →
      (cenv.to_user = true → r.1 = 0 ∧ ∃ s, r.2.2 = some s) ∧
      (cenv.to_user = false → r.1 = -(a.EFAULT : Int) ∧ r.2.2 = none) := by
    intro d2 s hr
    subst hr
    have := copy_back_spec a cenv s
    exact ⟨fun ht => ⟨(this.1 ht).1, s, (this.1 ht).2⟩, this.2⟩
  unfold gc_unmap at h
  split at h
  · simp only [Run.ret.injEq] at h
    exact key _ _ h.symm
  · split at h
    · cases h
    · cases h
    · split at h
      · simp only [Run.ret.injEq] at h
        exact key _ _ h.symm
      · split at h
        · cases h
        · split at h
          · cases h
          · cases h
          · split at h
            · simp only [Run.ret.injEq] at h
              exact key _ _ h.symm
            · simp only [Run.ret.injEq] at h
              exact key _ _ h.symm

/-- Claim C19 (defect of the code): `gc_map` and `gc_unmap` return a nonzero
value exactly when `copy_to_user` fails, and hand the structure with its error
code to the caller otherwise; `gc_commit` does not. When the caller's structure
can be read, the client is found or created and the ring cannot hold the pipe
selection (its cursor is NULL or too little is available), `gc_commit` returns
the error code `GCERR_CMD_ALLOC` itself, a nonzero value, and copies nothing
back, whether `copy_to_user` would succeed or not. -/
theorem C19_commit_returns_error_code (a : Abi) (k : Config) (page_to_phys : Nat → Nat)
    (heap : Nat → Option mmu2darena) (cenv : copy_env) (env : client_env) (d : driver)
    (arg junk : gccommit) (found : gcerror × driver × Option Nat)
    (hefault : a.EFAULT ≠ 0) (hvalue : a.gcerror_value .GCERR_CMD_ALLOC ≠ 0)
    (hread : cenv.from_user = true)
    (hfind : find_client k env d = .ret found) (he : found.1 = .GCERR_NONE)
    (hfull : found.2.1.g.cmdbuf.logical = 0 ∨
      a.sizeof_gcmopipesel > found.2.1.g.cmdbuf.available) :
    (gc_commit a k page_to_phys heap cenv env d arg junk
        = .ret (a.gcerror_value .GCERR_CMD_ALLOC, found.2.1, none, []) ∧
      a.gcerror_value .GCERR_CMD_ALLOC ≠ 0) ∧
    (∀ (cenv0 : copy_env) (env0 : client_env) (d0 : driver) (arg0 junk0 : gcmap)
      (r : Int × driver × Option gcmap),
      gc_map a k cenv0 env0 d0 arg0 junk0 = .ret r →
      (r.1 ≠ 0 ↔ cenv0.to_user = false) ∧ (cenv0.to_user = true → ∃ s, r.2.2 = some s)) ∧
    (∀ (cenv0 : copy_env) (env0 : client_env) (d0 : driver) (arg0 junk0 : gcmap)
      (r : Int × driver × Option gcmap),
      gc_unmap a k cenv0 env0 d0 arg0 junk0 = .ret r →
      (r.1 ≠ 0 ↔ cenv0.to_user = false) ∧ (cenv0.to_user = true → ∃ s, r.2.2 = some s)) := by
  have hnz : -(a.EFAULT : Int) ≠ 0 := by
    intro h
    apply hefault
    omega
  have fin : ∀ (c : copy_env) (r : Int × driver × Option gcmap),
      ((c.to_user = true → r.1 = 0 ∧ ∃ s, r.2.2 = some s) ∧
        (c.to_user = false → r.1 = -(a.EFAULT : Int) ∧ r.2.2 = none)) →
      (r.1 ≠ 0 ↔ c.to_user = false) ∧ (c.to_user = true → ∃ s, r.2.2 = some s) := by
    intro c r hs
    refine ⟨⟨fun hr => ?_, fun hf => ?_⟩, fun ht => (hs.1 ht).2⟩
    · cases ht : c.to_user with
      | false => rfl
      | true => exact absurd (hs.1 ht).1 hr
    · rw [(hs.2 hf).1]
      exact hnz
  refine ⟨⟨?_, hvalue⟩, fun c e0 d0 a0 j0 r h => fin c r (gc_map_spec a k c e0 d0 a0 j0 r h),
    fun c e0 d0 a0 j0 r h => fin c r (gc_unmap_spec a k c e0 d0 a0 j0 r h)⟩
  obtain ⟨e, d1, client⟩ := found
  simp only at he hfull
  subst he
  rw [gc_commit_pipesel a k page_to_phys heap cenv env d arg junk d1 client hread hfind]
  rw [if_pos hfull]

/-- Worked example for C19: the driver when `cmdbuf_init` has not run, in a
build without `MMU_ENABLE`: the commit of process 7 returns 1, the value of
`GCERR_CMD_ALLOC` in the example, although both copies succeed. -/
theorem C19_commit_returns_error_code_witness :
    (gc_commit demo_abi (demo_config false) (fun p => 4096 * p) demo_heap demo_copy_env
        demo_client_env demo_driver_uninit demo_commit demo_commit
        = .ret (demo_abi.gcerror_value .GCERR_CMD_ALLOC, demo_found_uninit.2.1, none, []) ∧
      demo_abi.gcerror_value .GCERR_CMD_ALLOC ≠ 0) ∧
    (∀ (cenv0 : copy_env) (env0 : client_env) (d0 : driver) (arg0 junk0 : gcmap)
      (r : Int × driver × Option gcmap),
      gc_map demo_abi (demo_config false) cenv0 env0 d0 arg0 junk0 = .ret r →
      (r.1 ≠ 0 ↔ cenv0.to_user = false) ∧ (cenv0.to_user = true → ∃ s, r.2.2 = some s)) ∧
    (∀ (cenv0 : copy_env) (env0 : client_env) (d0 : driver) (arg0 junk0 : gcmap)
      (r : Int × driver × Option gcmap),
      gc_unmap demo_abi (demo_config false) cenv0 env0 d0 arg0 junk0 = .ret r →
      (r.1 ≠ 0 ↔ cenv0.to_user = false) ∧ (cenv0.to_user = true → ∃ s, r.2.2 = some s)) :=
  C19_commit_returns_error_code demo_abi (demo_config false) (fun p => 4096 * p) demo_heap
    demo_copy_env demo_client_env demo_driver_uninit demo_commit demo_commit demo_found_uninit
    (by decide) (by decide) rfl (Run.eq_ret _ find_client_zero (by decide!)) (by decide!)
    (by decide!)

/-! ## C20: mapping the ring again -/

/-- A returning `cmdbuf_map` is a step of `mmu2d_map` on the context. -/
theorem cmdbuf_map_reachable (k : Config) (env : map_env) (mmu : mmu2dprivate)
    (ctxt : mmu2dcontext) (cb : cmdbuf) (e : gcerror) (mmu1 : mmu2dprivate)
    (ctxt1 : mmu2dcontext) (cb1 : cmdbuf) (hreach : Reachable k mmu ctxt)
    (h : cmdbuf_map k env mmu ctxt cb = .ret (e, mmu1, ctxt1, cb1)) :
    Reachable k mmu1 ctxt1 := by
  unfold cmdbuf_map at h
  simp only at h
  split at h
  · cases h
  · cases h
  · rename_i r hmap
    have hr := Reachable.map env mmu ctxt _ r hreach hmap
    split at h
    · cases h; exact hr
    · split at h
      · cases h
      · cases h; exact hr

/-- C20 as stated fails. On the new context of the worked example the first
cmdbuf_map claims the arena (0, 0, 1) and sets the mapped flag, mapped_physical
= 0 and the device cursor = 0. A second cmdbuf_map on the same context, the
ring being mapped, also returns GCERR_NONE, but it claims a second arena,
(0, 1, 1): the allocated and the vacant list are not as after the first call,
and mapped_physical and the device cursor are now 4096. -/
theorem C20_cmdbuf_map_again_counterexample :
    (cmdbuf_map (demo_config true) demo_map_env (demo_created true).2.1.mmu
      (demo_created true).2.2 demo_ring).isRet = true ∧
    demo_ring_mapped.1 = .GCERR_NONE ∧
    demo_ring_mapped.2.2.1.mmu = true ∧
    demo_ring_mapped.2.2.2.mapped = true ∧
    (cmdbuf_map (demo_config true) demo_map_env2 demo_ring_mapped.2.1 demo_ring_mapped.2.2.1
      demo_ring_mapped.2.2.2).isRet = true ∧
    demo_ring_mapped_again.1 = .GCERR_NONE ∧
    demo_ring_mapped.2.2.1.allocated.map triple = [(0, 0, 1)] ∧
    demo_ring_mapped_again.2.2.1.allocated.map triple = [(0, 1, 1), (0, 0, 1)] ∧
    demo_ring_mapped.2.2.1.vacant.map triple = [(0, 1, 1048575)] ∧
    demo_ring_mapped_again.2.2.1.vacant.map triple = [(0, 2, 1048574)] ∧
    (demo_ring_mapped.2.2.2.mapped_physical, demo_ring_mapped.2.2.2.physical) = (0, 0) ∧
    (demo_ring_mapped_again.2.2.2.mapped_physical, demo_ring_mapped_again.2.2.2.physical)
      = (4096, 4096) :=
  ⟨by decide!, by decide!, by decide!, by decide!, by decide!, by decide!, by decide!,
   by decide!, by decide!, by decide!, by decide!, by decide!⟩

/-- C20, amended. cmdbuf_map is not idempotent on one address space. For every
address space reached from mmu2d_create_context in which the ring is already
mapped, a repeated cmdbuf_map call that succeeds maps the ring's page once
more: it claims a further arena of one page, which becomes the head of the
allocated list, keeps the mapped flag set, and sets mapped_physical to the
address of that arena and the device cursor to that address plus data_size;
the other fields of the ring stay. A call that fails leaves the ring and the
triples of both lists as they were. -/
theorem C20_cmdbuf_map_again (k : Config) (hk : k.sane) (mmu : mmu2dprivate)
    (ctxt : mmu2dcontext) (hreach : Reachable k mmu ctxt) (env : map_env) (cb : cmdbuf)
    (hm : cb.mapped = true) (e : gcerror) (mmu1 : mmu2dprivate) (ctxt1 : mmu2dcontext)
    (cb1 : cmdbuf) (h : cmdbuf_map k env mmu ctxt cb = .ret (e, mmu1, ctxt1, cb1)) :
    (e = .GCERR_NONE → ∃ a : mmu2darena,
      ctxt1.allocated = a :: ctxt.allocated ∧ a.count = 1 ∧
      (∃ pre v post, ctxt.vacant = pre ++ v :: post ∧ a.mtlb = v.mtlb ∧ a.stlb = v.stlb ∧
        a.handle = v.handle ∧
        (v.count = 1 → ctxt1.vacant = pre ++ post) ∧
        (v.count ≠ 1 → ∃ rest, ctxt1.vacant = pre ++ rest :: post ∧
          lin k rest = lin k v + 1 ∧ rest.count = v.count - 1)) ∧
      cb1 = { cb with mapped_physical := a.address
                      physical := u32_add a.address cb.data_size }) ∧
    (e ≠ .GCERR_NONE → cb1 = cb ∧ ctxt1.allocated = ctxt.allocated ∧
      ctxt1.vacant.map triple = ctxt.vacant.map triple) := by
  have hcov := (reachable_cover k hk _ _ hreach).1
  have hT := hk.2.2
  have hNT := total_bound k hk
  have hwf := ExactCover_bounds k hk _ hcov
  unfold cmdbuf_map at h
  simp only at h
  split at h
  · cases h
  · cases h
  · rename_i r hmap
    have hcase := (map_cases k env mmu ctxt _ r hmap
      (fun v hv => hwf v (by simp [hv])) (by omega)).2
    split at h
    · rename_i hne
      cases h
      refine ⟨fun he => absurd he hne, fun _ => ⟨rfl, ?_⟩⟩
      rcases hcase with ⟨_, _, hv, hal⟩ | ⟨hok, _⟩
      · exact ⟨hal, hv⟩
      · exact absurd hok hne
    · rename_i hok
      have hok : r.gcerror = .GCERR_NONE := by simpa using hok
      rcases hcase with ⟨hne, _⟩ | ⟨_, _, _, pre, v, post, claimed, parray, hvac, _,
          _, hmp, hch, hcm, hcs, hcc, _, hal, hrest⟩
      · exact absurd hok hne
      · rw [hmp] at h
        simp only at h
        cases h
        refine ⟨fun _ => ⟨claimed, hal, hcc, ⟨pre, v, post, hvac, hcm, hcs, hch, ?_, ?_⟩, ?_⟩,
          fun hne => absurd rfl hne⟩
        · intro hv1
          rcases hrest with ⟨_, hv, _⟩ | ⟨hne, _⟩
          · exact hv
          · exact absurd hv1 hne
        · intro hv1
          rcases hrest with ⟨heq, _, _⟩ | ⟨_, split0, mi, si, _, hpos, _, hv⟩
          · exact absurd heq hv1
          · refine ⟨_, hv, ?_, rfl⟩
            unfold lin at hpos ⊢
            simpa using hpos
        · cases cb
          simp only at hm
          subst hm
          rfl

/-- C20 (amended) at the worked example: the second cmdbuf_map on the context
in which the ring is mapped. -/
theorem C20_cmdbuf_map_again_witness :
    (demo_ring_mapped_again.1 = .GCERR_NONE → ∃ a : mmu2darena,
      demo_ring_mapped_again.2.2.1.allocated = a :: demo_ring_mapped.2.2.1.allocated ∧
      a.count = 1 ∧
      (∃ pre v post, demo_ring_mapped.2.2.1.vacant = pre ++ v :: post ∧ a.mtlb = v.mtlb ∧
        a.stlb = v.stlb ∧ a.handle = v.handle ∧
        (v.count = 1 → demo_ring_mapped_again.2.2.1.vacant = pre ++ post) ∧
        (v.count ≠ 1 → ∃ rest, demo_ring_mapped_again.2.2.1.vacant = pre ++ rest :: post ∧
          lin (demo_config true) rest = lin (demo_config true) v + 1 ∧
          rest.count = v.count - 1)) ∧
      demo_ring_mapped_again.2.2.2
        = { demo_ring_mapped.2.2.2 with
            mapped_physical := a.address
            physical := u32_add a.address demo_ring_mapped.2.2.2.data_size }) ∧
    demo_ring_mapped_again.1 = .GCERR_NONE :=
  ⟨(C20_cmdbuf_map_again (demo_config true) (demo_sane true) demo_ring_mapped.2.1
      demo_ring_mapped.2.2.1
      (cmdbuf_map_reachable (demo_config true) demo_map_env _ _ demo_ring demo_ring_mapped.1
        demo_ring_mapped.2.1 demo_ring_mapped.2.2.1 demo_ring_mapped.2.2.2
        (demo_reachable_created true) (Run.eq_ret _ cmdbuf_map_zero (by decide!)))
      demo_map_env2 demo_ring_mapped.2.2.2 (by decide!) demo_ring_mapped_again.1
      demo_ring_mapped_again.2.1 demo_ring_mapped_again.2.2.1 demo_ring_mapped_again.2.2.2
      (Run.eq_ret _ cmdbuf_map_zero (by decide!))).1,
   by decide!⟩

/-! ## The MMU is enabled once -/

theorem get_arena_keeps (k : Config) (km : Option Nat) (mmu mmu1 : mmu2dprivate)
    (e : gcerror) (a : Option mmu2darena)
    (h : mmu2d_get_arena k km mmu = .ret (e, mmu1, a)) :
    mmu1.enabled = mmu.enabled ∧ mmu1.safezone = mmu.safezone := by
  unfold mmu2d_get_arena at h
  split at h
  · cases h; exact ⟨rfl, rfl⟩
  · split at h
    · cases h; exact ⟨rfl, rfl⟩
    · split at h
      · cases h
      · cases h; exact ⟨rfl, rfl⟩

/-- The enabling part of `mmu2d_create_context`: either it fails before any
command is stored in the ring, and ring, device and the flag are as before, or
it submits the ring once, writes the enable bit and sets the flag. -/
theorem create_enable_trace (k : Config) (env : create_env) (g : globals)
    (ctxt : mmu2dcontext) :
    ((create_enable k env g ctxt).1 ≠ .GCERR_NONE ∧
      (create_enable k env g ctxt).2.mmu.enabled = g.mmu.enabled ∧
      (create_enable k env g ctxt).2.dev = g.dev ∧
      (create_enable k env g ctxt).2.cmdbuf = g.cmdbuf) ∨
    ((create_enable k env g ctxt).1 = .GCERR_NONE ∧
      (create_enable k env g ctxt).2.mmu.enabled = true ∧
      ∃ base count, (create_enable k env g ctxt).2.dev.writes
        = enable_writes k base count ++ g.dev.writes) := by
  unfold create_enable
  simp only
  split
  · rename_i sz hsz
    split
    · right
      refine ⟨rfl, rfl, ?_⟩
      simp only [cmdbuf_flush, enable_writes, List.cons_append, List.nil_append]
      exact ⟨_, _, rfl⟩
    · rename_i e cb o hno halloc
      left
      have hcb : cb = g.cmdbuf ∧ e ≠ .GCERR_NONE := by
        unfold cmdbuf_alloc at halloc
        split at halloc
        · simp only [Prod.mk.injEq] at halloc
          exact ⟨halloc.2.1.symm, by rw [← halloc.1]; simp⟩
        · simp only [Prod.mk.injEq] at halloc
          exact (hno _ _ halloc.1.symm halloc.2.2.symm).elim
      refine ⟨?_, rfl, rfl, hcb.1⟩
      simp only
      intro h
      cases h
  · rename_i e sz hne hsz
    left
    refine ⟨?_, rfl, rfl, rfl⟩
    simp only
    intro h
    cases h

/-- One call of `mmu2d_create_context`: either it leaves the flag, the device
and the ring as they were, or the MMU was not enabled, the call succeeds,
submits the ring once, writes the enable bit and sets the flag. When the MMU is
enabled already the safe zone is not touched either. -/
theorem create_trace (k : Config) (env : create_env) (g g1 : globals) (e : gcerror)
    (ctxt : mmu2dcontext) (h : mmu2d_create_context k env g = .ret (e, g1, ctxt)) :
    ((g1.mmu.enabled = g.mmu.enabled ∧ g1.dev = g.dev ∧ g1.cmdbuf = g.cmdbuf) ∨
     (k.MMU_ENABLE = true ∧ g.mmu.enabled = false ∧ e = .GCERR_NONE ∧ g1.mmu.enabled = true ∧
      ∃ base count, g1.dev.writes = enable_writes k base count ++ g.dev.writes)) ∧
    (g.mmu.enabled = true → g1.mmu.safezone = g.mmu.safezone) := by
  unfold mmu2d_create_context at h
  split at h
  · rename_i ctxt0 ht
    split at h
    · cases h
    · cases h
    · rename_i mmu1 a hga
      obtain ⟨hen1, hsz1⟩ := get_arena_keeps k _ _ _ _ _ hga
      unfold create_finish at h
      simp only at h
      split at h
      · rename_i g2 hen
        cases h
        split at hen
        · rename_i hcond
          have htr := create_enable_trace k env { g with mmu := mmu1 }
            { ctxt0 with
              vacant := [{ a with mtlb := 0, stlb := 0,
                                  count := (k.MMU_MTLB_ENTRY_NUM * k.MMU_STLB_ENTRY_NUM)
                                    % 4294967296 }],
              allocated := [] }
          rw [hen] at htr
          simp only at htr
          have hoff : g.mmu.enabled = false := by rw [← hen1]; exact hcond.2
          refine ⟨?_, fun hon => by rw [hon] at hoff; cases hoff⟩
          rcases htr with ⟨hne, _⟩ | ⟨_, hon, hw⟩
          · exact absurd rfl hne
          · exact Or.inr ⟨hcond.1, hoff, rfl, hon, hw⟩
        · simp only [Prod.mk.injEq, true_and] at hen
          subst hen
          exact ⟨Or.inl ⟨hen1, rfl, rfl⟩, fun _ => hsz1⟩
      · rename_i e2 g2 hne hen
        have hgl := create_fail_globals _ _ _ _ _ _ _ h
        subst hgl
        split at hen
        · rename_i hcond
          have htr := create_enable_trace k env { g with mmu := mmu1 }
            { ctxt0 with
              vacant := [{ a with mtlb := 0, stlb := 0,
                                  count := (k.MMU_MTLB_ENTRY_NUM * k.MMU_STLB_ENTRY_NUM)
                                    % 4294967296 }],
              allocated := [] }
          rw [hen] at htr
          simp only at htr
          have hoff : g.mmu.enabled = false := by rw [← hen1]; exact hcond.2
          refine ⟨?_, fun hon => by rw [hon] at hoff; cases hoff⟩
          rcases htr with ⟨_, h1, h2, h3⟩ | ⟨he2, _⟩
          · exact Or.inl ⟨by rw [h1]; exact hen1, h2, h3⟩
          · exact (hne he2).elim
        · simp only [Prod.mk.injEq] at hen
          exact absurd hen.1.symm hne
    · cases h
    · rename_i e0 mmu1 ar hne1 hne2 hga
      obtain ⟨hen1, hsz1⟩ := get_arena_keeps k _ _ _ _ _ hga
      have hgl := create_fail_globals _ _ _ _ _ _ _ h
      subst hgl
      exact ⟨Or.inl ⟨hen1, rfl, rfl⟩, fun _ => hsz1⟩
  · rename_i e0 ctxt0 hne heq
    have hgl := create_fail_globals _ _ _ _ _ _ _ h
    subst hgl
    exact ⟨Or.inl ⟨rfl, rfl, rfl⟩, fun _ => rfl⟩

/-- The function `mmu2d_destroy_context` does not touch the flag `enabled` or
the safe zone. -/
theorem destroy_keeps (mmu mmu1 : mmu2dprivate) (ctxt ctxt1 : mmu2dcontext) (e : gcerror)
    (h : mmu2d_destroy_context mmu ctxt = .ret (e, mmu1, ctxt1)) :
    mmu1.enabled = mmu.enabled ∧ mmu1.safezone = mmu.safezone := by
  unfold mmu2d_destroy_context at h
  split at h
  · cases h; exact ⟨rfl, rfl⟩
  · simp only at h
    split at h
    · cases h
    · split at h
      · cases h
      · simp only [Run.ret.injEq, Prod.mk.injEq] at h
        rw [← h.2.1]
        exact ⟨rfl, rfl⟩

/-- The state of the enabling in every sequence of create and destroy calls:
either the MMU is not enabled and no register has been written, or it is
enabled and the device has seen exactly the writes of one enabling. -/
theorem lifetime_inv (k : Config) (g : globals) (h : Lifetime k g) :
    (g.mmu.enabled = false ∧ g.dev.writes = []) ∨
    (k.MMU_ENABLE = true ∧ g.mmu.enabled = true ∧
      ∃ base count, g.dev.writes = enable_writes k base count) := by
  induction h with
  | boot g h1 h2 => exact Or.inl ⟨h1, h2⟩
  | create env g g1 e ctxt _ hc ih =>
    obtain ⟨htr, _⟩ := create_trace k env g g1 e ctxt hc
    rcases htr with ⟨h1, h2, _⟩ | ⟨hen, hoff, _, hon, base, count, hw⟩
    · rw [h1, h2]
      exact ih
    · rcases ih with ⟨_, hw0⟩ | ⟨_, hon0, _⟩
      · rw [hw0, List.append_nil] at hw
        exact Or.inr ⟨hen, hon, base, count, hw⟩
      · rw [hon0] at hoff
        cases hoff
  | destroy g ctxt e mmu1 ctxt1 _ hd ih =>
    obtain ⟨h1, _⟩ := destroy_keeps _ _ _ _ _ hd
    simp only
    rw [h1]
    exact ih

/-- Claim C21. In every state that a sequence of mmu2d_create_context and
mmu2d_destroy_context calls reaches from a start with the MMU not enabled and
no register written: either the MMU is not enabled and nothing has been issued,
or it is enabled and the device has seen the writes of exactly one enabling
(one submission of the ring, which holds the safe-address load command, and
one write of the enable bit). Once the flag is set, a further create leaves
the flag set and does not touch the device, the ring or the safe zone, and a
destroy, of the last context too, leaves the flag and the safe zone as they
are. -/
theorem C21_enable_once (k : Config) (g : globals) (h : Lifetime k g) :
    ((g.mmu.enabled = false ∧ g.dev.writes = []) ∨
     (k.MMU_ENABLE = true ∧ g.mmu.enabled = true ∧
      ∃ base count, g.dev.writes = enable_writes k base count)) ∧
    (∀ env e g1 ctxt, mmu2d_create_context k env g = .ret (e, g1, ctxt) →
      g.mmu.enabled = true →
      g1.mmu.enabled = true ∧ g1.dev = g.dev ∧ g1.cmdbuf = g.cmdbuf ∧
      g1.mmu.safezone = g.mmu.safezone) ∧
    (∀ ctxt e mmu1 ctxt1, mmu2d_destroy_context g.mmu ctxt = .ret (e, mmu1, ctxt1) →
      mmu1.enabled = g.mmu.enabled ∧ mmu1.safezone = g.mmu.safezone) := by
  refine ⟨lifetime_inv k g h, ?_, fun ctxt e mmu1 ctxt1 hd => destroy_keeps _ _ _ _ _ hd⟩
  intro env e g1 ctxt hc hon
  obtain ⟨htr, hsz⟩ := create_trace k env g g1 e ctxt hc
  rcases htr with ⟨h1, h2, h3⟩ | ⟨_, hoff, _⟩
  · exact ⟨by rw [h1]; exact hon, h2, h3, hsz hon⟩
  · rw [hon] at hoff
    cases hoff

/-- Worked example for C21: the globals after the first create of the example
(MMU enabled, five register writes), and a second create on them, which
succeeds and writes no register. -/
theorem C21_enable_once_witness :
    ((((demo_created true).2.1.mmu.enabled = false ∧
        (demo_created true).2.1.dev.writes = []) ∨
     ((demo_config true).MMU_ENABLE = true ∧ (demo_created true).2.1.mmu.enabled = true ∧
      ∃ base count,
        (demo_created true).2.1.dev.writes = enable_writes (demo_config true) base count)) ∧
    (∀ env e g1 ctxt,
      mmu2d_create_context (demo_config true) env (demo_created true).2.1 = .ret (e, g1, ctxt) →
      (demo_created true).2.1.mmu.enabled = true →
      g1.mmu.enabled = true ∧ g1.dev = (demo_created true).2.1.dev ∧
      g1.cmdbuf = (demo_created true).2.1.cmdbuf ∧
      g1.mmu.safezone = (demo_created true).2.1.mmu.safezone) ∧
    (∀ ctxt e mmu1 ctxt1,
      mmu2d_destroy_context (demo_created true).2.1.mmu ctxt = .ret (e, mmu1, ctxt1) →
      mmu1.enabled = (demo_created true).2.1.mmu.enabled ∧
      mmu1.safezone = (demo_created true).2.1.mmu.safezone)) ∧
    (demo_globals.mmu.enabled, demo_globals.dev.writes.length) = (false, 0) ∧
    ((demo_created true).2.1.mmu.enabled, (demo_created true).2.1.dev.writes)
      = (true, enable_writes (demo_config true) 2147483648 4) ∧
    (demo_created_again.1, demo_created_again.2.1.mmu.enabled,
     demo_created_again.2.1.dev.writes)
      = (.GCERR_NONE, true, enable_writes (demo_config true) 2147483648 4) :=
  ⟨C21_enable_once (demo_config true) (demo_created true).2.1
    (Lifetime.create demo_create_env demo_globals _ _ _ (Lifetime.boot _ rfl rfl)
      (demo_created_ok true)),
   by decide!, by decide!, by decide!⟩

/-! ## The order of the vacant list -/

theorem ret_eta3 {α β γ : Type} (x : Run (α × β × γ)) (p : α × β × γ) (h : x = .ret p) :
    x = .ret (p.1, p.2.1, p.2.2) := h

theorem demo_map_on_ok (s : map_result) (base n : Nat)
    (h : (mmu2d_map (demo_config true) (demo_map_env_at base) s.mmu s.ctxt
      (demo_mem n)).isRet = true) :
    mmu2d_map (demo_config true) (demo_map_env_at base) s.mmu s.ctxt (demo_mem n)
      = .ret (demo_map_on s base n) :=
  Run.eq_ret _ map_result_zero h

/-- The defect of the insertion search in general: the search passes a vacant
arena `v1` of a later master index whose slot index is not greater than that of
the freed arena `a`, and stops at `v2`; when nothing merges, `a` is linked in
behind `v1`. -/
theorem unmap_insert_misplaces (k : Config) (hk : k.sane) (mmu : mmu2dprivate)
    (ctxt : mmu2dcontext) (a v1 v2 : mmu2darena) (rest : List mmu2darena)
    (hv : ctxt.vacant = v1 :: v2 :: rest)
    (h1 : insert_stop a v1 = false) (h2 : insert_stop a v2 = true)
    (ha : arena_ok k a) (hv1 : arena_ok k v1) (hv2 : v2.stlb < k.MMU_STLB_ENTRY_NUM)
    (hs1 : lin k v1 + v1.count ≠ lin k a) (hs2 : lin k a + a.count ≠ lin k v2)
    (hlt : a.mtlb < v1.mtlb) :
    unmap_insert k mmu ctxt a
      = .ret (.GCERR_NONE, mmu, { ctxt with vacant := v1 :: a :: v2 :: rest }) ∧
    ¬ address_ordered (v1 :: a :: v2 :: rest) := by
  constructor
  · unfold unmap_insert
    rw [hv]
    simp only [walk_until, h1, h2, Bool.false_eq_true, if_false, if_true, List.getLast?_singleton]
    rw [siblings_eq k hk v1 a hv1 ha.1]
    simp only [hs1, decide_False]
    rw [show (v2 :: rest).head? = some v2 from rfl, siblings_eq k hk a v2 ha hv2]
    simp only [hs2, decide_False, List.singleton_append]
  · intro h
    unfold address_ordered at h
    have := (List.pairwise_cons.mp h).1 a (by simp)
    unfold addr_lt at this
    omega

/-- Claim C22 (defect of the code). The vacant list does not stay in address
order. On a new context of the example (MMU_ENABLE, 1024 slots per slave
table) five maps of 30, 970, 48, 10 and 5 pages succeed; then mmu2d_unmap of
the arena (1, 24, 10) succeeds and gives the vacant list (1, 24, 10),
(1, 39, ..); then mmu2d_unmap of the arena (0, 30, 970) succeeds and links it in
behind (1, 24, 10): the vacant list is (1, 24, 10), (0, 30, 970), (1, 39, ..).
The state is reached by successful calls only and its vacant list is not in
increasing order by (mtlb, stlb). -/
theorem C22_vacant_order_fails :
    ((demo_mapped true 30).gcerror, (demo_mapped2 true 30 970).gcerror,
     (demo_map_on (demo_mapped2 true 30 970) 8388608 48).gcerror,
     (demo_map_on (demo_map_on (demo_mapped2 true 30 970) 8388608 48) 12582912 10).gcerror,
     demo_five.gcerror, demo_five_u1.1, demo_five_u2.1)
      = (.GCERR_NONE, .GCERR_NONE, .GCERR_NONE, .GCERR_NONE, .GCERR_NONE, .GCERR_NONE,
         .GCERR_NONE) ∧
    demo_five.ctxt.allocated.map triple
      = [(1, 34, 5), (1, 24, 10), (0, 1000, 48), (0, 30, 970), (0, 0, 30)] ∧
    demo_five.ctxt.vacant.map triple = [(1, 39, 1047513)] ∧
    demo_five_u1.2.2.vacant.map triple = [(1, 24, 10), (1, 39, 1047513)] ∧
    address_ordered demo_five_u1.2.2.vacant ∧
    demo_five_u2.2.2.vacant.map triple = [(1, 24, 10), (0, 30, 970), (1, 39, 1047513)] ∧
    Reachable (demo_config true) demo_five_u2.2.1 demo_five_u2.2.2 ∧
    ¬ address_ordered demo_five_u2.2.2.vacant := by
  refine ⟨by decide!, by decide!, by decide!, by decide!, by decide!, by decide!, ?_, by decide!⟩
  have r1 := Reachable.map demo_map_env _ _ (demo_mem 30) _ (demo_reachable_created true)
    (demo_mapped_ok true 30 (by decide!))
  have r2 := Reachable.map demo_map_env2 _ _ (demo_mem 970) _ r1
    (demo_mapped2_ok true 30 970 (by decide!))
  have r3 := Reachable.map (demo_map_env_at 8388608) _ _ (demo_mem 48) _ r2
    (demo_map_on_ok (demo_mapped2 true 30 970) 8388608 48 (by decide!))
  have r4 := Reachable.map (demo_map_env_at 12582912) _ _ (demo_mem 10) _ r3
    (demo_map_on_ok _ 12582912 10 (by decide!))
  have r5 := Reachable.map (demo_map_env_at 16777216) _ _ (demo_mem 5) _ r4
    (demo_map_on_ok _ 16777216 5 (by decide!))
  have r6 : Reachable (demo_config true) demo_five_u1.2.1 demo_five_u1.2.2 :=
    Reachable.unmap demo_five.mmu demo_five.ctxt (arena_at demo_five.ctxt 1 24).handle
      demo_five_u1.1 demo_five_u1.2.1 demo_five_u1.2.2 r5
      (ret_eta3 _ demo_five_u1 (Run.eq_ret _ unmap_zero (by decide!)))
  exact Reachable.unmap demo_five_u1.2.1 demo_five_u1.2.2
    (arena_at demo_five_u1.2.2 0 30).handle demo_five_u2.1 demo_five_u2.2.1 demo_five_u2.2.2 r6
    (ret_eta3 _ demo_five_u2 (Run.eq_ret _ unmap_zero (by decide!)))

/-! ## mmu2d_siblings and linear adjacency -/

/-- Without the bounds of a well formed arena: the walk of `mmu2d_siblings`
ends and the function compares the linear end of `a1` with the start of `a2`. -/
theorem siblings_linear (k : Config) (a1 a2 : mmu2darena)
    (hN32 : k.MMU_STLB_ENTRY_NUM < 4294967296)
    (h1 : a1.stlb < k.MMU_STLB_ENTRY_NUM) (h2 : a2.stlb < k.MMU_STLB_ENTRY_NUM)
    (hov : a1.mtlb * k.MMU_STLB_ENTRY_NUM + a1.stlb + a1.count < 4294967296) :
    mmu2d_siblings k a1 (some a2) = .ret (siblings_spec k a1 a2) := by
  unfold mmu2d_siblings siblings_spec
  rw [siblings_walk_eq k _ _ _ _ (by omega) h1 hov hN32]
  simp only
  congr 1
  by_cases heq : a1.mtlb * k.MMU_STLB_ENTRY_NUM + a1.stlb + a1.count
      = a2.mtlb * k.MMU_STLB_ENTRY_NUM + a2.stlb
  · have := div_mod_unique k.MMU_STLB_ENTRY_NUM a2.mtlb a2.stlb _ h2 heq
    rw [this.1, this.2]
    simp [heq]
  · simp only [heq, decide_False, Bool.and_eq_false_imp, beq_iff_eq]
    intro hd
    rw [beq_eq_false_iff_ne]
    intro hmod
    apply heq
    have := Nat.div_add_mod (a1.mtlb * k.MMU_STLB_ENTRY_NUM + a1.stlb + a1.count)
      k.MMU_STLB_ENTRY_NUM
    rw [hd, hmod, Nat.mul_comm] at this
    exact this.symm

/-- Claim C23. For all arenas a1 and a2 whose slot indices are below
MMU_STLB_ENTRY_NUM, with the linear end of a1 below 2^32 (no 32-bit overflow),
the walk of mmu2d_siblings ends and the function returns nonzero if and only if
a1.mtlb * MMU_STLB_ENTRY_NUM + a1.stlb + a1.count
= a2.mtlb * MMU_STLB_ENTRY_NUM + a2.stlb. When a1 ends exactly on a slave-table
boundary this is the case exactly when a2 starts at slot 0 of the next master
index. -/
theorem C23_siblings_linear (k : Config) (a1 a2 : mmu2darena)
    (hN32 : k.MMU_STLB_ENTRY_NUM < 4294967296)
    (h1 : a1.stlb < k.MMU_STLB_ENTRY_NUM) (h2 : a2.stlb < k.MMU_STLB_ENTRY_NUM)
    (hov : a1.mtlb * k.MMU_STLB_ENTRY_NUM + a1.stlb + a1.count < 4294967296) :
    mmu2d_siblings k a1 (some a2) = .ret (siblings_spec k a1 a2) ∧
    (siblings_spec k a1 a2 = true ↔
      a1.mtlb * k.MMU_STLB_ENTRY_NUM + a1.stlb + a1.count
        = a2.mtlb * k.MMU_STLB_ENTRY_NUM + a2.stlb) ∧
    (a1.stlb + a1.count = k.MMU_STLB_ENTRY_NUM →
      (mmu2d_siblings k a1 (some a2) = .ret true ↔ a2.mtlb = a1.mtlb + 1 ∧ a2.stlb = 0)) := by
  have hs := siblings_linear k a1 a2 hN32 h1 h2 hov
  refine ⟨hs, by simp [siblings_spec], fun hb => ?_⟩
  rw [hs]
  simp only [Run.ret.injEq, siblings_spec, decide_eq_true_eq]
  have hsucc : (a1.mtlb + 1) * k.MMU_STLB_ENTRY_NUM
      = a1.mtlb * k.MMU_STLB_ENTRY_NUM + k.MMU_STLB_ENTRY_NUM := Nat.succ_mul _ _
  constructor
  · intro h
    have := div_mod_unique k.MMU_STLB_ENTRY_NUM a2.mtlb a2.stlb _ h2 h
    have h0 : a1.mtlb * k.MMU_STLB_ENTRY_NUM + a1.stlb + a1.count
        = (a1.mtlb + 1) * k.MMU_STLB_ENTRY_NUM + 0 := by omega
    have := div_mod_unique k.MMU_STLB_ENTRY_NUM (a1.mtlb + 1) 0 _ (by omega) h0
    omega
  · rintro ⟨hm, hz⟩
    rw [hm, hz]
    omega

/-- Worked example for C23: the arena (0, 1000, 24) ends on the boundary of
slave table 0 (1024 slots); it is a sibling of (1, 0, 5) and not of (0, 0, 5)
or (1, 1, 5). -/
theorem C23_siblings_linear_witness :
    (mmu2d_siblings (demo_config true) demo_sib_a (some (demo_sib_b 1 0))
      = .ret (siblings_spec (demo_config true) demo_sib_a (demo_sib_b 1 0)) ∧
     (siblings_spec (demo_config true) demo_sib_a (demo_sib_b 1 0) = true ↔
        demo_sib_a.mtlb * (demo_config true).MMU_STLB_ENTRY_NUM + demo_sib_a.stlb
            + demo_sib_a.count
          = (demo_sib_b 1 0).mtlb * (demo_config true).MMU_STLB_ENTRY_NUM
            + (demo_sib_b 1 0).stlb) ∧
     (demo_sib_a.stlb + demo_sib_a.count = (demo_config true).MMU_STLB_ENTRY_NUM →
        (mmu2d_siblings (demo_config true) demo_sib_a (some (demo_sib_b 1 0)) = .ret true ↔
          (demo_sib_b 1 0).mtlb = demo_sib_a.mtlb + 1 ∧ (demo_sib_b 1 0).stlb = 0))) ∧
    (siblings_spec (demo_config true) demo_sib_a (demo_sib_b 1 0),
     siblings_spec (demo_config true) demo_sib_a (demo_sib_b 0 0),
     siblings_spec (demo_config true) demo_sib_a (demo_sib_b 1 1)) = (true, false, false) ∧
    ((mmu2d_siblings (demo_config true) demo_sib_a (some (demo_sib_b 1 0))).getD false,
     (mmu2d_siblings (demo_config true) demo_sib_a (some (demo_sib_b 0 0))).getD true,
     (mmu2d_siblings (demo_config true) demo_sib_a (some (demo_sib_b 1 1))).getD true)
      = (true, false, false) :=
  ⟨C23_siblings_linear (demo_config true) demo_sib_a (demo_sib_b 1 0) (by decide) (by decide)
      (by decide) (by decide),
   by decide!, by decide!⟩

/-! ## The table effect of mmu2d_unmap -/

/-- The number of covered slots of a table is `span`. -/
theorem span_count (k : Config) (L c t : Nat) :
    ((List.range k.MMU_STLB_ENTRY_NUM).filter (fun j => decide (covers k L c t j))).length
      = span k L c t := by
  have key : ∀ M, M ≤ k.MMU_STLB_ENTRY_NUM →
      ((List.range M).filter (fun j => decide (covers k L c t j))).length
        = min (L + c) (t * k.MMU_STLB_ENTRY_NUM + M) - max L (t * k.MMU_STLB_ENTRY_NUM) := by
    intro M
    induction M with
    | zero => intro _; simp
    | succ M ih =>
      intro hM
      rw [List.range_succ, List.filter_append, List.length_append, ih (by omega)]
      by_cases hc : covers k L c t M
      · simp only [List.filter_cons, hc, decide_True, if_true, List.filter_nil,
          List.length_singleton]
        unfold covers at hc
        omega
      · simp only [List.filter_cons, hc, decide_False, Bool.false_eq_true, if_false,
          List.filter_nil, List.length_nil]
        unfold covers at hc
        omega
  exact key _ (le_refl _)

/-- One pass of the loop body of `mmu2d_unmap` over table `m` that returns
without error. -/
theorem unmap_clear_spec (k : Config) (hen : k.MMU_ENABLE = true) (m s av : Nat)
    (ctxt ctxt1 : mmu2dcontext) (slave : Nat → Option mmu2dstlb)
    (hs : ctxt.slave = some slave)
    (h : unmap_clear k m s av ctxt = .ret (.GCERR_NONE, ctxt1)) :
    ∃ st, slave m = some st ∧ av ≤ st.count ∧
      (u32_sub st.count av = 0 →
        ctxt1.slave = some (Function.update slave m none) ∧
        ctxt1.master.words = Function.update ctxt.master.words m k.MMU_MTLB_ENTRY_VACANT ∧
        ctxt1.slave_recs
          = { pages := gc_free_pages { st.pages with words := clear_range k s av st.pages.words },
              count := 0 } :: ctxt.slave_recs) ∧
      (u32_sub st.count av ≠ 0 →
        ctxt1.slave = some (Function.update slave m
          (some { pages := { st.pages with words := clear_range k s av st.pages.words },
                  count := u32_sub st.count av })) ∧
        ctxt1.master.words = ctxt.master.words ∧ ctxt1.slave_recs = ctxt.slave_recs) := by
  unfold unmap_clear at h
  rw [if_neg (by simp [hen]), hs] at h
  simp only at h
  split at h
  · cases h
  · rename_i st hst
    split at h
    · cases h
    · rename_i hlt
      split at h
      · rename_i hz
        simp only [Run.ret.injEq, Prod.mk.injEq, true_and] at h
        subst h
        refine ⟨st, hst, by omega, fun _ => ⟨rfl, rfl, ?_⟩, fun hne => absurd hz hne⟩
        simp only [mmu2d_free_slave]
        rw [hz]
        rfl
      · rename_i hz
        simp only [Run.ret.injEq, Prod.mk.injEq, true_and] at h
        subst h
        exact ⟨st, hst, by omega, fun he => absurd he hz, fun _ => ⟨rfl, rfl, rfl⟩⟩

theorem mul_table_lt (N t m : Nat) (h : t < m) : t * N + N ≤ m * N := by
  have := Nat.mul_le_mul_right N (Nat.succ_le_of_lt h)
  rw [Nat.succ_mul] at this
  exact this

/-- Nothing is covered by an empty run. -/
theorem table_effect_zero (k : Config) (L : Nat) (slave : Nat → Option mmu2dstlb)
    (master : Nat → Nat) (recs : List mmu2dstlb) (t : Nat) :
    table_effect k L 0 slave slave master master recs t := by
  have h0 : span k L 0 t = 0 := by unfold span; omega
  refine ⟨fun _ => ⟨rfl, rfl⟩, fun h => ?_⟩
  omega

/-- One pass of the loop of `mmu2d_unmap` followed by the remaining passes: the
first pass handles the `av` slots of table `m`, the remaining passes start at
`L'` and do not come back to table `m`. -/
theorem table_effect_step (k : Config) (m s c av L' c' : Nat)
    (slave slave' slave1 : Nat → Option mmu2dstlb) (master master' master1 : Nat → Nat)
    (recs recs' recs1 l : List mmu2dstlb) (st : mmu2dstlb)
    (hs : s < k.MMU_STLB_ENTRY_NUM) (hc : 0 < c)
    (hav : av = min c (k.MMU_STLB_ENTRY_NUM - s))
    (hL : L' = m * k.MMU_STLB_ENTRY_NUM + s + av) (hc' : c' = c - av)
    (hdis : c' = 0 ∨ s + av = k.MMU_STLB_ENTRY_NUM)
    (hst : slave m = some st) (hle : av ≤ st.count)
    (hfree : st.count - av = 0 →
      slave' = Function.update slave m none ∧
      master' = Function.update master m k.MMU_MTLB_ENTRY_VACANT ∧
      recs' = { pages := gc_free_pages
                  { st.pages with words := clear_range k s av st.pages.words },
                count := 0 } :: recs)
    (hkeep : st.count - av ≠ 0 →
      slave' = Function.update slave m
        (some { pages := { st.pages with words := clear_range k s av st.pages.words },
                count := st.count - av }) ∧
      master' = master)
    (hrecs : recs1 = l ++ recs')
    (hih : ∀ t, table_effect k L' c' slave' slave1 master' master1 recs1 t) :
    ∀ t, table_effect k (m * k.MMU_STLB_ENTRY_NUM + s) c slave slave1 master master1 recs1 t := by
  intro t
  have hself : span k (m * k.MMU_STLB_ENTRY_NUM + s) c m = av := by unfold span; omega
  have hrest : span k L' c' m = 0 := by unfold span; omega
  have hclr : cleared k (m * k.MMU_STLB_ENTRY_NUM + s) c m st.pages.words
      = clear_range k s av st.pages.words := by
    funext j
    unfold cleared clear_range covers
    by_cases hj : s ≤ j ∧ j < s + av
    · rw [if_pos hj, if_pos (by omega)]
    · rw [if_neg hj, if_neg (by omega)]
  by_cases htm : t = m
  · subst htm
    obtain ⟨hi0, _⟩ := hih t
    obtain ⟨hs1, hm1⟩ := hi0 hrest
    refine ⟨fun h0 => by omega, fun _ => ⟨st, hst, by omega, fun heq => ?_, fun hne => ?_⟩⟩
    · obtain ⟨h1, h2, h3⟩ := hfree (by omega)
      refine ⟨by rw [hs1, h1]; simp, by rw [hm1, h2]; simp, ?_⟩
      rw [hrecs, h3, hclr]
      simp
    · obtain ⟨h1, h2⟩ := hkeep (by omega)
      refine ⟨by rw [hm1, h2], ?_⟩
      rw [hs1, h1, hclr, hself]
      simp
  · have hsl : slave' t = slave t := by
      by_cases hz : st.count - av = 0
      · rw [(hfree hz).1]; simp [htm]
      · rw [(hkeep hz).1]; simp [htm]
    have hma : master' t = master t := by
      by_cases hz : st.count - av = 0
      · rw [(hfree hz).2.1]; simp [htm]
      · rw [(hkeep hz).2]
    have hord : t * k.MMU_STLB_ENTRY_NUM + k.MMU_STLB_ENTRY_NUM ≤ m * k.MMU_STLB_ENTRY_NUM ∨
        m * k.MMU_STLB_ENTRY_NUM + k.MMU_STLB_ENTRY_NUM ≤ t * k.MMU_STLB_ENTRY_NUM := by
      rcases Nat.lt_or_gt_of_ne htm with h | h
      · exact Or.inl (mul_table_lt _ _ _ h)
      · exact Or.inr (mul_table_lt _ _ _ h)
    have hsp : span k (m * k.MMU_STLB_ENTRY_NUM + s) c t = span k L' c' t := by
      unfold span; omega
    have hcl : ∀ w, cleared k (m * k.MMU_STLB_ENTRY_NUM + s) c t w = cleared k L' c' t w := by
      intro w
      funext j
      unfold cleared covers
      by_cases hj : j < k.MMU_STLB_ENTRY_NUM ∧ L' ≤ t * k.MMU_STLB_ENTRY_NUM + j ∧
          t * k.MMU_STLB_ENTRY_NUM + j < L' + c'
      · rw [if_pos hj, if_pos (by omega)]
      · rw [if_neg hj, if_neg (by omega)]
    have := hih t
    unfold table_effect at this ⊢
    rw [hsl, hma, ← hsp] at this
    obtain ⟨t0, t1⟩ := this
    refine ⟨t0, fun hpos => ?_⟩
    obtain ⟨st2, e1, e2, e3, e4⟩ := t1 hpos
    refine ⟨st2, e1, e2, fun heq => ?_, fun hne => ?_⟩
    · rw [hcl]
      exact e3 heq
    · rw [hcl]
      exact e4 hne

/-- The passes after the first one do not cover a slot of table `m`. -/
theorem span_rest_self (k : Config) (m s c av L' c' : Nat)
    (hs : s < k.MMU_STLB_ENTRY_NUM) (hav : av = min c (k.MMU_STLB_ENTRY_NUM - s))
    (hL : L' = m * k.MMU_STLB_ENTRY_NUM + s + av) (hc' : c' = c - av)
    (hdis : c' = 0 ∨ s + av = k.MMU_STLB_ENTRY_NUM) : span k L' c' m = 0 := by
  unfold span; omega

/-- In another table the passes after the first one cover what the whole run
covers. -/
theorem span_rest_other (k : Config) (m s c av L' c' t : Nat)
    (hs : s < k.MMU_STLB_ENTRY_NUM) (hav : av = min c (k.MMU_STLB_ENTRY_NUM - s))
    (hL : L' = m * k.MMU_STLB_ENTRY_NUM + s + av) (hc' : c' = c - av)
    (hdis : c' = 0 ∨ s + av = k.MMU_STLB_ENTRY_NUM) (htm : t ≠ m) :
    span k (m * k.MMU_STLB_ENTRY_NUM + s) c t = span k L' c' t := by
  have hord : t * k.MMU_STLB_ENTRY_NUM + k.MMU_STLB_ENTRY_NUM ≤ m * k.MMU_STLB_ENTRY_NUM ∨
      m * k.MMU_STLB_ENTRY_NUM + k.MMU_STLB_ENTRY_NUM ≤ t * k.MMU_STLB_ENTRY_NUM := by
    rcases Nat.lt_or_gt_of_ne htm with h | h
    · exact Or.inl (mul_table_lt _ _ _ h)
    · exact Or.inr (mul_table_lt _ _ _ h)
  unfold span; omega

/-- The loop of `mmu2d_unmap` over the tables, when it ends without error: the
table effect for every master index, on the run of `c` units from slot `s` of
master index `m`. -/
theorem unmap_loop_tables (k : Config) (hen : k.MMU_ENABLE = true)
    (hN32 : k.MMU_STLB_ENTRY_NUM < 4294967296) (fuel : Nat) :
    ∀ (m s c : Nat) (ctxt ctxt1 : mmu2dcontext) (slave : Nat → Option mmu2dstlb),
      s < k.MMU_STLB_ENTRY_NUM → m * k.MMU_STLB_ENTRY_NUM + s + c < 4294967296 →
      ctxt.slave = some slave →
      (∀ t st, 0 < span k (m * k.MMU_STLB_ENTRY_NUM + s) c t → slave t = some st →
        st.count < 4294967296) →
      unmap_loop k fuel m s c ctxt = .ret (.GCERR_NONE, ctxt1) →
      ∃ slave1 l, ctxt1.slave = some slave1 ∧ ctxt1.slave_recs = l ++ ctxt.slave_recs ∧
        ∀ t, table_effect k (m * k.MMU_STLB_ENTRY_NUM + s) c slave slave1
          ctxt.master.words ctxt1.master.words ctxt1.slave_recs t := by
  induction fuel with
  | zero =>
    intro m s c ctxt ctxt1 slave hs hb hsl h32 h
    unfold unmap_loop at h
    split at h
    · rename_i hc0
      simp only [Run.ret.injEq, Prod.mk.injEq, true_and] at h
      subst h hc0
      exact ⟨slave, [], hsl, rfl, fun t => table_effect_zero k _ _ _ _ t⟩
    · cases h
  | succ fuel ih =>
    intro m s c ctxt ctxt1 slave hs hb hsl h32 h
    unfold unmap_loop at h
    split at h
    · rename_i hc0
      simp only [Run.ret.injEq, Prod.mk.injEq, true_and] at h
      subst h hc0
      exact ⟨slave, [], hsl, rfl, fun t => table_effect_zero k _ _ _ _ t⟩
    · rename_i hc0
      simp only at h
      have hsub : u32_sub k.MMU_STLB_ENTRY_NUM s = k.MMU_STLB_ENTRY_NUM - s :=
        u32_sub_eq _ _ (by omega) hN32
      rw [hsub] at h
      have hmul : (m + 1) * k.MMU_STLB_ENTRY_NUM
          = m * k.MMU_STLB_ENTRY_NUM + k.MMU_STLB_ENTRY_NUM := Nat.succ_mul _ _
      -- what one pass and the passes after it give, for both branches
      have key : ∀ (av m' s' c' : Nat) (c1 : mmu2dcontext),
          av = min c (k.MMU_STLB_ENTRY_NUM - s) →
          m' * k.MMU_STLB_ENTRY_NUM + s' = m * k.MMU_STLB_ENTRY_NUM + s + av →
          s' < k.MMU_STLB_ENTRY_NUM → c' = c - av →
          (c' = 0 ∨ s + av = k.MMU_STLB_ENTRY_NUM) →
          unmap_clear k m s av ctxt = .ret (.GCERR_NONE, c1) →
          unmap_loop k fuel m' s' c' c1 = .ret (.GCERR_NONE, ctxt1) →
          ∃ slave1 l, ctxt1.slave = some slave1 ∧ ctxt1.slave_recs = l ++ ctxt.slave_recs ∧
            ∀ t, table_effect k (m * k.MMU_STLB_ENTRY_NUM + s) c slave slave1
              ctxt.master.words ctxt1.master.words ctxt1.slave_recs t := by
        intro av m' s' c' c1 hav hL hs' hc' hdis hcl hrec
        obtain ⟨st, hst, hle, hfree, hkeep⟩ := unmap_clear_spec k hen m s av ctxt c1 slave hsl hcl
        have hself : span k (m * k.MMU_STLB_ENTRY_NUM + s) c m = av := by unfold span; omega
        have hst32 := h32 m st (by omega) hst
        have hsubc : u32_sub st.count av = st.count - av := u32_sub_eq _ _ hle hst32
        rw [hsubc] at hfree hkeep
        -- the slave array after the first pass
        have hsl' : ∃ slave', c1.slave = some slave' ∧ ∀ t, t ≠ m → slave' t = slave t := by
          by_cases hz : st.count - av = 0
          · exact ⟨_, (hfree hz).1, fun t htm => Function.update_noteq htm _ _⟩
          · exact ⟨_, (hkeep hz).1, fun t htm => Function.update_noteq htm _ _⟩
        obtain ⟨slave', hc1s, hoth⟩ := hsl'
        have h32' : ∀ t st', 0 < span k (m' * k.MMU_STLB_ENTRY_NUM + s') c' t →
            slave' t = some st' → st'.count < 4294967296 := by
          intro t st' hpos ht
          by_cases htm : t = m
          · subst htm
            have := span_rest_self k t s c av _ c' hs hav hL hc' hdis
            omega
          · rw [hoth t htm] at ht
            rw [← span_rest_other k m s c av _ c' t hs hav hL hc' hdis htm] at hpos
            exact h32 t st' hpos ht
        obtain ⟨slave1, l, hs1, hr1, heff⟩ :=
          ih m' s' c' c1 ctxt1 slave' hs' (by omega) hc1s h32' hrec
        have hrecs' : ∃ l', ctxt1.slave_recs = l' ++ ctxt.slave_recs := by
          by_cases hz : st.count - av = 0
          · rw [hr1, (hfree hz).2.2]
            exact ⟨_, List.append_cons l _ ctxt.slave_recs⟩
          · rw [hr1, (hkeep hz).2.2]
            exact ⟨l, rfl⟩
        obtain ⟨l', hl'⟩ := hrecs'
        refine ⟨slave1, l', hs1, hl', ?_⟩
        rw [hL] at heff
        exact table_effect_step k m s c av _ c' slave slave' slave1 ctxt.master.words
          c1.master.words ctxt1.master.words ctxt.slave_recs c1.slave_recs ctxt1.slave_recs l st
          hs (by omega) hav rfl hc' hdis hst hle
          (fun hz => ⟨by
              have := (hfree hz).1
              rw [hc1s] at this
              exact Option.some.inj this, (hfree hz).2.1, (hfree hz).2.2⟩)
          (fun hz => ⟨by
              have := (hkeep hz).1
              rw [hc1s] at this
              exact Option.some.inj this, (hkeep hz).2.1⟩)
          hr1 heff
      split at h
      · rename_i hgt
        split at h
        · cases h
        · cases h
        · rename_i e c1 hcl
          split at h
          · rename_i hne
            simp only [Run.ret.injEq, Prod.mk.injEq] at h
            exact absurd h.1 hne
          · rename_i he
            have he' : e = .GCERR_NONE := by simpa using he
            subst he'
            have h1 : u32_add s c = s + c := u32_add_eq _ _ (by omega)
            rw [h1, u32_sub_self] at h
            exact key c m (s + c) 0 c1 (by omega) (by omega) (by omega) (by omega)
              (Or.inl rfl) hcl h
      · rename_i hgt
        split at h
        · cases h
        · cases h
        · rename_i e c1 hcl
          split at h
          · rename_i hne
            simp only [Run.ret.injEq, Prod.mk.injEq] at h
            exact absurd h.1 hne
          · rename_i he
            have he' : e = .GCERR_NONE := by simpa using he
            subst he'
            have hm1 : m + 1 < 4294967296 := by
              by_contra hcon
              have : 4294967296 * 1 ≤ (m + 1) * k.MMU_STLB_ENTRY_NUM :=
                Nat.mul_le_mul (by omega) (by omega)
              omega
            have h1 : u32_add m 1 = m + 1 := u32_add_eq _ _ (by omega)
            have h2 : u32_sub c (k.MMU_STLB_ENTRY_NUM - s) = c - (k.MMU_STLB_ENTRY_NUM - s) :=
              u32_sub_eq _ _ (by omega) (by omega)
            rw [h1, h2] at h
            exact key (k.MMU_STLB_ENTRY_NUM - s) (m + 1) 0 _ c1 (by omega)
              (by rw [hmul]; omega) (by omega) rfl (Or.inr (by omega)) hcl h

theorem unmap_insert_tables (k : Config) (mmu mmu1 : mmu2dprivate)
    (ctxt ctxt1 : mmu2dcontext) (a : mmu2darena) (e : gcerror)
    (h : unmap_insert k mmu ctxt a = .ret (e, mmu1, ctxt1)) :
    ctxt1.slave = ctxt.slave ∧ ctxt1.master = ctxt.master ∧
      ctxt1.slave_recs = ctxt.slave_recs := by
  unfold unmap_insert at h
  simp only at h
  repeat' split at h
  all_goals first
    | (cases h; exact ⟨rfl, rfl, rfl⟩)
    | cases h

theorem covers_span (k : Config) (L c t j : Nat) (h : covers k L c t j) : 0 < span k L c t := by
  unfold covers at h
  unfold span
  omega

/-- Claim C24. MMU_ENABLE configuration with MMU_STLB_ENTRY_NUM below 2^32; the
slave array of the context is allocated; `a` is the first arena of the
allocated list with the given handle, its slot index is inside a table, its end
is below 2^32, and the live-entry counts of the tables it spans are 32-bit
values. After a successful mmu2d_unmap of `a`, for every master index t: if the
arena covers no slot of table t, the slave slot and the master entry are
unchanged; if it covers n slots, the table was live with at least n live
entries, and either it had exactly n, and then its record is on the free list
with the pages released, the slave slot is null and the master entry is
MMU_MTLB_ENTRY_VACANT, or it had more, and then the master entry is unchanged,
the count is n less, the covered entries are MMU_STLB_ENTRY_VACANT and the
other entries are unchanged. So every covered entry of a table that is still
live is the vacant sentinel. -/
theorem C24_unmap_tables (k : Config) (hen : k.MMU_ENABLE = true)
    (hN32 : k.MMU_STLB_ENTRY_NUM < 4294967296) (mmu mmu1 : mmu2dprivate)
    (ctxt ctxt1 : mmu2dcontext) (pre post : List mmu2darena) (a : mmu2darena)
    (slave : Nat → Option mmu2dstlb)
    (hal : ctxt.allocated = pre ++ a :: post) (hfirst : ∀ x ∈ pre, x.handle ≠ a.handle)
    (hsl : ctxt.slave = some slave)
    (hsa : a.stlb < k.MMU_STLB_ENTRY_NUM) (hov : lin k a + a.count < 4294967296)
    (h32 : ∀ t st, 0 < span k (lin k a) a.count t → slave t = some st →
      st.count < 4294967296)
    (h : mmu2d_unmap k mmu ctxt a.handle = .ret (.GCERR_NONE, mmu1, ctxt1)) :
    ∃ slave1, ctxt1.slave = some slave1 ∧ ctxt1.allocated = pre ++ post ∧
      (∀ t, table_effect k (lin k a) a.count slave slave1 ctxt.master.words
        ctxt1.master.words ctxt1.slave_recs t) ∧
      (∀ t st1 j, slave1 t = some st1 → covers k (lin k a) a.count t j →
        st1.pages.words j = k.MMU_STLB_ENTRY_VACANT) := by
  unfold mmu2d_unmap at h
  split at h
  · cases h
  · rw [hal, walk_until_split _ pre a post (fun x hx => by simpa using hfirst x hx)
      (by simp)] at h
    simp only at h
    split at h
    · cases h
    · cases h
    · rename_i e1 c1 hloop
      split at h
      · rename_i hne
        cases h
        exact absurd rfl hne
      · rename_i he
        have he' : e1 = .GCERR_NONE := by simpa using he
        subst he'
        unfold lin at hov h32
        obtain ⟨slave1, l, hs1, hr1, heff⟩ :=
          unmap_loop_tables k hen hN32 _ a.mtlb a.stlb a.count ctxt c1 slave hsa hov hsl h32
            hloop
        obtain ⟨i1, i2, i3⟩ := unmap_insert_tables k _ _ _ _ _ _ h
        obtain ⟨i4, _⟩ := unmap_insert_allocated k _ _ _ _ _ _ h
        simp only at i1 i2 i3 i4
        have heff' : ∀ t, table_effect k (lin k a) a.count slave slave1 ctxt.master.words
            ctxt1.master.words ctxt1.slave_recs t := by
          intro t
          rw [i2, i3]
          exact heff t
        refine ⟨slave1, by rw [i1, hs1], i4, heff', ?_⟩
        intro t st1 j hst1 hcov
        obtain ⟨_, hpos⟩ := heff' t
        obtain ⟨st, _, _, hfr, hkp⟩ := hpos (covers_span k _ _ t j hcov)
        by_cases hz : st.count = span k (lin k a) a.count t
        · rw [(hfr hz).1] at hst1
          cases hst1
        · rw [(hkp hz).2] at hst1
          simp only [Option.some.injEq] at hst1
          rw [← hst1]
          simp [cleared, hcov]

theorem slave_some_eta (ctxt : mmu2dcontext) (h : ctxt.slave.isSome = true) :
    ctxt.slave = some (fun t => slave_at ctxt t) := by
  unfold slave_at
  cases hs : ctxt.slave with
  | none => rw [hs] at h; cases h
  | some f => rfl

theorem option_count_bound (o : Option mmu2dstlb)
    (h : (o.map (fun s => decide (s.count < 4294967296))).getD true = true) :
    ∀ st, o = some st → st.count < 4294967296 := by
  intro st hst
  subst hst
  simpa using h

/-- Worked example for C24: a new context, a map of 5 pages, which becomes the
arena (0, 0, 5) in slave table 0 with 5 live entries, and the unmap of it:
the table had exactly the 5 covered entries, so the slave slot is null and the
master entry is the vacant sentinel afterwards. -/
theorem C24_unmap_tables_witness :
    ((demo_mapped true 5).gcerror, triple (demo_arena true 5),
     (slave_at (demo_mapped true 5).ctxt 0).map (fun s => s.count),
     span (demo_config true) 0 5 0, span (demo_config true) 0 5 1)
      = (.GCERR_NONE, (0, 0, 5), some 5, 5, 0) ∧
    (demo_unmapped true 5).1 = .GCERR_NONE ∧
    ((slave_at (demo_unmapped true 5).2.2 0).isNone, (demo_unmapped true 5).2.2.master.words 0)
      = (true, (demo_config true).MMU_MTLB_ENTRY_VACANT) ∧
    (∃ slave1, (demo_unmapped true 5).2.2.slave = some slave1 ∧
      (demo_unmapped true 5).2.2.allocated = [] ++ [] ∧
      (∀ t, table_effect (demo_config true) (lin (demo_config true) (demo_arena true 5))
        (demo_arena true 5).count (fun t => slave_at (demo_mapped true 5).ctxt t) slave1
        (demo_mapped true 5).ctxt.master.words (demo_unmapped true 5).2.2.master.words
        (demo_unmapped true 5).2.2.slave_recs t) ∧
      (∀ t st1 j, slave1 t = some st1 →
        covers (demo_config true) (lin (demo_config true) (demo_arena true 5))
          (demo_arena true 5).count t j →
        st1.pages.words j = (demo_config true).MMU_STLB_ENTRY_VACANT)) :=
  ⟨by decide!, by decide!, by decide!,
   C24_unmap_tables (demo_config true) rfl (by decide) (demo_mapped true 5).mmu
     (demo_unmapped true 5).2.1 (demo_mapped true 5).ctxt (demo_unmapped true 5).2.2 [] []
     (demo_arena true 5) (fun t => slave_at (demo_mapped true 5).ctxt t) (by decide!)
     (by simp) (slave_some_eta _ (by decide!)) (by decide!) (by decide!)
     (by
       intro t st hpos hst
       have e1 : lin (demo_config true) (demo_arena true 5) = 0 := by decide!
       have e2 : (demo_arena true 5).count = 5 := by decide!
       rw [e1, e2] at hpos
       have ht : t = 0 := by
         unfold span at hpos
         simp only [demo_config] at hpos
         omega
       subst ht
       exact option_count_bound _ (by decide!) st hst)
     (ret_eta _ (demo_unmapped true 5)
       (Run.eq_ret _ (.GCERR_MMU_CTXT_BAD, demo_globals.mmu, mmu2dcontext_zero) (by decide!))
       (by decide!))⟩

/-! ## The pool of arena descriptors -/

/-- The chaining loop pushes `n` descriptors of the block, those with the
indices `i` to `i + n - 1`, on the list. -/
theorem chain_arenas_spec (k : Config) (block : Nat) :
    ∀ (n i : Nat) (recs : List mmu2darena),
      ∃ l, chain_arenas k block n i recs = l ++ recs ∧ l.length = n ∧
        ∀ a ∈ l, ∃ j, i ≤ j ∧ j < i + n ∧ a = arena_of_block k block j := by
  intro n
  induction n with
  | zero =>
    intro i recs
    exact ⟨[], rfl, rfl, by simp⟩
  | succ n ih =>
    intro i recs
    obtain ⟨l, hl, hlen, hmem⟩ := ih (i + 1) (arena_of_block k block i :: recs)
    refine ⟨l ++ [arena_of_block k block i], ?_, by simp [hlen], ?_⟩
    · rw [chain_arenas, hl]
      simp
    · intro a ha
      rw [List.mem_append] at ha
      rcases ha with ha | ha
      · obtain ⟨j, h1, h2, h3⟩ := hmem a ha
        exact ⟨j, by omega, by omega, h3⟩
      · simp only [List.mem_singleton] at ha
        exact ⟨i, le_refl _, by omega, ha⟩

/-- The chaining loop in closed form: the descriptors `i` to `i + n - 1` of the
block, the last one first, in front of the list. -/
theorem chain_arenas_eq (k : Config) (block : Nat) :
    ∀ (n i : Nat) (recs : List mmu2darena),
      chain_arenas k block n i recs
        = ((List.range n).map (fun j => arena_of_block k block (i + j))).reverse ++ recs := by
  intro n
  induction n with
  | zero =>
    intro i recs
    simp [chain_arenas]
  | succ n ih =>
    intro i recs
    rw [chain_arenas, ih, List.range_succ_eq_map, List.map_cons, List.reverse_cons,
      List.append_assoc, List.map_map]
    have : (fun j => arena_of_block k block (i + 1 + j))
        = (fun j => arena_of_block k block (i + j)) ∘ Nat.succ := by
      funext j
      simp only [Function.comp]
      congr 1
      omega
    rw [this]
    rfl

/-- The descriptors of a block lie at different addresses. -/
theorem arena_of_block_injective (k : Config) (hsz : 0 < k.sizeof_mmu2darena) (block : Nat) :
    Function.Injective (arena_of_block k block) := by
  intro i j h
  have hh : (arena_of_block k block i).handle = (arena_of_block k block j).handle := by rw [h]
  simp only [arena_of_block] at hh
  have : i * k.sizeof_mmu2darena = j * k.sizeof_mmu2darena := by omega
  exact Nat.eq_of_mul_eq_mul_right hsz this

theorem prealloc_count_size (k : Config) (hc : 0 < ARENA_PREALLOC_COUNT k) :
    0 < k.sizeof_mmu2darena := by
  by_contra h
  have h0 : k.sizeof_mmu2darena = 0 := by omega
  unfold ARENA_PREALLOC_COUNT at hc
  rw [h0, Nat.div_zero] at hc
  exact absurd hc (by decide)

/-- Claim C25. ARENA_PREALLOC_COUNT is at least 1. When the free list is not
empty mmu2d_get_arena obtains no block and returns the head of the free list,
which is removed from it: the list is the old one without its head, one
descriptor less, and if the old list has no descriptor twice the returned one
is not on it any more. When the free list is empty it asks for a block: if the
kernel grants one, the block is recorded and its ARENA_PREALLOC_COUNT
descriptors are chained, all at different addresses; the last one of the block
is returned and the free list holds exactly the other ARENA_PREALLOC_COUNT - 1,
the returned one not among them; if not, it returns the out-of-memory code
GCERR_SETGRP(GCERR_OODM, GCERR_MMU_ARENA_ALLOC) and the pool is unchanged.
mmu2d_free_arena pushes the descriptor on the free list and leaves the blocks
alone, so mmu2d_get_arena after mmu2d_free_arena returns that descriptor and
restores the pool. -/
theorem C25_arena_pool (k : Config) (hc : 0 < ARENA_PREALLOC_COUNT k) (km : Option Nat)
    (mmu : mmu2dprivate) :
    (∀ a rest, mmu.arena_recs = a :: rest →
      mmu2d_get_arena k km mmu = .ret (.GCERR_NONE, { mmu with arena_recs := rest }, some a) ∧
      rest.length = mmu.arena_recs.length - 1 ∧
      (mmu.arena_recs.Nodup → a ∉ rest ∧ rest.Nodup)) ∧
    (mmu.arena_recs = [] → ∀ block, km = some block →
      ∃ a rest, mmu2d_get_arena k km mmu
          = .ret (.GCERR_NONE,
              { mmu with arena_blocks := block :: mmu.arena_blocks, arena_recs := rest },
              some a) ∧
        rest.length = ARENA_PREALLOC_COUNT k - 1 ∧
        (∀ x ∈ a :: rest, ∃ j, j < ARENA_PREALLOC_COUNT k ∧ x = arena_of_block k block j) ∧
        a :: rest
          = ((List.range (ARENA_PREALLOC_COUNT k)).map (arena_of_block k block)).reverse ∧
        a = arena_of_block k block (ARENA_PREALLOC_COUNT k - 1) ∧
        rest
          = ((List.range (ARENA_PREALLOC_COUNT k - 1)).map (arena_of_block k block)).reverse ∧
        (a :: rest).Nodup ∧ a ∉ rest) ∧
    (mmu.arena_recs = [] → km = none →
      mmu2d_get_arena k km mmu
        = .ret (.GCERR_SETGRP .GCERR_OODM .GCERR_MMU_ARENA_ALLOC, mmu, none)) ∧
    (∀ a, mmu2d_free_arena mmu a = { mmu with arena_recs := a :: mmu.arena_recs } ∧
      (mmu2d_free_arena mmu a).arena_blocks = mmu.arena_blocks ∧
      mmu2d_get_arena k km (mmu2d_free_arena mmu a) = .ret (.GCERR_NONE, mmu, some a)) := by
  refine ⟨?_, ?_, ?_, ?_⟩
  · intro a rest h
    refine ⟨?_, by rw [h]; simp, fun hnd => ?_⟩
    · unfold mmu2d_get_arena
      rw [h]
    · rw [h] at hnd
      exact List.nodup_cons.mp hnd
  · intro he block hkm
    have hsz := prealloc_count_size k hc
    have hform := chain_arenas_eq k block (ARENA_PREALLOC_COUNT k) 0 []
    simp only [Nat.zero_add, List.append_nil] at hform
    have hfun : (fun j => arena_of_block k block j) = arena_of_block k block := rfl
    rw [hfun] at hform
    obtain ⟨c, hcc⟩ : ∃ c, ARENA_PREALLOC_COUNT k = c + 1 := ⟨ARENA_PREALLOC_COUNT k - 1, by omega⟩
    have hsplit : ((List.range (ARENA_PREALLOC_COUNT k)).map (arena_of_block k block)).reverse
        = arena_of_block k block c
          :: ((List.range c).map (arena_of_block k block)).reverse := by
      rw [hcc, List.range_succ, List.map_append, List.reverse_append]
      rfl
    have hnd : (((List.range (ARENA_PREALLOC_COUNT k)).map
        (arena_of_block k block)).reverse).Nodup :=
      List.nodup_reverse.mpr
        ((List.nodup_range _).map (arena_of_block_injective k hsz block))
    have hc1 : ARENA_PREALLOC_COUNT k - 1 = c := by omega
    refine ⟨arena_of_block k block c,
      ((List.range c).map (arena_of_block k block)).reverse, ?_, by simp [hc1], ?_,
      hsplit.symm, by rw [hc1], by rw [hc1], by rw [← hsplit]; exact hnd,
      (List.nodup_cons.mp (by rw [← hsplit]; exact hnd)).1⟩
    · unfold mmu2d_get_arena
      rw [he, hkm]
      simp only [hform, hsplit]
    · intro x hx
      rw [← hsplit] at hx
      simp only [List.mem_reverse, List.mem_map, List.mem_range] at hx
      obtain ⟨j, hj, hxj⟩ := hx
      exact ⟨j, hj, hxj.symm⟩
  · intro he hkm
    unfold mmu2d_get_arena
    rw [he, hkm]
  · intro a
    refine ⟨rfl, rfl, ?_⟩
    unfold mmu2d_get_arena mmu2d_free_arena
    simp

/-- Worked example for C25: in the example ARENA_PREALLOC_COUNT is 127. On the
idle MMU object (empty free list) a granted block at address 20480 is chained;
the descriptor 126 of the block is returned and the free list holds the
descriptors 125 down to 0; a refused block gives the out-of-memory code. -/
theorem C25_arena_pool_witness :
    ARENA_PREALLOC_COUNT (demo_config true) = 127 ∧
    demo_globals.mmu.arena_recs = [] ∧
    (((mmu2d_get_arena (demo_config true) (some 20480) demo_globals.mmu).getD
        (.GCERR_MMU_CTXT_BAD, demo_globals.mmu, none)).2.2.map (fun a => a.handle),
     ((mmu2d_get_arena (demo_config true) (some 20480) demo_globals.mmu).getD
        (.GCERR_MMU_CTXT_BAD, demo_globals.mmu, none)).2.1.arena_recs.length,
     (((mmu2d_get_arena (demo_config true) (some 20480) demo_globals.mmu).getD
        (.GCERR_MMU_CTXT_BAD, demo_globals.mmu, none)).2.1.arena_recs.map
          (fun a => a.handle)).take 3)
      = (some 24516, 126, [24484, 24452, 24420]) ∧
    ((∀ a rest, demo_globals.mmu.arena_recs = a :: rest →
      mmu2d_get_arena (demo_config true) (some 20480) demo_globals.mmu
        = .ret (.GCERR_NONE, { demo_globals.mmu with arena_recs := rest }, some a) ∧
      rest.length = demo_globals.mmu.arena_recs.length - 1 ∧
      (demo_globals.mmu.arena_recs.Nodup → a ∉ rest ∧ rest.Nodup)) ∧
    (demo_globals.mmu.arena_recs = [] → ∀ block, some 20480 = some block →
      ∃ a rest, mmu2d_get_arena (demo_config true) (some 20480) demo_globals.mmu
          = .ret (.GCERR_NONE,
              { demo_globals.mmu with arena_blocks := block :: demo_globals.mmu.arena_blocks,
                                      arena_recs := rest },
              some a) ∧
        rest.length = ARENA_PREALLOC_COUNT (demo_config true) - 1 ∧
        (∀ x ∈ a :: rest, ∃ j, j < ARENA_PREALLOC_COUNT (demo_config true) ∧
          x = arena_of_block (demo_config true) block j) ∧
        a :: rest
          = ((List.range (ARENA_PREALLOC_COUNT (demo_config true))).map
              (arena_of_block (demo_config true) block)).reverse ∧
        a = arena_of_block (demo_config true) block
              (ARENA_PREALLOC_COUNT (demo_config true) - 1) ∧
        rest
          = ((List.range (ARENA_PREALLOC_COUNT (demo_config true) - 1)).map
              (arena_of_block (demo_config true) block)).reverse ∧
        (a :: rest).Nodup ∧ a ∉ rest) ∧
    (demo_globals.mmu.arena_recs = [] → some 20480 = none →
      mmu2d_get_arena (demo_config true) (some 20480) demo_globals.mmu
        = .ret (.GCERR_SETGRP .GCERR_OODM .GCERR_MMU_ARENA_ALLOC, demo_globals.mmu, none)) ∧
    (∀ a, mmu2d_free_arena demo_globals.mmu a
        = { demo_globals.mmu with arena_recs := a :: demo_globals.mmu.arena_recs } ∧
      (mmu2d_free_arena demo_globals.mmu a).arena_blocks = demo_globals.mmu.arena_blocks ∧
      mmu2d_get_arena (demo_config true) (some 20480) (mmu2d_free_arena demo_globals.mmu a)
        = .ret (.GCERR_NONE, demo_globals.mmu, some a))) :=
  ⟨by decide, rfl, by decide!,
   C25_arena_pool (demo_config true) (by decide) (some 20480) demo_globals.mmu⟩

/-! ## The loops of mmu2d_destroy_context -/

/-- With a pool that is not empty `mmu2d_destroy_context` does not return for
an active context whose vacant list is not empty. -/
theorem destroy_diverges (mmu : mmu2dprivate) (ctxt : mmu2dcontext)
    (hact : ctxt.mmu = true)
    (hnz : ∀ a ∈ ctxt.allocated ++ ctxt.vacant ++ mmu.arena_recs, a.handle ≠ 0)
    (hv : ctxt.vacant ≠ []) (hp : mmu.arena_recs ≠ []) :
    mmu2d_destroy_context mmu ctxt = .diverge := by
  have hvh : head_of ctxt.vacant ≠ 0 :=
    head_of_ne _ hv (fun a ha => hnz a (by simp [ha]))
  have hph : head_of mmu.arena_recs ≠ 0 :=
    head_of_ne _ hp (fun a ha => hnz a (by simp [ha]))
  unfold mmu2d_destroy_context
  simp only [hact, Bool.true_eq_false, if_false]
  by_cases hal : ctxt.allocated = []
  · rw [hal, show head_of ([] : List mmu2darena) = 0 from rfl, destroy_walk_null]
    simp only
    rw [destroy_walk_cycle _ _ _ _ hvh hph]
  · have hah : head_of ctxt.allocated ≠ 0 :=
      head_of_ne _ hal (fun a ha => hnz a (by simp [ha]))
    rw [destroy_walk_cycle _ _ _ _ hah hph]

/-- Claim C26 (defect of the code). The release loops of mmu2d_destroy_context
do not perform one iteration for each arena of the list. For every list of
descriptors at non-null addresses: when the pool's free list is not empty the
loop is not finished after any number of iterations, and when it is empty the
loop is finished after exactly one iteration, however many arenas the list
has. So for an active context with a non-empty vacant list and a non-empty
pool mmu2d_destroy_context does not terminate. -/
theorem C26_destroy_loops (mmu : mmu2dprivate) (ctxt : mmu2dcontext)
    (hact : ctxt.mmu = true)
    (hnz : ∀ a ∈ ctxt.allocated ++ ctxt.vacant ++ mmu.arena_recs, a.handle ≠ 0)
    (hv : ctxt.vacant ≠ []) (hp : mmu.arena_recs ≠ []) :
    mmu2d_destroy_context mmu ctxt = .diverge ∧
    (∀ fuel next, destroy_walk fuel next (head_of ctxt.vacant) (head_of mmu.arena_recs) = none) ∧
    (∀ (l : List mmu2darena), l ≠ [] → (∀ a ∈ l, a.handle ≠ 0) →
      (∀ recs, recs ≠ 0 → ∀ fuel next, destroy_walk fuel next (head_of l) recs = none) ∧
      (∀ next, destroy_walk 0 next (head_of l) 0 = none ∧
        destroy_walk 1 next (head_of l) 0
          = some (Function.update next (head_of l) 0, head_of l))) := by
  have hvh : head_of ctxt.vacant ≠ 0 :=
    head_of_ne _ hv (fun a ha => hnz a (by simp [ha]))
  have hph : head_of mmu.arena_recs ≠ 0 :=
    head_of_ne _ hp (fun a ha => hnz a (by simp [ha]))
  refine ⟨destroy_diverges mmu ctxt hact hnz hv hp,
    fun fuel next => destroy_walk_cycle fuel next _ _ hvh hph, ?_⟩
  intro l hl hlz
  have hh : head_of l ≠ 0 := head_of_ne l hl hlz
  refine ⟨fun recs hr fuel next => destroy_walk_cycle fuel next _ _ hh hr, fun next => ⟨?_, ?_⟩⟩
  · unfold destroy_walk
    simp [hh]
  · exact destroy_walk_one 0 next _ hh

/-- Worked example for C26: the context just created by mmu2d_create_context
(one vacant arena) with the 126 free descriptors of the first block in the
pool: the call does not terminate. -/
theorem C26_destroy_loops_witness :
    ((demo_created true).2.2.vacant.length, (demo_created true).2.2.allocated.length,
     (demo_created true).2.1.mmu.arena_recs.length) = (1, 0, 126) ∧
    (mmu2d_destroy_context (demo_created true).2.1.mmu (demo_created true).2.2 = .diverge ∧
     (∀ fuel next, destroy_walk fuel next (head_of (demo_created true).2.2.vacant)
        (head_of (demo_created true).2.1.mmu.arena_recs) = none) ∧
     (∀ (l : List mmu2darena), l ≠ [] → (∀ a ∈ l, a.handle ≠ 0) →
       (∀ recs, recs ≠ 0 → ∀ fuel next, destroy_walk fuel next (head_of l) recs = none) ∧
       (∀ next, destroy_walk 0 next (head_of l) 0 = none ∧
         destroy_walk 1 next (head_of l) 0
           = some (Function.update next (head_of l) 0, head_of l)))) :=
  ⟨by decide!,
   C26_destroy_loops (demo_created true).2.1.mmu (demo_created true).2.2 (by decide!)
     (by decide!) (by decide!) (by decide!)⟩

/-! ## mmu2d_unmap on reachable states -/

/-- Claim C27 (defect of the code). mmu2d_unmap is not total on reachable
states. In every state reached from mmu2d_create_context by map and unmap
calls, for an arena of the allocated list: when the vacant list is not empty
and the insertion search passes every arena of it (predecessor present, no
successor), the merge step calls mmu2d_siblings with the absent successor, so
the call does not return GCERR_NONE; without MMU_ENABLE it ends in the read
through the null pointer. -/
theorem C27_unmap_reads_null (k : Config) (hk : k.sane) (mmu : mmu2dprivate)
    (ctxt : mmu2dcontext) (hreach : Reachable k mmu ctxt)
    (apre apost : List mmu2darena) (a : mmu2darena)
    (hal : ctxt.allocated = apre ++ a :: apost)
    (hfirst : ∀ x ∈ apre, x.handle ≠ a.handle)
    (hne : ctxt.vacant ≠ [])
    (hpass : ∀ v ∈ ctxt.vacant, insert_stop a v = false) :
    (∀ mmu1 ctxt1, mmu2d_unmap k mmu ctxt a.handle ≠ .ret (.GCERR_NONE, mmu1, ctxt1)) ∧
    (k.MMU_ENABLE = false → mmu2d_unmap k mmu ctxt a.handle = .fault) := by
  obtain ⟨hc, hmmu⟩ := reachable_cover k hk mmu ctxt hreach
  exact unmap_off_end k hk mmu ctxt apre apost a hmmu hal hfirst hne hpass hc

/-- Worked example for C27: a new context, one successful mmu2d_map of 1024
pages (one whole slave table), then mmu2d_unmap of that arena. The vacant list
is [(1, 0, 1047552)]; the search passes it because its slot index 0 is not
greater than the slot index 0 of the arena. With and without MMU_ENABLE the
call ends in the read through the null pointer. -/
theorem C27_unmap_reads_null_witness :
    ((demo_mapped false 1024).gcerror, (demo_mapped true 1024).gcerror)
      = (.GCERR_NONE, .GCERR_NONE) ∧
    ((demo_mapped false 1024).ctxt.allocated.map triple,
     (demo_mapped false 1024).ctxt.vacant.map triple) = ([(0, 0, 1024)], [(1, 0, 1047552)]) ∧
    (mmu2d_unmap (demo_config true) (demo_mapped true 1024).mmu (demo_mapped true 1024).ctxt
      (demo_arena true 1024).handle).isFault = true ∧
    ((∀ mmu1 ctxt1,
      mmu2d_unmap (demo_config false) (demo_mapped false 1024).mmu (demo_mapped false 1024).ctxt
        (demo_arena false 1024).handle ≠ .ret (.GCERR_NONE, mmu1, ctxt1)) ∧
     ((demo_config false).MMU_ENABLE = false →
      mmu2d_unmap (demo_config false) (demo_mapped false 1024).mmu
        (demo_mapped false 1024).ctxt (demo_arena false 1024).handle = .fault)) :=
  ⟨by decide!, by decide!, by decide!,
   C27_unmap_reads_null (demo_config false) (demo_sane false) (demo_mapped false 1024).mmu
     (demo_mapped false 1024).ctxt
     (Reachable.map demo_map_env _ _ (demo_mem 1024) _ (demo_reachable_created false)
       (demo_mapped_ok false 1024 (by decide!)))
     [] [] (demo_arena false 1024) (by decide!) (by simp) (by decide!) (by decide!)⟩

/-! ## The bookkeeping of the slave tables -/

/-- Claim C28 (defect of the code). The bookkeeping invariant does not hold in
reachable states. On a new context of the example (MMU_ENABLE, 1024 slots per
slave table) a map of 1024 pages succeeds and gives the arena (0, 0, 1024);
the count of slave table 0 is 1024 and master entry 0 refers to it. A second
map, of 1 page, succeeds and gives the arena
(1, 0, 1): mmu2d_map enters the new slave table in master entry 1 but stores it
in ctxt->slave[0], over the table of master index 0, and counts and writes the
page there. Afterwards slave slot 1 is null although master entry 1 is not the
vacant sentinel, and slave slot 0 holds a table with count 1 that master entry
0 does not refer to, while 1024 allocated units fall in master index 0. -/
theorem C28_bookkeeping_fails :
    ((demo_mapped true 1024).gcerror, (demo_mapped2 true 1024 1).gcerror)
      = (.GCERR_NONE, .GCERR_NONE) ∧
    Reachable (demo_config true) (demo_mapped2 true 1024 1).mmu (demo_mapped2 true 1024 1).ctxt ∧
    (demo_mapped2 true 1024 1).ctxt.allocated.map triple = [(1, 0, 1), (0, 0, 1024)] ∧
    ((slave_at (demo_mapped true 1024).ctxt 0).map (fun s =>
        (s.count, mtlb_entry (demo_config true) s)),
     (demo_mapped true 1024).ctxt.master.words 0,
     allocated_units (demo_config true) (demo_mapped true 1024).ctxt 0)
      = (some (1024, 65539), 65539, 1024) ∧
    ((slave_at (demo_mapped2 true 1024 1).ctxt 0).map (fun s =>
        (s.count, live_entries (demo_config true) s, mtlb_entry (demo_config true) s)),
     (demo_mapped2 true 1024 1).ctxt.master.words 0,
     allocated_units (demo_config true) (demo_mapped2 true 1024 1).ctxt 0)
      = (some (1, 1, 4259843), 65539, 1024) ∧
    ((slave_at (demo_mapped2 true 1024 1).ctxt 1).isSome,
     (demo_mapped2 true 1024 1).ctxt.master.words 1,
     (demo_config true).MMU_MTLB_ENTRY_VACANT,
     allocated_units (demo_config true) (demo_mapped2 true 1024 1).ctxt 1)
      = (false, 4259843, 2, 1) ∧
    ¬ bookkeeping_at (demo_config true) (demo_mapped2 true 1024 1).ctxt 0 ∧
    ¬ bookkeeping_at (demo_config true) (demo_mapped2 true 1024 1).ctxt 1 ∧
    ¬ bookkeeping_ok (demo_config true) (demo_mapped2 true 1024 1).ctxt := by
  have h1 : ¬ bookkeeping_at (demo_config true) (demo_mapped2 true 1024 1).ctxt 1 := by
    intro h
    have hs := h.1.mpr (by decide!)
    have hn : (slave_at (demo_mapped2 true 1024 1).ctxt 1).isSome = false := by decide!
    rw [hn] at hs
    cases hs
  have h0 : ¬ bookkeeping_at (demo_config true) (demo_mapped2 true 1024 1).ctxt 0 := by
    intro h
    have hc : (slave_at (demo_mapped2 true 1024 1).ctxt 0).map (fun s => s.count) = some 1 := by
      decide!
    have hu : allocated_units (demo_config true) (demo_mapped2 true 1024 1).ctxt 0 = 1024 := by
      decide!
    cases hs : slave_at (demo_mapped2 true 1024 1).ctxt 0 with
    | none => rw [hs] at hc; cases hc
    | some st =>
      rw [hs] at hc
      simp only [Option.map_some', Option.some.injEq] at hc
      have := (h.2 st hs).2.2
      rw [hc, hu] at this
      cases this
  refine ⟨by decide!, ?_, by decide!, by decide!, by decide!, by decide!, h0, h1, ?_⟩
  · exact Reachable.map demo_map_env2 _ _ (demo_mem 1) _
      (Reachable.map demo_map_env _ _ (demo_mem 1024) _ (demo_reachable_created true)
        (demo_mapped_ok true 1024 (by decide!)))
      (demo_mapped2_ok true 1024 1 (by decide!))
  · intro h
    exact h1 (h 1 (by decide))

/-! ## The accounting of the ring -/

/-- The device cursor is `data_size` bytes past the device-visible base, in
32-bit arithmetic, in every state of the ring. -/
theorem ring_device_cursor (k : Config) (hP : k.PAGE_SIZE % 4 = 0)
    (hP32 : k.PAGE_SIZE < 4294967296) (cb : cmdbuf) (h : Ring k cb) :
    cb.physical % 4294967296 = (ring_base cb + cb.data_size) % 4294967296 := by
  induction h with
  | init r cb0 cb hinit =>
    unfold cmdbuf_init at hinit
    split at hinit
    · simp only [Prod.mk.injEq, true_and] at hinit
      subst hinit
      simp [ring_base]
    · rename_i hne
      simp only [Prod.mk.injEq] at hinit
      cases hinit.1
  | alloc cb size hr ih =>
    have hok := ring_inv k hP hP32 cb hr
    by_cases hfit : size ≤ cb.available
    · obtain ⟨_, _, heq⟩ := (cmdbuf_alloc_spec k hP32 cb hok size).2 hfit
      rw [heq]
      simp only [ring_base] at ih ⊢
      omega
    · rw [(cmdbuf_alloc_spec k hP32 cb hok size).1 (by omega)]
      exact ih
  | flush cb dev logical _ ih =>
    unfold cmdbuf_flush cmdbuf_store ring_base
    simp
  | map env mmu mmu1 ctxt ctxt1 cb cb1 e _ hmap ih =>
    unfold cmdbuf_map at hmap
    simp only at hmap
    split at hmap
    · cases hmap
    · cases hmap
    · split at hmap
      · cases hmap; exact ih
      · split at hmap
        · cases hmap
        · cases hmap
          simp [ring_base, u32_add]
  | store cb addr v _ ih => exact ih

/-- Claim C29. PAGE_SIZE is a multiple of 4 below 2^32. In every state reached
from a successful cmdbuf_init by cmdbuf_alloc and cmdbuf_flush calls (and by
cmdbuf_map and stores into the page): available + data_size is the size of the
ring's page, which is PAGE_SIZE; available is a multiple of 4; the logical
cursor is data_size bytes past the page and the device cursor is data_size
bytes past the device-visible base (in 32-bit arithmetic). So for every request
that passes the capacity check, size + 3 does not overflow 32 bits, the aligned
size is at most `available`, and the subtraction leaves
available - align(size, 4) without wrapping. -/
theorem C29_ring_accounting (k : Config) (hP : k.PAGE_SIZE % 4 = 0)
    (hP32 : k.PAGE_SIZE < 4294967296) (cb : cmdbuf) (h : Ring k cb) :
    cb.available + cb.data_size = cb.page.size ∧ cb.page.size = k.PAGE_SIZE ∧
    cb.available % 4 = 0 ∧
    cb.logical = cb.page.logical + cb.data_size ∧
    cb.physical % 4294967296 = (ring_base cb + cb.data_size) % 4294967296 ∧
    (∀ size, size ≤ cb.available →
      size + 3 < 4294967296 ∧ align4 size = (size + 3) / 4 * 4 ∧ align4 size ≤ cb.available ∧
      (cmdbuf_alloc cb size).1 = .GCERR_NONE ∧
      (cmdbuf_alloc cb size).2.1.available = cb.available - align4 size ∧
      (cmdbuf_alloc cb size).2.1.available + align4 size = cb.available) := by
  have hok := ring_inv k hP hP32 cb h
  obtain ⟨hpl, hlog, hsum, hps, h4⟩ := hok
  refine ⟨by omega, hps, h4, hlog, ring_device_cursor k hP hP32 cb h, fun size hfit => ?_⟩
  obtain ⟨ha, hle, heq⟩ :=
    (cmdbuf_alloc_spec k hP32 cb ⟨hpl, hlog, hsum, hps, h4⟩ size).2 hfit
  rw [heq]
  refine ⟨by omega, ha, hle, rfl, rfl, ?_⟩
  simp only
  omega

/-- Worked example for C29: the ring after `cmdbuf_init` (page of 4096 bytes),
and the same ring after a reservation of 10 bytes, which takes 12. -/
theorem C29_ring_accounting_witness :
    (demo_ring.available + demo_ring.data_size = demo_ring.page.size ∧
      demo_ring.page.size = (demo_config true).PAGE_SIZE ∧
      demo_ring.available % 4 = 0 ∧
      demo_ring.logical = demo_ring.page.logical + demo_ring.data_size ∧
      demo_ring.physical % 4294967296
        = (ring_base demo_ring + demo_ring.data_size) % 4294967296 ∧
      (∀ size, size ≤ demo_ring.available →
        size + 3 < 4294967296 ∧ align4 size = (size + 3) / 4 * 4 ∧
        align4 size ≤ demo_ring.available ∧
        (cmdbuf_alloc demo_ring size).1 = .GCERR_NONE ∧
        (cmdbuf_alloc demo_ring size).2.1.available = demo_ring.available - align4 size ∧
        (cmdbuf_alloc demo_ring size).2.1.available + align4 size = demo_ring.available)) ∧
    ((cmdbuf_alloc demo_ring 10).2.1.available, (cmdbuf_alloc demo_ring 10).2.1.data_size,
     (cmdbuf_alloc demo_ring 10).2.1.logical, (cmdbuf_alloc demo_ring 10).2.1.physical)
      = (4084, 12, 3221225484, 2147483660) :=
  ⟨C29_ring_accounting (demo_config true) (by decide) (by decide) demo_ring demo_ring_reachable,
   by decide!⟩


/-! ## C1 again: the call that ends in the null read -/

/-- From the state of `unmap_unlinked` on, `mmu2d_unmap` is its insertion and
merge step. -/
theorem unmap_unlinked_step (k : Config) (mmu : mmu2dprivate) (ctxt c : mmu2dcontext)
    (mapped : Nat) (x : mmu2darena) (h : unmap_unlinked k ctxt mapped = some (c, x)) :
    mmu2d_unmap k mmu ctxt mapped = unmap_insert k mmu c x := by
  unfold unmap_unlinked at h
  unfold mmu2d_unmap
  by_cases hm : ctxt.mmu = false
  · rw [if_pos hm] at h
    cases h
  · rw [if_neg hm] at h ⊢
    generalize walk_until (fun a => decide (a.handle = mapped)) ctxt.allocated = w at h ⊢
    obtain ⟨pre, rest⟩ := w
    cases rest with
    | nil => cases h
    | cons allocated post =>
      simp only at h ⊢
      generalize unmap_loop k (allocated.count + 1) allocated.mtlb allocated.stlb
        allocated.count ctxt = l at h ⊢
      cases l with
      | fault => cases h
      | diverge => cases h
      | ret p =>
        obtain ⟨e, c1⟩ := p
        simp only at h ⊢
        by_cases he : e ≠ .GCERR_NONE
        · rw [if_pos he] at h
          cases h
        · rw [if_neg he] at h ⊢
          simp only [Option.some.injEq, Prod.mk.injEq] at h
          rw [h.1, h.2]

/-- What `unmap_unlinked` returns: the arena found on the allocated list,
without its page array, and a context with the vacant list of before and the
allocated list without that arena. -/
theorem unmap_unlinked_lists (k : Config) (ctxt c : mmu2dcontext) (mapped : Nat)
    (x : mmu2darena) (h : unmap_unlinked k ctxt mapped = some (c, x)) :
    c.vacant = ctxt.vacant ∧
    ∃ pre allocated post, ctxt.allocated = pre ++ allocated :: post ∧
      allocated.handle = mapped ∧ x = release_physical_pages allocated ∧
      c.allocated = pre ++ post := by
  unfold unmap_unlinked at h
  split at h
  · cases h
  · split at h
    · cases h
    · rename_i pre allocated post hw
      split at h
      · cases h
      · cases h
      · rename_i e c1 hl
        split at h
        · cases h
        · simp only [Option.some.injEq, Prod.mk.injEq] at h
          have hs := unmap_loop_lists k _ _ _ _ _ _ _ hl
          have happ := walk_until_append (fun a => decide (a.handle = mapped)) ctxt.allocated
          have hstop := walk_until_stop (fun a => decide (a.handle = mapped)) ctxt.allocated
            allocated post (by rw [hw])
          rw [hw] at happ
          refine ⟨by rw [← h.1]; exact hs.1, pre, allocated, post, happ.symm, ?_, h.2.symm,
            by rw [← h.1]⟩
          simpa using hstop

/-- Claim C1 (violated). On a new context with at least two master entries the
two lists tile the address space, and they still do after mmu2d_map of exactly
MMU_STLB_ENTRY_NUM pages. The mmu2d_unmap of the returned arena then breaks
the tiling: it takes the arena off the allocated list (without MMU_ENABLE the
call always gets that far), the insertion search passes the remainder arena
(1, 0) and runs off the end of the vacant list, and the merge step reads the
null successor in mmu2d_siblings. The call ends there, with the allocated list
empty and the vacant list still only the remainder (1, 0, total - N): the
units 0 .. MMU_STLB_ENTRY_NUM - 1 lie in no arena of either list, and the lists
do not tile the address space. -/
theorem C1_tiling_breaks (k : Config) (hk : k.sane) (hM : 2 ≤ k.MMU_MTLB_ENTRY_NUM)
    (cenv : create_env) (g g1 : globals) (ctxt : mmu2dcontext)
    (hcreate : mmu2d_create_context k cenv g = .ret (.GCERR_NONE, g1, ctxt))
    (menv : map_env) (mem : mmu2dphysmem) (r : map_result) (a : mmu2darena)
    (hn : mem.count = k.MMU_STLB_ENTRY_NUM)
    (hmap : mmu2d_map k menv g1.mmu ctxt mem = .ret r) (ha : r.mapped = some a) :
    Tiles k ctxt ∧ Tiles k r.ctxt ∧
    (k.MMU_ENABLE = false → (unmap_unlinked k r.ctxt a.handle).isSome = true) ∧
    ∀ c x, unmap_unlinked k r.ctxt a.handle = some (c, x) →
      mmu2d_unmap k r.mmu r.ctxt a.handle = .fault ∧
      x = release_physical_pages a ∧
      c.allocated = [] ∧ c.vacant = r.ctxt.vacant ∧
      c.vacant.map triple = [(1, 0, total k - k.MMU_STLB_ENTRY_NUM)] ∧
      (∀ u, u < k.MMU_STLB_ENTRY_NUM → cover_count k u (c.vacant ++ c.allocated) = 0) ∧
      ¬ Tiles k c := by
  have hN := hk.1
  have hT := hk.2.2
  have hNT := total_bound k hk
  have hlt : mem.count < total k := by
    rw [hn]; unfold total
    calc k.MMU_STLB_ENTRY_NUM = 1 * k.MMU_STLB_ENTRY_NUM := (Nat.one_mul _).symm
      _ < k.MMU_MTLB_ENTRY_NUM * k.MMU_STLB_ENTRY_NUM :=
        Nat.mul_lt_mul_of_pos_right (by omega) hN
  obtain ⟨_, hmmu, _, hs, _, hal, split, hvac, hlin, hsi, hcnt⟩ :=
    fresh_map k hk cenv g g1 ctxt hcreate menv mem r a hlt hmap ha
  have hreach0 := Reachable.create cenv g g1 ctxt hcreate
  have hreach := Reachable.map menv _ _ mem r hreach0 hmap
  have hcov := (reachable_cover k hk _ _ hreach).1
  have hoka : arena_ok k a := hcov.1 a (by rw [hal]; simp)
  have hoks : arena_ok k split := hcov.1 split (by rw [hvac]; simp)
  have h1 := div_mod_unique k.MMU_STLB_ENTRY_NUM split.mtlb split.stlb (lin k split) hsi rfl
  have h2 := div_mod_unique k.MMU_STLB_ENTRY_NUM 1 0 (lin k split) hN (by rw [hlin, hn]; simp)
  have hpos : split.stlb = 0 := by omega
  have hmt : split.mtlb = 1 := by omega
  refine ⟨chain_of_cover k _ (reachable_cover k hk _ _ hreach0).1, chain_of_cover k _ hcov,
    ?_, ?_⟩
  · intro hen
    unfold unmap_unlinked
    simp only [hmmu, Bool.true_eq_false, if_false, hal]
    rw [walk_until_head _ _ _ (by simp)]
    simp only
    rw [unmap_loop_disabled k hen _ _ _ _ _ (by omega) hoka.1
      (by have := hoka.2.2; unfold lin at this; omega) (by omega)]
    simp
  · intro c x hu
    obtain ⟨hcv, pre, al, post, hsplit, _, hx, hca⟩ := unmap_unlinked_lists k _ _ _ _ hu
    rw [hal] at hsplit
    obtain ⟨hpre, hala, hpost⟩ := singleton_split a al pre post hsplit
    subst hpre hala hpost
    have hcv1 : c.vacant = [split] := hcv.trans hvac
    have hca1 : c.allocated = [] := by simpa using hca
    refine ⟨?_, hx, hca1, hcv, ?_, ?_, ?_⟩
    · rw [unmap_unlinked_step k r.mmu _ _ _ _ hu]
      apply unmap_insert_off_end k hk
      · rw [hcv1]; simp
      · intro v hv
        rw [hcv1] at hv
        simp only [List.mem_singleton] at hv
        subst hv
        simp [insert_stop, hpos, hs, hx, release_physical_pages]
      · intro v hv
        rw [hcv1] at hv
        simp only [List.mem_singleton] at hv
        subst hv
        exact hoks
      · rw [hx]
        unfold arena_ok lin release_physical_pages at *
        exact hoka
    · rw [hcv1]
      simp only [List.map_cons, List.map_nil, triple, hmt, hpos, hcnt, hn]
    · intro u hu1
      rw [hcv1, hca1]
      simp only [List.append_nil, cover_count, hlin, hn]
      have : ¬ (k.MMU_STLB_ENTRY_NUM ≤ u ∧ u < k.MMU_STLB_ENTRY_NUM + split.count) := by omega
      simp [this]
    · intro ht
      unfold Tiles by_start at ht
      rw [hcv1, hca1] at ht
      simp only [List.append_nil, List.insertionSort, List.orderedInsert, Chain] at ht
      have := ht.1
      rw [hlin, hn] at this
      omega

/-- Claim C1 at the worked example (MMU_ENABLE set, 1024 master entries of 1024
slots): after mmu2d_create_context and mmu2d_map of 1024 pages the lists are
vacant (1, 0, 1047552) and allocated (0, 0, 1024) and tile the address space.
The mmu2d_unmap of that arena ends in the null read with the arena off the
allocated list: vacant (1, 0, 1047552), allocated empty, the units 0 .. 1023
in no arena, no tiling. -/
theorem C1_tiling_breaks_witness :
    ((demo_mapped true 1024).ctxt.vacant.map triple,
     (demo_mapped true 1024).ctxt.allocated.map triple)
      = ([(1, 0, 1047552)], [(0, 0, 1024)]) ∧
    (unmap_unlinked (demo_config true) (demo_mapped true 1024).ctxt
        (demo_arena true 1024).handle).map
      (fun p => (p.1.vacant.map triple, p.1.allocated.map triple, triple p.2))
      = some ([(1, 0, 1047552)], [], (0, 0, 1024)) ∧
    Tiles (demo_config true) (demo_mapped true 1024).ctxt ∧
    mmu2d_unmap (demo_config true) (demo_mapped true 1024).mmu (demo_mapped true 1024).ctxt
      (demo_arena true 1024).handle = .fault ∧
    (∀ u, u < 1024 → cover_count (demo_config true) u
      ((demo_unlinked true).1.vacant ++ (demo_unlinked true).1.allocated) = 0) ∧
    ¬ Tiles (demo_config true) (demo_unlinked true).1 := by
  have h := C1_tiling_breaks (demo_config true) (demo_sane true) (by decide) demo_create_env
    demo_globals _ _ (demo_created_ok true) demo_map_env (demo_mem 1024)
    (demo_mapped true 1024) (demo_arena true 1024) rfl
    (demo_mapped_ok true 1024 (by decide!)) (by decide!)
  have hsome : unmap_unlinked (demo_config true) (demo_mapped true 1024).ctxt
      (demo_arena true 1024).handle = some (demo_unlinked true) :=
    option_eq_some_getD _ (mmu2dcontext_zero, mmu2darena_zero) (by decide!)
  have hu := h.2.2.2 (demo_unlinked true).1 (demo_unlinked true).2 hsome
  exact ⟨by decide!, by decide!, h.2.1, hu.1, hu.2.2.2.2.2.1, hu.2.2.2.2.2.2⟩

end GcCore
